import Mathlib

/-! RiceGang-Meter: skill merge engine and ranking

A shallow embedding of the pure parts of `src/public/script.js`
(`mergeSkills`, `TabValue`, `valueForTab`, `Data.updateAll`, the ranking and
bar computations of `Renderer.renderDataList`) together with the properties
the specification states about them.  `mergeSkills` is embedded twice: on
values, for what it computes, and on a heap of objects, for what it writes; the
heap run is proved to return the map of the value run.

Modelling conventions.

* A JavaScript object is the list of its own enumerable entries in enumeration
  order (array-index keys in ascending order first, then the other keys in
  insertion order).
* `mergeSkills` reads its working map `result` and the record `merged` through
  the prototype chain, as `result[id]` and `merged[k]` do: a name that is not an
  own property is looked up in `Object.prototype` (the methods every object
  inherits, and the accessor `__proto__`, whose setter replaces the prototype of
  `result`).  `Object.prototype` is the one the engine creates; no script of the
  page adds to it.
* The mirrors `State.users` and `State.skillsByUser` are keyed by player ids,
  the decimal uids the server sends; a lookup in them is an own-property lookup.
* In `mergeSkills` the sum of two finite numbers is the double nearest to the
  exact sum (ties to even), or an infinity on overflow; the two zeros are one
  value.  The ranking, the bars and the payload of the detail window are
  computed on rationals, in exact arithmetic.
* `Number::toString`, a built-in of the host language that only matters when a
  number is added to a string, is a parameter `numToString` of the model.
-/

namespace RiceGang

/-! ## JavaScript values and objects -/

/-- A JavaScript value as it occurs in a record decoded from JSON or built by
the merge: `undefined`, `null`, a boolean, a finite number, `NaN`, an infinity
(`inf true` is `-Infinity`), a string, or a plain object. -/
inductive Val where
  | undefined : Val
  | null : Val
  | bool (b : Bool) : Val
  | num (x : ℚ) : Val
  | nan : Val
  | inf (negative : Bool) : Val
  | str (s : String) : Val
  | obj (fields : List (String × Val)) : Val

/-- A record: the entries of a plain object whose values are `Val`s. -/
abbrev Record := List (String × Val)

/-- The skill map of one player: raw skill id to skill record. -/
abbrev SkillMap := List (String × Record)

/-- The grouping table `SKILL_MERGE_MAP`, as `Object.entries` enumerates it:
each entry is a primary id with its list of alias ids, which are strings as in
the entries the source gives for the table. -/
abbrev MergeMap := List (String × List String)

/-- Numeric value of a string of decimal digits, `none` when a character is not
a digit. -/
def digitsValue : List Char → Nat → Option Nat
  | [], acc => some acc
  | c :: cs, acc =>
    if c.isDigit then digitsValue cs (acc * 10 + (c.toNat - 48)) else none

/-- The array index a property key denotes, if any: the key must be the
canonical decimal form (no leading zero) of an integer below `2^32 - 1`.
Such keys are enumerated first, in ascending numeric order. -/
def arrayIndex? (k : String) : Option Nat :=
  match k.data with
  | [] => none
  | c :: cs =>
    if c = '0' ∧ cs ≠ [] then none
    else
      match digitsValue (c :: cs) 0 with
      | some n => if n < 4294967295 then some n else none
      | none => none

namespace Obj

variable {α : Type}

/-- Own-property lookup `o[k]`; `none` when `o` has no property `k`. -/
def get : List (String × α) → String → Option α
  | [], _ => none
  | (k, v) :: rest, key => if k = key then some v else get rest key

/-- The truthiness test `o[k]` of a map whose values are objects: true exactly
when the key is present. -/
def has (o : List (String × α)) (k : String) : Bool := (get o k).isSome

/-- Overwrite the value of an existing property, keeping its position. -/
def replace (key : String) (v : α) : List (String × α) → List (String × α)
  | [] => []
  | (k, w) :: rest =>
    if k = key then (k, v) :: rest else (k, w) :: replace key v rest

/-- Create a property whose key is the array index `n`: it goes after the
array-index keys smaller than `n` and before everything else. -/
def insertIndex (n : Nat) (key : String) (v : α) :
    List (String × α) → List (String × α)
  | [] => [(key, v)]
  | (k, w) :: rest =>
    match arrayIndex? k with
    | some m =>
      if m < n then (k, w) :: insertIndex n key v rest
      else (key, v) :: (k, w) :: rest
    | none => (key, v) :: (k, w) :: rest

/-- The assignment `o[k] = v`: an existing property is overwritten in place, a
new one is created at the position the enumeration order gives it. -/
def set (o : List (String × α)) (key : String) (v : α) : List (String × α) :=
  match get o key with
  | some _ => replace key v o
  | none =>
    match arrayIndex? key with
    | some n => insertIndex n key v o
    | none => o ++ [(key, v)]

/-- The statement `delete o[k]`. -/
def delete (o : List (String × α)) (key : String) : List (String × α) :=
  o.filter (fun e => decide (e.1 ≠ key))

/-- The keys of an object, in enumeration order. -/
def keys (o : List (String × α)) : List String := o.map Prod.fst

end Obj

/-- The nullish coalescing operator `a ?? b`. -/
def Val.orElse (a b : Val) : Val :=
  match a with
  | .undefined => b
  | .null => b
  | _ => a

/-- Property read `r.k` on a record; a missing property reads `undefined`. -/
def Record.field (r : Record) (k : String) : Val := (Obj.get r k).getD .undefined

/-- Optional-chaining read `o?.k`, where `o` is a record or `undefined`. -/
def optField (o : Option Record) (k : String) : Val :=
  match o with
  | none => .undefined
  | some r => Record.field r k

/-- The spread `{ ...o }` of a record or `undefined`: a fresh object with the
same entries in the same order (an `undefined` source gives `{}`). -/
def spread (o : Option Record) : Record := o.getD []

/-- Truthiness of a value. -/
def Val.truthy : Val → Bool
  | .undefined => false
  | .null => false
  | .bool b => b
  | .num x => decide (x ≠ 0)
  | .nan => false
  | .inf _ => true
  | .str s => decide (s ≠ "")
  | .obj _ => true

/-- Property read `v.k` on any value that is not `null` or `undefined`: a plain
object gives its field, a primitive has no such data property. -/
def Val.prop (v : Val) (k : String) : Val :=
  match v with
  | .obj fields => Record.field fields k
  | _ => .undefined

/-- Optional-chaining read `v?.k` on a value. -/
def Val.optProp (v : Val) (k : String) : Val :=
  match v with
  | .undefined => .undefined
  | .null => .undefined
  | _ => v.prop k

/-- The own enumerable string-keyed properties of a value, which the spread
`{ ...v }` copies and `Object.entries(v)` lists: the fields of a plain object,
the characters of a string under their indices, nothing for another primitive.
(The strings the merge spreads are texts it built itself from numerals and
the source text of built-in functions, so an index counts characters.) -/
def Val.ownEntries : Val → Record
  | .obj fields => fields
  | .str s => s.data.enum.map (fun p => (toString p.1, Val.str (String.singleton p.2)))
  | _ => []

/-! ## Double-precision addition -/

/-- Nearest integer to a rational; a tie goes to the even neighbour. -/
def roundHalfEven (q : ℚ) : ℤ :=
  if q - ⌊q⌋ < 1 / 2 then ⌊q⌋
  else if 1 / 2 < q - ⌊q⌋ then ⌊q⌋ + 1
  else if ⌊q⌋ % 2 = 0 then ⌊q⌋ else ⌊q⌋ + 1

/-- The exponent `e` for which the doubles around `q` are the multiples of
`2 ^ e`: 53 significant bits, and `2 ^ (-1074)` for the subnormal numbers. -/
def ulpExponent (q : ℚ) : ℤ := max (Int.log 2 |q| - 52) (-1074)

/-- The double-precision number that stands for the exact result `q` of an
operation: the nearest double, ties to even, and an infinity of the sign of
`q` when that reaches `2 ^ 1024`. -/
def roundDouble (q : ℚ) : Val :=
  if 2 ^ 1024 ≤ |(roundHalfEven (q / 2 ^ ulpExponent q) : ℚ) * 2 ^ ulpExponent q| then
    .inf (decide (q < 0))
  else .num ((roundHalfEven (q / 2 ^ ulpExponent q) : ℚ) * 2 ^ ulpExponent q)

/-- The sum `a + x` of a value and a finite number `x`, following the `+`
operator: the double-precision sum, unless the left operand is a string or an
object, in which case the result is a string concatenation. -/
def Val.addNum (numToString : ℚ → String) : Val → ℚ → Val
  | .undefined, _ => .nan
  | .null, x => roundDouble (0 + x)
  | .bool b, x => roundDouble ((if b then 1 else 0) + x)
  | .num a, x => roundDouble (a + x)
  | .nan, _ => .nan
  | .inf s, _ => .inf s
  | .str s, x => .str (s ++ numToString x)
  | .obj _, x => .str ("[object Object]" ++ numToString x)

/-! ## `mergeSkills` -/

/-- The names of the properties of `Object.prototype` that hold a function. -/
def objectPrototypeMethods : List String :=
  ["constructor", "__defineGetter__", "__defineSetter__", "hasOwnProperty",
   "__lookupGetter__", "__lookupSetter__", "isPrototypeOf", "propertyIsEnumerable",
   "toString", "valueOf", "toLocaleString"]

/-- A name that every ordinary object inherits from `Object.prototype`: one of
its methods, or the accessor `__proto__`. -/
def inheritedName (k : String) : Bool :=
  decide (k = "__proto__") || decide (k ∈ objectPrototypeMethods)

/-- The text `String(f)` of the method `Object.prototype[k]`, in the rendering
of V8, the engine of the Electron shell the page runs in (`constructor` is the
function `Object`). -/
def builtinSource (k : String) : String :=
  "function " ++ (if k = "constructor" then "Object" else k) ++ "() \x7b [native code] \x7d"

/-- The object `result` of `mergeSkills`: its own entries, and the object that
the assignment `result["__proto__"] = merged` installed as its prototype, if
any (`none`: the prototype is still `Object.prototype`).  An installed prototype
is a record `merged`, whose own prototype is `Object.prototype`. -/
structure ResultObject where
  own : SkillMap
  proto : Option Record

/-- The value an inherited name reads on an object whose chain ends in
`Object.prototype` and whose prototype is `proto`: the accessor `__proto__`
gives the prototype, a method name gives a function.  `Object.prototype` and a
function have no own enumerable property and no `displayName`, and the merge only
tests, spreads and enumerates what it reads from `result`: both are read as the
empty object. -/
def inheritedValue (proto : Option Record) (id : String) : Val :=
  if id = "__proto__" then .obj (proto.getD [])
  else if id ∈ objectPrototypeMethods then .obj []
  else .undefined

/-- The read `result[id]`: an own entry, else a property of the installed
prototype, else a property of `Object.prototype`, else `undefined`. -/
def ResultObject.read (R : ResultObject) (id : String) : Val :=
  match Obj.get R.own id with
  | some r => .obj r
  | none =>
    match R.proto.bind (fun m => Obj.get m id) with
    | some v => v
    | none => inheritedValue R.proto id

/-- Whether the assignment `result[keepId] = ...` reaches the setter of
`Object.prototype.__proto__`: the name is `__proto__` and neither `result` nor
its installed prototype has an own property of that name. -/
def ResultObject.reachesSetter (R : ResultObject) (keepId : String) : Bool :=
  decide (keepId = "__proto__") && !Obj.has R.own keepId &&
    (R.proto.bind (fun m => Obj.get m keepId)).isNone

/-- The assignment `result[keepId] = merged`.  When it reaches the setter of
`__proto__`, `merged` becomes the prototype of `result` and no property is
created.  Otherwise the entry is written (an inherited data property is
writable, so the assignment creates an own one). -/
def ResultObject.assign (R : ResultObject) (keepId : String) (merged : Record) :
    ResultObject :=
  if R.reachesSetter keepId then { own := R.own, proto := some merged }
  else { own := Obj.set R.own keepId merged, proto := R.proto }

/-- The statement `delete result[id]`: it removes an own entry only. -/
def ResultObject.remove (R : ResultObject) (id : String) : ResultObject :=
  { own := Obj.delete R.own id, proto := R.proto }

/-- The local variables `result` and `mergedIds` of `mergeSkills`. -/
structure MergeState where
  result : ResultObject
  mergedIds : List String

/-- The call `mergedIds.add(id)` on a `Set`. -/
def setAdd (s : List String) (id : String) : List String :=
  if id ∈ s then s else s ++ [id]

/-- The guard `numericKeys && !numericKeys.includes(k)`: a whitelist is given
and does not list `k`. -/
def notWhitelisted (numericKeys : Option (List String)) (k : String) : Bool :=
  match numericKeys with
  | none => false
  | some ks => !decide (k ∈ ks)

/-- Body of `for (const [k, v] of Object.entries(src))`: a finite number `v`
whose key passes the whitelist is added to `merged[k] ?? 0`, and the sum is
assigned to `merged[k]`.  The record `merged` is an object literal, so a name
it does not own is read from `Object.prototype`: for `__proto__` the sum is a
string, which the setter ignores; for a method name the sum is the source text
of the function followed by the number. -/
def addField (numToString : ℚ → String) (numericKeys : Option (List String))
    (merged : Record) (kv : String × Val) : Record :=
  match kv.2 with
  | .num x =>
    if notWhitelisted numericKeys kv.1 then merged
    else if Obj.has merged kv.1 = false ∧ kv.1 = "__proto__" then merged
    else if Obj.has merged kv.1 = false ∧ kv.1 ∈ objectPrototypeMethods then
      Obj.set merged kv.1 (.str (builtinSource kv.1 ++ numToString x))
    else
      Obj.set merged kv.1
        (Val.addNum numToString ((Record.field merged kv.1).orElse (.num 0)) x)
  | _ => merged

/-- Body of the first `for (const id of group)`: every member other than the
kept one has the entries of what `result[id]` reads folded into `merged`
(`if (!src) continue` skips a falsy read). -/
def addMember (numToString : ℚ → String) (numericKeys : Option (List String))
    (result : ResultObject) (keepId : String) (merged : Record) (id : String) : Record :=
  if id = keepId then merged
  else if (result.read id).truthy then
    (result.read id).ownEntries.foldl (addField numToString numericKeys) merged
  else merged

/-- The members of a group that the working map holds:
`[mainId, ...others].filter((id) => result[id])`. -/
def presentMembers (result : ResultObject) (entry : String × List String) : List String :=
  (entry.1 :: entry.2).filter (fun id => (result.read id).truthy)

/-- The id a group is kept under: `result[mainId] ? mainId : group[0]`. -/
def keepIdOf (result : ResultObject) (mainId first : String) : String :=
  if (result.read mainId).truthy then mainId else first

/-- The record `merged` of one group, as it stands before `result[keepId] = merged`. -/
def mergedRecord (numToString : ℚ → String) (numericKeys : Option (List String))
    (result : ResultObject) (keepId : String) (group : List String) : Record :=
  let kept := result.read keepId
  let merged := kept.ownEntries
  let merged := Obj.set merged "displayName"
    ((kept.optProp "displayName").orElse (Record.field merged "displayName"))
  group.foldl (addMember numToString numericKeys result keepId) merged

/-- Body of the second `for (const id of group)`: drop the member unless it is
the kept one, and record it as merged. -/
def consume (keepId : String) (st : MergeState) (id : String) : MergeState :=
  { result := if id ≠ keepId then st.result.remove id else st.result
    mergedIds := setAdd st.mergedIds id }

/-- One iteration of `for (const [mainId, others] of Object.entries(mergeMap))`. -/
def mergeGroup (numToString : ℚ → String) (numericKeys : Option (List String))
    (st : MergeState) (entry : String × List String) : MergeState :=
  match presentMembers st.result entry with
  | [] => st
  | first :: more =>
    if (first :: more).any (fun id => decide (id ∈ st.mergedIds)) then st
    else
      let keepId := keepIdOf st.result entry.1 first
      let merged := mergedRecord numToString numericKeys st.result keepId (first :: more)
      (first :: more).foldl (consume keepId)
        { result := st.result.assign keepId merged, mergedIds := st.mergedIds }

/-- The copy `Object.fromEntries(Object.entries(skills).map(([id, d]) => [id, { ...d }]))`
the merge works on: the same ids in the same order, each with a fresh copy of
its record. -/
def copySkills (skills : SkillMap) : SkillMap :=
  skills.map (fun e => (e.1, spread (some e.2)))

/-- The state in which the loop over the grouping table starts: `result` is a
new object, whose prototype is `Object.prototype`. -/
def initState (skills : SkillMap) : MergeState :=
  { result := { own := copySkills skills, proto := none }, mergedIds := [] }

/-- The loop over the grouping table, from a given state. -/
def mergeLoop (numToString : ℚ → String) (numericKeys : Option (List String))
    (st : MergeState) (mergeMap : MergeMap) : MergeState :=
  mergeMap.foldl (mergeGroup numToString numericKeys) st

/-- The function `mergeSkills(skills, mergeMap, numericKeys)`; `none` stands for a
`null` or missing argument.  The value is the list of the own entries of the
object returned, which is all that `Object.entries` shows of it. -/
def mergeSkills (numToString : ℚ → String) (skills : Option SkillMap)
    (mergeMap : MergeMap) (numericKeys : Option (List String)) : SkillMap :=
  match skills with
  | none => []
  | some s => (mergeLoop numToString numericKeys (initState s) mergeMap).result.own

/-- The default `CONFIG.SKILL_MERGE_MAP` (every entry of the source is commented out). -/
def CONFIG_SKILL_MERGE_MAP : MergeMap := []

/-- The default `CONFIG.NUMERIC_KEYS_WHITELIST`, `null`. -/
def CONFIG_NUMERIC_KEYS_WHITELIST : Option (List String) := none

/-! ## Vocabulary of the statements about `mergeSkills` -/

/-- The finite number a field value is; any other value (a missing field, a
string, ...) counts as `0` in a sum of fields. -/
def Val.numOr0 : Val → ℚ
  | .num x => x
  | _ => 0

/-- The value is a finite number or is missing (`undefined` or `null`): the
values to which the merge adds numerically. -/
def Val.finiteOrMissing : Val → Bool
  | .num _ => true
  | .undefined => true
  | .null => true
  | _ => false

/-- Field `k` of skill `id` in a skill map, as a number (`0` when the skill or
the field is missing or not a finite number). -/
def fieldNum (S : SkillMap) (id k : String) : ℚ := (optField (Obj.get S id) k).numOr0

/-- One step `merged[k] = (merged[k] ?? 0) + v` of the sum of a field, for the
value `v` a member holds in that field: only a finite number is added. -/
def addStep (numToString : ℚ → String) (acc v : Val) : Val :=
  match v with
  | .num x => Val.addNum numToString (acc.orElse (.num 0)) x
  | _ => acc

/-- The value of field `k` once the values that the records of `ids` hold in
`k` were added to `start` one by one, in the order of `ids`. -/
def addedUp (numToString : ℚ → String) (S : SkillMap) (k : String) (start : Val)
    (ids : List String) : Val :=
  ids.foldl (fun acc id => addStep numToString acc (optField (Obj.get S id) k)) start

/-- The finite numbers that the records of `ids` hold in field `k`, in order. -/
def fieldValues (S : SkillMap) (k : String) (ids : List String) : List ℚ :=
  ids.filterMap (fun id =>
    match optField (Obj.get S id) k with
    | .num x => some x
    | _ => none)

/-- The rational is a double: rounding leaves it as it is. -/
def isDouble (q : ℚ) : Bool :=
  match roundDouble q with
  | .num y => decide (y = q)
  | _ => false

/-- Adding the numbers to `a` one by one never rounds: every partial sum is a
double. -/
def exactSums : ℚ → List ℚ → Bool
  | _, [] => true
  | a, x :: xs => isDouble (a + x) && exactSums (a + x) xs

/-- A rendering of numbers for the closed examples: the decimal form of an
integer.  The examples never add a number to a string, so the rendering does
not influence them. -/
def plainDecimal (x : ℚ) : String := toString x.num

/-- The test `typeof v === "number" && Number.isFinite(v)`. -/
def Val.isFiniteNumber : Val → Bool
  | .num _ => true
  | _ => false

/-! ## Player records, `valueForTab`, `Data.updateAll` and the ranking -/

/-- The objects `total_damage` and `total_healing` of a player record: the
ranking reads their `total`, a number or a missing value. -/
structure StatTotals where
  total : Option ℚ

/-- The part of a player record that the filter, the ranking and the rows of
the list read.  A metric is `none` when the record lacks it (or holds `null`); a
metric that is present holds a finite number, as the server sends it in JSON.
The fields `profession`, `subProfession` and `fightPoint` hold any value. -/
structure User where
  id : String
  name : String
  total_damage : Option StatTotals
  total_healing : Option StatTotals
  taken_damage : Option ℚ
  total_dps : Option ℚ
  total_hps : Option ℚ
  profession : Val := .undefined
  subProfession : Val := .undefined
  fightPoint : Val := .undefined

/-- The table `TabValue`: the metric of each known tab. -/
def TabValue (tab : String) : Option (User → ℚ) :=
  if tab = "dps" then some (fun u => (u.total_damage.bind (fun t => t.total)).getD 0)
  else if tab = "heal" then some (fun u => (u.total_healing.bind (fun t => t.total)).getD 0)
  else if tab = "tank" then some (fun u => u.taken_damage.getD 0)
  else none

/-- The function `valueForTab(u, activeTab)`: an unknown tab ranks everybody `0`. -/
def valueForTab (u : User) (activeTab : String) : ℚ :=
  ((TabValue activeTab).getD (fun _ => 0)) u

/-- The comparison `x > 0` on a field that may be missing: `undefined > 0` and
`null > 0` are false. -/
def positive (x : Option ℚ) : Bool :=
  match x with
  | some v => decide (0 < v)
  | none => false

/-- The predicate of the filter in `Data.updateAll`. -/
def admitted (activeTab : String) (u : User) : Bool :=
  (decide (activeTab = "dps") && positive u.total_dps) ||
  (decide (activeTab = "heal") && positive u.total_hps) ||
  (decide (activeTab = "tank") && positive u.taken_damage)

/-- The list `Data.updateAll` hands to `Renderer.renderDataList`:
`Object.values(State.users).filter(...)`, for the mirror `State.users` given by
its entries and the tab `State.activeTab`. -/
def updateAll (users : List (String × User)) (activeTab : String) : List User :=
  (users.map Prod.snd).filter (admitted activeTab)

/-- The call `xs.sort(cmp)` for a comparator on finite numbers: the sort is
stable and puts `a` before `b` when `cmp(a, b)` is negative, which fixes the
result; it is computed here by insertion. -/
def jsSort {α : Type} (cmp : α → α → ℚ) (xs : List α) : List α :=
  xs.insertionSort (fun a b => cmp a b ≤ 0)

/-- The order of `users` after
`users.sort((a, b) => valueForTab(b, activeTab) - valueForTab(a, activeTab))`. -/
def rankUsers (users : List User) (activeTab : String) : List User :=
  jsSort (fun a b => valueForTab b activeTab - valueForTab a activeTab) users

/-- The sum `users.reduce((s, u) => s + valueForTab(u, activeTab), 0)`. -/
def totalValue (users : List User) (activeTab : String) : ℚ :=
  users.foldl (fun s u => s + valueForTab u activeTab) 0

/-- The value `users[0] ? valueForTab(users[0], activeTab) : 0` of the sorted list. -/
def topValue (sorted : List User) (activeTab : String) : ℚ :=
  match sorted with
  | [] => 0
  | u :: _ => valueForTab u activeTab

/-- The bar fill `top1 ? (valueForTab(user, activeTab) / top1) * 100 : 0`. -/
def barPercent (top1 : ℚ) (u : User) (activeTab : String) : ℚ :=
  if top1 ≠ 0 then valueForTab u activeTab / top1 * 100 else 0

/-- The share `total ? (valueForTab(user, activeTab) / total) * 100 : 0`. -/
def displayPercent (total : ℚ) (u : User) (activeTab : String) : ℚ :=
  if total ≠ 0 then valueForTab u activeTab / total * 100 else 0

/-- What one pass of the create/update loop of `renderDataList` computes for a
player: the id of the list entry, the rank shown, the bar fill and the share. -/
structure Row where
  uid : String
  rank : Nat
  barPercent : ℚ
  displayPercent : ℚ

/-- The loop `for (let i = 0; i < users.length; i++)` over the sorted players,
from index `i` on. -/
def rowsFrom (total top1 : ℚ) (activeTab : String) : Nat → List User → List Row
  | _, [] => []
  | i, user :: rest =>
    { uid := user.id
      rank := i + 1
      barPercent := barPercent top1 user activeTab
      displayPercent := displayPercent total user activeTab } ::
      rowsFrom total top1 activeTab (i + 1) rest

/-- The values `renderDataList(users, activeTab)` computes in its animation
frame: the total, the sort, the top value, then one row per player. -/
def renderRows (users : List User) (activeTab : String) : List Row :=
  let total := totalValue users activeTab
  let sorted := rankUsers users activeTab
  let top1 := topValue sorted activeTab
  rowsFrom total top1 activeTab 0 sorted

/-- Three players for the closed examples. -/
def samplePlayers : List (String × User) :=
  [("1", { id := "1", name := "Ann", total_damage := some { total := some 300 },
           total_healing := none, taken_damage := some 20,
           total_dps := some 30, total_hps := none }),
   ("2", { id := "2", name := "Bo", total_damage := some { total := some 500 },
           total_healing := some { total := some 40 }, taken_damage := none,
           total_dps := some 0, total_hps := some 4 }),
   ("3", { id := "3", name := "Cy", total_damage := some { total := some 500 },
           total_healing := none, taken_damage := some 90,
           total_dps := some 50, total_hps := none })]

/-! ## `mergeSkills` on a heap

The functions above work on values.  To state that `mergeSkills` leaves its
argument alone, the same code is followed here on a heap of objects: the skill
map and the records are objects with an address, a spread or
`Object.fromEntries` allocates a new object, and an assignment or `delete`
updates the object at an address.  Values nested in a record are never written
through, so a record keeps them by value. -/

/-- A heap object: a skill map, which holds for every id the address of its
record and whose prototype is `Object.prototype` (`none`) or the record at an
address, or a record. -/
inductive Cell where
  | map (entries : List (String × Nat)) (proto : Option Nat) : Cell
  | record (fields : Record) : Cell

/-- The heap: the objects allocated so far; the address of an object is its
position. -/
abbrev Heap := List Cell

/-- The entries of the skill map at an address. -/
def Heap.mapAt (h : Heap) (a : Nat) : List (String × Nat) :=
  match h[a]? with
  | some (.map m _) => m
  | _ => []

/-- The address of the record installed as the prototype of the skill map at
an address, if any. -/
def Heap.protoAt (h : Heap) (a : Nat) : Option Nat :=
  match h[a]? with
  | some (.map _ p) => p
  | _ => none

/-- The entries of the record at an address. -/
def Heap.recordAt (h : Heap) (a : Nat) : Record :=
  match h[a]? with
  | some (.record r) => r
  | _ => []

/-- Allocation of a new object; returns the heap and the new address. -/
def Heap.alloc (h : Heap) (c : Cell) : Heap × Nat := (h ++ [c], h.length)

/-- In-place update of the record at an address. -/
def Heap.modifyRecord (h : Heap) (a : Nat) (f : Record → Record) : Heap :=
  h.set a (.record (f (h.recordAt a)))

/-- In-place update of the entries of the skill map at an address. -/
def Heap.modifyMap (h : Heap) (a : Nat)
    (f : List (String × Nat) → List (String × Nat)) : Heap :=
  h.set a (.map (f (h.mapAt a)) (h.protoAt a))

/-- The prototype of the skill map at an address is set to the record at `p`. -/
def Heap.setProto (h : Heap) (a : Nat) (p : Nat) : Heap :=
  h.set a (.map (h.mapAt a) (some p))

/-- The array `Object.entries(skills).map(([id, d]) => [id, { ...d }])`: every
record is copied into a new object. -/
def copyEntriesH : Heap → List (String × Nat) → Heap × List (String × Nat)
  | h, [] => (h, [])
  | h, (id, d) :: rest =>
    let copied := h.alloc (.record (spread (some (h.recordAt d))))
    let others := copyEntriesH copied.1 rest
    (others.1, (id, copied.2) :: others.2)

/-- The call `Object.fromEntries(entries)`: a new object that receives the
entries one by one. -/
def fromEntriesH (h : Heap) (entries : List (String × Nat)) : Heap × Nat :=
  h.alloc (.map (entries.foldl (fun m e => Obj.set m e.1 e.2) []) none)

/-- The skill map a heap holds at an address, read back as a value. -/
def Heap.skillsAt (h : Heap) (a : Nat) : SkillMap :=
  (h.mapAt a).map (fun e => (e.1, h.recordAt e.2))

/-- The object at an address as `result[id]` sees it: its entries with the
records they point to, and the record its prototype points to. -/
def Heap.resultAt (h : Heap) (a : Nat) : ResultObject :=
  { own := h.skillsAt a, proto := (h.protoAt a).map h.recordAt }

/-- The heap together with the local variables `result` (an address) and
`mergedIds` of `mergeSkills`. -/
structure MergeStateH where
  heap : Heap
  result : Nat
  mergedIds : List String

/-- Body of `for (const [k, v] of Object.entries(src))` on the heap: the only
object written is `merged`. -/
def addFieldH (numToString : ℚ → String) (numericKeys : Option (List String))
    (merged : Nat) (h : Heap) (kv : String × Val) : Heap :=
  match kv.2 with
  | .num _ =>
    if notWhitelisted numericKeys kv.1 then h
    else h.modifyRecord merged (fun r => addField numToString numericKeys r kv)
  | _ => h

/-- Body of the first `for (const id of group)` on the heap. -/
def addMemberH (numToString : ℚ → String) (numericKeys : Option (List String))
    (result : Nat) (keepId : String) (merged : Nat) (h : Heap) (id : String) : Heap :=
  if id = keepId then h
  else if ((h.resultAt result).read id).truthy then
    ((h.resultAt result).read id).ownEntries.foldl (addFieldH numToString numericKeys merged) h
  else h

/-- The assignment `result[keepId] = merged` on the heap: the entry of `result`
is written, or, when the assignment reaches the setter of `__proto__`, the
prototype of `result` is set. -/
def assignH (h : Heap) (result : Nat) (keepId : String) (merged : Nat) : Heap :=
  if (h.resultAt result).reachesSetter keepId then h.setProto result merged
  else h.modifyMap result (fun m => Obj.set m keepId merged)

/-- Body of the second `for (const id of group)` on the heap: `delete result[id]`
updates the object `result`. -/
def consumeH (keepId : String) (st : MergeStateH) (id : String) : MergeStateH :=
  { heap := if id ≠ keepId then st.heap.modifyMap st.result (fun m => Obj.delete m id)
            else st.heap
    result := st.result
    mergedIds := setAdd st.mergedIds id }

/-- One iteration of the loop over the grouping table, on the heap. -/
def mergeGroupH (numToString : ℚ → String) (numericKeys : Option (List String))
    (st : MergeStateH) (entry : String × List String) : MergeStateH :=
  match presentMembers (st.heap.resultAt st.result) entry with
  | [] => st
  | first :: more =>
    if (first :: more).any (fun id => decide (id ∈ st.mergedIds)) then st
    else
      let keepId := keepIdOf (st.heap.resultAt st.result) entry.1 first
      let kept := (st.heap.resultAt st.result).read keepId
      let fresh := st.heap.alloc (.record kept.ownEntries)
      let merged := fresh.2
      let h := fresh.1.modifyRecord merged (fun r =>
        Obj.set r "displayName"
          ((kept.optProp "displayName").orElse (Record.field r "displayName")))
      let h := (first :: more).foldl
        (addMemberH numToString numericKeys st.result keepId merged) h
      let h := assignH h st.result keepId merged
      (first :: more).foldl (consumeH keepId)
        { heap := h, result := st.result, mergedIds := st.mergedIds }

/-- The function `mergeSkills` on the heap: `skills` is the address of the skill
map (`none` for `null`); the call returns the heap it leaves and the address of
the map it returns. -/
def mergeSkillsH (numToString : ℚ → String) (h : Heap) (skills : Option Nat)
    (mergeMap : MergeMap) (numericKeys : Option (List String)) : Heap × Nat :=
  match skills with
  | none => h.alloc (.map [] none)
  | some s =>
    let copied := copyEntriesH h (h.mapAt s)
    let fresh := fromEntriesH copied.1 copied.2
    let st := mergeMap.foldl (mergeGroupH numToString numericKeys)
      { heap := fresh.1, result := fresh.2, mergedIds := [] }
    (st.heap, st.result)

/-- A heap for the closed examples: the sample skill map at address `5`, its
records at addresses `0` to `4`. -/
def sampleHeap : Heap :=
  [.record [("displayName", .str "Slash"), ("totalDamage", .num 100), ("totalCount", .num 2)],
   .record [("displayName", .str "Slash II"), ("totalDamage", .num 50), ("totalCount", .num 1)],
   .record [("displayName", .str "Bolt"), ("totalDamage", .num 40)],
   .record [("totalDamage", .num 8), ("critCount", .num 3)],
   .record [("displayName", .str "Potion"), ("totalHealing", .num 70)],
   .map [("100", 0), ("101", 1), ("200", 2), ("201", 3), ("999", 4)] none]

/-- The order in which an object enumerates two of its keys, the first before
the second: array-index keys ascending and before every other key; other keys
only need to differ. -/
def keyBefore (a b : String) : Prop :=
  match arrayIndex? a, arrayIndex? b with
  | some m, some n => m < n
  | some _, none => True
  | none, some _ => False
  | none, none => a ≠ b

/-- The keys are those of an object, in its enumeration order: no key twice,
array-index keys first and ascending. -/
def ValidEnum (ks : List String) : Prop := ks.Pairwise keyBefore

instance (a b : String) : Decidable (keyBefore a b) := by
  unfold keyBefore
  split <;> infer_instance

instance (ks : List String) : Decidable (ValidEnum ks) := by
  unfold ValidEnum
  infer_instance

/-- The heap state `H` represents the value state `st`: the object at `result`,
read back, is `st.result`, the consumed sets are equal, and `result`, the
addresses it holds and the address of its prototype are allocated objects, the
records other than the map. -/
def Represents (H : MergeStateH) (st : MergeState) : Prop :=
  H.heap.resultAt H.result = st.result ∧
  H.mergedIds = st.mergedIds ∧
  H.result < H.heap.length ∧
  (∀ e ∈ H.heap.mapAt H.result, e.2 < H.heap.length ∧ e.2 ≠ H.result) ∧
  (∀ p, H.heap.protoAt H.result = some p → p < H.heap.length ∧ p ≠ H.result)


/-! ## Sample inputs for the closed examples -/

/-- A skill map with five raw skills. -/
def sampleSkills : SkillMap :=
  [("100", [("displayName", .str "Slash"), ("totalDamage", .num 100), ("totalCount", .num 2)]),
   ("101", [("displayName", .str "Slash II"), ("totalDamage", .num 50), ("totalCount", .num 1)]),
   ("200", [("displayName", .str "Bolt"), ("totalDamage", .num 40)]),
   ("201", [("totalDamage", .num 8), ("critCount", .num 3)]),
   ("999", [("displayName", .str "Potion"), ("totalHealing", .num 70)])]

/-- A grouping table with two disjoint groups. -/
def disjointTable : MergeMap := [("100", ["101"]), ("200", ["201"])]

/-- A grouping table whose second group lists an alias of the first. -/
def sharedAliasTable : MergeMap := [("100", ["101"]), ("200", ["101", "201"])]

/-- A grouping table whose second group lists the primary id of the first. -/
def sharedPrimaryTable : MergeMap := [("100", ["101"]), ("200", ["100", "201"])]

/-- A grouping table whose first group lists the primary id of the second as
an alias. -/
def chainTable : MergeMap := [("100", ["200"]), ("200", ["201", "202"])]

/-- A skill map that holds every id of `chainTable`. -/
def chainSkills : SkillMap :=
  [("100", [("displayName", .str "Slash"), ("totalDamage", .num 100)]),
   ("200", [("displayName", .str "Bolt"), ("totalDamage", .num 40)]),
   ("201", [("displayName", .str "Bolt II"), ("totalDamage", .num 8)]),
   ("202", [("displayName", .str "Bolt III"), ("totalDamage", .num 5)])]

/-- A grouping table whose first group has the primary id `__proto__`, and whose
second group has a field name as its primary id. -/
def protoTable : MergeMap := [("__proto__", ["101", "totalDamage"]), ("totalDamage", ["7"])]

/-- A skill map with two raw skills, for `protoTable`. -/
def protoSkills : SkillMap :=
  [("7", [("x", .num 1)]), ("101", [("totalDamage", .num 1000)])]

/-- A grouping table whose group has the primary id `constructor`, a name every
object inherits from `Object.prototype`. -/
def constructorTable : MergeMap := [("constructor", ["101"])]

/-- A skill map whose two skills hold `2 ^ 53` and `1` as `totalDamage`. -/
def bigSkills : SkillMap :=
  [("100", [("totalDamage", .num 9007199254740992)]), ("101", [("totalDamage", .num 1)])]

/-- A skill map whose second skill has a field named `constructor`. -/
def inheritedFieldSkills : SkillMap :=
  [("100", []), ("101", [("constructor", .num 5)])]

/-! ## Numbers, coercions and the built-ins of the host -/

/-- A JavaScript number: a finite one, `NaN`, or an infinity (`inf true` is
`-Infinity`).  Zero is not signed: the code below divides by positive numbers
only, so the sign of a zero is never observed. -/
inductive JsNum where
  | fin (x : ℚ) : JsNum
  | nan : JsNum
  | inf (negative : Bool) : JsNum

/-- The built-ins of the host language that the code calls and that are not
computed here: `Number::toString`, the conversion `Number(s)` of a string,
`String.prototype.toLowerCase`, and `toFixed(1)` on a finite number. -/
structure Host where
  numToString : ℚ → String
  stringToNumber : String → JsNum
  toLowerCase : String → String
  toFixed1 : ℚ → String

/-- The operator `a || b` on values. -/
def Val.or (a b : Val) : Val := if a.truthy then a else b

/-- The conversion `Number(v)`; a plain object converts to `NaN`. -/
def Val.toNumber (host : Host) : Val → JsNum
  | .undefined => .nan
  | .null => .fin 0
  | .bool b => .fin (if b then 1 else 0)
  | .num x => .fin x
  | .nan => .nan
  | .inf s => .inf s
  | .str s => host.stringToNumber s
  | .obj _ => .nan

/-- The conversion `String(v)`. -/
def Val.toStr (host : Host) : Val → String
  | .undefined => "undefined"
  | .null => "null"
  | .bool b => if b then "true" else "false"
  | .num x => host.numToString x
  | .nan => "NaN"
  | .inf s => if s then "-Infinity" else "Infinity"
  | .str s => s
  | .obj _ => "[object Object]"

/-- Truthiness of a number. -/
def JsNum.truthy : JsNum → Bool
  | .fin x => decide (x ≠ 0)
  | .nan => false
  | .inf _ => true

/-- The operator `x || y` on numbers. -/
def JsNum.or (x y : JsNum) : JsNum := if x.truthy then x else y

/-- The comparison `x > 0`. -/
def JsNum.gtZero : JsNum → Bool
  | .fin x => decide (0 < x)
  | .nan => false
  | .inf negative => !negative

/-- The sum `x + y` of two numbers. -/
def JsNum.add : JsNum → JsNum → JsNum
  | .fin a, .fin b => .fin (a + b)
  | .fin _, .inf s => .inf s
  | .inf s, .fin _ => .inf s
  | .inf s, .inf t => if s = t then .inf s else .nan
  | .nan, _ => .nan
  | _, .nan => .nan

/-- The product `x * y` of two numbers. -/
def JsNum.mul : JsNum → JsNum → JsNum
  | .fin a, .fin b => .fin (a * b)
  | .fin a, .inf s => if a = 0 then .nan else .inf (xor s (decide (a < 0)))
  | .inf s, .fin b => if b = 0 then .nan else .inf (xor s (decide (b < 0)))
  | .inf s, .inf t => .inf (xor s t)
  | .nan, _ => .nan
  | _, .nan => .nan

/-- The quotient `x / y` of two numbers (a zero divisor counts as `+0`). -/
def JsNum.div : JsNum → JsNum → JsNum
  | .fin a, .fin b =>
    if b = 0 then (if a = 0 then .nan else .inf (decide (a < 0))) else .fin (a / b)
  | .fin _, .inf _ => .fin 0
  | .inf s, .fin b => .inf (xor s (decide (b < 0)))
  | .inf _, .inf _ => .nan
  | .nan, _ => .nan
  | _, .nan => .nan

/-- An exception that propagates out of a function. -/
inductive JsError where
  | typeError : JsError
  | postMessageFailed : JsError

/-- Whether `needle` starts the list `hay`. -/
def startsWith : List Char → List Char → Bool
  | [], _ => true
  | _ :: _, [] => false
  | a :: as, b :: bs => a == b && startsWith as bs

/-- Whether `needle` occurs in `hay`, on lists of characters. -/
def occursIn (needle : List Char) : List Char → Bool
  | [] => needle.isEmpty
  | c :: cs => startsWith needle (c :: cs) || occursIn needle cs

/-- The call `s.includes(part)` on strings. -/
def includes (s part : String) : Bool := occursIn part.data s.data

/-- The function `getClassKey(profession = "")`: the profession must be a
string (or `undefined`, which the default replaces); on anything else
`profession.toLowerCase()` throws. -/
def getClassKey (host : Host) (profession : Val) : Except JsError String :=
  let lowered : Except JsError String :=
    match profession with
    | .undefined => .ok (host.toLowerCase "")
    | .str s => .ok (host.toLowerCase s)
    | _ => .error .typeError
  match lowered with
  | .error e => .error e
  | .ok p =>
    .ok (
      if includes p "wind" then "wind_knight"
      else if includes p "storm" then "stormblade"
      else if includes p "frost" then "frost_mage"
      else if includes p "guardian" then "heavy_guardian"
      else if includes p "shield" then "shield_knight"
      else if includes p "mark" then "marksman"
      else if includes p "soul" then "soul_musician"
      else if includes p "verdant" then "verdant_oracle"
      else "default")

/-! ## The detail payload: `Spells.buildSpellPayload` -/

/-- What the server sends about the skills of one player, as far as the client
reads it: the map `skills` (missing when the entry has none). -/
structure SkillsEntry where
  skills : Option SkillMap

/-- One item of the list of `Spells.buildSpellPayload`. -/
structure SpellItem where
  id : String
  name : Val
  type : String
  damage : JsNum
  heal : JsNum
  totalDamage : JsNum
  totalHealing : JsNum
  casts : Val
  hits : Val
  critHits : Val
  avg : JsNum
  critRate : JsNum
  countBreakdown : Val

/-- The object `Spells.buildSpellPayload` returns. -/
structure SpellPayload where
  user : Record
  items : List SpellItem
  total : JsNum
  classKey : String

/-- The value `d.totalDamage ?? d.total_damage ?? 0` of a skill record. -/
def damageField (d : Record) : Val :=
  ((d.field "totalDamage").orElse (d.field "total_damage")).orElse (.num 0)

/-- The value `d.totalHealing ?? d.total_healing ?? 0` of a skill record. -/
def healingField (d : Record) : Val :=
  ((d.field "totalHealing").orElse (d.field "total_healing")).orElse (.num 0)

/-- The value
`d.totalCount ?? d.countBreakdown?.total ?? d.totalHits ?? d.hits ?? 0`. -/
def castsField (d : Record) : Val :=
  ((((d.field "totalCount").orElse ((d.field "countBreakdown").optProp "total")).orElse
    (d.field "totalHits")).orElse (d.field "hits")).orElse (.num 0)

/-- The value `d.critCount ?? d.critHits ?? 0`. -/
def critHitsField (d : Record) : Val :=
  ((d.field "critCount").orElse (d.field "critHits")).orElse (.num 0)

/-- The callback of `Object.entries(merged).map(...)`: the item of one skill.
The call `(d.type || "").toLowerCase()` throws when `d.type` is truthy and not a
string. -/
def buildItem (host : Host) (e : String × Record) : Except JsError SpellItem :=
  let d := e.2
  let totalDamage := ((damageField d).toNumber host).or (.fin 0)
  let totalHealing := ((healingField d).toNumber host).or (.fin 0)
  let casts := castsField d
  let hits := casts
  let critHits := critHitsField d
  match (d.field "type").or (.str "") with
  | .str t =>
    .ok
      { id := e.1
        name := (d.field "displayName").or (.str e.1)
        type := host.toLowerCase t
        damage := totalDamage
        heal := totalHealing
        totalDamage := totalDamage
        totalHealing := totalHealing
        casts := casts
        hits := hits
        critHits := critHits
        avg :=
          if (hits.toNumber host).gtZero then JsNum.div totalDamage (hits.toNumber host)
          else .fin 0
        critRate :=
          if (hits.toNumber host).gtZero then
            JsNum.mul (JsNum.div (critHits.toNumber host) (hits.toNumber host)) (.fin 100)
          else .fin 0
        countBreakdown := (d.field "countBreakdown").or .null }
  | _ => .error .typeError

/-- The predicate of `.filter(x => (x.damage || x.heal) > 0)`. -/
def keptItem (x : SpellItem) : Bool := (x.damage.or x.heal).gtZero

/-- The value `items.reduce((s, i) => s + (i.damage || 0), 0) || 1`. -/
def payloadTotal (items : List SpellItem) : JsNum :=
  (items.foldl (fun s i => JsNum.add s (i.damage.or (.fin 0))) (.fin 0)).or (.fin 1)

/-- The function `Spells.buildSpellPayload(userId)` on the two mirrors
`State.users` and `State.skillsByUser`: `.ok none` is the result `null`. -/
def buildSpellPayload (host : Host) (users : List (String × Record))
    (skillsByUser : List (String × SkillsEntry)) (userId : String) :
    Except JsError (Option SpellPayload) :=
  match Obj.get users userId, (Obj.get skillsByUser userId).bind (fun entry => entry.skills) with
  | some user, some skills =>
    let merged := mergeSkills host.numToString (some skills) CONFIG_SKILL_MERGE_MAP
      CONFIG_NUMERIC_KEYS_WHITELIST
    match merged.mapM (buildItem host) with
    | .error e => .error e
    | .ok all =>
      let items := all.filter keptItem
      let total := payloadTotal items
      match getClassKey host (user.field "profession") with
      | .error e => .error e
      | .ok classKey => .ok (some { user := user, items := items, total := total,
                                    classKey := classKey })
  | _, _ => .ok none

/-- Whether a number is finite. -/
def JsNum.isFinite : JsNum → Bool
  | .fin _ => true
  | _ => false

/-- The value of a finite number (`0` for the others). -/
def JsNum.value : JsNum → ℚ
  | .fin x => x
  | _ => 0

/-! ## The client state and its handlers -/

/-- A socket of the socket library: an identity and its `disconnected` flag. -/
structure Socket where
  id : Nat
  disconnected : Bool

/-- A callback handed to `requestAnimationFrame`: a pass of the main list over
the given players, or a pass of the live-skills view. -/
inductive Frame where
  | main (users : List User) (activeTab : String) : Frame
  | liveSkills : Frame

/-- A call the client makes to the browser or to the socket library. -/
inductive Effect where
  | requestAnimationFrame (frame : Frame) : Effect
  | postMessage (window : Nat) (payload : SpellPayload) (targetOrigin : String) : Effect
  | openWindow (result : Option Nat) : Effect
  | closeWindow (window : Nat) : Effect
  | bringToFront : Effect
  | setInterval (id : Nat) : Effect
  | clearInterval (id : Nat) : Effect
  | setServerStatus (status : String) : Effect
  | showNotification (text : String) (duration : Nat) : Effect
  | socketConnect (socket : Nat) : Effect
  | socketDisconnect (socket : Nat) : Effect
  | ioConnect (socket : Nat) : Effect

/-- The object `State`, together with `log`, the calls made so far to the
browser and the socket library, oldest first.  A window and an interval are
known by a number. -/
structure ClientState where
  activeTab : String
  paused : Bool
  socket : Option Socket
  wsConnected : Bool
  lastWsMessageTs : Int
  colorIndex : Nat
  users : List (String × Record)
  skillsByUser : List (String × SkillsEntry)
  renderPending : Bool
  spellWindowRef : Option Nat
  currentSpellUserId : Option String
  spellWindowWatchdog : Option Nat
  viewMode : String
  liveSkillsUserId : Option String
  liveSkillsUserName : Option String
  log : List Effect

/-- The initial `State`, at the time `now`. -/
def initialState (now : Int) : ClientState :=
  { activeTab := "dps"
    paused := false
    socket := none
    wsConnected := false
    lastWsMessageTs := now
    colorIndex := 0
    users := []
    skillsByUser := []
    renderPending := false
    spellWindowRef := none
    currentSpellUserId := none
    spellWindowWatchdog := none
    viewMode := "main"
    liveSkillsUserId := none
    liveSkillsUserName := none
    log := [] }

/-- What the browser decides: which windows are closed, and whether the next
`postMessage` throws. -/
structure Browser where
  windowClosed : Nat → Bool
  postMessageThrows : Bool

/-- Append a call to the log. -/
def ClientState.emit (st : ClientState) (e : Effect) : ClientState :=
  { st with log := st.log ++ [e] }

/-- A finite number read from a field; `none` for any other value. -/
def Val.number? : Val → Option ℚ
  | .num x => some x
  | _ => none

/-- The object `total_damage` or `total_healing` of a player record. -/
def Val.statTotals? : Val → Option StatTotals
  | .obj fields => some { total := (Record.field fields "total").number? }
  | _ => none

/-- The view of a player record that the filter and the ranking take: its id
and name as strings, its metrics as numbers.  Metrics that hold something
other than a finite number read as missing. -/
def decodeUser (host : Host) (r : Record) : User :=
  { id := (r.field "id").toStr host
    name := (r.field "name").toStr host
    total_damage := (r.field "total_damage").statTotals?
    total_healing := (r.field "total_healing").statTotals?
    taken_damage := (r.field "taken_damage").number?
    total_dps := (r.field "total_dps").number?
    total_hps := (r.field "total_hps").number?
    profession := r.field "profession"
    subProfession := r.field "subProfession"
    fightPoint := r.field "fightPoint" }

/-- The guard and the scheduling common to `renderDataList` and
`renderLiveSkillsView`: nothing when a pass is pending, otherwise the pass is
handed to `requestAnimationFrame`. -/
def scheduleFrame (st : ClientState) (frame : Frame) : ClientState :=
  if st.renderPending then st
  else { st with renderPending := true, log := st.log ++ [.requestAnimationFrame frame] }

/-- The method `Renderer.renderLiveSkillsView()`, up to its animation frame. -/
def renderLiveSkillsView (st : ClientState) : ClientState :=
  scheduleFrame st .liveSkills

/-- The method `Renderer.renderDataList(users, activeTab)`, up to its animation
frame. -/
def renderDataList (st : ClientState) (users : List User) (activeTab : String) :
    ClientState :=
  if st.viewMode = "live-skills" then renderLiveSkillsView st
  else scheduleFrame st (.main users activeTab)

/-- The method `Data.updateAll()` on the state. -/
def Data_updateAll (host : Host) (st : ClientState) : ClientState :=
  renderDataList st
    (updateAll (st.users.map (fun e => (e.1, decodeUser host e.2))) st.activeTab)
    st.activeTab

/-- The comparison `v === s` with a string. -/
def Val.isString (v : Val) (s : String) : Bool :=
  match v with
  | .str t => decide (t = s)
  | _ => false

/-- The name `Data.processDataUpdate` stores:
`newUser.name && newUser.name !== "未知" ? newUser.name : (existing.name || "...")`. -/
def mergedName (existing newUser : Record) : Val :=
  if (newUser.field "name").truthy && !(newUser.field "name").isString "未知" then
    newUser.field "name"
  else (existing.field "name").or (.str "...")

/-- The object literal
`{ ...existing, ...newUser, id: userId, name: ..., profession: ..., fightPoint: ... }`. -/
def mergeUserRecord (existing : Record) (userId : String) (newUser : Record) : Record :=
  let o := newUser.foldl (fun o kv => Obj.set o kv.1 kv.2) (spread (some existing))
  let o := Obj.set o "id" (.str userId)
  let o := Obj.set o "name" (mergedName existing newUser)
  let o := Obj.set o "profession"
    (((newUser.field "profession").or (existing.field "profession")).or (.str ""))
  Obj.set o "fightPoint"
    (((newUser.field "fightPoint").orElse (existing.field "fightPoint")).orElse (.num 0))

/-- Body of `for (const [userId, newUser] of Object.entries(data.user))`. -/
def mergeUserEntry (users : List (String × Record)) (e : String × Record) :
    List (String × Record) :=
  Obj.set users e.1 (mergeUserRecord ((Obj.get users e.1).getD []) e.1 e.2)

/-- Body of `for (const [userId, skills] of Object.entries(data.skills))`: a
falsy value is skipped. -/
def mergeSkillsEntry (m : List (String × SkillsEntry)) (e : String × Option SkillsEntry) :
    List (String × SkillsEntry) :=
  match e.2 with
  | some entry => Obj.set m e.1 entry
  | none => m

/-- The argument of the `data` event: the map `user`, which may be missing, and
the optional map `skills`, whose values may be `null`. -/
structure DataUpdate where
  user : Option (List (String × Record))
  skills : Option (List (String × Option SkillsEntry))

/-- The method `Spells.pushLiveUpdateIfActive(userId)`; the second component is
the exception that propagates, if any. -/
def Spells_pushLiveUpdateIfActive (host : Host) (browser : Browser) (st : ClientState)
    (userId : String) : ClientState × Option JsError :=
  match st.spellWindowRef with
  | none => (st, none)
  | some w =>
    if browser.windowClosed w then (st, none)
    else if st.currentSpellUserId ≠ some userId then (st, none)
    else
      match buildSpellPayload host st.users st.skillsByUser userId with
      | .error e => (st, some e)
      | .ok none => (st, none)
      | .ok (some payload) =>
        if browser.postMessageThrows then (st, some .postMessageFailed)
        else (st.emit (.postMessage w payload "*"), none)

/-- The keys `Object.keys(m || {})` of an optional map. -/
def keysOrEmpty {α : Type} (m : Option (List (String × α))) : List String :=
  match m with
  | some entries => Obj.keys entries
  | none => []

/-- The method `Data.processDataUpdate(data)`; the second component is the
exception that propagates, if any. -/
def Data_processDataUpdate (host : Host) (browser : Browser) (st : ClientState)
    (data : DataUpdate) : ClientState × Option JsError :=
  match data.user with
  | none => (st, none)
  | some userMap =>
    if st.paused then (st, none)
    else
      let st := { st with users := userMap.foldl mergeUserEntry st.users }
      let st :=
        match data.skills with
        | some skillsMap =>
          { st with skillsByUser := skillsMap.foldl mergeSkillsEntry st.skillsByUser }
        | none => st
      let st := Data_updateAll host st
      match st.currentSpellUserId with
      | none => (st, none)
      | some current =>
        if current = "" then (st, none)
        else if current ∈ Obj.keys userMap ∨ current ∈ keysOrEmpty data.skills then
          Spells_pushLiveUpdateIfActive host browser st current
        else (st, none)

/-- The method `Spells.closeWindowIfAny()`. -/
def Spells_closeWindowIfAny (st : ClientState) : ClientState :=
  let st :=
    match st.spellWindowRef with
    | some w => st.emit (.closeWindow w)
    | none => st
  let st := { st with spellWindowRef := none, currentSpellUserId := none }
  match st.spellWindowWatchdog with
  | some id => { st.emit (.clearInterval id) with spellWindowWatchdog := none }
  | none => st

/-- The strict comparison `bound === uid` of a binding, which is `null` or a
string, with a value. -/
def strictEqBinding (bound : Option String) (uid : Val) : Bool :=
  match bound, uid with
  | some s, .str t => decide (s = t)
  | none, .null => true
  | _, _ => false

/-- The handler of the `user_deleted` event; `uid` is the value of the property
`uid` of the payload, as the server sent it (nothing converts it).  The two
`delete` statements convert it to a property key; the comparisons with the
bindings are strict. -/
def onUserDeleted (host : Host) (st : ClientState) (uid : Val) : ClientState :=
  let st := { st with users := Obj.delete st.users (uid.toStr host) }
  let st := { st with skillsByUser := Obj.delete st.skillsByUser (uid.toStr host) }
  let st := Data_updateAll host st
  let st := if strictEqBinding st.currentSpellUserId uid then Spells_closeWindowIfAny st else st
  if strictEqBinding st.liveSkillsUserId uid then
    ClientState.emit
      { st with viewMode := "main", liveSkillsUserId := none, liveSkillsUserName := none }
      (.showNotification "Player left, returning to main view" 2000)
  else st

/-- The constant `CONFIG.WS_RECONNECT_MS`. -/
def WS_RECONNECT_MS : Int := 5000

/-- The method `WS.connect()`: `socket` is the socket the factory returns; the
handlers are registered on it. -/
def WS_connect (st : ClientState) (socket : Socket) : ClientState :=
  { st with socket := some socket, log := st.log ++ [.ioConnect socket.id] }

/-- The method `WS.checkConnection()` at the time `now`; `fresh` is the socket
the factory returns if `WS.connect()` is called.  The calls on a socket are
recorded; the events with which the socket library answers them come later. -/
def WS_checkConnection (now : Int) (fresh : Socket) (st : ClientState) : ClientState :=
  let elapsed := now - st.lastWsMessageTs
  let st :=
    match st.socket with
    | some s =>
      if !st.wsConnected && s.disconnected then
        (st.emit (.setServerStatus "reconnecting")).emit (.socketConnect s.id)
      else st
    | none => st
  if elapsed > WS_RECONNECT_MS then
    let st := { st with wsConnected := false }
    let st :=
      match st.socket with
      | some s => st.emit (.socketDisconnect s.id)
      | none => st
    let st := WS_connect st fresh
    st.emit (.setServerStatus "reconnecting")
  else st

/-- The calls that try to bring the channel back: `socket.connect()` on the
current socket and `WS.connect()`. -/
def Effect.isReconnect : Effect → Bool
  | .socketConnect _ => true
  | .ioConnect _ => true
  | _ => false

/-! ## The detail window: `Spells.openWindowForUser` and its handshake -/

/-- What the closures `send` and `onReady` of one call of
`Spells.openWindowForUser` share and leave behind: the payload built by the
call, the flag `sent`, whether `onReady` is still registered, whether the
200 ms timer is still to fire, how many 120 ms retries are still to fire, and
the messages posted so far. -/
structure Handshake where
  payload : SpellPayload
  sent : Bool
  listening : Bool
  fallbackPending : Bool
  retriesPending : Nat
  posted : List Effect

/-- The handshake right after `openWindowForUser` returns. -/
def Handshake.start (payload : SpellPayload) : Handshake :=
  { payload := payload
    sent := false
    listening := true
    fallbackPending := true
    retriesPending := 0
    posted := [] }

/-- What wakes the handshake: a `message` event with its `source` and its
`data.type`, the 200 ms timer, or a 120 ms retry timer. -/
inductive Trigger where
  | message (source : Option Nat) (type : Option String) : Trigger
  | fallback : Trigger
  | retry : Trigger
  deriving DecidableEq

/-- A trigger together with what the browser shows when it runs:
`State.spellWindowRef`, its flag `closed`, and whether `postMessage` throws. -/
structure Tick where
  trigger : Trigger
  spellWindowRef : Option Nat
  closed : Bool
  postMessageThrows : Bool

/-- The closure `send`. -/
def Handshake.send (origin : String) (hs : Handshake) (t : Tick) : Handshake :=
  if hs.sent then hs
  else
    match t.spellWindowRef with
    | none => hs
    | some w =>
      if t.closed then hs
      else if t.postMessageThrows then { hs with retriesPending := hs.retriesPending + 1 }
      else { hs with sent := true, posted := hs.posted ++ [.postMessage w hs.payload origin] }

/-- Whether the trigger gets to call `send`: a `details-ready` message from the
detail window while `onReady` is registered, the 200 ms timer the one time it
fires, or a retry that has been scheduled. -/
def Handshake.fires (hs : Handshake) (t : Tick) : Bool :=
  match t.trigger with
  | .message source type =>
    hs.listening && decide (source = t.spellWindowRef) && decide (type = some "details-ready")
  | .fallback => hs.fallbackPending
  | .retry => decide (0 < hs.retriesPending)

/-- One trigger: `onReady` for a message (which unregisters itself before it
calls `send`), `send` for a timer. -/
def Handshake.step (origin : String) (hs : Handshake) (t : Tick) : Handshake :=
  if hs.fires t then
    match t.trigger with
    | .message _ _ => Handshake.send origin { hs with listening := false } t
    | .fallback => Handshake.send origin { hs with fallbackPending := false } t
    | .retry => Handshake.send origin { hs with retriesPending := hs.retriesPending - 1 } t
  else hs

/-- The handshake after a sequence of triggers. -/
def Handshake.run (origin : String) (hs : Handshake) (ticks : List Tick) : Handshake :=
  ticks.foldl (Handshake.step origin) hs

/-- The method `Spells.openWindowForUser(userId)` up to its return: `opened` is
what `window.open` returns if it is called, `interval` the id `setInterval`
returns; the three calls that bring the window to the front are one entry of the
log.  The result is the state and the handshake that has been set up, if the
payload is not `null`. -/
def Spells_openWindowForUser (host : Host) (browser : Browser) (opened : Option Nat)
    (interval : Nat) (st : ClientState) (userId : String) :
    Except JsError (ClientState × Option Handshake) :=
  let st := { st with currentSpellUserId := some userId }
  let reopen :=
    match st.spellWindowRef with
    | none => true
    | some w => browser.windowClosed w
  let st :=
    if reopen then
      let st := { st.emit (.openWindow opened) with spellWindowRef := opened }
      let st :=
        match st.spellWindowWatchdog with
        | some id => st.emit (.clearInterval id)
        | none => st
      { st.emit (.setInterval interval) with spellWindowWatchdog := some interval }
    else st
  let st := st.emit .bringToFront
  match buildSpellPayload host st.users st.skillsByUser userId with
  | .error e => .error e
  | .ok none => .ok (st, none)
  | .ok (some payload) => .ok (st, some (Handshake.start payload))

/-- The messages posted to a detail window that a log holds, oldest first. -/
def posts : List Effect → List (Nat × SpellPayload × String)
  | [] => []
  | .postMessage w payload origin :: rest => (w, payload, origin) :: posts rest
  | _ :: rest => posts rest

/-! ## The server: helpers of `routes/api.js` -/

/-- The envelope `JSON_OK(payload)`: `{ code: 0, ...payload }`. -/
def JSON_OK (payload : Record) : Record :=
  payload.foldl (fun o kv => Obj.set o kv.1 kv.2) [("code", .num 0)]

/-- The envelope `JSON_ERR(msg, extra)`: `{ code: 1, msg: String(msg), ...extra }`. -/
def JSON_ERR (host : Host) (msg : Val) (extra : Record) : Record :=
  extra.foldl (fun o kv => Obj.set o kv.1 kv.2) [("code", .num 1), ("msg", .str (msg.toStr host))]

/-- The test of `isDigits`: a non-empty string of the digits `0` to `9`. -/
def isDigits (s : String) : Bool :=
  !s.data.isEmpty && s.data.all (fun c => decide ('0' ≤ c ∧ c ≤ '9'))

/-- The method `padStart(2, '0')` on a string. -/
def padStart2 (s : String) : String :=
  if s.length < 2 then String.mk (List.replicate (2 - s.length) '0') ++ s else s

/-- The function `pad2(n)`: `String(n).padStart(2, '0')`. -/
def pad2 (n : Nat) : String := padStart2 (toString n)

/-- The class `\s` of a regular expression. -/
def isSpaceChar (c : Char) : Bool :=
  c.toNat ∈ [0x09, 0x0A, 0x0B, 0x0C, 0x0D, 0x20, 0xA0, 0x1680, 0x2028, 0x2029, 0x202F, 0x205F,
    0x3000, 0xFEFF] || decide (0x2000 ≤ c.toNat ∧ c.toNat ≤ 0x200A)

/-- The class `\d` of a regular expression. -/
def isDigitChar (c : Char) : Bool := decide ('0' ≤ c ∧ c ≤ '9')

/-- The class `[—–-]`. -/
def isDashChar (c : Char) : Bool := c == '—' || c == '–' || c == '-'

/-- The class of the two date separators, the hyphen and the slash. -/
def isDateSep (c : Char) : Bool := c == '-' || c == '/'

/-- Match `\d{n}` at the head of the text; the rest of the text on success. -/
def matchDigits : Nat → List Char → Option (List Char)
  | 0, cs => some cs
  | _ + 1, [] => none
  | n + 1, c :: cs => if isDigitChar c then matchDigits n cs else none

/-- Match one character of a class at the head of the text. -/
def matchChar (p : Char → Bool) : List Char → Option (List Char)
  | [] => none
  | c :: cs => if p c then some cs else none

/-- Match `\s+` at the head of the text, taking every blank there is. -/
def matchSpaces1 (cs : List Char) : Option (List Char) :=
  (matchChar isSpaceChar cs).map (fun rest => rest.dropWhile isSpaceChar)

/-- Match `(?::\d{2})?$`: the end of the text, or a colon, two digits and the end. -/
def matchSecondsEnd (cs : List Char) : Bool :=
  cs.isEmpty ||
    (match (matchChar (fun c => c == ':') cs).bind (matchDigits 2) with
     | some rest => rest.isEmpty
     | none => false)

/-- Whether the whole text matches the expression of `stripTimestamp`: blanks,
a dash, blanks, four digits, a separator, two digits, a separator, two digits,
at least one blank, two digits, a colon, two digits, and optionally a colon and
two digits, up to the end.  Each `\s*` is followed by a character that is not a
blank, so it takes every blank there is. -/
def matchesTimestampSuffix (cs : List Char) : Bool :=
  let upToMinutes : Option (List Char) := do
    let r ← matchChar isDashChar (cs.dropWhile isSpaceChar)
    let r ← matchDigits 4 (r.dropWhile isSpaceChar)
    let r ← matchChar isDateSep r
    let r ← matchDigits 2 r
    let r ← matchChar isDateSep r
    let r ← matchDigits 2 r
    let r ← matchSpaces1 r
    let r ← matchDigits 2 r
    let r ← matchChar (fun c => c == ':') r
    matchDigits 2 r
  match upToMinutes with
  | some rest => matchSecondsEnd rest
  | none => false

/-- The text left when the first (leftmost) match of the expression of
`stripTimestamp` is replaced by the empty string. -/
def stripTimestampChars : List Char → List Char
  | [] => []
  | c :: cs => if matchesTimestampSuffix (c :: cs) then [] else c :: stripTimestampChars cs

/-- The function `stripTimestamp(raw)`; `none` is `undefined` or `null`. -/
def stripTimestamp (raw : Option String) : String :=
  String.mk (stripTimestampChars (raw.getD "").data)

/-- What `buildSessionName` reads from `new Date()`: the local year, month
(from 0), day, hours, minutes and seconds. -/
structure DateParts where
  fullYear : Nat
  month : Nat
  date : Nat
  hours : Nat
  minutes : Nat
  seconds : Nat

/-- The function `buildSessionName(base)` at the clock time `now`. -/
def buildSessionName (now : DateParts) (base : String) : String :=
  let date :=
    toString now.fullYear ++ "-" ++ pad2 (now.month + 1) ++ "-" ++ pad2 now.date ++ " " ++
      pad2 now.hours ++ ":" ++ pad2 now.minutes ++ ":" ++ pad2 now.seconds
  base ++ " — " ++ date

/-! ## The server: `saveCurrentSessionIfAny` and the handler of `GET /clear` -/

/-- Modelled from the spec: the record of the active session that
`services/UserDataManager.js` keeps in `currentSession` (the file is not among
the sources): id, name, start time, reason of the start, sequence number, the
instance it comes from, and the names `mapName` and `instanceName` the handler
of `GET /clear` falls back on. -/
structure Session where
  id : String
  name : String
  startedAt : Int
  reasonStart : String
  seq : Nat
  instanceId : Option Nat
  fromInstance : Option Nat
  mapName : Option String
  instanceName : Option String

/-- Modelled from the spec: a player of the aggregate store, as far as
`saveCurrentSessionIfAny` reads it; `skillSummary` is what `getSkillSummary()`
returns. -/
structure ServerUser where
  uid : Nat
  name : String
  profession : String
  subProfession : Option String
  skillSummary : Val
  attr : Val

/-- Modelled from the spec: the state of `userDataManager` the routes read: the
active session and the map `users`, in insertion order. -/
structure Store where
  currentSession : Option Session
  users : List (Nat × ServerUser)

/-- The object `snapshot` of a saved session. -/
structure Snapshot where
  usersAgg : Val
  players : List Val
  users : List (String × Record)

/-- The object `sessionToSave`. -/
structure SavedSession where
  id : String
  name : String
  startedAt : Int
  endedAt : Int
  durationMs : Int
  reasonStart : String
  reasonEnd : String
  seq : Nat
  instanceId : Option Nat
  fromInstance : Option Nat
  partySize : Nat
  snapshot : Snapshot

/-- An event sent with `socket.emit`. -/
inductive ServerEvent where
  | session_ended (reason : String) (time : Int) : ServerEvent
  | session_started (id : Option String) (name : Option String) (startedAt : Option Int)
      (reasonStart : String) : ServerEvent
  | dps_cleared (time : Int) : ServerEvent

/-- The answer of a handler: the status and the JSON body. -/
structure Reply where
  status : Nat
  body : Record

/-- The server as the handler of `GET /clear` sees it: the aggregate store, the
session archive behind `Sessions`, the events emitted so far and the answer to
the request, once there is one. -/
structure Server where
  store : Store
  archive : List SavedSession
  emitted : List ServerEvent
  reply : Option Reply

/-- What one run of `GET /clear` takes from outside `routes/api.js`: the helpers
of `userDataManager` whose code is not among the sources, the table
`map_names.json`, whether `Sessions.addSession` rejects, the clock readings in
the order they are taken, and the id of the next session. -/
structure ClearEnv where
  buildPlayerSnapshot : Nat → Option Val
  getAllUsersData : Val
  mapNames : String → Option String
  addSessionRejects : Bool
  endedAt : Int
  endedEventAt : Int
  nameClock : DateParts
  startClock : DateParts
  startedAt : Int
  clearedAt : Int
  nextSessionId : String

/-- Modelled from the spec: `userDataManager.getUserIds()`, the ids of the
players in the aggregate store. -/
def getUserIds (store : Store) : List Nat := store.users.map Prod.fst

/-- Modelled from the spec: `userDataManager.clearAll()` discards all player and
skill state. -/
def clearAll (store : Store) : Store := { store with users := [] }

/-- Modelled from the spec: `userDataManager._startNewSession(info, reason)`,
the transition `start`: it allocates a new session id, sets `startedAt` to now,
clears the aggregate store and increments the sequence number; the name is the
base name with a timestamp suffix. -/
def startNewSession (env : ClearEnv) (store : Store) (mapNameBase : String)
    (reason : String) : Store :=
  { currentSession := some
      { id := env.nextSessionId
        name := buildSessionName env.startClock mapNameBase
        startedAt := env.startedAt
        reasonStart := reason
        seq := (match store.currentSession with
                | some previous => previous.seq + 1
                | none => 1)
        instanceId := none
        fromInstance := none
        mapName := some mapNameBase
        instanceName := none }
    users := [] }

/-- Modelled from the spec: `Sessions.addSession(session)` appends the session
to the archive; when the write fails the promise rejects and the archive is as
before. -/
def addSession (env : ClearEnv) (archive : List SavedSession) (session : SavedSession) :
    Option (List SavedSession) :=
  if env.addSessionRejects then none else some (archive ++ [session])

/-- The entry of `usersDetailed` for one player. -/
def userDetail (user : ServerUser) : Record :=
  [("uid", .num user.uid),
   ("name", .str user.name),
   ("profession", .str (user.profession ++
      (match user.subProfession with
       | some sub => if sub ≠ "" then "-" ++ sub else ""
       | none => ""))),
   ("subProfession", (match user.subProfession with
                      | some sub => .str sub
                      | none => .undefined)),
   ("skills", user.skillSummary),
   ("attr", user.attr)]

/-- The object `usersDetailed`, filled in the order of the map `users`. -/
def usersDetailed (users : List (Nat × ServerUser)) : List (String × Record) :=
  users.foldl (fun o e => Obj.set o (toString e.1) (userDetail e.2)) []

/-- The list `players`: the snapshots of the players, the falsy ones left out. -/
def playerSnapshots (env : ClearEnv) (users : List (Nat × ServerUser)) : List Val :=
  (users.map (fun e => env.buildPlayerSnapshot e.1)).filterMap id

/-- The object `sessionToSave` for the active session `previous`. -/
def sessionToSave (env : ClearEnv) (store : Store) (previous : Session) : SavedSession :=
  { id := previous.id
    name := previous.name
    startedAt := previous.startedAt
    endedAt := env.endedAt
    durationMs := max 0 (env.endedAt - previous.startedAt)
    reasonStart := previous.reasonStart
    reasonEnd := "manual_clear"
    seq := previous.seq
    instanceId := previous.instanceId
    fromInstance := previous.fromInstance
    partySize := (playerSnapshots env store.users).length
    snapshot :=
      { usersAgg := env.getAllUsersData
        players := playerSnapshots env store.users
        users := usersDetailed store.users } }

/-- The value `saveCurrentSessionIfAny` resolves to. -/
structure SaveResult where
  saved : Bool
  session : Option SavedSession

/-- The function `saveCurrentSessionIfAny()`: `none` when the promise rejects
(the call of `Sessions.addSession` failed), otherwise the archive afterwards and
the result. -/
def saveCurrentSessionIfAny (env : ClearEnv) (srv : Server) :
    Option (List SavedSession × SaveResult) :=
  match srv.store.currentSession with
  | none => some (srv.archive, { saved := false, session := none })
  | some previous =>
    if (getUserIds srv.store).length > 0 then
      if (playerSnapshots env srv.store.users).length = 0 then
        some (srv.archive, { saved := false, session := none })
      else
        match addSession env srv.archive (sessionToSave env srv.store previous) with
        | none => none
        | some archive =>
          some (archive, { saved := true,
                           session := some (sessionToSave env srv.store previous) })
    else some (srv.archive, { saved := false, session := none })

/-- A string that is not empty, as the operand of `||`. -/
def nonEmpty (s : Option String) : Option String :=
  match s with
  | some t => if t ≠ "" then some t else none
  | none => none

/-- The base name of the next session: the name of the map of the previous
instance, or the previous name without its timestamp, or `mapName`, or
`instanceName`, or `'Manual Restart'`. -/
def clearBaseName (env : ClearEnv) (previous : Option Session) : String :=
  let fromTable :=
    match previous.bind (fun p => p.instanceId) with
    | some instanceId => nonEmpty (env.mapNames (toString instanceId))
    | none => none
  ((((fromTable.orElse (fun _ => nonEmpty (some (stripTimestamp (previous.map (fun p => p.name)))))).orElse
    (fun _ => nonEmpty (previous.bind (fun p => p.mapName)))).orElse
    (fun _ => nonEmpty (previous.bind (fun p => p.instanceName)))).getD "Manual Restart")

/-- The handler of `GET /clear`, with the error handler of the router behind it:
when `saveCurrentSessionIfAny` rejects, the handler stops there and the error
handler answers with status 500. -/
def handleClear (host : Host) (env : ClearEnv) (srv : Server) : Server :=
  let previous := srv.store.currentSession
  match saveCurrentSessionIfAny env srv with
  | none =>
    { srv with reply := some { status := 500, body := JSON_ERR host (.str "Internal error") [] } }
  | some (archive, _) =>
    let store := clearAll srv.store
    let emitted := srv.emitted ++ [.session_ended "manual_clear" env.endedEventAt]
    let baseName := clearBaseName env previous
    let sessionName := buildSessionName env.nameClock baseName
    let store := startNewSession env store baseName "manual_restart"
    let emitted := emitted ++
      [.session_started (store.currentSession.map (fun s => s.id))
        (store.currentSession.map (fun s => s.name))
        (store.currentSession.map (fun s => s.startedAt)) "manual_restart",
       .dps_cleared env.clearedAt]
    { store := store
      archive := archive
      emitted := emitted
      reply := some
        { status := 200
          body := JSON_OK [("msg", .str ("Statistics cleared and new session started on map \"" ++
            sessionName ++ "\""))] } }

/-- Whether an event is `session_started`. -/
def ServerEvent.isSessionStarted : ServerEvent → Bool
  | .session_started _ _ _ _ => true
  | _ => false

/-! ## Sample values for the closed examples -/

/-- A stand-in for the conversion of a string to a number, enough for the
examples: the empty string is `0`, a string of digits is its value, anything
else is `NaN`. -/
def sampleStringToNumber (s : String) : JsNum :=
  if s.data.isEmpty then .fin 0
  else if s.data.all (fun c => decide ('0' ≤ c ∧ c ≤ '9')) then
    .fin (s.data.foldl (fun n c => 10 * n + (c.toNat - '0'.toNat)) 0 : Nat)
  else .nan

/-- A stand-in for `toFixed(1)`: the tenths nearest to the number, the larger
one on a tie, written with one decimal. -/
def sampleToFixed1 (x : ℚ) : String :=
  let tenths : Nat := (Int.floor (|x| * 10 + 1 / 2)).toNat
  (if x < 0 then "-" else "") ++ toString (tenths / 10) ++ "." ++ toString (tenths % 10)

/-- The built-ins used in the closed examples; `toLowerCase` covers the letters
`A` to `Z`. -/
def sampleHost : Host :=
  { numToString := plainDecimal
    stringToNumber := sampleStringToNumber
    toLowerCase := fun s => String.mk (s.data.map Char.toLower)
    toFixed1 := sampleToFixed1 }

/-- A browser in which every window is open and `postMessage` goes through. -/
def sampleBrowser : Browser :=
  { windowClosed := fun _ => false
    postMessageThrows := false }

/-- The skills of player `"7"`: one skill with 4 hits, one that was never cast. -/
def sampleSpellSkills : SkillMap :=
  [("1401", [("displayName", .str "Frost Lance"), ("type", .str "Damage"),
             ("totalDamage", .num 100), ("totalCount", .num 4), ("critCount", .num 1)]),
   ("1402", [("type", .str "healing"), ("totalHealing", .num 30)])]

/-- A client with one player, `"7"`, whose detail window (window `1`) is open. -/
def sampleClient : ClientState :=
  { initialState 0 with
    users := [("7", [("id", .str "7"), ("name", .str "Ann"), ("profession", .str "Frost Mage"),
                     ("total_dps", .num 12)])]
    skillsByUser := [("7", { skills := some sampleSpellSkills })]
    spellWindowRef := some 1
    currentSpellUserId := some "7"
    spellWindowWatchdog := some 3
    socket := some { id := 0, disconnected := false }
    wsConnected := true }

/-- An update that renames player `"7"` and brings the skills again. -/
def renameUpdate : DataUpdate :=
  { user := some [("7", [("name", .str "Bea"), ("total_dps", .num 20)])]
    skills := some [("7", some { skills := some sampleSpellSkills })] }

/-- An update that carries the sentinel name for a player not seen before. -/
def sentinelUpdate : DataUpdate :=
  { user := some [("9", [("name", .str "未知")])]
    skills := none }

/-- An update with a skills map and no user map. -/
def skillsOnlyUpdate : DataUpdate :=
  { user := none
    skills := some [("7", some { skills := some sampleSpellSkills })] }

/-- The items of the payload of player `"7"` of the sample client. -/
def sampleItems : List SpellItem :=
  [{ id := "1401", name := .str "Frost Lance", type := "damage",
     damage := .fin 100, heal := .fin 0, totalDamage := .fin 100, totalHealing := .fin 0,
     casts := .num 4, hits := .num 4, critHits := .num 1,
     avg := .fin (100 / 4), critRate := .fin (1 / 4 * 100), countBreakdown := .null },
   { id := "1402", name := .str "1402", type := "healing",
     damage := .fin 0, heal := .fin 30, totalDamage := .fin 0, totalHealing := .fin 30,
     casts := .num 0, hits := .num 0, critHits := .num 0,
     avg := .fin 0, critRate := .fin 0, countBreakdown := .null }]

/-- The payload of player `"7"` of the sample client. -/
def samplePayload : SpellPayload :=
  { user := [("id", .str "7"), ("name", .str "Ann"), ("profession", .str "Frost Mage"),
             ("total_dps", .num 12)]
    items := sampleItems
    total := .fin 100
    classKey := "frost_mage" }

/-- A `details-ready` message from window `1` that meets a `postMessage` that
throws. -/
def readyThrows : Tick :=
  { trigger := .message (some 1) (some "details-ready")
    spellWindowRef := some 1
    closed := false
    postMessageThrows := true }

/-- The 200 ms timer, with a `postMessage` that goes through. -/
def fallbackOk : Tick :=
  { trigger := .fallback
    spellWindowRef := some 1
    closed := false
    postMessageThrows := false }

/-- The 120 ms retry, with a `postMessage` that goes through. -/
def retryOk : Tick :=
  { trigger := .retry
    spellWindowRef := some 1
    closed := false
    postMessageThrows := false }

/-- The sample client after `openWindowForUser("7")` with the window open. -/
def sampleOpened : ClientState :=
  ClientState.emit { sampleClient with currentSpellUserId := some "7" } .bringToFront

/-- An active session on the server. -/
def sampleSession : Session :=
  { id := "s1"
    name := "Goblin Lair — 2025-10-26 23:59:00"
    startedAt := 1000
    reasonStart := "instance_changed"
    seq := 4
    instanceId := some 12
    fromInstance := none
    mapName := none
    instanceName := none }

/-- A server with the active session and one player, nothing archived yet. -/
def sampleServer : Server :=
  { store :=
      { currentSession := some sampleSession
        users := [(7, { uid := 7, name := "Ann", profession := "Frost Mage",
                        subProfession := none, skillSummary := .obj [], attr := .obj [] })] }
    archive := []
    emitted := []
    reply := none }

/-- A run of `GET /clear` in which every player has a snapshot and the archive
write goes through. -/
def sampleEnv : ClearEnv :=
  { buildPlayerSnapshot := fun uid => some (.obj [("uid", .num uid)])
    getAllUsersData := .obj []
    mapNames := fun _ => none
    addSessionRejects := false
    endedAt := 61000
    endedEventAt := 61001
    nameClock := { fullYear := 2025, month := 9, date := 27, hours := 0, minutes := 0,
                   seconds := 1 }
    startClock := { fullYear := 2025, month := 9, date := 27, hours := 0, minutes := 0,
                    seconds := 1 }
    startedAt := 61002
    clearedAt := 61003
    nextSessionId := "s2" }

/-- The same run with an archive write that fails. -/
def rejectingEnv : ClearEnv := { sampleEnv with addSessionRejects := true }

/-- The same run with no snapshot for any player. -/
def noSnapshotEnv : ClearEnv := { sampleEnv with buildPlayerSnapshot := fun _ => none }

/-- The sample server with an empty aggregate store. -/
def emptyServer : Server :=
  { sampleServer with store := { sampleServer.store with users := [] } }

/-- The sample client with the live-skills view open on player `"7"` as well. -/
def sampleLiveClient : ClientState :=
  { sampleClient with
    viewMode := "live-skills"
    liveSkillsUserId := some "7"
    liveSkillsUserName := some "Ann" }

/-! ## Redraw requests between two animation frames -/

/-- A sequence of calls `Renderer.renderDataList(users, activeTab)` with no
animation frame in between. -/
def renderDataListCalls (st : ClientState) (calls : List (List User × String)) :
    ClientState :=
  calls.foldl (fun st call => renderDataList st call.1 call.2) st

/-- A client whose channel is marked disconnected, whose socket reports
`disconnected`, and whose last message came at time 0. -/
def staleDisconnectedClient : ClientState :=
  { sampleClient with
    wsConnected := false
    socket := some { id := 0, disconnected := true } }

/-- A player for the closed examples on redraws. -/
def samplePlayerAnn : User :=
  { id := "1", name := "Ann", total_damage := some { total := some 300 },
    total_healing := none, taken_damage := some 20,
    total_dps := some 30, total_hps := none }

/-! ## The server: `safeJoinLogs` and the history routes -/

/-- The segments of a path between its slashes. -/
def splitSlash : List Char → List (List Char)
  | [] => [[]]
  | c :: cs =>
    if c = '/' then [] :: splitSlash cs
    else
      match splitSlash cs with
      | [] => [[c]]
      | seg :: segs => (c :: seg) :: segs

/-- One segment pushed on the stack of `normalizeString` of Node's `path`
module: empty segments and `.` are left out, `..` pops the segment before it,
and is kept only above the start of a relative path. -/
def pushSegment (allowAboveRoot : Bool) (stack : List (List Char)) (seg : List Char) :
    List (List Char) :=
  if seg = [] ∨ seg = ['.'] then stack
  else if seg = ['.', '.'] then
    match stack with
    | top :: below =>
      if top = ['.', '.'] then (if allowAboveRoot then seg :: stack else stack) else below
    | [] => if allowAboveRoot then [seg] else []
  else seg :: stack

/-- The segments of a path after `normalizeString`, first segment first. -/
def normalizeSegments (allowAboveRoot : Bool) (segs : List (List Char)) : List (List Char) :=
  (segs.foldl (pushSegment allowAboveRoot) []).reverse

/-- The segments joined with slashes. -/
def joinSlash : List (List Char) → List Char
  | [] => []
  | [seg] => seg
  | seg :: rest => seg ++ '/' :: joinSlash rest

/-- One step of the loop of `path.resolve`, which runs over the arguments from
the last to the first and then over the working directory: an empty argument
is skipped, any other is put in front, and an argument that starts with a slash
ends the loop. -/
def resolveStep (acc : List Char × Bool) (p : String) : List Char × Bool :=
  if acc.2 then acc
  else if p.data.isEmpty then acc
  else (p.data ++ '/' :: acc.1, decide (p.data.head? = some '/'))

/-- The function `path.resolve(...args)` of Node on a POSIX system, with the
working directory `cwd`. -/
def pathResolve (cwd : String) (args : List String) : String :=
  let joined := (args.reverse ++ [cwd]).foldl resolveStep ([], false)
  let normalized := joinSlash (normalizeSegments (!joined.2) (splitSlash joined.1))
  if joined.2 then String.mk ('/' :: normalized)
  else if normalized.isEmpty then "." else String.mk normalized

/-- The function `safeJoinLogs(...segments)` for the logs root `LOGS_DIR`; the
error is the message of the `Error` thrown. -/
def safeJoinLogs (cwd LOGS_DIR : String) (segments : List String) : Except String String :=
  let base := pathResolve cwd [LOGS_DIR]
  let abs := pathResolve cwd (base :: segments)
  if !startsWith base.data abs.data then .error "Unsafe path" else .ok abs

/-- Whether the absolute path `abs` is the directory `base` or lies inside it:
`abs` is `base`, or `base` followed by a slash and more (with the root
directory as `base`, every absolute path). -/
def insideDir (base abs : String) : Bool :=
  decide (abs = base) || startsWith (base.data ++ ['/']) abs.data ||
    (decide (base = "/") && startsWith ['/'] abs.data)

/-- The sign that `Number.parseInt` reads before the digits, left out. -/
def skipSign (body : List Char) : List Char :=
  match body with
  | c :: rest => if c = '+' ∨ c = '-' then rest else body
  | [] => body

/-- The function `Number.parseInt(s, 10)`: blanks at the start are skipped, a
sign is read, and the digits that follow give the value; `none` is `NaN`, the
result when no digit follows.  The value is the integer itself (exact up to
2^53). -/
def parseInt10 (s : String) : Option Int :=
  let body := s.data.dropWhile isSpaceChar
  let negative := decide (body.head? = some '-')
  let digits := (skipSign body).takeWhile isDigitChar
  if digits.isEmpty then none
  else
    let value : Int := ((digits.foldl (fun n c => 10 * n + (c.toNat - '0'.toNat)) 0 : Nat) : Int)
    some (if negative then -value else value)

/-- An error of the `fs` module: `ENOENT`, or any other code. -/
inductive FsError where
  | enoent : FsError
  | other : FsError

/-- What the file system and `JSON.parse` answer: the content of a file or the
error of `fs.readFile`, whether `fs.access` resolves, and the value of a JSON
text (`none` when `JSON.parse` throws). -/
structure Disk where
  readFile : String → Except FsError String
  access : String → Bool
  parseJson : String → Option Val

/-- A call of the `fs` module. -/
inductive FsCall where
  | readFile (path : String) : FsCall
  | access (path : String) : FsCall

/-- The answer of a history route: a JSON body with its status, or the download
of a file under a name. -/
inductive HistoryAnswer where
  | json (status : Nat) (body : Record) : HistoryAnswer
  | download (file name : String) : HistoryAnswer

/-- What a history route does: the paths it built with `safeJoinLogs`, its calls
of the `fs` module, in order, and its answer. -/
structure HistoryRun where
  paths : List String
  calls : List FsCall
  answer : HistoryAnswer

/-- The status of an answer (200 for a download). -/
def HistoryAnswer.statusCode : HistoryAnswer → Nat
  | .json status _ => status
  | .download _ _ => 200

/-- The answer of the error handler of the router. -/
def internalError (host : Host) : HistoryAnswer :=
  .json 500 (JSON_ERR host (.str "Internal error") [])

/-- The `try`/`catch` common to the routes that read a JSON file: the file is
read and parsed and sent under the key `key`; `ENOENT` gives 404, any other
failure 500. -/
def readJsonFile (host : Host) (disk : Disk) (file key notFound failed : String) :
    HistoryRun :=
  match disk.readFile file with
  | .ok data =>
    match disk.parseJson data with
    | some value =>
      { paths := [file], calls := [.readFile file],
        answer := .json 200 (JSON_OK [(key, value)]) }
    | none =>
      { paths := [file], calls := [.readFile file],
        answer := .json 500 (JSON_ERR host (.str failed) []) }
  | .error .enoent =>
    { paths := [file], calls := [.readFile file],
      answer := .json 404 (JSON_ERR host (.str notFound) []) }
  | .error .other =>
    { paths := [file], calls := [.readFile file],
      answer := .json 500 (JSON_ERR host (.str failed) []) }

/-- The answer to a timestamp that `isDigits` rejects. -/
def invalidTimestamp (host : Host) : HistoryRun :=
  { paths := [], calls := [], answer := .json 400 (JSON_ERR host (.str "Invalid timestamp") []) }

/-- The handler of `GET /history/:timestamp/summary`. -/
def historySummary (host : Host) (disk : Disk) (cwd LOGS_DIR timestamp : String) :
    HistoryRun :=
  if !isDigits timestamp then invalidTimestamp host
  else
    match safeJoinLogs cwd LOGS_DIR [timestamp, "summary.json"] with
    | .error _ => { paths := [], calls := [], answer := internalError host }
    | .ok file =>
      readJsonFile host disk file "data" "History summary file not found"
        "Failed to read history summary file"

/-- The handler of `GET /history/:timestamp/data`. -/
def historyData (host : Host) (disk : Disk) (cwd LOGS_DIR timestamp : String) : HistoryRun :=
  if !isDigits timestamp then invalidTimestamp host
  else
    match safeJoinLogs cwd LOGS_DIR [timestamp, "allUserData.json"] with
    | .error _ => { paths := [], calls := [], answer := internalError host }
    | .ok file =>
      readJsonFile host disk file "user" "History data file not found"
        "Failed to read history data file"

/-- The handler of `GET /history/:timestamp/skill/:uid`. -/
def historySkill (host : Host) (disk : Disk) (cwd LOGS_DIR timestamp uidParam : String) :
    HistoryRun :=
  let uid := parseInt10 uidParam
  if !isDigits timestamp then invalidTimestamp host
  else
    match uid with
    | none =>
      { paths := [], calls := [], answer := .json 400 (JSON_ERR host (.str "Invalid uid") []) }
    | some n =>
      match safeJoinLogs cwd LOGS_DIR [timestamp, "users", host.numToString n ++ ".json"] with
      | .error _ => { paths := [], calls := [], answer := internalError host }
      | .ok file =>
        readJsonFile host disk file "data" "History skill file not found"
          "Failed to read history skill file"

/-- The handler of `GET /history/:timestamp/download`. -/
def historyDownload (host : Host) (disk : Disk) (cwd LOGS_DIR timestamp : String) :
    HistoryRun :=
  if !isDigits timestamp then invalidTimestamp host
  else
    match safeJoinLogs cwd LOGS_DIR [timestamp, "fight.log"] with
    | .error _ => { paths := [], calls := [], answer := internalError host }
    | .ok file =>
      if disk.access file then
        { paths := [file], calls := [.access file],
          answer := .download file ("fight_" ++ timestamp ++ ".log") }
      else
        { paths := [file], calls := [.access file],
          answer := .json 404 (JSON_ERR host (.str "History log not found") []) }

/-- A disk on which every file is missing. -/
def emptyDisk : Disk :=
  { readFile := fun _ => .error .enoent
    access := fun _ => false
    parseJson := fun _ => none }

/-- The characters that the expression of `stripTimestamp` can match after its
dash: blanks, digits, the date separators and the colon. -/
def allowedTail (c : Char) : Bool :=
  isSpaceChar c || isDigitChar c || isDateSep c || c == ':'

/-! ## The rows of the list: `formatNumber`, `statLine` and the reconciliation pass -/

/-- The function `formatNumber(n)`; `none` is a value that is not a number. -/
def formatNumber (host : Host) (n : Option ℚ) : String :=
  match n with
  | none => "NaN"
  | some x =>
    if x ≥ 1000000 then host.toFixed1 (x / 1000000) ++ "M"
    else if x ≥ 1000 then host.toFixed1 (x / 1000) ++ "K"
    else host.numToString (Int.floor (x + 1 / 2))

/-- The function `statLine(u, activeTab, percent)`: reading `.total` of a
`total_damage` or `total_healing` that is missing throws a `TypeError`. -/
def statLine (host : Host) (u : User) (activeTab : String) (percent : ℚ) :
    Except JsError String :=
  let p := host.toFixed1 percent
  if activeTab = "dps" then
    match u.total_damage with
    | none => .error .typeError
    | some totals =>
      .ok (formatNumber host totals.total ++ " (" ++ formatNumber host u.total_dps ++
        " DPS, " ++ p ++ "%)")
  else if activeTab = "heal" then
    match u.total_healing with
    | none => .error .typeError
    | some totals =>
      .ok (formatNumber host totals.total ++ " (" ++ formatNumber host u.total_hps ++
        " HPS, " ++ p ++ "%)")
  else if activeTab = "tank" then
    .ok (formatNumber host u.taken_damage ++ " (" ++ p ++ "%)")
  else .ok ""

/-- The name shown: `user.fightPoint ? name + " (" + fightPoint + ")" : name`. -/
def displayName (host : Host) (user : User) : String :=
  if user.fightPoint.truthy then user.name ++ " (" ++ user.fightPoint.toStr host ++ ")"
  else user.name

/-- A child of `Dom.columns`, as far as the pass reads and writes it: the
identity of the element, its class list, its `data-userid`, its `style.order`,
and the texts of its rank, name and stats and the width of its bar.  The icons,
the colour and the transform of the position animation are left out. -/
structure Entry where
  node : Nat
  classes : List String
  userid : Option String
  order : Option String
  rankText : String
  nameText : String
  statsText : String
  fillWidth : String

/-- What the pass computes for a row before it touches the list. -/
structure RowContent where
  classKey : String
  rankText : String
  nameText : String
  statsText : String
  fillWidth : String

/-- The values of row `i`, in the order of the source: the class key first, the
stat line after the percentages; each of the two may throw. -/
def rowContent (host : Host) (total top1 : ℚ) (activeTab : String) (i : Nat) (user : User) :
    Except JsError RowContent :=
  match getClassKey host user.profession with
  | .error e => .error e
  | .ok classKey =>
    match statLine host user activeTab (displayPercent total user activeTab) with
    | .error e => .error e
    | .ok stats =>
      .ok { classKey := classKey
            rankText := toString (i + 1) ++ "."
            nameText := displayName host user
            statsText := stats
            fillWidth := host.numToString (barPercent top1 user activeTab) ++ "%" }

/-- Whether the selector `.data-item[data-userid="uid"]` matches the element
(for an id that needs no escaping in the selector, as the decimal ids are). -/
def Entry.isItemOf (uid : String) (e : Entry) : Bool :=
  decide ("data-item" ∈ e.classes) && decide (e.userid = some uid)

/-- Apply `f` to the first element that satisfies `p`: what the code does to
the result of `querySelector`. -/
def modifyFirst (p : Entry → Bool) (f : Entry → Entry) : List Entry → List Entry
  | [] => []
  | e :: rest => if p e then f e :: rest else e :: modifyFirst p f rest

/-- The identity of an element made by `document.createElement`: a node that
is none of the children. -/
def freshNode (children : List Entry) : Nat :=
  (children.map (fun e => e.node)).foldr max 0 + 1

/-- The values of the row written into an element. -/
def Entry.fill (c : RowContent) (e : Entry) : Entry :=
  { e with
    rankText := c.rankText
    nameText := c.nameText
    statsText := c.statsText
    fillWidth := c.fillWidth }

/-- The body of the create/update loop once the values are there: the element
of the id is looked up; when there is none a new one is made and appended,
otherwise its class is set again; then the texts and the bar are written. -/
def upsertEntry (uid : String) (c : RowContent) (children : List Entry) : List Entry :=
  if children.any (Entry.isItemOf uid) then
    modifyFirst (Entry.isItemOf uid)
      (fun e => Entry.fill c { e with classes := ["data-item", c.classKey] }) children
  else
    children ++
      [Entry.fill c
        { node := freshNode children
          classes := ["data-item", c.classKey]
          userid := some uid
          order := none
          rankText := ""
          nameText := ""
          statsText := ""
          fillWidth := "" }]

/-- The loop `for (let i = 0; i < users.length; i++)` of the pass, from index
`i` on, over the children of `Dom.columns`; an exception ends the pass. -/
def createUpdate (host : Host) (total top1 : ℚ) (activeTab : String) :
    Nat → List User → List Entry → Except JsError (List Entry)
  | _, [], children => .ok children
  | i, user :: rest, children =>
    match rowContent host total top1 activeTab i user with
    | .error e => .error e
    | .ok c => createUpdate host total top1 activeTab (i + 1) rest (upsertEntry user.id c children)

/-- The step "remove absents": a child stays when its `data-userid` is in `seen`. -/
def removeAbsent (seen : List String) (children : List Entry) : List Entry :=
  children.filter (fun e =>
    match e.userid with
    | some uid => decide (uid ∈ seen)
    | none => false)

/-- The loop that sets `style.order`, from index `i` on. -/
def applyOrder : Nat → List String → List Entry → List Entry
  | _, [], children => children
  | i, id :: rest, children =>
    applyOrder (i + 1) rest
      (modifyFirst (Entry.isItemOf id) (fun e => { e with order := some (toString i) }) children)

/-- The callback `renderDataList(users, activeTab)` hands to
`requestAnimationFrame`, on the children of `Dom.columns`. -/
def renderPass (host : Host) (activeTab : String) (users : List User)
    (children : List Entry) : Except JsError (List Entry) :=
  let total := totalValue users activeTab
  let sorted := rankUsers users activeTab
  let top1 := topValue sorted activeTab
  match createUpdate host total top1 activeTab 0 sorted children with
  | .error e => .error e
  | .ok updated =>
    let desiredOrder := sorted.map (fun u => u.id)
    .ok (applyOrder 0 desiredOrder (removeAbsent desiredOrder updated))

/-- Whether the values of a row can be computed for the player on the tab: the
profession is a string or missing, and the object that `statLine` reads on the
tab is there. -/
def rowDefined (activeTab : String) (u : User) : Bool :=
  (match u.profession with
   | .undefined => true
   | .str _ => true
   | _ => false) &&
  (decide (activeTab ≠ "dps") || u.total_damage.isSome) &&
  (decide (activeTab ≠ "heal") || u.total_healing.isSome)

/-- The list as a pass leaves it: an element with a `data-userid` has the class
`data-item`, and no two elements have the same `data-userid`. -/
def Rendered (children : List Entry) : Prop :=
  (∀ e ∈ children, e.userid.isSome = true → "data-item" ∈ e.classes) ∧
    (children.filterMap (fun e => e.userid)).Nodup

/-- A player the filter admits on the tab `dps` and whose record has no
`total_damage`. -/
def playerWithoutTotals : User :=
  { id := "4", name := "Dee", total_damage := none, total_healing := none,
    taken_damage := none, total_dps := some 5, total_hps := none }

/-- What the loop that sets `style.order` does to one element: each id of the
list, from index `i` on, writes its index into the element of that id. -/
def orderElem : Nat → List String → Entry → Entry
  | _, [], e => e
  | i, id :: rest, e =>
    orderElem (i + 1) rest
      (if e.userid = some id then { e with order := some (toString i) } else e)

/-- The ids of the elements of the list, in the order of the list. -/
def renderedIds (children : List Entry) : List String :=
  children.filterMap (fun e => e.userid)

/-- A list as a pass over players `"9"` and `"1"` left it. -/
def sampleChildren : List Entry :=
  [{ node := 1, classes := ["data-item", "default"], userid := some "9", order := some "0",
     rankText := "1.", nameText := "Ike", statsText := "", fillWidth := "100%" },
   { node := 2, classes := ["data-item", "default"], userid := some "1", order := some "1",
     rankText := "2.", nameText := "Ann", statsText := "", fillWidth := "50%" }]

/-- The players `"1"` and `"3"` of the sample, for a pass on the tab `dps`. -/
def samplePassPlayers : List User :=
  [{ id := "1", name := "Ann", total_damage := some { total := some 300 },
     total_healing := none, taken_damage := some 20,
     total_dps := some 30, total_hps := none },
   { id := "3", name := "Cy", total_damage := some { total := some 500 },
     total_healing := none, taken_damage := some 90,
     total_dps := some 50, total_hps := none }]

/-! ## The server: the payload of `GET /sessions/:id/payload/:uid` -/

/-- One item of the list the handler of `GET /sessions/:id/payload/:uid` builds. -/
structure ServerItem where
  id : String
  name : Val
  type : String
  damage : JsNum
  casts : JsNum
  hits : JsNum
  critHits : JsNum
  avg : JsNum
  critRate : JsNum
  countBreakdown : Val

/-- The payload the handler sends under `data`. -/
structure ServerPayload where
  user : Record
  items : List ServerItem
  total : JsNum
  classKey : String

/-- The body of the loop `for (const [idk, d] of Object.entries(skills))`. -/
def sessionItem (host : Host) (e : String × Record) : ServerItem :=
  let d := e.2
  let damage := ((damageField d).toNumber host).or (.fin 0)
  let casts := ((castsField d).toNumber host).or (.fin 0)
  let critHits := ((critHitsField d).toNumber host).or (.fin 0)
  let hits := casts
  { id := e.1
    name := ((d.field "displayName").or (d.field "name")).or (.str e.1)
    type := host.toLowerCase (((d.field "type").or (.str "")).toStr host)
    damage := damage
    casts := casts
    hits := hits
    critHits := critHits
    avg := if hits.gtZero then JsNum.div damage hits else .fin 0
    critRate :=
      if hits.gtZero then JsNum.mul (JsNum.div critHits hits) (.fin 100) else .fin 0
    countBreakdown := (d.field "countBreakdown").or .null }

/-- The helper `getClassKey` local to the handler: `String(profession)` in
lower case, looked up as on the client. -/
def sessionClassKey (host : Host) (profession : Val) : String :=
  let p := host.toLowerCase (profession.toStr host)
  if includes p "wind" then "wind_knight"
  else if includes p "storm" then "stormblade"
  else if includes p "frost" then "frost_mage"
  else if includes p "guardian" then "heavy_guardian"
  else if includes p "shield" then "shield_knight"
  else if includes p "mark" then "marksman"
  else if includes p "soul" then "soul_musician"
  else if includes p "verdant" then "verdant_oracle"
  else "default"

/-- The value `items.reduce((s, it) => s + (it.damage || 0), 0) || 1`. -/
def sessionTotal (items : List ServerItem) : JsNum :=
  (items.foldl (fun s it => JsNum.add s (it.damage.or (.fin 0))) (.fin 0)).or (.fin 1)

/-- The payload the handler builds from the entry of the player in the snapshot
and from the skills map it has found for the player (`none` when it found none
or the value is not an object). -/
def sessionPayload (host : Host) (userEntry : Record) (skills : Option SkillMap) :
    ServerPayload :=
  let items :=
    match skills with
    | some skillMap => skillMap.map (sessionItem host)
    | none => []
  { user := userEntry
    items := items
    total := sessionTotal items
    classKey :=
      sessionClassKey host
        ((((userEntry.field "profession").or (userEntry.field "class")).or
          (userEntry.field "professionName")).or (.str "")) }

/-- A skill record whose damage, count and crit count, as the two builders read
them, are numbers that are not negative (a missing field reads as 0). -/
def NumericSkill (d : Record) : Prop :=
  ∃ D H C : ℚ, damageField d = .num D ∧ castsField d = .num H ∧ critHitsField d = .num C ∧
    0 ≤ D ∧ 0 ≤ H ∧ 0 ≤ C

/-! ## Lemmas on objects -/

namespace Obj
variable {α : Type}

theorem get_replace_ne (o : List (String × α)) (k k' : String) (v : α) (h : k' ≠ k) :
    get (replace k v o) k' = get o k' := by
  induction o with
  | nil => rfl
  | cons e rest ih =>
    obtain ⟨a, w⟩ := e
    by_cases ha : a = k
    · subst ha
      have h2 : ¬ a = k' := fun h3 => h h3.symm
      simp [replace, get, h2]
    · simp [replace, get, ha, ih]

theorem get_replace_self (o : List (String × α)) (k : String) (v w : α)
    (h : get o k = some w) : get (replace k v o) k = some v := by
  induction o with
  | nil => simp [get] at h
  | cons e rest ih =>
    obtain ⟨a, u⟩ := e
    by_cases ha : a = k
    · simp [replace, get, ha]
    · simp [get, ha] at h
      simp [replace, get, ha, ih h]

theorem get_insertIndex_ne (o : List (String × α)) (n : Nat) (k k' : String) (v : α)
    (h : k' ≠ k) : get (insertIndex n k v o) k' = get o k' := by
  have h2 : ¬ k = k' := fun h3 => h h3.symm
  induction o with
  | nil => simp [insertIndex, get, h2]
  | cons e rest ih =>
    obtain ⟨a, u⟩ := e
    simp only [insertIndex]
    split
    · split
      · simp [get, ih]
      · simp [get, h2]
    · simp [get, h2]

theorem get_insertIndex_self (o : List (String × α)) (n : Nat) (k : String) (v : α)
    (h : get o k = none) : get (insertIndex n k v o) k = some v := by
  induction o with
  | nil => simp [insertIndex, get]
  | cons e rest ih =>
    obtain ⟨a, u⟩ := e
    by_cases ha : a = k
    · simp [get, ha] at h
    · simp [get, ha] at h
      simp only [insertIndex]
      split
      · split
        · simp [get, ha, ih h]
        · simp [get]
      · simp [get]

theorem get_append (o p : List (String × α)) (k : String) :
    get (o ++ p) k = (get o k).orElse (fun _ => get p k) := by
  induction o with
  | nil => simp [get]
  | cons e rest ih =>
    obtain ⟨a, u⟩ := e
    by_cases ha : a = k
    · simp [get, ha]
    · simp [get, ha, ih]

theorem get_set_self (o : List (String × α)) (k : String) (v : α) :
    get (set o k v) k = some v := by
  unfold set
  split
  · next w hw => exact get_replace_self o k v w hw
  · next hn =>
    split
    · exact get_insertIndex_self o _ k v hn
    · simp [get_append, hn, get]

theorem get_set_ne (o : List (String × α)) (k k' : String) (v : α) (h : k' ≠ k) :
    get (set o k v) k' = get o k' := by
  have h2 : ¬ k = k' := fun h3 => h h3.symm
  unfold set
  split
  · exact get_replace_ne o k k' v h
  · split
    · exact get_insertIndex_ne o _ k k' v h
    · next hn => simp [get_append, get, h2]

theorem replace_eq_self (o : List (String × α)) (k : String) (v : α)
    (h : get o k = some v) : replace k v o = o := by
  induction o with
  | nil => rfl
  | cons e rest ih =>
    obtain ⟨a, u⟩ := e
    by_cases ha : a = k
    · simp [get, ha] at h
      simp [replace, ha, h]
    · simp [get, ha] at h
      simp [replace, ha, ih h]

theorem set_eq_self (o : List (String × α)) (k : String) (v : α)
    (h : get o k = some v) : set o k v = o := by
  unfold set
  rw [h]
  exact replace_eq_self o k v h

theorem get_delete_self (o : List (String × α)) (k : String) :
    get (delete o k) k = none := by
  induction o with
  | nil => rfl
  | cons e rest ih =>
    obtain ⟨a, u⟩ := e
    by_cases ha : a = k
    · simp [delete, ha]
      simpa [delete] using ih
    · simp [delete, ha, get]
      simpa [delete] using ih

theorem get_delete_ne (o : List (String × α)) (k k' : String) (h : k' ≠ k) :
    get (delete o k) k' = get o k' := by
  induction o with
  | nil => rfl
  | cons e rest ih =>
    obtain ⟨a, u⟩ := e
    by_cases ha : a = k
    · subst ha
      have h2 : ¬ a = k' := fun h3 => h h3.symm
      simp only [delete, get, h2] at ih ⊢
      simpa using ih
    · simp [delete, ha, get]
      split
      · rfl
      · simpa [delete] using ih

end Obj
/-! ## Lemmas on double-precision rounding -/

theorem roundHalfEven_intCast (z : ℤ) : roundHalfEven (z : ℚ) = z := by
  simp [roundHalfEven]

/-- An integer below `2 ^ 53` in absolute value is a double. -/
theorem roundDouble_intCast (z : ℤ) (h : |z| < 2 ^ 53) : roundDouble (z : ℚ) = .num z := by
  have habs : |(z : ℚ)| < 2 ^ 53 := by
    have : ((|z| : ℤ) : ℚ) < ((2 ^ 53 : ℤ) : ℚ) := by exact_mod_cast h
    rw [Int.cast_abs] at this
    norm_num at this ⊢
    exact this
  have he : ulpExponent (z : ℚ) ≤ 0 := by
    unfold ulpExponent
    apply max_le
    · by_cases hz : z = 0
      · subst hz; simp
      · have hpos : (0 : ℚ) < |(z : ℚ)| := abs_pos.2 (by exact_mod_cast hz)
        have hlt : |(z : ℚ)| < ((2 : ℕ) : ℚ) ^ (53 : ℤ) := by
          norm_num at habs ⊢
          exact habs
        have := (Int.lt_zpow_iff_log_lt (b := 2) (by norm_num) hpos).1 hlt
        omega
    · norm_num
  obtain ⟨n, hn⟩ : ∃ n : ℕ, ulpExponent (z : ℚ) = -(n : ℤ) :=
    ⟨(-ulpExponent (z : ℚ)).toNat, by omega⟩
  have hq : (z : ℚ) / 2 ^ ulpExponent (z : ℚ) = ((z * 2 ^ n : ℤ) : ℚ) := by
    rw [hn, zpow_neg, zpow_natCast]
    push_cast
    field_simp
  have hy : (roundHalfEven ((z : ℚ) / 2 ^ ulpExponent (z : ℚ)) : ℚ) * 2 ^ ulpExponent (z : ℚ)
      = z := by
    rw [hq, roundHalfEven_intCast, hn, zpow_neg, zpow_natCast]
    push_cast
    field_simp
  unfold roundDouble
  rw [hy]
  have hsmall : ¬ (2 : ℚ) ^ 1024 ≤ |(z : ℚ)| := by
    have h2 : (2 : ℚ) ^ 53 ≤ 2 ^ 1024 := by norm_num
    linarith
  rw [if_neg hsmall]

theorem isDouble_intCast (z : ℤ) (h : |z| < 2 ^ 53) : isDouble (z : ℚ) = true := by
  unfold isDouble
  rw [roundDouble_intCast z h]
  simp

/-- The exponent of the last place of a number between two powers of two, in the
range of the normal doubles. -/
theorem ulpExponent_of_bounds (q : ℚ) (k : ℤ) (h1 : (2 : ℚ) ^ k ≤ |q|)
    (h2 : |q| < (2 : ℚ) ^ (k + 1)) (hk : -1022 ≤ k) : ulpExponent q = k - 52 := by
  unfold ulpExponent
  have hpos : (0 : ℚ) < |q| := lt_of_lt_of_le (by positivity) h1
  have hlog : Int.log 2 |q| = k := by
    apply le_antisymm
    · have := (Int.lt_zpow_iff_log_lt (b := 2) (by norm_num) hpos).1 (by exact_mod_cast h2)
      omega
    · exact (Int.zpow_le_iff_le_log (b := 2) (by norm_num) hpos).1 (by exact_mod_cast h1)
  rw [hlog]
  omega

/-- Adding 1 to `2 ^ 53` in double precision gives `2 ^ 53`. -/
theorem roundDouble_two_pow_53_add_one :
    roundDouble ((9007199254740992 : ℚ) + 1) = .num 9007199254740992 := by
  have he : ulpExponent ((9007199254740992 : ℚ) + 1) = 1 := by
    rw [ulpExponent_of_bounds _ 53 (by norm_num [abs_of_pos]) (by norm_num [abs_of_pos])
      (by norm_num)]
    norm_num
  have hfl : ⌊((9007199254740992 : ℚ) + 1) / 2 ^ (1 : ℤ)⌋ = 4503599627370496 := by
    rw [Int.floor_eq_iff]
    norm_num
  have hr : roundHalfEven (((9007199254740992 : ℚ) + 1) / 2 ^ (1 : ℤ)) = 4503599627370496 := by
    unfold roundHalfEven
    rw [hfl]
    norm_num
  unfold roundDouble
  rw [he, hr]
  norm_num
/-! ## Lemmas on one iteration of the merge loop -/

theorem mem_setAdd (s : List String) (id x : String) :
    x ∈ setAdd s id ↔ x ∈ s ∨ x = id := by
  unfold setAdd
  split
  · next h =>
    constructor
    · intro hx; exact Or.inl hx
    · rintro (hx | hx)
      · exact hx
      · rw [hx]; exact h
  · simp

theorem get_consume (keep : String) (st : MergeState) (a id : String) :
    Obj.get (consume keep st a).result.own id =
      if id = a ∧ a ≠ keep then none else Obj.get st.result.own id := by
  unfold consume
  by_cases ha : a = keep
  · simp [ha]
  · by_cases hid : id = a
    · subst hid
      simp [ha, ResultObject.remove, Obj.get_delete_self]
    · simp [ha, hid, ResultObject.remove, Obj.get_delete_ne _ _ _ hid]

theorem proto_consume (keep : String) (st : MergeState) (a : String) :
    (consume keep st a).result.proto = st.result.proto := by
  unfold consume
  by_cases ha : a = keep
  · simp [ha]
  · simp [ha, ResultObject.remove]

theorem get_foldl_consume (keep : String) (l : List String) (st : MergeState)
    (id : String) :
    Obj.get (l.foldl (consume keep) st).result.own id =
      if id ∈ l ∧ id ≠ keep then none else Obj.get st.result.own id := by
  induction l generalizing st with
  | nil => simp
  | cons a rest ih =>
    rw [List.foldl_cons, ih, get_consume]
    by_cases h1 : id = a
    · subst h1
      by_cases h2 : id = keep
      · simp [h2]
      · simp [h2]
    · by_cases h2 : id ∈ rest
      · simp [h1, h2]
      · simp [h1, h2]

theorem proto_foldl_consume (keep : String) (l : List String) (st : MergeState) :
    (l.foldl (consume keep) st).result.proto = st.result.proto := by
  induction l generalizing st with
  | nil => rfl
  | cons a rest ih => rw [List.foldl_cons, ih, proto_consume]

theorem mem_foldl_consume (keep : String) (l : List String) (st : MergeState)
    (x : String) :
    x ∈ (l.foldl (consume keep) st).mergedIds ↔ x ∈ st.mergedIds ∨ x ∈ l := by
  induction l generalizing st with
  | nil => simp
  | cons a rest ih =>
    rw [List.foldl_cons, ih]
    simp only [consume, mem_setAdd, List.mem_cons]
    tauto

/-- The working map holds an own entry: the read gives that record. -/
theorem read_of_own (R : ResultObject) (id : String) (r : Record)
    (h : Obj.get R.own id = some r) : R.read id = .obj r := by
  simp [ResultObject.read, h]

/-- Without an installed prototype, `result[id]` is truthy exactly for an own
entry and for a name inherited from `Object.prototype`. -/
theorem truthy_read_of_proto_none (R : ResultObject) (h : R.proto = none) (id : String) :
    (R.read id).truthy = (Obj.has R.own id || inheritedName id) := by
  unfold ResultObject.read Obj.has
  cases hg : Obj.get R.own id with
  | some r => simp [Val.truthy]
  | none =>
    simp only [h, Option.bind_none, Option.isSome_none, Bool.false_or]
    unfold inheritedValue inheritedName
    by_cases h1 : id = "__proto__"
    · simp [h1, Val.truthy]
    · by_cases h2 : id ∈ objectPrototypeMethods
      · simp [h1, h2, Val.truthy]
      · simp [h1, h2, Val.truthy]

theorem mem_presentMembers (R : ResultObject) (e : String × List String) (id : String) :
    id ∈ presentMembers R e ↔ (id = e.1 ∨ id ∈ e.2) ∧ (R.read id).truthy = true := by
  simp [presentMembers]

/-- When a group has a present member, the id it is kept under is the head of
the list of present members. -/
theorem keepIdOf_eq_first (R : ResultObject) (e : String × List String)
    (first : String) (more : List String)
    (hg : presentMembers R e = first :: more) : keepIdOf R e.1 first = first := by
  unfold keepIdOf
  split
  · next h =>
    simp only [presentMembers, List.filter_cons, h, if_true] at hg
    exact (List.cons.inj hg).1
  · rfl

theorem mergeGroup_of_empty (nts : ℚ → String) (W : Option (List String))
    (st : MergeState) (e : String × List String)
    (hg : presentMembers st.result e = []) : mergeGroup nts W st e = st := by
  simp [mergeGroup, hg]

theorem mergeGroup_of_conflict (nts : ℚ → String) (W : Option (List String))
    (st : MergeState) (e : String × List String) (id : String)
    (hid : id ∈ presentMembers st.result e) (hm : id ∈ st.mergedIds) :
    mergeGroup nts W st e = st := by
  unfold mergeGroup
  split
  · rfl
  · next first more hg =>
    rw [hg] at hid
    have : (first :: more).any (fun id => decide (id ∈ st.mergedIds)) = true := by
      rw [List.any_eq_true]
      exact ⟨id, hid, by simpa using hm⟩
    rw [if_pos this]

theorem mergeGroup_of_merged (nts : ℚ → String) (W : Option (List String))
    (st : MergeState) (e : String × List String) (first : String) (more : List String)
    (hg : presentMembers st.result e = first :: more)
    (hfree : ∀ id ∈ first :: more, id ∉ st.mergedIds) :
    mergeGroup nts W st e =
      (first :: more).foldl (consume first)
        { result := st.result.assign first
            (mergedRecord nts W st.result first (first :: more)),
          mergedIds := st.mergedIds } := by
  have hany : (first :: more).any (fun id => decide (id ∈ st.mergedIds)) = false := by
    rw [List.any_eq_false]
    intro x hx
    simpa using hfree x hx
  unfold mergeGroup
  rw [hg]
  simp only [hany, keepIdOf_eq_first st.result e first more hg]
  rfl

/-- Every iteration of the loop is one of three things: the group has no
present member, or a present member was consumed before (both leave the state
alone), or the group is merged. -/
theorem mergeGroup_cases (nts : ℚ → String) (W : Option (List String))
    (st : MergeState) (e : String × List String) :
    (presentMembers st.result e = [] ∧ mergeGroup nts W st e = st) ∨
    ((∃ id ∈ presentMembers st.result e, id ∈ st.mergedIds) ∧
      mergeGroup nts W st e = st) ∨
    (∃ first more, presentMembers st.result e = first :: more ∧
      (∀ id ∈ first :: more, id ∉ st.mergedIds) ∧
      mergeGroup nts W st e =
        (first :: more).foldl (consume first)
          { result := st.result.assign first
              (mergedRecord nts W st.result first (first :: more)),
            mergedIds := st.mergedIds }) := by
  cases hg : presentMembers st.result e with
  | nil => exact Or.inl ⟨rfl, mergeGroup_of_empty nts W st e hg⟩
  | cons first more =>
    by_cases hc : ∃ id ∈ first :: more, id ∈ st.mergedIds
    · obtain ⟨id, hid, hm⟩ := hc
      exact Or.inr (Or.inl ⟨⟨id, hid, hm⟩,
        mergeGroup_of_conflict nts W st e id (hg ▸ hid) hm⟩)
    · have hfree : ∀ id ∈ first :: more, id ∉ st.mergedIds :=
        fun id hid hm => hc ⟨id, hid, hm⟩
      exact Or.inr (Or.inr ⟨first, more, rfl, hfree,
        mergeGroup_of_merged nts W st e first more hg hfree⟩)

/-- The assignment reaches the setter only for the name `__proto__`, and only
when `result` has no own entry of that name. -/
theorem reachesSetter_imp (R : ResultObject) (k : String) (h : R.reachesSetter k = true) :
    k = "__proto__" ∧ Obj.get R.own k = none ∧ R.proto.bind (fun m => Obj.get m k) = none := by
  unfold ResultObject.reachesSetter at h
  simp only [Bool.and_eq_true, decide_eq_true_eq, Bool.not_eq_true', Obj.has,
    Option.isNone_iff_eq_none] at h
  refine ⟨h.1.1, ?_, h.2⟩
  cases hg : Obj.get R.own k with
  | none => rfl
  | some r => rw [hg] at h; simp at h

theorem reachesSetter_of_ne (R : ResultObject) (k : String) (h : k ≠ "__proto__") :
    R.reachesSetter k = false := by
  simp [ResultObject.reachesSetter, h]

theorem get_assign (R : ResultObject) (k : String) (m : Record) (id : String) :
    Obj.get (R.assign k m).own id =
      if id = k ∧ R.reachesSetter k = false then some m else Obj.get R.own id := by
  unfold ResultObject.assign
  cases hs : R.reachesSetter k with
  | true => simp
  | false =>
    by_cases hid : id = k
    · subst hid
      simp [Obj.get_set_self]
    · simp [hid, Obj.get_set_ne _ _ _ _ hid]

theorem proto_assign (R : ResultObject) (k : String) (m : Record) :
    (R.assign k m).proto = if R.reachesSetter k = true then some m else R.proto := by
  unfold ResultObject.assign
  cases hs : R.reachesSetter k <;> simp

/-- What a merged group leaves in the own entries of the map: the merged record
under the kept id (nothing, when the assignment reached the setter), nothing
under the other present members, every other id untouched. -/
theorem get_mergeGroup_merged (nts : ℚ → String) (W : Option (List String))
    (st : MergeState) (e : String × List String) (first : String) (more : List String)
    (hg : presentMembers st.result e = first :: more)
    (hfree : ∀ id ∈ first :: more, id ∉ st.mergedIds) (id : String) :
    Obj.get (mergeGroup nts W st e).result.own id =
      if id = first then
        (if st.result.reachesSetter first = true then none
         else some (mergedRecord nts W st.result first (first :: more)))
      else if id ∈ more then none else Obj.get st.result.own id := by
  rw [mergeGroup_of_merged nts W st e first more hg hfree, get_foldl_consume, get_assign]
  by_cases h1 : id = first
  · subst h1
    cases hs : st.result.reachesSetter id with
    | true => simp [(reachesSetter_imp _ _ hs).2.1]
    | false => simp
  · simp [h1]

theorem proto_mergeGroup_merged (nts : ℚ → String) (W : Option (List String))
    (st : MergeState) (e : String × List String) (first : String) (more : List String)
    (hg : presentMembers st.result e = first :: more)
    (hfree : ∀ id ∈ first :: more, id ∉ st.mergedIds) :
    (mergeGroup nts W st e).result.proto =
      if st.result.reachesSetter first = true then
        some (mergedRecord nts W st.result first (first :: more))
      else st.result.proto := by
  rw [mergeGroup_of_merged nts W st e first more hg hfree, proto_foldl_consume, proto_assign]

theorem mem_mergedIds_mergeGroup_merged (nts : ℚ → String) (W : Option (List String))
    (st : MergeState) (e : String × List String) (first : String) (more : List String)
    (hg : presentMembers st.result e = first :: more)
    (hfree : ∀ id ∈ first :: more, id ∉ st.mergedIds) (x : String) :
    x ∈ (mergeGroup nts W st e).mergedIds ↔ x ∈ st.mergedIds ∨ x ∈ first :: more := by
  rw [mergeGroup_of_merged nts W st e first more hg hfree, mem_foldl_consume]

/-- An id that is not a present member of the group keeps its entry through the
iteration. -/
theorem get_mergeGroup_of_not_present (nts : ℚ → String) (W : Option (List String))
    (st : MergeState) (e : String × List String) (id : String)
    (hid : id ∉ presentMembers st.result e) :
    Obj.get (mergeGroup nts W st e).result.own id = Obj.get st.result.own id := by
  rcases mergeGroup_cases nts W st e with ⟨_, h⟩ | ⟨_, h⟩ | ⟨first, more, hg, hfree, _⟩
  · rw [h]
  · rw [h]
  · rw [get_mergeGroup_merged nts W st e first more hg hfree]
    rw [hg] at hid
    simp only [List.mem_cons, not_or] at hid
    simp [hid.1, hid.2]

/-- An entry of the map after an iteration was an entry before it, or its id
read truthy before it (the id the group is kept under). -/
theorem truthy_of_has_mergeGroup (nts : ℚ → String) (W : Option (List String))
    (st : MergeState) (e : String × List String) (id : String)
    (h : Obj.has (mergeGroup nts W st e).result.own id = true) :
    (st.result.read id).truthy = true := by
  by_cases hid : id ∈ presentMembers st.result e
  · exact ((mem_presentMembers st.result e id).1 hid).2
  · unfold Obj.has at h
    rw [get_mergeGroup_of_not_present nts W st e id hid] at h
    obtain ⟨r, hr⟩ := Option.isSome_iff_exists.1 h
    rw [read_of_own _ _ _ hr]
    rfl

theorem mergedIds_subset_mergeGroup (nts : ℚ → String) (W : Option (List String))
    (st : MergeState) (e : String × List String) (x : String)
    (h : x ∈ st.mergedIds) : x ∈ (mergeGroup nts W st e).mergedIds := by
  rcases mergeGroup_cases nts W st e with ⟨_, h2⟩ | ⟨_, h2⟩ | ⟨first, more, hg, hfree, _⟩
  · rwa [h2]
  · rwa [h2]
  · rw [mem_mergedIds_mergeGroup_merged nts W st e first more hg hfree]
    exact Or.inl h

/-- An id consumed by an earlier group is not touched by a later iteration. -/
theorem get_mergeGroup_of_mem_mergedIds (nts : ℚ → String) (W : Option (List String))
    (st : MergeState) (e : String × List String) (id : String)
    (h : id ∈ st.mergedIds) :
    Obj.get (mergeGroup nts W st e).result.own id = Obj.get st.result.own id := by
  rcases mergeGroup_cases nts W st e with ⟨_, h2⟩ | ⟨_, h2⟩ | ⟨first, more, hg, hfree, _⟩
  · rw [h2]
  · rw [h2]
  · apply get_mergeGroup_of_not_present
    rw [hg]
    intro hid
    exact hfree id hid h

/-- An id that no group has consumed so far still has the entry it had. -/
theorem get_mergeGroup_of_not_mem_mergedIds (nts : ℚ → String)
    (W : Option (List String)) (st : MergeState) (e : String × List String)
    (id : String) (h : id ∉ (mergeGroup nts W st e).mergedIds) :
    Obj.get (mergeGroup nts W st e).result.own id = Obj.get st.result.own id := by
  rcases mergeGroup_cases nts W st e with ⟨_, h2⟩ | ⟨_, h2⟩ | ⟨first, more, hg, hfree, _⟩
  · rw [h2]
  · rw [h2]
  · apply get_mergeGroup_of_not_present
    rw [hg]
    intro hid
    apply h
    rw [mem_mergedIds_mergeGroup_merged nts W st e first more hg hfree]
    exact Or.inr hid

/-- The prototype of `result` changes only when a group is kept under
`__proto__`. -/
theorem proto_mergeGroup_of_not_listed (nts : ℚ → String) (W : Option (List String))
    (st : MergeState) (e : String × List String)
    (h : "__proto__" ≠ e.1 ∧ "__proto__" ∉ e.2) :
    (mergeGroup nts W st e).result.proto = st.result.proto := by
  rcases mergeGroup_cases nts W st e with ⟨_, h2⟩ | ⟨_, h2⟩ | ⟨first, more, hg, hfree, _⟩
  · rw [h2]
  · rw [h2]
  · rw [proto_mergeGroup_merged nts W st e first more hg hfree]
    have hmem : first ∈ presentMembers st.result e := by rw [hg]; exact List.mem_cons_self _ _
    have h1 := ((mem_presentMembers st.result e first).1 hmem).1
    have hne : first ≠ "__proto__" := by
      rintro rfl
      rcases h1 with h1 | h1
      · exact h.1 h1
      · exact h.2 h1
    simp [reachesSetter_of_ne _ _ hne]

/-- Once a group was kept under `__proto__`, the prototype of `result` stays. -/
theorem proto_mergeGroup_of_mem_mergedIds (nts : ℚ → String) (W : Option (List String))
    (st : MergeState) (e : String × List String)
    (h : "__proto__" ∈ st.mergedIds) :
    (mergeGroup nts W st e).result.proto = st.result.proto := by
  rcases mergeGroup_cases nts W st e with ⟨_, h2⟩ | ⟨_, h2⟩ | ⟨first, more, hg, hfree, _⟩
  · rw [h2]
  · rw [h2]
  · rw [proto_mergeGroup_merged nts W st e first more hg hfree]
    have hne : first ≠ "__proto__" := by
      rintro rfl
      exact hfree _ (List.mem_cons_self _ _) h
    simp [reachesSetter_of_ne _ _ hne]

/-! ## Lemmas on the whole loop -/

theorem mergeSkills_some (nts : ℚ → String) (W : Option (List String)) (S : SkillMap)
    (G : MergeMap) :
    mergeSkills nts (some S) G W = (mergeLoop nts W (initState S) G).result.own := rfl

theorem mergeLoop_nil (nts : ℚ → String) (W : Option (List String)) (st : MergeState) :
    mergeLoop nts W st [] = st := rfl

theorem mergeLoop_cons (nts : ℚ → String) (W : Option (List String)) (st : MergeState)
    (e : String × List String) (G : MergeMap) :
    mergeLoop nts W st (e :: G) = mergeLoop nts W (mergeGroup nts W st e) G := rfl

theorem mergeLoop_append (nts : ℚ → String) (W : Option (List String)) (st : MergeState)
    (G H : MergeMap) :
    mergeLoop nts W st (G ++ H) = mergeLoop nts W (mergeLoop nts W st G) H := by
  simp [mergeLoop, List.foldl_append]

theorem mergedIds_subset_mergeLoop (nts : ℚ → String) (W : Option (List String))
    (G : MergeMap) (st : MergeState) (x : String) (h : x ∈ st.mergedIds) :
    x ∈ (mergeLoop nts W st G).mergedIds := by
  induction G generalizing st with
  | nil => exact h
  | cons e G ih =>
    rw [mergeLoop_cons]
    exact ih _ (mergedIds_subset_mergeGroup nts W st e x h)

theorem get_mergeLoop_of_mem_mergedIds (nts : ℚ → String) (W : Option (List String))
    (G : MergeMap) (st : MergeState) (id : String) (h : id ∈ st.mergedIds) :
    Obj.get (mergeLoop nts W st G).result.own id = Obj.get st.result.own id := by
  induction G generalizing st with
  | nil => rfl
  | cons e G ih =>
    rw [mergeLoop_cons, ih _ (mergedIds_subset_mergeGroup nts W st e id h)]
    exact get_mergeGroup_of_mem_mergedIds nts W st e id h

theorem get_mergeLoop_of_not_mem_mergedIds (nts : ℚ → String) (W : Option (List String))
    (G : MergeMap) (st : MergeState) (id : String)
    (h : id ∉ (mergeLoop nts W st G).mergedIds) :
    Obj.get (mergeLoop nts W st G).result.own id = Obj.get st.result.own id := by
  induction G generalizing st with
  | nil => rfl
  | cons e G ih =>
    rw [mergeLoop_cons] at h ⊢
    rw [ih _ h]
    apply get_mergeGroup_of_not_mem_mergedIds
    intro hm
    exact h (mergedIds_subset_mergeLoop nts W G _ id hm)

theorem get_mergeLoop_of_not_listed (nts : ℚ → String) (W : Option (List String))
    (G : MergeMap) (st : MergeState) (id : String)
    (h : ∀ e ∈ G, id ≠ e.1 ∧ id ∉ e.2) :
    Obj.get (mergeLoop nts W st G).result.own id = Obj.get st.result.own id := by
  induction G generalizing st with
  | nil => rfl
  | cons e G ih =>
    rw [mergeLoop_cons, ih _ (fun e' he' => h e' (List.mem_cons_of_mem _ he'))]
    apply get_mergeGroup_of_not_present
    intro hid
    have h1 := ((mem_presentMembers st.result e id).1 hid).1
    have h2 := h e (List.mem_cons_self _ _)
    rcases h1 with h1 | h1
    · exact h2.1 h1
    · exact h2.2 h1

theorem proto_mergeLoop_of_not_listed (nts : ℚ → String) (W : Option (List String))
    (G : MergeMap) (st : MergeState)
    (h : ∀ e ∈ G, "__proto__" ≠ e.1 ∧ "__proto__" ∉ e.2) :
    (mergeLoop nts W st G).result.proto = st.result.proto := by
  induction G generalizing st with
  | nil => rfl
  | cons e G ih =>
    rw [mergeLoop_cons, ih _ (fun e' he' => h e' (List.mem_cons_of_mem _ he'))]
    exact proto_mergeGroup_of_not_listed nts W st e (h e (List.mem_cons_self _ _))

theorem proto_mergeLoop_of_mem_mergedIds (nts : ℚ → String) (W : Option (List String))
    (G : MergeMap) (st : MergeState) (h : "__proto__" ∈ st.mergedIds) :
    (mergeLoop nts W st G).result.proto = st.result.proto := by
  induction G generalizing st with
  | nil => rfl
  | cons e G ih =>
    rw [mergeLoop_cons, ih _ (mergedIds_subset_mergeGroup nts W st e _ h)]
    exact proto_mergeGroup_of_mem_mergedIds nts W st e h

/-- In a table that does not list `__proto__`, an entry of the map after the
loop was an entry before it or is a name inherited from `Object.prototype`. -/
theorem has_of_has_mergeLoop (nts : ℚ → String) (W : Option (List String))
    (G : MergeMap) (st : MergeState) (id : String)
    (hp : st.result.proto = none)
    (hG : ∀ e ∈ G, "__proto__" ≠ e.1 ∧ "__proto__" ∉ e.2)
    (h : Obj.has (mergeLoop nts W st G).result.own id = true) :
    Obj.has st.result.own id = true ∨ inheritedName id = true := by
  induction G generalizing st with
  | nil => exact Or.inl h
  | cons e G ih =>
    rw [mergeLoop_cons] at h
    have hp1 : (mergeGroup nts W st e).result.proto = none := by
      rw [proto_mergeGroup_of_not_listed nts W st e (hG e (List.mem_cons_self _ _)), hp]
    rcases ih _ hp1 (fun e' he' => hG e' (List.mem_cons_of_mem _ he')) h with h1 | h1
    · have h2 := truthy_of_has_mergeGroup nts W st e id h1
      rw [truthy_read_of_proto_none _ hp] at h2
      simpa using h2
    · exact Or.inr h1

theorem get_copySkills (S : SkillMap) (id : String) :
    Obj.get (copySkills S) id = Obj.get S id := by
  induction S with
  | nil => rfl
  | cons e rest ih =>
    obtain ⟨a, r⟩ := e
    simp only [copySkills, List.map_cons, Obj.get, spread, Option.getD_some]
    split
    · rfl
    · exact ih

theorem copySkills_eq (S : SkillMap) : copySkills S = S := by
  induction S with
  | nil => rfl
  | cons e rest ih =>
    simp only [copySkills, List.map_cons, spread, Option.getD_some] at ih ⊢
    rw [ih]
/-! ## Merging an already merged map -/

theorem delete_eq_self_of_get_none {α : Type} (o : List (String × α)) (k : String)
    (h : Obj.get o k = none) : Obj.delete o k = o := by
  induction o with
  | nil => rfl
  | cons e rest ih =>
    obtain ⟨a, v⟩ := e
    by_cases ha : a = k
    · simp [Obj.get, ha] at h
    · simp only [Obj.get, ha, if_false] at h
      simp only [Obj.delete, List.filter_cons, ne_eq, ha, not_false_eq_true, decide_True,
        if_true, List.cons.injEq, true_and]
      exact ih h

/-- Deleting ids that `result` does not own, the kept id apart, leaves `result`
as it is. -/
theorem foldl_consume_result_of_none (keep : String) (l : List String)
    (st : MergeState) (h : ∀ id ∈ l, id ≠ keep → Obj.get st.result.own id = none) :
    (l.foldl (consume keep) st).result = st.result := by
  induction l generalizing st with
  | nil => rfl
  | cons a rest ih =>
    have hstep : (consume keep st a).result = st.result := by
      unfold consume
      by_cases ha : a = keep
      · simp [ha]
      · simp only [ne_eq, ha, not_false_eq_true, if_true, ResultObject.remove]
        rw [delete_eq_self_of_get_none _ _ (h a (List.mem_cons_self _ _) ha)]
    rw [List.foldl_cons, ih, hstep]
    intro id hid hne
    rw [hstep]
    exact h id (List.mem_cons_of_mem _ hid) hne

/-- Members that are the kept id or read an object without entries add nothing
to `merged`. -/
theorem foldl_addMember_of_no_entries (nts : ℚ → String) (W : Option (List String))
    (R : ResultObject) (keep : String) (l : List String) (m : Record)
    (h : ∀ id ∈ l, id ≠ keep → (R.read id).ownEntries = []) :
    l.foldl (addMember nts W R keep) m = m := by
  induction l generalizing m with
  | nil => rfl
  | cons a rest ih =>
    rw [List.foldl_cons, ih _ (fun id hid => h id (List.mem_cons_of_mem _ hid))]
    unfold addMember
    by_cases ha : a = keep
    · simp [ha]
    · simp [ha, h a (List.mem_cons_self _ _) ha]

theorem isSome_get_set {α : Type} (o : List (String × α)) (k k' : String) (v : α)
    (h : (Obj.get o k').isSome = true) : (Obj.get (Obj.set o k v) k').isSome = true := by
  by_cases hk : k' = k
  · subst hk
    rw [Obj.get_set_self]
    rfl
  · rwa [Obj.get_set_ne _ _ _ _ hk]

theorem isSome_get_addField (nts : ℚ → String) (W : Option (List String))
    (m : Record) (kv : String × Val) (k : String)
    (h : (Obj.get m k).isSome = true) :
    (Obj.get (addField nts W m kv) k).isSome = true := by
  unfold addField
  split
  · split
    · exact h
    · split
      · exact h
      · split
        · exact isSome_get_set _ _ _ _ h
        · exact isSome_get_set _ _ _ _ h
  · exact h

theorem isSome_get_foldl_addField (nts : ℚ → String) (W : Option (List String))
    (src : Record) (m : Record) (k : String) (h : (Obj.get m k).isSome = true) :
    (Obj.get (src.foldl (addField nts W) m) k).isSome = true := by
  induction src generalizing m with
  | nil => exact h
  | cons kv rest ih =>
    rw [List.foldl_cons]
    exact ih _ (isSome_get_addField nts W m kv k h)

theorem isSome_get_addMember (nts : ℚ → String) (W : Option (List String))
    (R : ResultObject) (keep : String) (m : Record) (id k : String)
    (h : (Obj.get m k).isSome = true) :
    (Obj.get (addMember nts W R keep m id) k).isSome = true := by
  unfold addMember
  split
  · exact h
  · split
    · exact isSome_get_foldl_addField nts W _ m k h
    · exact h

theorem isSome_get_foldl_addMember (nts : ℚ → String) (W : Option (List String))
    (R : ResultObject) (keep : String) (l : List String) (m : Record) (k : String)
    (h : (Obj.get m k).isSome = true) :
    (Obj.get (l.foldl (addMember nts W R keep) m) k).isSome = true := by
  induction l generalizing m with
  | nil => exact h
  | cons a rest ih =>
    rw [List.foldl_cons]
    exact ih _ (isSome_get_addMember nts W R keep m a k h)

/-- The record built for a group always has a `displayName` property. -/
theorem isSome_displayName_mergedRecord (nts : ℚ → String) (W : Option (List String))
    (R : ResultObject) (keep : String) (group : List String) :
    (Obj.get (mergedRecord nts W R keep group) "displayName").isSome = true := by
  unfold mergedRecord
  apply isSome_get_foldl_addMember
  rw [Obj.get_set_self]
  rfl

theorem Val.orElse_self (v : Val) : v.orElse v = v := by
  cases v <;> rfl

/-- Rebuilding the record of a group from a kept record that already has a
`displayName` property, when no other member has an entry to add, gives the
same record. -/
theorem mergedRecord_of_no_entries (nts : ℚ → String) (W : Option (List String))
    (R : ResultObject) (keep : String) (group : List String) (m : Record)
    (hm : Obj.get R.own keep = some m)
    (hd : (Obj.get m "displayName").isSome = true)
    (hall : ∀ id ∈ group, id ≠ keep → (R.read id).ownEntries = []) :
    mergedRecord nts W R keep group = m := by
  unfold mergedRecord
  rw [foldl_addMember_of_no_entries nts W R keep group _ hall, read_of_own _ _ _ hm]
  obtain ⟨v, hv⟩ := Option.isSome_iff_exists.1 hd
  apply Obj.set_eq_self
  simp [Val.ownEntries, Val.optProp, Val.prop, Record.field, hv, Val.orElse_self]

theorem mergeLoop_of_empty_result (nts : ℚ → String) (W : Option (List String))
    (G : MergeMap) (M : List String)
    (hG : ∀ e ∈ G, ∀ id ∈ e.1 :: e.2, inheritedName id = false) :
    mergeLoop nts W { result := { own := [], proto := none }, mergedIds := M } G
      = { result := { own := [], proto := none }, mergedIds := M } := by
  induction G with
  | nil => rfl
  | cons e G ih =>
    rw [mergeLoop_cons, mergeGroup_of_empty, ih (fun e' he' => hG e' (List.mem_cons_of_mem _ he'))]
    simp only [presentMembers, List.filter_eq_nil_iff]
    intro a ha
    rw [truthy_read_of_proto_none _ rfl, hG e (List.mem_cons_self _ _) a ha]
    simp [Obj.has, Obj.get]

/-- The head of a filtered list stays the head under a stronger filter that
keeps it; what follows it is among what followed it. -/
theorem filter_head_of_imp {α : Type} (p q : α → Bool) (l : List α) (a : α) (m : List α)
    (h : l.filter p = a :: m) (himp : ∀ x ∈ l, q x = true → p x = true) (ha : q a = true) :
    ∃ m', l.filter q = a :: m' ∧ ∀ x ∈ m', x ∈ m := by
  induction l with
  | nil => simp at h
  | cons b rest ih =>
    by_cases hb : p b = true
    · simp only [List.filter_cons, hb, if_true] at h
      have hba : b = a := (List.cons.inj h).1
      have hrest : rest.filter p = m := (List.cons.inj h).2
      subst hba
      refine ⟨rest.filter q, by simp [List.filter_cons, ha], ?_⟩
      intro x hx
      rw [← hrest]
      have hx2 := List.mem_filter.1 hx
      exact List.mem_filter.2 ⟨hx2.1, himp x (List.mem_cons_of_mem _ hx2.1) hx2.2⟩
    · have hqb : q b = false := by
        cases hq : q b with
        | false => rfl
        | true => exact absurd (himp b (List.mem_cons_self _ _) hq) hb
      simp only [List.filter_cons, hb] at h
      obtain ⟨m', hm', hsub⟩ := ih h (fun x hx => himp x (List.mem_cons_of_mem _ hx))
      exact ⟨m', by simp [List.filter_cons, hqb, hm'], hsub⟩

/-- Without an installed prototype, what `result[id]` reads for an id that
`result` does not own has no entries. -/
theorem ownEntries_read_of_not_own (R : ResultObject) (hp : R.proto = none) (id : String)
    (h : Obj.get R.own id = none) : (R.read id).ownEntries = [] := by
  unfold ResultObject.read inheritedValue
  rw [h, hp]
  simp only [Option.bind_none, Option.getD_none]
  by_cases h1 : id = "__proto__"
  · simp [h1, Val.ownEntries]
  · by_cases h2 : id ∈ objectPrototypeMethods
    · simp [h1, h2, Val.ownEntries]
    · simp [h1, h2, Val.ownEntries]

/-- Running the loop again over the map it produced, with a consumed set that
agrees with the first run on the ids that read truthy, changes nothing, when
the table does not list `__proto__`. -/
theorem mergeLoop_stable (nts : ℚ → String) (W : Option (List String)) (G : MergeMap) :
    ∀ (st : MergeState) (M' : List String),
      st.result.proto = none →
      (∀ e ∈ G, "__proto__" ≠ e.1 ∧ "__proto__" ∉ e.2) →
      (∀ k, (st.result.read k).truthy = true → (k ∈ st.mergedIds ↔ k ∈ M')) →
      (mergeLoop nts W { result := (mergeLoop nts W st G).result, mergedIds := M' } G).result
        = (mergeLoop nts W st G).result := by
  induction G with
  | nil => intro st M' _ _ _; rfl
  | cons e G ih =>
    intro st M' hp hG H
    have hGe := hG e (List.mem_cons_self _ _)
    have hGr : ∀ e' ∈ G, "__proto__" ≠ e'.1 ∧ "__proto__" ∉ e'.2 :=
      fun e' he' => hG e' (List.mem_cons_of_mem _ he')
    rw [mergeLoop_cons nts W st]
    rw [mergeLoop_cons]
    have hp1 : (mergeGroup nts W st e).result.proto = none := by
      rw [proto_mergeGroup_of_not_listed nts W st e hGe, hp]
    have hpf : (mergeLoop nts W (mergeGroup nts W st e) G).result.proto = none := by
      rw [proto_mergeLoop_of_not_listed nts W G _ hGr, hp1]
    -- a member that reads truthy in the final map read truthy when the group's turn came
    have hback : ∀ id, (id = e.1 ∨ id ∈ e.2) →
        ((mergeLoop nts W (mergeGroup nts W st e) G).result.read id).truthy = true →
        (st.result.read id).truthy = true := by
      intro id _ hid
      rw [truthy_read_of_proto_none _ hpf] at hid
      rcases Bool.or_eq_true _ _ ▸ hid with h1 | h1
      · rcases has_of_has_mergeLoop nts W G _ id hp1 hGr h1 with h2 | h2
        · exact truthy_of_has_mergeGroup nts W st e id h2
        · rw [truthy_read_of_proto_none _ hp, h2]; simp
      · rw [truthy_read_of_proto_none _ hp, h1]; simp
    rcases mergeGroup_cases nts W st e with ⟨hg, h⟩ | ⟨⟨id, hid, hm⟩, h⟩ |
      ⟨first, more, hg, hfree, _⟩
    · -- no member reads truthy: none does in the final map either
      rw [h] at hback ⊢
      rw [mergeGroup_of_empty]
      · exact ih st M' hp hGr H
      · simp only [presentMembers, List.filter_eq_nil_iff] at hg ⊢
        intro a ha hhas
        exact hg a ha (hback a (by simpa using ha) hhas)
    · -- a present member was consumed before: it still reads truthy and is consumed
      rw [h]
      rw [mergeGroup_of_conflict nts W _ e id]
      · exact ih st M' hp hGr H
      · have h1 := (mem_presentMembers st.result e id).1 hid
        rw [mem_presentMembers]
        refine ⟨h1.1, ?_⟩
        have h2 := h1.2
        rw [truthy_read_of_proto_none _ hp] at h2
        rw [h] at hpf
        rw [truthy_read_of_proto_none _ hpf]
        rcases Bool.or_eq_true _ _ ▸ h2 with h3 | h3
        · simp only [Obj.has] at h3 ⊢
          rw [get_mergeLoop_of_mem_mergedIds nts W G st id hm, h3]
          rfl
        · rw [h3]; simp
      · exact (H id ((mem_presentMembers st.result e id).1 hid).2).1 hm
    · -- the group was merged: of its ids, the final map owns the kept one only
      have hfirstmem : first ∈ presentMembers st.result e := by
        rw [hg]; exact List.mem_cons_self _ _
      have hfirstin := ((mem_presentMembers st.result e first).1 hfirstmem)
      have hne : first ≠ "__proto__" := by
        rintro rfl
        rcases hfirstin.1 with h1 | h1
        · exact hGe.1 h1
        · exact hGe.2 h1
      have hns : st.result.reachesSetter first = false := reachesSetter_of_ne _ _ hne
      have hget := get_mergeGroup_merged nts W st e first more hg hfree
      have hmem := mem_mergedIds_mergeGroup_merged nts W st e first more hg hfree
      generalize hst1 : mergeGroup nts W st e = st1 at hget hmem hp1 hpf hback ⊢
      have hfirst1 : first ∈ st1.mergedIds := (hmem first).2 (Or.inr (List.mem_cons_self _ _))
      have hkept : Obj.get (mergeLoop nts W st1 G).result.own first =
          some (mergedRecord nts W st.result first (first :: more)) := by
        rw [get_mergeLoop_of_mem_mergedIds nts W G st1 first hfirst1, hget]
        simp [hns]
      -- the other ids of the group are not owned by the final map
      have hgone : ∀ id ∈ more, id ≠ first →
          Obj.get (mergeLoop nts W st1 G).result.own id = none := by
        intro id hid hidne
        rw [get_mergeLoop_of_mem_mergedIds nts W G st1 id
          ((hmem id).2 (Or.inr (List.mem_cons_of_mem _ hid))), hget]
        simp [hidne, hid]
      have hfirstq : ((mergeLoop nts W st1 G).result.read first).truthy = true := by
        rw [read_of_own _ _ _ hkept]; rfl
      obtain ⟨more', hp', hsub⟩ := filter_head_of_imp
        (fun id => (st.result.read id).truthy)
        (fun id => ((mergeLoop nts W st1 G).result.read id).truthy)
        (e.1 :: e.2) first more hg
        (fun x hx hq => hback x (by simpa using hx) hq) hfirstq
      have hp2 : presentMembers (mergeLoop nts W st1 G).result e = first :: more' := hp'
      have hnoent : ∀ id ∈ first :: more', id ≠ first →
          ((mergeLoop nts W st1 G).result.read id).ownEntries = [] := by
        intro id hid hidne
        have hmore : id ∈ more := by
          rcases List.mem_cons.1 hid with h | h
          · exact absurd h hidne
          · exact hsub id h
        exact ownEntries_read_of_not_own _ hpf id (hgone id hmore hidne)
      have hnot : ∀ id ∈ first :: more', id ∉ M' := by
        intro id hid hM
        have hidm : id ∈ first :: more := by
          rcases List.mem_cons.1 hid with h | h
          · rw [h]; exact List.mem_cons_self _ _
          · exact List.mem_cons_of_mem _ (hsub id h)
        have hidp : id ∈ presentMembers st.result e := by rw [hg]; exact hidm
        exact hfree id hidm ((H id ((mem_presentMembers st.result e id).1 hidp).2).2 hM)
      have hstep := mergeGroup_of_merged nts W
        (MergeState.mk (mergeLoop nts W st1 G).result M') e first more' hp2 hnot
      have hrec : mergedRecord nts W (mergeLoop nts W st1 G).result first (first :: more')
          = mergedRecord nts W st.result first (first :: more) :=
        mergedRecord_of_no_entries nts W _ first (first :: more') _ hkept
          (isSome_displayName_mergedRecord nts W st.result first (first :: more)) hnoent
      have hassign : (mergeLoop nts W st1 G).result.assign first
          (mergedRecord nts W st.result first (first :: more))
          = (mergeLoop nts W st1 G).result := by
        unfold ResultObject.assign
        rw [reachesSetter_of_ne _ _ hne]
        simp only [Bool.false_eq_true, if_false]
        rw [Obj.set_eq_self _ _ _ hkept]
      simp only [hrec, hassign] at hstep
      have hres : (mergeGroup nts W
          (MergeState.mk (mergeLoop nts W st1 G).result M') e).result
          = (mergeLoop nts W st1 G).result := by
        rw [hstep, foldl_consume_result_of_none first (first :: more')]
        intro id hid hidne
        have hmore : id ∈ more := by
          rcases List.mem_cons.1 hid with h | h
          · exact absurd h hidne
          · exact hsub id h
        exact hgone id hmore hidne
      have hmem' : ∀ x, x ∈ (mergeGroup nts W
          (MergeState.mk (mergeLoop nts W st1 G).result M') e).mergedIds
          ↔ x ∈ M' ∨ x ∈ first :: more' := by
        intro x
        rw [hstep, mem_foldl_consume]
      generalize hst2 : mergeGroup nts W
          (MergeState.mk (mergeLoop nts W st1 G).result M') e = st2 at hres hmem'
      have hst2eq : st2 = MergeState.mk (mergeLoop nts W st1 G).result st2.mergedIds := by
        cases st2
        simp only at hres
        rw [hres]
      rw [hst2eq]
      apply ih st1 st2.mergedIds hp1 hGr
      intro k hk
      rw [hmem, hmem']
      have hk0 : (st.result.read k).truthy = true := by
        rw [truthy_read_of_proto_none _ hp1] at hk
        rcases Bool.or_eq_true _ _ ▸ hk with h1 | h1
        · rw [← hst1] at h1
          exact truthy_of_has_mergeGroup nts W st e k h1
        · rw [truthy_read_of_proto_none _ hp, h1]; simp
      have hHk := H k hk0
      have hiff : k ∈ first :: more ↔ k ∈ first :: more' := by
        constructor
        · intro hkm
          by_cases hka : k = first
          · rw [hka]; exact List.mem_cons_self _ _
          · have hk5 : k ∈ more := by
              rcases List.mem_cons.1 hkm with h | h
              · exact absurd h hka
              · exact h
            have hkp : k ∈ presentMembers st.result e := by rw [hg]; exact hkm
            have hkin := ((mem_presentMembers st.result e k).1 hkp).1
            -- `k` is not owned after the step, so it reads truthy by inheritance
            have hinh : inheritedName k = true := by
              rw [truthy_read_of_proto_none _ hp1] at hk
              rcases Bool.or_eq_true _ _ ▸ hk with h1 | h1
              · simp only [Obj.has, hget, hka, hk5, if_true, if_false] at h1
                exact absurd h1 (by simp)
              · exact h1
            have hkq : k ∈ presentMembers (mergeLoop nts W st1 G).result e := by
              rw [mem_presentMembers]
              refine ⟨hkin, ?_⟩
              rw [truthy_read_of_proto_none _ hpf, hinh]
              simp
            rw [hp2] at hkq
            exact hkq
        · intro hkm
          rcases List.mem_cons.1 hkm with h | h
          · rw [h]; exact List.mem_cons_self _ _
          · exact List.mem_cons_of_mem _ (hsub k h)
      rw [hHk, hiff]
/-! ## The record built for a group -/

theorem field_set_self (m : Record) (k : String) (v : Val) :
    Record.field (Obj.set m k v) k = v := by
  simp [Record.field, Obj.get_set_self]

theorem field_set_ne (m : Record) (k k' : String) (v : Val) (h : k' ≠ k) :
    Record.field (Obj.set m k v) k' = Record.field m k' := by
  simp [Record.field, Obj.get_set_ne _ _ _ _ h]

theorem field_addField_ne (nts : ℚ → String) (W : Option (List String)) (m : Record)
    (kv : String × Val) (k : String) (h : k ≠ kv.1) :
    Record.field (addField nts W m kv) k = Record.field m k := by
  unfold addField
  split
  · split
    · rfl
    · split
      · rfl
      · split
        · exact field_set_ne _ _ _ _ h
        · exact field_set_ne _ _ _ _ h
  · rfl

theorem field_foldl_addField_of_not_key (nts : ℚ → String) (W : Option (List String))
    (src : Record) (m : Record) (k : String) (h : k ∉ Obj.keys src) :
    Record.field (src.foldl (addField nts W) m) k = Record.field m k := by
  induction src generalizing m with
  | nil => rfl
  | cons kv rest ih =>
    simp only [Obj.keys, List.map_cons, List.mem_cons, not_or] at h
    rw [List.foldl_cons, ih _ (by simpa [Obj.keys] using h.2)]
    exact field_addField_ne nts W m kv k h.1

theorem field_cons_ne (kv : String × Val) (rest : Record) (k : String) (h : k ≠ kv.1) :
    Record.field (kv :: rest) k = Record.field rest k := by
  obtain ⟨a, v⟩ := kv
  have h2 : ¬ a = k := fun h3 => h h3.symm
  simp [Record.field, Obj.get, h2]

theorem field_cons_self (k : String) (v : Val) (rest : Record) :
    Record.field ((k, v) :: rest) k = v := by
  simp [Record.field, Obj.get]

/-- A name that objects do not inherit is neither `__proto__` nor a method of
`Object.prototype`. -/
theorem not_inherited (k : String) (h : inheritedName k = false) :
    k ≠ "__proto__" ∧ k ∉ objectPrototypeMethods := by
  unfold inheritedName at h
  simp only [Bool.or_eq_false_iff, decide_eq_false_iff_not] at h
  exact h

/-- Adding the field of one entry: for a whitelisted name that objects do not
inherit, the step `merged[k] = (merged[k] ?? 0) + v` on a finite `v`. -/
theorem addField_own_key (nts : ℚ → String) (W : Option (List String)) (m : Record)
    (k : String) (v : Val) (hW : notWhitelisted W k = false)
    (hk : inheritedName k = false) :
    Record.field (addField nts W m (k, v)) k = addStep nts (Record.field m k) v := by
  obtain ⟨hk1, hk2⟩ := not_inherited k hk
  cases v with
  | num x => simp [addField, addStep, hW, hk1, hk2, field_set_self]
  | undefined => rfl
  | null => rfl
  | bool b => rfl
  | nan => rfl
  | inf s => rfl
  | str s => rfl
  | obj o => rfl

/-- Folding the entries of one record into `merged` makes one step of the sum
of a whitelisted field whose name objects do not inherit. -/
theorem foldl_addField_step (nts : ℚ → String) (W : Option (List String))
    (k : String) (hW : notWhitelisted W k = false) (hk : inheritedName k = false)
    (src : Record) :
    ∀ (m : Record), (Obj.keys src).Nodup →
      Record.field (src.foldl (addField nts W) m) k
        = addStep nts (Record.field m k) (Record.field src k) := by
  induction src with
  | nil =>
    intro m _
    rfl
  | cons kv rest ih =>
    intro m hnd
    obtain ⟨a, v⟩ := kv
    simp only [Obj.keys, List.map_cons, List.nodup_cons] at hnd
    rw [List.foldl_cons]
    by_cases hka : k = a
    · subst hka
      rw [field_foldl_addField_of_not_key nts W rest _ k (by simpa [Obj.keys] using hnd.1),
        field_cons_self]
      exact addField_own_key nts W m k v hW hk
    · have h1 := field_addField_ne nts W m (a, v) k hka
      have h2 := ih (addField nts W m (a, v)) (by simpa [Obj.keys] using hnd.2)
      rw [h1] at h2
      rw [field_cons_ne (a, v) rest k hka]
      exact h2

/-- One member folded into `merged`, while `result` has no installed prototype:
one step of the sum, with the value the member's own record holds. -/
theorem addMember_step (nts : ℚ → String) (W : Option (List String))
    (k : String) (hW : notWhitelisted W k = false) (hk : inheritedName k = false)
    (R : ResultObject) (hp : R.proto = none) (keep : String)
    (m : Record) (id : String) (hid : id ≠ keep)
    (hvalid : ∀ r, Obj.get R.own id = some r → (Obj.keys r).Nodup) :
    Record.field (addMember nts W R keep m id) k
      = addStep nts (Record.field m k) (optField (Obj.get R.own id) k) := by
  unfold addMember
  rw [if_neg hid]
  cases hr : Obj.get R.own id with
  | none =>
    rw [ownEntries_read_of_not_own R hp id hr]
    simp [optField, addStep]
  | some src =>
    rw [read_of_own R id src hr]
    simp only [Val.truthy, if_true, Val.ownEntries, optField]
    exact foldl_addField_step nts W k hW hk src m (hvalid src hr)

theorem foldl_addMember_step (nts : ℚ → String) (W : Option (List String))
    (k : String) (hW : notWhitelisted W k = false) (hk : inheritedName k = false)
    (R : ResultObject) (hp : R.proto = none) (keep : String) (l : List String) :
    ∀ (m : Record), keep ∉ l →
      (∀ id ∈ l, ∀ r, Obj.get R.own id = some r → (Obj.keys r).Nodup) →
      Record.field (l.foldl (addMember nts W R keep) m) k
        = l.foldl (fun acc id => addStep nts acc (optField (Obj.get R.own id) k))
            (Record.field m k) := by
  induction l with
  | nil => intro m _ _; rfl
  | cons a rest ih =>
    intro m hkeep hvalid
    simp only [List.mem_cons, not_or] at hkeep
    rw [List.foldl_cons, List.foldl_cons,
      ih _ hkeep.2 (fun id hid => hvalid id (List.mem_cons_of_mem _ hid)),
      addMember_step nts W k hW hk R hp keep m a (fun h => hkeep.1 h.symm)
        (hvalid a (List.mem_cons_self _ _))]

/-- Before the members are folded in, `merged` reads like the kept record. -/
theorem field_displayName_init (kept : Record) (k : String) :
    Record.field (Obj.set kept "displayName"
      ((Record.field kept "displayName").orElse (Record.field kept "displayName"))) k
      = Record.field kept k := by
  by_cases hk : k = "displayName"
  · subst hk
    rw [field_set_self, Val.orElse_self]
  · rw [field_set_ne _ _ _ _ hk]

/-- Before the members are folded in, while `result` has no installed
prototype, `merged` reads like the own record of the kept id, and like the
empty record when the kept id is an inherited name. -/
theorem field_merged_init (R : ResultObject) (hp : R.proto = none) (keep k : String) :
    Record.field (Obj.set (R.read keep).ownEntries "displayName"
      (((R.read keep).optProp "displayName").orElse
        (Record.field (R.read keep).ownEntries "displayName"))) k
      = optField (Obj.get R.own keep) k := by
  cases hr : Obj.get R.own keep with
  | some r =>
    rw [read_of_own R keep r hr]
    simp only [Val.ownEntries, Val.optProp, Val.prop, optField]
    exact field_displayName_init r k
  | none =>
    have hent := ownEntries_read_of_not_own R hp keep hr
    rw [hent]
    have hopt : (R.read keep).optProp "displayName" = .undefined := by
      unfold ResultObject.read inheritedValue
      rw [hr, hp]
      simp only [Option.bind_none, Option.getD_none]
      by_cases h1 : keep = "__proto__"
      · simp [h1, Val.optProp, Val.prop, Record.field, Obj.get]
      · by_cases h2 : keep ∈ objectPrototypeMethods
        · simp [h1, h2, Val.optProp, Val.prop, Record.field, Obj.get]
        · simp [h1, h2, Val.optProp]
    rw [hopt]
    by_cases hk : k = "displayName"
    · subst hk
      rw [field_set_self]
      rfl
    · rw [field_set_ne _ _ _ _ hk]
      rfl

/-- The record built for a group `first :: more` kept under `first`, while
`result` has no installed prototype: a whitelisted field whose name objects do
not inherit holds the kept record's value with the values of the other members
added one by one. -/
theorem mergedRecord_field (nts : ℚ → String) (W : Option (List String))
    (k : String) (hW : notWhitelisted W k = false) (hk : inheritedName k = false)
    (R : ResultObject) (hp : R.proto = none)
    (first : String) (more : List String) (hnd : (first :: more).Nodup)
    (hvalid : ∀ id ∈ more, ∀ r, Obj.get R.own id = some r → (Obj.keys r).Nodup) :
    Record.field (mergedRecord nts W R first (first :: more)) k
      = more.foldl (fun acc id => addStep nts acc (optField (Obj.get R.own id) k))
          (optField (Obj.get R.own first) k) := by
  have hnot : first ∉ more := (List.nodup_cons.1 hnd).1
  unfold mergedRecord
  simp only [List.foldl_cons, addMember, if_true]
  rw [foldl_addMember_step nts W k hW hk R hp first more _ hnot hvalid,
    field_merged_init R hp first k]

theorem isDouble_spec (q : ℚ) (h : isDouble q = true) : roundDouble q = .num q := by
  unfold isDouble at h
  split at h
  · next y hy =>
    rw [hy]
    simp only [decide_eq_true_eq] at h
    rw [h]
  · exact absurd h (by simp)

/-- A step of the sum that does not round adds exactly. -/
theorem addStep_exact (nts : ℚ → String) (acc : Val) (x : ℚ)
    (hacc : acc.finiteOrMissing = true) (hx : isDouble (acc.numOr0 + x) = true) :
    addStep nts acc (.num x) = .num (acc.numOr0 + x) := by
  have h := isDouble_spec _ hx
  cases acc with
  | num a => simpa [addStep, Val.orElse, Val.addNum, Val.numOr0] using h
  | undefined => simpa [addStep, Val.orElse, Val.addNum, Val.numOr0] using h
  | null => simpa [addStep, Val.orElse, Val.addNum, Val.numOr0] using h
  | bool b => simp [Val.finiteOrMissing] at hacc
  | nan => simp [Val.finiteOrMissing] at hacc
  | inf s => simp [Val.finiteOrMissing] at hacc
  | str s => simp [Val.finiteOrMissing] at hacc
  | obj o => simp [Val.finiteOrMissing] at hacc

/-- When no addition rounds, the sum of a field added up from a finite or
missing value is that value plus the exact sum of the members' values. -/
theorem addedUp_exact (nts : ℚ → String) (S : SkillMap) (k : String) (ids : List String) :
    ∀ start : Val, start.finiteOrMissing = true →
      exactSums start.numOr0 (fieldValues S k ids) = true →
      (addedUp nts S k start ids).finiteOrMissing = true ∧
      (addedUp nts S k start ids).numOr0
        = start.numOr0 + (ids.map (fun id => fieldNum S id k)).sum := by
  induction ids with
  | nil => intro start hs _; exact ⟨hs, by simp [addedUp]⟩
  | cons a rest ih =>
    intro start hs hex
    simp only [addedUp, List.foldl_cons, List.map_cons, List.sum_cons, fieldNum,
      fieldValues, List.filterMap_cons] at hex ⊢
    cases hv : optField (Obj.get S a) k with
    | num x =>
      rw [hv] at hex
      simp only [exactSums, Bool.and_eq_true] at hex
      rw [addStep_exact nts start x hs hex.1]
      have h2 := ih (.num (start.numOr0 + x)) rfl hex.2
      simp only [addedUp, fieldNum, Val.numOr0] at h2 ⊢
      refine ⟨h2.1, ?_⟩
      rw [h2.2]
      ring
    | undefined =>
      rw [hv] at hex
      have h2 := ih start hs hex
      simp only [addedUp, fieldNum] at h2
      simpa [addStep, Val.numOr0] using h2
    | null =>
      rw [hv] at hex
      have h2 := ih start hs hex
      simp only [addedUp, fieldNum] at h2
      simpa [addStep, Val.numOr0] using h2
    | bool b =>
      rw [hv] at hex
      have h2 := ih start hs hex
      simp only [addedUp, fieldNum] at h2
      simpa [addStep, Val.numOr0] using h2
    | nan =>
      rw [hv] at hex
      have h2 := ih start hs hex
      simp only [addedUp, fieldNum] at h2
      simpa [addStep, Val.numOr0] using h2
    | inf s =>
      rw [hv] at hex
      have h2 := ih start hs hex
      simp only [addedUp, fieldNum] at h2
      simpa [addStep, Val.numOr0] using h2
    | str s =>
      rw [hv] at hex
      have h2 := ih start hs hex
      simp only [addedUp, fieldNum] at h2
      simpa [addStep, Val.numOr0] using h2
    | obj o =>
      rw [hv] at hex
      have h2 := ih start hs hex
      simp only [addedUp, fieldNum] at h2
      simpa [addStep, Val.numOr0] using h2
/-! ## The state of the loop when a group's turn comes -/

theorem mem_of_get {α : Type} (o : List (String × α)) (k : String) (v : α)
    (h : Obj.get o k = some v) : (k, v) ∈ o := by
  induction o with
  | nil => simp [Obj.get] at h
  | cons e rest ih =>
    obtain ⟨a, w⟩ := e
    by_cases ha : a = k
    · simp only [Obj.get, ha, if_true, Option.some.injEq] at h
      rw [ha, h]
      exact List.mem_cons_self _ _
    · simp only [Obj.get, ha, if_false] at h
      exact List.mem_cons_of_mem _ (ih h)

/-- An id that no earlier group consumed still has its input record when a
group's turn comes. -/
theorem get_at_turn (nts : ℚ → String) (W : Option (List String)) (S : SkillMap)
    (G : MergeMap) (id : String)
    (h : id ∉ (mergeLoop nts W (initState S) G).mergedIds) :
    Obj.get (mergeLoop nts W (initState S) G).result.own id = Obj.get S id := by
  rw [get_mergeLoop_of_not_mem_mergedIds nts W G _ id h]
  exact get_copySkills S id

theorem find?_of_filter_eq_cons {α : Type} (p : α → Bool) (l : List α) (a : α)
    (m : List α) (h : l.filter p = a :: m) : l.find? p = some a := by
  induction l with
  | nil => simp at h
  | cons b rest ih =>
    by_cases hb : p b = true
    · simp only [List.filter_cons, hb, if_true] at h
      have hba : b = a := (List.cons.inj h).1
      subst hba
      simp [List.find?_cons, hb]
    · simp only [List.filter_cons, hb] at h
      simp only [List.find?_cons]
      have hb2 : p b = false := by simpa using hb
      rw [hb2]
      exact ih h

theorem foldl_congr_of_mem {α β : Type} (f g : β → α → β) (l : List α)
    (h : ∀ acc, ∀ x ∈ l, f acc x = g acc x) :
    ∀ init, l.foldl f init = l.foldl g init := by
  induction l with
  | nil => intro init; rfl
  | cons a rest ih =>
    intro init
    rw [List.foldl_cons, List.foldl_cons, h init a (List.mem_cons_self _ _)]
    exact ih (fun acc x hx => h acc x (List.mem_cons_of_mem _ hx)) _

theorem field_foldl_addField_of_no_number (nts : ℚ → String) (W : Option (List String))
    (src : Record) (m : Record) (k : String)
    (h : ∀ kv ∈ src, kv.1 = k → kv.2.isFiniteNumber = false) :
    Record.field (src.foldl (addField nts W) m) k = Record.field m k := by
  induction src generalizing m with
  | nil => rfl
  | cons kv rest ih =>
    rw [List.foldl_cons, ih _ (fun e he => h e (List.mem_cons_of_mem _ he))]
    by_cases hk : k = kv.1
    · have h1 := h kv (List.mem_cons_self _ _) hk.symm
      have h2 : addField nts W m kv = m := by
        unfold addField
        split
        · next x hx => rw [hx] at h1; simp [Val.isFiniteNumber] at h1
        · rfl
      rw [h2]
    · exact field_addField_ne nts W m kv k hk

theorem field_foldl_addMember_of_no_number (nts : ℚ → String) (W : Option (List String))
    (R : ResultObject) (hp : R.proto = none) (keep : String) (l : List String) (m : Record)
    (k : String)
    (h : ∀ id ∈ l, ∀ r, Obj.get R.own id = some r →
      ∀ kv ∈ r, kv.1 = k → kv.2.isFiniteNumber = false) :
    Record.field (l.foldl (addMember nts W R keep) m) k = Record.field m k := by
  induction l generalizing m with
  | nil => rfl
  | cons a rest ih =>
    rw [List.foldl_cons, ih _ (fun id hid => h id (List.mem_cons_of_mem _ hid))]
    unfold addMember
    split
    · rfl
    · cases hr : Obj.get R.own a with
      | none =>
        rw [ownEntries_read_of_not_own R hp a hr]
        simp
      | some src =>
        rw [read_of_own R a src hr]
        simp only [Val.truthy, if_true, Val.ownEntries]
        exact field_foldl_addField_of_no_number nts W src m k
          (h a (List.mem_cons_self _ _) src hr)

theorem get_set_of_get_none {α : Type} (o : List (String × α)) (k k' : String) (v : α)
    (h : Obj.get o k' = none) (hk : k ≠ k') : Obj.get (Obj.set o k v) k' = none := by
  rw [Obj.get_set_ne _ _ _ _ (Ne.symm hk), h]

/-- Folding an entry into `merged` creates no own property `__proto__`. -/
theorem get_proto_addField (nts : ℚ → String) (W : Option (List String)) (m : Record)
    (kv : String × Val) (h : Obj.get m "__proto__" = none) :
    Obj.get (addField nts W m kv) "__proto__" = none := by
  unfold addField
  split
  · split
    · exact h
    · split
      · exact h
      · next hno =>
        have hne : kv.1 ≠ "__proto__" := by
          intro heq
          apply hno
          refine ⟨?_, heq⟩
          simp [Obj.has, heq, h]
        split
        · exact get_set_of_get_none _ _ _ _ h hne
        · exact get_set_of_get_none _ _ _ _ h hne
  · exact h

theorem get_proto_foldl_addField (nts : ℚ → String) (W : Option (List String))
    (src : Record) (m : Record) (h : Obj.get m "__proto__" = none) :
    Obj.get (src.foldl (addField nts W) m) "__proto__" = none := by
  induction src generalizing m with
  | nil => exact h
  | cons kv rest ih =>
    rw [List.foldl_cons]
    exact ih _ (get_proto_addField nts W m kv h)

theorem get_proto_foldl_addMember (nts : ℚ → String) (W : Option (List String))
    (R : ResultObject) (keep : String) (l : List String) (m : Record)
    (h : Obj.get m "__proto__" = none) :
    Obj.get (l.foldl (addMember nts W R keep) m) "__proto__" = none := by
  induction l generalizing m with
  | nil => exact h
  | cons a rest ih =>
    rw [List.foldl_cons]
    apply ih
    unfold addMember
    split
    · exact h
    · split
      · exact get_proto_foldl_addField nts W _ m h
      · exact h

/-- The record that the setter of `__proto__` installs as the prototype of
`result` has no own property `__proto__`. -/
theorem get_proto_mergedRecord_of_setter (nts : ℚ → String) (W : Option (List String))
    (R : ResultObject) (k : String) (group : List String)
    (h : R.reachesSetter k = true) :
    Obj.get (mergedRecord nts W R k group) "__proto__" = none := by
  obtain ⟨hk, hown, hpr⟩ := reachesSetter_imp R k h
  subst hk
  unfold mergedRecord
  apply get_proto_foldl_addMember
  apply get_set_of_get_none _ _ _ _ _ (by decide)
  simp only [ResultObject.read, hown, hpr, inheritedValue, if_true, Val.ownEntries]
  cases hp : R.proto with
  | none => rfl
  | some m => simpa [hp] using hpr

/-! ## The claims about `mergeSkills` -/

/-- C1 (as stated, refuted): with only skill `101` (totalDamage 1000) in the map
and the table `100: [101]`, it is not the case that the output holds id `100`
with totalDamage 1000 while id `101` is absent. -/
theorem scenario_alias_only_not_renamed :
    ¬ ((∃ r, Obj.get (mergeSkills plainDecimal
            (some [("101", [("totalDamage", Val.num 1000)])]) [("100", ["101"])] none) "100"
          = some r ∧ Record.field r "totalDamage" = Val.num 1000) ∧
       Obj.get (mergeSkills plainDecimal
            (some [("101", [("totalDamage", Val.num 1000)])]) [("100", ["101"])] none) "101"
          = none) := by
  have h : mergeSkills plainDecimal
      (some [("101", [("totalDamage", Val.num 1000)])]) [("100", ["101"])] none
      = [("101", [("totalDamage", Val.num 1000), ("displayName", Val.undefined)])] := rfl
  rw [h]
  simp [Obj.get]

/-- C1 (amended): with only skill `101` (totalDamage 1000) in the map and the
table `100: [101]`, the output holds id `101` with totalDamage 1000 and id `100`
is absent: the record stays under the first present alias. -/
theorem scenario_alias_only_kept_under_alias (nts : ℚ → String)
    (W : Option (List String)) :
    (∃ r, Obj.get (mergeSkills nts
          (some [("101", [("totalDamage", Val.num 1000)])]) [("100", ["101"])] W) "101"
        = some r ∧ Record.field r "totalDamage" = Val.num 1000) ∧
    Obj.get (mergeSkills nts
          (some [("101", [("totalDamage", Val.num 1000)])]) [("100", ["101"])] W) "100"
        = none := by
  have h : mergeSkills nts
      (some [("101", [("totalDamage", Val.num 1000)])]) [("100", ["101"])] W
      = [("101", [("totalDamage", Val.num 1000), ("displayName", Val.undefined)])] := rfl
  rw [h]
  exact ⟨⟨_, rfl, rfl⟩, rfl⟩

/-- C2 (as stated, refuted): with the table `__proto__: [101, totalDamage],
totalDamage: [7]` and a map that holds skills `7` and `101`, merging the merged
map again does not give the merged map.  The first run keeps its first group
under `__proto__`: the assignment reaches the setter, which makes the merged
record the prototype of `result`, through which `result["totalDamage"]` then
reads 1000, so that the second group is merged and kept under `totalDamage`.
The second run finds that entry as a member of the first group and folds it
away.  And a `null` skill map gives the empty map, which a merge with the table
`constructor: [101]` does not leave empty: the inherited name reads truthy and
the group is kept under it. -/
theorem proto_group_breaks_idempotence :
    mergeSkills plainDecimal (some protoSkills) protoTable none
      = [("totalDamage", [("displayName", .undefined), ("x", .num 1)])] ∧
    mergeSkills plainDecimal (some (mergeSkills plainDecimal (some protoSkills) protoTable none))
      protoTable none = [] ∧
    mergeSkills plainDecimal (some (mergeSkills plainDecimal (some protoSkills) protoTable none))
      protoTable none ≠ mergeSkills plainDecimal (some protoSkills) protoTable none ∧
    mergeSkills plainDecimal none constructorTable none = [] ∧
    mergeSkills plainDecimal (some (mergeSkills plainDecimal none constructorTable none))
      constructorTable none = [("constructor", [("displayName", .undefined)])] := by
  have hr : roundDouble ((0 : ℚ) + 1000) = .num 1000 := by
    have h := roundDouble_intCast 1000 (by norm_num)
    norm_num at h ⊢
    exact h
  have hs1 : mergeLoop plainDecimal none (initState protoSkills)
      [("__proto__", ["101", "totalDamage"])]
      = { result := { own := [("7", [("x", .num 1)])],
                      proto := some [("displayName", .undefined),
                        ("totalDamage", roundDouble (0 + 1000))] },
          mergedIds := ["__proto__", "101"] } := rfl
  have hr1 : roundDouble ((0 : ℚ) + 1) = .num 1 := by
    have h := roundDouble_intCast 1 (by norm_num)
    norm_num at h ⊢
    exact h
  have h1 : mergeSkills plainDecimal (some protoSkills) protoTable none
      = [("totalDamage", [("displayName", .undefined), ("x", .num 1)])] := by
    have htable : protoTable
        = [("__proto__", ["101", "totalDamage"])] ++ [("totalDamage", ["7"])] := rfl
    rw [mergeSkills_some, htable, mergeLoop_append, hs1, hr]
    have hstep : (mergeLoop plainDecimal none
        { result := { own := [("7", [("x", .num 1)])],
                      proto := some [("displayName", .undefined), ("totalDamage", .num 1000)] },
          mergedIds := ["__proto__", "101"] } [("totalDamage", ["7"])]).result.own
        = [("totalDamage", [("displayName", .undefined), ("x", roundDouble (0 + 1))])] := rfl
    rw [hstep, hr1]
  have h2 : mergeSkills plainDecimal
      (some [("totalDamage", [("displayName", .undefined), ("x", .num 1)])])
      protoTable none = [] := rfl
  rw [h1]
  refine ⟨rfl, h2, ?_, rfl, rfl⟩
  rw [h2]
  exact (List.cons_ne_nil _ _).symm

/-- C2 (amended): for every skill map, whitelist and grouping table that does
not list `__proto__` (as a primary id or as an alias), merging the merged map
again changes nothing.  A `null` skill map yields the empty map, and merging
that again changes nothing when the table lists no name that objects inherit
from `Object.prototype`. -/
theorem mergeSkills_idempotent (nts : ℚ → String) (S : SkillMap)
    (G : MergeMap) (W : Option (List String))
    (hG : ∀ e ∈ G, "__proto__" ≠ e.1 ∧ "__proto__" ∉ e.2) :
    mergeSkills nts (some (mergeSkills nts (some S) G W)) G W = mergeSkills nts (some S) G W ∧
    ((∀ e ∈ G, ∀ id ∈ e.1 :: e.2, inheritedName id = false) →
      mergeSkills nts (some (mergeSkills nts none G W)) G W = mergeSkills nts none G W) := by
  constructor
  · simp only [mergeSkills, initState, copySkills_eq]
    have hp := proto_mergeLoop_of_not_listed nts W G
      (MergeState.mk (ResultObject.mk S none) []) hG
    have hstable := mergeLoop_stable nts W G
      (MergeState.mk (ResultObject.mk S none) []) [] rfl hG (fun k _ => Iff.rfl)
    generalize mergeLoop nts W (MergeState.mk (ResultObject.mk S none) []) G = stf
      at hp hstable ⊢
    obtain ⟨⟨own, proto⟩, M⟩ := stf
    simp only at hp hstable ⊢
    subst hp
    rw [hstable]
  · intro hinh
    simp only [mergeSkills, initState]
    rw [show copySkills ([] : SkillMap) = [] from rfl, mergeLoop_of_empty_result nts W G [] hinh]

/-- C2 (example): the sample map merged with the table `constructor: [101]`,
which lists a name objects inherit but not `__proto__`, is not changed by a
second merge. -/
theorem mergeSkills_idempotent_example :
    mergeSkills plainDecimal
        (some (mergeSkills plainDecimal (some sampleSkills) constructorTable none))
        constructorTable none
      = mergeSkills plainDecimal (some sampleSkills) constructorTable none :=
  (mergeSkills_idempotent plainDecimal sampleSkills constructorTable none (by decide)).1

/-- C3 (as stated, refuted), at three inputs.  In the sample map with the table
`100: [101], 200: [101, 201]`, the record kept for the second group does not
carry the sum of `totalDamage` over the members of that group that the input
holds (`200`, `101` and `201`): alias `101` was folded into the first group.
With `totalDamage` `2 ^ 53` and `1` and the table `100: [101]`, the kept record
holds `2 ^ 53`, not the sum: the addition rounds.  With a field named
`constructor` that holds 5 in skill `101` only, the kept record of the group
`100: [101]` holds a string in that field: the name is read from
`Object.prototype`. -/
theorem merged_field_is_not_input_sum :
    (¬ ∃ r, Obj.get (mergeSkills plainDecimal (some sampleSkills) sharedAliasTable none) "200"
          = some r ∧
        (Record.field r "totalDamage").numOr0 =
          ((["200", "101", "201"].filter (fun id => Obj.has sampleSkills id)).map
            (fun id => fieldNum sampleSkills id "totalDamage")).sum) ∧
    (∃ r, Obj.get (mergeSkills plainDecimal (some bigSkills) [("100", ["101"])] none) "100"
          = some r ∧
        Record.field r "totalDamage" = .num 9007199254740992 ∧
        (["100", "101"].map (fun id => fieldNum bigSkills id "totalDamage")).sum
          = 9007199254740992 + 1) ∧
    (∃ r, Obj.get (mergeSkills plainDecimal (some inheritedFieldSkills) [("100", ["101"])] none)
          "100" = some r ∧
        Record.field r "constructor" = .str "function Object() \x7b [native code] \x7d5" ∧
        fieldNum inheritedFieldSkills "101" "constructor" = 5) := by
  refine ⟨?_, ?_, ?_⟩
  · rintro ⟨r, hr, hsum⟩
    have h : Obj.get (mergeSkills plainDecimal (some sampleSkills) sharedAliasTable none) "200"
        = some [("displayName", .str "Bolt"), ("totalDamage", roundDouble (40 + 8)),
            ("critCount", roundDouble (0 + 3))] := rfl
    have h48 : roundDouble ((40 : ℚ) + 8) = .num 48 := by
      have h := roundDouble_intCast 48 (by norm_num)
      norm_num at h ⊢
      exact h
    rw [h, h48] at hr
    have hr2 := Option.some.inj hr
    subst hr2
    have h1 : (Record.field [("displayName", Val.str "Bolt"), ("totalDamage", Val.num 48),
        ("critCount", roundDouble (0 + 3))] "totalDamage").numOr0 = 48 := rfl
    have h2 : ((["200", "101", "201"].filter (fun id => Obj.has sampleSkills id)).map
        (fun id => fieldNum sampleSkills id "totalDamage")).sum = 40 + (50 + (8 + 0)) := rfl
    rw [h1, h2] at hsum
    norm_num at hsum
  · have h : Obj.get (mergeSkills plainDecimal (some bigSkills) [("100", ["101"])] none) "100"
        = some [("totalDamage", roundDouble (9007199254740992 + 1)),
            ("displayName", .undefined)] := rfl
    rw [h, roundDouble_two_pow_53_add_one]
    refine ⟨_, rfl, rfl, ?_⟩
    have h2 : (["100", "101"].map (fun id => fieldNum bigSkills id "totalDamage")).sum
        = 9007199254740992 + (1 + 0) := rfl
    rw [h2]
    norm_num
  · exact ⟨_, rfl, rfl, rfl⟩

/-- C3 (amended): let the table not list `__proto__` up to and including a group
that lists no id twice and is merged when its turn comes, that is, `result` then
reads members `first :: more` of it truthy (own entries, or names that objects
inherit), none consumed by an earlier group.  The group is kept under `first`.
For every field name `k` that passes the whitelist and that objects do not
inherit, the output record of the kept id holds in `k` the value the kept id
had in the input with the finite values that the other members `more` had in the
input added to it one by one, in the order of the group, as `+` adds in double
precision (a missing value counts as 0, a member without the field adds
nothing).  When the kept value is a finite number or missing and no addition
rounds, this is the exact sum over the members `first :: more`.  Members that
an earlier group folded away are not among `first :: more`. -/
theorem mergeSkills_sum_of_merged_group (nts : ℚ → String) (W : Option (List String))
    (S : SkillMap) (G1 G2 : MergeMap) (main : String) (others : List String)
    (first : String) (more : List String) (k : String)
    (hproto : ∀ e ∈ G1 ++ [(main, others)], "__proto__" ≠ e.1 ∧ "__proto__" ∉ e.2)
    (hgroup : presentMembers (mergeLoop nts W (initState S) G1).result (main, others)
      = first :: more)
    (hfree : ∀ id ∈ first :: more, id ∉ (mergeLoop nts W (initState S) G1).mergedIds)
    (hnodup : (main :: others).Nodup)
    (hvalid : ∀ e ∈ S, (Obj.keys e.2).Nodup)
    (hW : notWhitelisted W k = false)
    (hk : inheritedName k = false) :
    keepIdOf (mergeLoop nts W (initState S) G1).result main first = first ∧
    ∃ r, Obj.get (mergeSkills nts (some S) (G1 ++ (main, others) :: G2) W) first = some r ∧
      Record.field r k = addedUp nts S k (optField (Obj.get S first) k) more ∧
      ((optField (Obj.get S first) k).finiteOrMissing = true →
        exactSums (fieldNum S first k) (fieldValues S k more) = true →
        (Record.field r k).finiteOrMissing = true ∧
        (Record.field r k).numOr0
          = ((first :: more).map (fun id => fieldNum S id k)).sum) := by
  have hkeepId := keepIdOf_eq_first _ (main, others) first more hgroup
  simp only at hkeepId
  refine ⟨hkeepId, ?_⟩
  have hG1 : ∀ e ∈ G1, "__proto__" ≠ e.1 ∧ "__proto__" ∉ e.2 :=
    fun e he => hproto e (List.mem_append_left _ he)
  have hgrp : "__proto__" ≠ main ∧ "__proto__" ∉ others := by
    simpa using hproto (main, others) (List.mem_append_right _ (List.mem_singleton_self _))
  have hp : (mergeLoop nts W (initState S) G1).result.proto = none := by
    rw [proto_mergeLoop_of_not_listed nts W G1 _ hG1]
    rfl
  generalize hst : mergeLoop nts W (initState S) G1 = st at hgroup hfree hp
  have hS : ∀ id ∈ first :: more, Obj.get st.result.own id = Obj.get S id := by
    intro id hid
    rw [← hst]
    exact get_at_turn nts W S G1 id (by rw [hst]; exact hfree id hid)
  have hnd : (first :: more).Nodup := by
    rw [← hgroup]
    exact hnodup.sublist (List.filter_sublist _)
  have hfirstmem : first ∈ presentMembers st.result (main, others) := by
    rw [hgroup]; exact List.mem_cons_self _ _
  have hne : first ≠ "__proto__" := by
    rintro rfl
    rcases ((mem_presentMembers st.result _ _).1 hfirstmem).1 with h1 | h1
    · exact hgrp.1 h1
    · exact hgrp.2 h1
  have hfield := mergedRecord_field nts W k hW hk st.result hp first more hnd
    (by
      intro id hid r hr
      rw [hS id (List.mem_cons_of_mem _ hid)] at hr
      exact hvalid (id, r) (mem_of_get S id r hr))
  have hfold : Record.field (mergedRecord nts W st.result first (first :: more)) k
      = addedUp nts S k (optField (Obj.get S first) k) more := by
    rw [hfield, hS first (List.mem_cons_self _ _)]
    unfold addedUp
    apply foldl_congr_of_mem
    intro acc id hid
    rw [hS id (List.mem_cons_of_mem _ hid)]
  refine ⟨mergedRecord nts W st.result first (first :: more), ?_, hfold, ?_⟩
  · simp only [mergeSkills]
    rw [mergeLoop_append, mergeLoop_cons, hst,
      get_mergeLoop_of_mem_mergedIds nts W G2 _ first
        ((mem_mergedIds_mergeGroup_merged nts W st _ first more hgroup hfree first).2
          (Or.inr (List.mem_cons_self _ _))),
      get_mergeGroup_merged nts W st _ first more hgroup hfree]
    simp [reachesSetter_of_ne _ _ hne]
  · intro hfin hex
    have h := addedUp_exact nts S k more (optField (Obj.get S first) k) hfin hex
    rw [hfold]
    refine ⟨h.1, ?_⟩
    rw [h.2, List.map_cons, List.sum_cons]
    rfl

/-- C3 (example): in the sample map with the table `100: [101], 200: [201]`, the
first group is merged and kept under `100`, and the kept record carries
`totalDamage = 100 + 50`, an addition that does not round. -/
theorem mergeSkills_sum_of_merged_group_example :
    ∃ r, Obj.get (mergeSkills plainDecimal (some sampleSkills)
          ([] ++ ("100", ["101"]) :: [("200", ["201"])]) none) "100" = some r ∧
      (Record.field r "totalDamage").finiteOrMissing = true ∧
      (Record.field r "totalDamage").numOr0
        = (["100", "101"].map (fun id => fieldNum sampleSkills id "totalDamage")).sum := by
  obtain ⟨r, hr, _, hsum⟩ :=
    (mergeSkills_sum_of_merged_group plainDecimal none sampleSkills [] [("200", ["201"])]
      "100" ["101"] "100" ["101"] "totalDamage" (by decide) rfl (by decide) (by decide)
      (by decide) rfl rfl).2
  refine ⟨r, hr, hsum rfl ?_⟩
  have h := isDouble_intCast 150 (by norm_num)
  have hv : fieldValues sampleSkills "totalDamage" ["101"] = [50] := rfl
  have hf : fieldNum sampleSkills "100" "totalDamage" = 100 := rfl
  rw [hv, hf]
  norm_num [exactSums] at h ⊢
  exact h

/-- C4 (as stated, refuted), at two inputs.  With the table
`100: [200], 200: [201, 202]` and a skill map that holds all four ids, the second
group is merged when its turn comes (`result` then reads its members `201` and
`202` truthy, which no group consumed, and `202` is folded into `201`), and the
input holds its primary id `200`; yet the output holds no `200`: the group is
kept under its alias `201`, because the first group folded `200` away.  With the
table `__proto__: [101]` and a map that holds skill `101`, the group is merged
and kept under `__proto__`, which reads truthy; the assignment of the merged
record reaches the setter of `__proto__`, and the output holds no id of the
group. -/
theorem group_not_kept_under_input_primary :
    (Obj.has chainSkills "200" = true ∧
      presentMembers (mergeLoop plainDecimal none (initState chainSkills)
          [("100", ["200"])]).result ("200", ["201", "202"]) = ["201", "202"] ∧
      (mergeLoop plainDecimal none (initState chainSkills) [("100", ["200"])]).mergedIds
        = ["100", "200"] ∧
      mergeSkills plainDecimal (some chainSkills) chainTable none
        = [("100", [("displayName", .str "Slash"), ("totalDamage", roundDouble (100 + 40))]),
           ("201", [("displayName", .str "Bolt II"), ("totalDamage", roundDouble (8 + 5))])] ∧
      Obj.get (mergeSkills plainDecimal (some chainSkills) chainTable none) "200" = none) ∧
    (presentMembers (initState [("101", [("totalDamage", Val.num 1000)])]).result
        ("__proto__", ["101"]) = ["__proto__", "101"] ∧
      keepIdOf (initState [("101", [("totalDamage", Val.num 1000)])]).result
        "__proto__" "__proto__" = "__proto__" ∧
      mergeSkills plainDecimal (some [("101", [("totalDamage", Val.num 1000)])])
        [("__proto__", ["101"])] none = []) :=
  ⟨⟨rfl, rfl, rfl, rfl, rfl⟩, ⟨rfl, rfl, rfl⟩⟩

/-- C4 (amended): let the table not list `__proto__`, and let a group be merged
when its turn comes, that is, `result` then reads members `first :: more` of it
truthy, none consumed by an earlier group.  An id reads truthy only if the
input holds it (and no earlier group folded it away) or it is a name that
objects inherit from `Object.prototype`, such as `constructor`.  The group is
kept under its primary id when that reads truthy, otherwise under the first
alias, in the table's alias order, that reads truthy; the output holds the kept
id and no other id of the group; and, display names not being finite numbers,
the kept record reads the display name the kept id had in the input (none, when
the input does not hold the kept id). -/
theorem mergeSkills_keeps_one_id (nts : ℚ → String) (W : Option (List String))
    (S : SkillMap) (G1 G2 : MergeMap) (main : String) (others : List String)
    (first : String) (more : List String)
    (hproto : ∀ e ∈ G1 ++ (main, others) :: G2, "__proto__" ≠ e.1 ∧ "__proto__" ∉ e.2)
    (hgroup : presentMembers (mergeLoop nts W (initState S) G1).result (main, others)
      = first :: more)
    (hfree : ∀ id ∈ first :: more, id ∉ (mergeLoop nts W (initState S) G1).mergedIds)
    (hname : ∀ e ∈ S, ∀ kv ∈ e.2, kv.1 = "displayName" → kv.2.isFiniteNumber = false) :
    (((mergeLoop nts W (initState S) G1).result.read main).truthy = true →
      keepIdOf (mergeLoop nts W (initState S) G1).result main first = main) ∧
    (((mergeLoop nts W (initState S) G1).result.read main).truthy = false →
      others.find? (fun id => ((mergeLoop nts W (initState S) G1).result.read id).truthy)
        = some (keepIdOf (mergeLoop nts W (initState S) G1).result main first)) ∧
    (∀ id, ((mergeLoop nts W (initState S) G1).result.read id).truthy = true →
      Obj.has S id = true ∨ inheritedName id = true) ∧
    (∃ r, Obj.get (mergeSkills nts (some S) (G1 ++ (main, others) :: G2) W)
          (keepIdOf (mergeLoop nts W (initState S) G1).result main first) = some r ∧
        Record.field r "displayName" = optField (Obj.get S
          (keepIdOf (mergeLoop nts W (initState S) G1).result main first)) "displayName") ∧
    (∀ id ∈ main :: others,
      id ≠ keepIdOf (mergeLoop nts W (initState S) G1).result main first →
      Obj.get (mergeSkills nts (some S) (G1 ++ (main, others) :: G2) W) id = none) := by
  have hkeepId := keepIdOf_eq_first _ (main, others) first more hgroup
  simp only at hkeepId
  have hG1 : ∀ e ∈ G1, "__proto__" ≠ e.1 ∧ "__proto__" ∉ e.2 :=
    fun e he => hproto e (List.mem_append_left _ he)
  have hgrp : "__proto__" ≠ main ∧ "__proto__" ∉ others := by
    simpa using hproto (main, others)
      (List.mem_append_right _ (List.mem_cons_self _ _))
  have hG2 : ∀ e ∈ G2, "__proto__" ≠ e.1 ∧ "__proto__" ∉ e.2 :=
    fun e he => hproto e (List.mem_append_right _ (List.mem_cons_of_mem _ he))
  have hp : (mergeLoop nts W (initState S) G1).result.proto = none := by
    rw [proto_mergeLoop_of_not_listed nts W G1 _ hG1]
    rfl
  have hhasS : ∀ id, ((mergeLoop nts W (initState S) G1).result.read id).truthy = true →
      Obj.has S id = true ∨ inheritedName id = true := by
    intro id hid
    rw [truthy_read_of_proto_none _ hp] at hid
    rcases Bool.or_eq_true _ _ ▸ hid with h1 | h1
    · rcases has_of_has_mergeLoop nts W G1 _ id rfl hG1 h1 with h2 | h2
      · left
        simpa [Obj.has, initState, get_copySkills] using h2
      · exact Or.inr h2
    · exact Or.inr h1
  refine ⟨fun h => by simp [keepIdOf, h], ?_, hhasS, ?_, ?_⟩
  · intro h
    rw [hkeepId]
    apply find?_of_filter_eq_cons _ others first more
    simpa [presentMembers, List.filter_cons, h] using hgroup
  · rw [hkeepId]
    generalize hst : mergeLoop nts W (initState S) G1 = st at hgroup hfree hp
    have hS : ∀ id ∈ first :: more, Obj.get st.result.own id = Obj.get S id := by
      intro id hid
      rw [← hst]
      exact get_at_turn nts W S G1 id (by rw [hst]; exact hfree id hid)
    have hfirstmem : first ∈ presentMembers st.result (main, others) := by
      rw [hgroup]; exact List.mem_cons_self _ _
    have hne : first ≠ "__proto__" := by
      rintro rfl
      rcases ((mem_presentMembers st.result _ _).1 hfirstmem).1 with h1 | h1
      · exact hgrp.1 h1
      · exact hgrp.2 h1
    refine ⟨mergedRecord nts W st.result first (first :: more), ?_, ?_⟩
    · simp only [mergeSkills]
      rw [mergeLoop_append, mergeLoop_cons, hst,
        get_mergeLoop_of_mem_mergedIds nts W G2 _ first
          ((mem_mergedIds_mergeGroup_merged nts W st _ first more hgroup hfree first).2
            (Or.inr (List.mem_cons_self _ _))),
        get_mergeGroup_merged nts W st _ first more hgroup hfree]
      simp [reachesSetter_of_ne _ _ hne]
    · unfold mergedRecord
      rw [field_foldl_addMember_of_no_number nts W st.result hp, field_merged_init _ hp,
        hS first (List.mem_cons_self _ _)]
      intro id hid r hr kv hkv
      rw [hS id hid] at hr
      exact hname (id, r) (mem_of_get S id r hr) kv hkv
  · intro id hid hne
    rw [hkeepId] at hne
    generalize hst : mergeLoop nts W (initState S) G1 = st at hgroup hfree hp
    have hget := get_mergeGroup_merged nts W st (main, others) first more hgroup hfree
    have hp1 : (mergeGroup nts W st (main, others)).result.proto = none := by
      rw [proto_mergeGroup_of_not_listed nts W st _ hgrp, hp]
    simp only [mergeSkills]
    rw [mergeLoop_append, mergeLoop_cons, hst]
    by_cases hmore : id ∈ more
    · rw [get_mergeLoop_of_mem_mergedIds nts W G2 _ id
        ((mem_mergedIds_mergeGroup_merged nts W st _ first more hgroup hfree id).2
          (Or.inr (List.mem_cons_of_mem _ hmore))), hget]
      simp [hne, hmore]
    · have hnot : id ∉ presentMembers st.result (main, others) := by
        rw [hgroup]
        simp [hne, hmore]
      have hfalsy : (st.result.read id).truthy = false := by
        cases ht : (st.result.read id).truthy with
        | false => rfl
        | true =>
          exact absurd ((mem_presentMembers st.result (main, others) id).2
            ⟨by simpa using hid, ht⟩) hnot
      rw [truthy_read_of_proto_none _ hp] at hfalsy
      simp only [Bool.or_eq_false_iff] at hfalsy
      cases hout : Obj.get (mergeLoop nts W (mergeGroup nts W st (main, others))
          G2).result.own id with
      | none => rfl
      | some r =>
        exfalso
        rcases has_of_has_mergeLoop nts W G2 _ id hp1 hG2 (by simp [Obj.has, hout])
          with h1 | h1
        · simp only [Obj.has, hget, hne, hmore, if_false] at h1
          have h2 := hfalsy.1
          simp only [Obj.has] at h2
          rw [h2] at h1
          exact absurd h1 (by simp)
        · rw [hfalsy.2] at h1
          exact absurd h1 (by simp)

/-- C4 (example): with only skill `101` in the map and the table
`constructor: [101]`, the primary id `constructor` reads truthy, as an inherited
name: the group is kept under `constructor`, with no display name, and `101` is
absent from the output. -/
theorem mergeSkills_keeps_one_id_example :
    keepIdOf (mergeLoop plainDecimal none
        (initState [("101", [("totalDamage", Val.num 1000)])]) []).result
        "constructor" "constructor" = "constructor" ∧
    (∃ r, Obj.get (mergeSkills plainDecimal (some [("101", [("totalDamage", Val.num 1000)])])
          ([] ++ ("constructor", ["101"]) :: []) none)
          (keepIdOf (mergeLoop plainDecimal none
            (initState [("101", [("totalDamage", Val.num 1000)])]) []).result
            "constructor" "constructor") = some r ∧
        Record.field r "displayName" = optField
          (Obj.get [("101", [("totalDamage", Val.num 1000)])]
            (keepIdOf (mergeLoop plainDecimal none
              (initState [("101", [("totalDamage", Val.num 1000)])]) []).result
              "constructor" "constructor")) "displayName") ∧
    (∀ id ∈ "constructor" :: ["101"],
      id ≠ keepIdOf (mergeLoop plainDecimal none
        (initState [("101", [("totalDamage", Val.num 1000)])]) []).result
        "constructor" "constructor" →
      Obj.get (mergeSkills plainDecimal (some [("101", [("totalDamage", Val.num 1000)])])
        ([] ++ ("constructor", ["101"]) :: []) none) id = none) :=
  ⟨(mergeSkills_keeps_one_id plainDecimal none [("101", [("totalDamage", Val.num 1000)])]
      [] [] "constructor" ["101"] "constructor" ["101"] (by decide) rfl (by decide)
      (by decide)).1 rfl,
   (mergeSkills_keeps_one_id plainDecimal none [("101", [("totalDamage", Val.num 1000)])]
      [] [] "constructor" ["101"] "constructor" ["101"] (by decide) rfl (by decide)
      (by decide)).2.2.2⟩

/-- C5 (as stated, refuted): in the sample map with the table
`100: [101], 200: [101, 201]`, the second group shares alias `101`, which the
input holds, with the first group, which is merged; skill `201` is a member of
the second group that the first group did not consume, and the output does not
hold it. -/
theorem shared_alias_later_group_still_merged :
    Obj.has sampleSkills "101" = true ∧
    Obj.get (mergeSkills plainDecimal (some sampleSkills) [("100", ["101"])] none) "101"
      = none ∧
    Obj.get sampleSkills "201"
      = some [("totalDamage", Val.num 8), ("critCount", Val.num 3)] ∧
    Obj.get (mergeSkills plainDecimal (some sampleSkills) sharedAliasTable none) "201"
      = none :=
  ⟨rfl, rfl, rfl, rfl⟩

/-- C5 (amended): a group that lists the kept id of an earlier merged group is a
no-op in `mergeSkills`: the output is the output for the table without that
group.  (A later group that only shares an alias the earlier group folded away
is merged from its remaining members.) -/
theorem mergeSkills_later_group_with_kept_id_noop (nts : ℚ → String)
    (W : Option (List String)) (S : SkillMap) (G0 Gm G2 : MergeMap)
    (e g : String × List String) (first : String) (more : List String)
    (hgroup : presentMembers (mergeLoop nts W (initState S) G0).result e = first :: more)
    (hfree : ∀ id ∈ first :: more, id ∉ (mergeLoop nts W (initState S) G0).mergedIds)
    (hshare : keepIdOf (mergeLoop nts W (initState S) G0).result e.1 first ∈ g.1 :: g.2) :
    mergeSkills nts (some S) (G0 ++ e :: (Gm ++ g :: G2)) W
      = mergeSkills nts (some S) (G0 ++ e :: (Gm ++ G2)) W := by
  rw [keepIdOf_eq_first _ e first more hgroup] at hshare
  generalize hst : mergeLoop nts W (initState S) G0 = st at hgroup hfree
  simp only [mergeSkills]
  rw [mergeLoop_append, mergeLoop_cons, mergeLoop_append, mergeLoop_cons, hst,
    mergeLoop_append nts W (initState S), mergeLoop_cons, mergeLoop_append, hst]
  have hin : first ∈ (mergeGroup nts W st e).mergedIds :=
    (mem_mergedIds_mergeGroup_merged nts W st e first more hgroup hfree first).2
      (Or.inr (List.mem_cons_self _ _))
  have hget := get_mergeGroup_merged nts W st e first more hgroup hfree first
  have hproto := proto_mergeGroup_merged nts W st e first more hgroup hfree
  rw [mergeGroup_of_conflict nts W (mergeLoop nts W (mergeGroup nts W st e) Gm) g first]
  · rw [mem_presentMembers]
    refine ⟨by simpa using hshare, ?_⟩
    cases hs : st.result.reachesSetter first with
    | false =>
      -- the kept id is an own entry of `result` from then on
      rw [hs] at hget
      simp only [if_true, Bool.false_eq_true, if_false] at hget
      rw [read_of_own _ first _
        ((get_mergeLoop_of_mem_mergedIds nts W Gm _ first hin).trans hget)]
      rfl
    | true =>
      -- the kept id is `__proto__`, which reads the installed prototype from then on
      rw [hs] at hget hproto
      simp only [if_true] at hget hproto
      have hk := (reachesSetter_imp _ _ hs).1
      have hown : Obj.get (mergeLoop nts W (mergeGroup nts W st e) Gm).result.own first
          = none := (get_mergeLoop_of_mem_mergedIds nts W Gm _ first hin).trans hget
      have hpr : (mergeLoop nts W (mergeGroup nts W st e) Gm).result.proto
          = some (mergedRecord nts W st.result first (first :: more)) := by
        rw [proto_mergeLoop_of_mem_mergedIds nts W Gm _ (hk ▸ hin), hproto]
      have hnone := get_proto_mergedRecord_of_setter nts W st.result first (first :: more) hs
      unfold ResultObject.read
      rw [hown, hpr]
      subst hk
      simp [hnone, inheritedValue, Val.truthy]
  · exact mergedIds_subset_mergeLoop nts W Gm _ first hin

/-- C5 (example): in the sample map with the table `100: [101], 200: [100, 201]`
the second group lists the kept id `100` of the first and changes nothing. -/
theorem mergeSkills_later_group_with_kept_id_noop_example :
    mergeSkills plainDecimal (some sampleSkills)
        ([] ++ ("100", ["101"]) :: ([] ++ ("200", ["100", "201"]) :: [])) none
      = mergeSkills plainDecimal (some sampleSkills)
        ([] ++ ("100", ["101"]) :: ([] ++ [])) none :=
  mergeSkills_later_group_with_kept_id_noop plainDecimal none sampleSkills [] [] []
    ("100", ["101"]) ("200", ["100", "201"]) "100" ["101"] rfl (by decide) (by decide)

/-- C6: every input skill whose id is neither the primary id nor an alias of
any group is in the output under the same id with the same record. -/
theorem mergeSkills_ungrouped_unchanged (nts : ℚ → String) (W : Option (List String))
    (S : SkillMap) (G : MergeMap) (id : String) (r : Record)
    (hS : Obj.get S id = some r) (hG : ∀ e ∈ G, id ≠ e.1 ∧ id ∉ e.2) :
    Obj.get (mergeSkills nts (some S) G W) id = some r := by
  simp only [mergeSkills]
  rw [get_mergeLoop_of_not_listed nts W G _ id hG]
  simp only [initState, get_copySkills]
  exact hS

/-- C6 (example): skill `999` of the sample map belongs to no group of the table
`100: [101], 200: [101, 201]` and passes through unchanged. -/
theorem mergeSkills_ungrouped_unchanged_example :
    (∀ e ∈ sharedAliasTable, "999" ≠ e.1 ∧ "999" ∉ e.2) ∧
    Obj.get (mergeSkills plainDecimal (some sampleSkills) sharedAliasTable none) "999"
      = some [("displayName", Val.str "Potion"), ("totalHealing", Val.num 70)] :=
  ⟨by decide, mergeSkills_ungrouped_unchanged plainDecimal none sampleSkills
    sharedAliasTable "999" _ rfl (by decide)⟩

/-! ## The claims about the filter, the ranking and the bars -/

theorem rankUsers_eq_insertionSort (users : List User) (tab : String) :
    rankUsers users tab
      = users.insertionSort (fun a b => valueForTab b tab ≤ valueForTab a tab) := by
  simp only [rankUsers, jsSort, sub_nonpos]

theorem rankUsers_perm (users : List User) (tab : String) :
    (rankUsers users tab).Perm users := by
  rw [rankUsers_eq_insertionSort]
  exact List.perm_insertionSort _ users

theorem rankUsers_sorted (users : List User) (tab : String) :
    (rankUsers users tab).Pairwise
      (fun p q => valueForTab q tab ≤ valueForTab p tab) := by
  rw [rankUsers_eq_insertionSort]
  haveI : IsTotal User (fun a b => valueForTab b tab ≤ valueForTab a tab) :=
    ⟨fun a b => le_total _ _⟩
  haveI : IsTrans User (fun a b => valueForTab b tab ≤ valueForTab a tab) :=
    ⟨fun a b c hab hbc => le_trans hbc hab⟩
  exact List.sorted_insertionSort _ users

theorem rankUsers_filter_eq (users : List User) (tab : String) (v : ℚ) :
    (rankUsers users tab).filter (fun u => decide (valueForTab u tab = v))
      = users.filter (fun u => decide (valueForTab u tab = v)) := by
  have hsub : List.Sublist (users.filter (fun u => decide (valueForTab u tab = v)))
      (rankUsers users tab) := by
    rw [rankUsers_eq_insertionSort]
    apply List.sublist_insertionSort
    · rw [List.pairwise_iff_forall_sublist]
      intro a b hab
      have ha := hab.subset (List.mem_cons_self _ _)
      have hb := hab.subset (List.mem_cons_of_mem _ (List.mem_cons_self _ _))
      simp only [List.mem_filter, decide_eq_true_eq] at ha hb
      rw [ha.2, hb.2]
    · exact List.filter_sublist _
  have hsub2 := hsub.filter (fun u => decide (valueForTab u tab = v))
  rw [List.filter_filter] at hsub2
  simp only [Bool.and_self] at hsub2
  have hlen : ((rankUsers users tab).filter (fun u => decide (valueForTab u tab = v))).length
      = (users.filter (fun u => decide (valueForTab u tab = v))).length :=
    ((rankUsers_perm users tab).filter _).length_eq
  exact (hsub2.eq_of_length hlen.symm).symm

/-- C8: the order in which `renderDataList` ranks the players is the stable
descending sort by `valueForTab`: the ranking rearranges the input, a player
is never ranked after one of smaller value (so of two players with
`value(p) > value(q)`, `p` comes strictly before `q`), and the players of any one
value appear in their input order. -/
theorem rankUsers_stable_descending (users : List User) (tab : String) :
    (rankUsers users tab).Perm users ∧
    (rankUsers users tab).Pairwise (fun p q => valueForTab q tab ≤ valueForTab p tab) ∧
    (∀ p q, p ∈ users → q ∈ users → valueForTab q tab < valueForTab p tab →
      List.Sublist [p, q] (rankUsers users tab)) ∧
    (∀ v : ℚ, (rankUsers users tab).filter (fun u => decide (valueForTab u tab = v))
      = users.filter (fun u => decide (valueForTab u tab = v))) := by
  refine ⟨rankUsers_perm users tab, rankUsers_sorted users tab, ?_,
    rankUsers_filter_eq users tab⟩
  intro p q hp hq hlt
  have hp2 : p ∈ rankUsers users tab := (rankUsers_perm users tab).mem_iff.2 hp
  have hq2 : q ∈ rankUsers users tab := (rankUsers_perm users tab).mem_iff.2 hq
  have hsorted := rankUsers_sorted users tab
  obtain ⟨l1, l2, hsplit⟩ := List.append_of_mem hp2
  rw [hsplit] at hq2 hsorted ⊢
  rw [List.pairwise_append] at hsorted
  rcases List.mem_append.1 hq2 with h1 | h1
  · have := hsorted.2.2 q h1 p (List.mem_cons_self _ _)
    exact absurd hlt (not_lt.2 this)
  · rcases List.mem_cons.1 h1 with h2 | h2
    · rw [h2] at hlt
      exact absurd hlt (lt_irrefl _)
    · apply List.Sublist.trans _ (List.sublist_append_right l1 (p :: l2))
      exact List.Sublist.cons₂ p (List.singleton_sublist.2 h2)

/-- C9 (as stated, refuted): on the dps tab `Data.updateAll` passes players `1`
and `3` of the sample mirror, while the players whose ranked metric (total
damage) is nonzero are `1`, `2` and `3`: player `2` has `total_dps = 0`. -/
theorem updateAll_dps_leaves_out_nonzero_total :
    (updateAll samplePlayers "dps").map (fun u => u.id) = ["1", "3"] ∧
    ((samplePlayers.map Prod.snd).filter
      (fun u => decide (valueForTab u "dps" ≠ 0))).map (fun u => u.id) = ["1", "2", "3"] := by
  constructor
  · simp [updateAll, samplePlayers, admitted, positive]
  · simp [samplePlayers, valueForTab, TabValue]

/-- C9 (amended): the players `Data.updateAll` passes to the ranking are exactly
the players of the mirror whose rate is positive: `total_dps > 0` on the dps
tab, `total_hps > 0` on the heal tab, and on the tank tab `taken_damage > 0`,
the quantity `valueForTab` ranks by there; on any other tab nobody is passed. -/
theorem mem_updateAll_iff (users : List (String × User)) (tab : String) (u : User) :
    u ∈ updateAll users tab ↔
      u ∈ users.map Prod.snd ∧
      ((tab = "dps" ∧ ∃ v, u.total_dps = some v ∧ 0 < v) ∨
       (tab = "heal" ∧ ∃ v, u.total_hps = some v ∧ 0 < v) ∨
       (tab = "tank" ∧ 0 < valueForTab u "tank")) := by
  have hpos : ∀ x : Option ℚ, positive x = true ↔ ∃ v, x = some v ∧ 0 < v := by
    intro x
    cases x with
    | none => simp [positive]
    | some v => simp [positive]
  have htank : (0 < valueForTab u "tank") ↔ ∃ v, u.taken_damage = some v ∧ 0 < v := by
    cases h : u.taken_damage with
    | none => simp [valueForTab, TabValue, h]
    | some v => simp [valueForTab, TabValue, h]
  simp only [updateAll, List.mem_filter, admitted, Bool.or_eq_true, Bool.and_eq_true,
    decide_eq_true_eq, hpos, htank, or_assoc]

theorem barPercent_of_mem_rowsFrom (total top1 : ℚ) (tab : String) (l : List User) :
    ∀ (i : Nat) (row : Row), row ∈ rowsFrom total top1 tab i l →
      ∃ u ∈ l, row.barPercent = barPercent top1 u tab := by
  induction l with
  | nil => intro i row h; simp [rowsFrom] at h
  | cons a rest ih =>
    intro i row h
    simp only [rowsFrom, List.mem_cons] at h
    rcases h with h | h
    · exact ⟨a, List.mem_cons_self _ _, by rw [h]⟩
    · obtain ⟨u, hu, hrow⟩ := ih (i + 1) row h
      exact ⟨u, List.mem_cons_of_mem _ hu, hrow⟩

theorem value_le_topValue (users : List User) (tab : String) :
    ∀ u ∈ rankUsers users tab,
      valueForTab u tab ≤ topValue (rankUsers users tab) tab := by
  have hsorted := rankUsers_sorted users tab
  cases hr : rankUsers users tab with
  | nil => intro u hu; simp at hu
  | cons a rest =>
    rw [hr] at hsorted
    intro u hu
    simp only [topValue]
    rcases List.mem_cons.1 hu with h | h
    · rw [h]
    · exact (List.pairwise_cons.1 hsorted).1 u h

/-- C10: for players with non-negative metric values, every bar fill that
`renderDataList` computes lies between 0 and 100, and whenever the top value is
nonzero the first row, the top-ranked player, has bar fill 100. -/
theorem barPercent_bounds (users : List User) (tab : String)
    (hnonneg : ∀ u ∈ users, 0 ≤ valueForTab u tab) :
    (∀ row ∈ renderRows users tab, 0 ≤ row.barPercent ∧ row.barPercent ≤ 100) ∧
    (topValue (rankUsers users tab) tab ≠ 0 →
      ∃ row rest, renderRows users tab = row :: rest ∧ row.rank = 1 ∧
        row.barPercent = 100) := by
  constructor
  · intro row hrow
    obtain ⟨u, hu, hbar⟩ := barPercent_of_mem_rowsFrom _ _ tab _ 0 row hrow
    have h0 : 0 ≤ valueForTab u tab :=
      hnonneg u ((rankUsers_perm users tab).mem_iff.1 hu)
    have hle := value_le_topValue users tab u hu
    rw [hbar]
    unfold barPercent
    split
    · next hne =>
      have hpos : 0 < topValue (rankUsers users tab) tab :=
        lt_of_le_of_ne (le_trans h0 hle) (Ne.symm hne)
      constructor
      · positivity
      · rw [div_mul_eq_mul_div, div_le_iff₀ hpos]
        nlinarith
    · norm_num
  · intro htop
    cases hr : rankUsers users tab with
    | nil => rw [hr] at htop; exact absurd rfl htop
    | cons a rest =>
      rw [hr] at htop
      simp only [topValue] at htop
      refine ⟨_, _, by simp only [renderRows, hr, rowsFrom]; rfl, rfl, ?_⟩
      simp only [topValue, barPercent]
      rw [if_pos htop, div_self htop]
      norm_num

/-- C10 (example): the bars of the three sample players on the dps tab. -/
theorem barPercent_bounds_example :
    (∀ u ∈ samplePlayers.map Prod.snd, 0 ≤ valueForTab u "dps") ∧
    (∀ row ∈ renderRows (samplePlayers.map Prod.snd) "dps",
      0 ≤ row.barPercent ∧ row.barPercent ≤ 100) ∧
    (topValue (rankUsers (samplePlayers.map Prod.snd) "dps") "dps" ≠ 0 →
      ∃ row rest, renderRows (samplePlayers.map Prod.snd) "dps" = row :: rest ∧
        row.rank = 1 ∧ row.barPercent = 100) :=
  have h : ∀ u ∈ samplePlayers.map Prod.snd, 0 ≤ valueForTab u "dps" := by
    simp [samplePlayers, valueForTab, TabValue]
  ⟨h, barPercent_bounds (samplePlayers.map Prod.snd) "dps" h⟩

/-! ## The heap run writes to new objects only -/

theorem take_set_of_le {α : Type} (l : List α) (n m : Nat) (a : α) (h : m ≤ n) :
    (l.set n a).take m = l.take m := by
  induction l generalizing n m with
  | nil => simp
  | cons x xs ih =>
    cases m with
    | zero => simp
    | succ m =>
      cases n with
      | zero => omega
      | succ n =>
        simp only [List.set_cons_succ, List.take_succ_cons, List.cons.injEq, true_and]
        exact ih n m (by omega)

/-- The part of the heap below `n` that a run leaves as it was, the heap never
getting shorter than `n`. -/
theorem take_alloc (h : Heap) (c : Cell) (n : Nat) (hn : n ≤ h.length) :
    (h.alloc c).1.take n = h.take n ∧ n ≤ (h.alloc c).1.length ∧ n ≤ (h.alloc c).2 := by
  refine ⟨List.take_append_of_le_length hn, ?_, hn⟩
  simp only [Heap.alloc, List.length_append, List.length_singleton]
  omega

theorem take_modifyRecord (h : Heap) (a : Nat) (f : Record → Record) (n : Nat)
    (ha : n ≤ a) :
    (h.modifyRecord a f).take n = h.take n ∧ (h.modifyRecord a f).length = h.length := by
  exact ⟨take_set_of_le h a n _ ha, List.length_set _ _ _⟩

theorem take_modifyMap (h : Heap) (a : Nat) (f : List (String × Nat) → List (String × Nat))
    (n : Nat) (ha : n ≤ a) :
    (h.modifyMap a f).take n = h.take n ∧ (h.modifyMap a f).length = h.length := by
  exact ⟨take_set_of_le h a n _ ha, List.length_set _ _ _⟩

theorem take_assignH (h : Heap) (result : Nat) (keepId : String) (merged : Nat) (n : Nat)
    (ha : n ≤ result) :
    (assignH h result keepId merged).take n = h.take n ∧
      (assignH h result keepId merged).length = h.length := by
  unfold assignH
  split
  · exact ⟨take_set_of_le h result n _ ha, List.length_set _ _ _⟩
  · exact take_modifyMap h result _ n ha

theorem take_copyEntriesH (n : Nat) (es : List (String × Nat)) :
    ∀ h : Heap, n ≤ h.length →
      (copyEntriesH h es).1.take n = h.take n ∧ n ≤ (copyEntriesH h es).1.length := by
  induction es with
  | nil => intro h hn; exact ⟨rfl, hn⟩
  | cons e rest ih =>
    intro h hn
    obtain ⟨id, d⟩ := e
    have h1 := take_alloc h (.record (spread (some (h.recordAt d)))) n hn
    have h2 := ih _ h1.2.1
    simp only [copyEntriesH]
    exact ⟨h2.1.trans h1.1, h2.2⟩

theorem take_addFieldH (nts : ℚ → String) (W : Option (List String)) (merged : Nat)
    (h : Heap) (kv : String × Val) (n : Nat) (hm : n ≤ merged) :
    (addFieldH nts W merged h kv).take n = h.take n ∧
      (addFieldH nts W merged h kv).length = h.length := by
  unfold addFieldH
  split
  · split
    · exact ⟨rfl, rfl⟩
    · exact take_modifyRecord h merged _ n hm
  · exact ⟨rfl, rfl⟩

theorem take_foldl_addFieldH (nts : ℚ → String) (W : Option (List String)) (merged : Nat)
    (n : Nat) (hm : n ≤ merged) (src : Record) :
    ∀ h : Heap, (src.foldl (addFieldH nts W merged) h).take n = h.take n ∧
      (src.foldl (addFieldH nts W merged) h).length = h.length := by
  induction src with
  | nil => intro h; exact ⟨rfl, rfl⟩
  | cons kv rest ih =>
    intro h
    have h1 := take_addFieldH nts W merged h kv n hm
    have h2 := ih (addFieldH nts W merged h kv)
    rw [List.foldl_cons]
    exact ⟨h2.1.trans h1.1, h2.2.trans h1.2⟩

theorem take_addMemberH (nts : ℚ → String) (W : Option (List String)) (result : Nat)
    (keepId : String) (merged : Nat) (h : Heap) (id : String) (n : Nat) (hm : n ≤ merged) :
    (addMemberH nts W result keepId merged h id).take n = h.take n ∧
      (addMemberH nts W result keepId merged h id).length = h.length := by
  unfold addMemberH
  split
  · exact ⟨rfl, rfl⟩
  · split
    · exact take_foldl_addFieldH nts W merged n hm _ h
    · exact ⟨rfl, rfl⟩

theorem take_foldl_addMemberH (nts : ℚ → String) (W : Option (List String)) (result : Nat)
    (keepId : String) (merged : Nat) (n : Nat) (hm : n ≤ merged) (l : List String) :
    ∀ h : Heap, (l.foldl (addMemberH nts W result keepId merged) h).take n = h.take n ∧
      (l.foldl (addMemberH nts W result keepId merged) h).length = h.length := by
  induction l with
  | nil => intro h; exact ⟨rfl, rfl⟩
  | cons a rest ih =>
    intro h
    have h1 := take_addMemberH nts W result keepId merged h a n hm
    have h2 := ih (addMemberH nts W result keepId merged h a)
    rw [List.foldl_cons]
    exact ⟨h2.1.trans h1.1, h2.2.trans h1.2⟩

theorem take_consumeH (keepId : String) (st : MergeStateH) (id : String) (n : Nat)
    (hr : n ≤ st.result) :
    (consumeH keepId st id).heap.take n = st.heap.take n ∧
      (consumeH keepId st id).heap.length = st.heap.length ∧
      (consumeH keepId st id).result = st.result := by
  unfold consumeH
  by_cases h : id = keepId
  · simp [h]
  · have h1 := take_modifyMap st.heap st.result (fun m => Obj.delete m id) n hr
    simp only [ne_eq, h, not_false_eq_true, if_true]
    exact ⟨h1.1, h1.2, trivial⟩

theorem take_foldl_consumeH (keepId : String) (n : Nat) (l : List String) :
    ∀ st : MergeStateH, n ≤ st.result →
      (l.foldl (consumeH keepId) st).heap.take n = st.heap.take n ∧
        (l.foldl (consumeH keepId) st).heap.length = st.heap.length ∧
        (l.foldl (consumeH keepId) st).result = st.result := by
  induction l with
  | nil => intro st _; exact ⟨rfl, rfl, rfl⟩
  | cons a rest ih =>
    intro st hr
    have h1 := take_consumeH keepId st a n hr
    have h2 := ih (consumeH keepId st a) (by rw [h1.2.2]; exact hr)
    rw [List.foldl_cons]
    exact ⟨h2.1.trans h1.1, h2.2.1.trans h1.2.1, h2.2.2.trans h1.2.2⟩

theorem take_mergeGroupH (nts : ℚ → String) (W : Option (List String))
    (st : MergeStateH) (e : String × List String) (n : Nat)
    (hlen : n ≤ st.heap.length) (hr : n ≤ st.result) :
    (mergeGroupH nts W st e).heap.take n = st.heap.take n ∧
      n ≤ (mergeGroupH nts W st e).heap.length ∧
      (mergeGroupH nts W st e).result = st.result := by
  unfold mergeGroupH
  split
  · exact ⟨rfl, hlen, rfl⟩
  · next first more hg =>
    split
    · exact ⟨rfl, hlen, rfl⟩
    · simp only
      generalize (st.heap.resultAt st.result).read
        (keepIdOf (st.heap.resultAt st.result) e.1 first) = kept
      generalize keepIdOf (st.heap.resultAt st.result) e.1 first = keep
      have h1 := take_alloc st.heap (.record kept.ownEntries) n hlen
      have h2 := take_modifyRecord (st.heap.alloc (.record kept.ownEntries)).1
        (st.heap.alloc (.record kept.ownEntries)).2
        (fun r => Obj.set r "displayName"
          ((kept.optProp "displayName").orElse (Record.field r "displayName"))) n h1.2.2
      generalize hh2 : ((st.heap.alloc (.record kept.ownEntries)).1).modifyRecord
          (st.heap.alloc (.record kept.ownEntries)).2
          (fun r => Obj.set r "displayName"
            ((kept.optProp "displayName").orElse (Record.field r "displayName"))) = heap2
        at h2
      have h3 := take_foldl_addMemberH nts W st.result keep
        (st.heap.alloc (.record kept.ownEntries)).2 n h1.2.2 (first :: more) heap2
      generalize hh3 : (first :: more).foldl (addMemberH nts W st.result keep
          (st.heap.alloc (.record kept.ownEntries)).2) heap2 = heap3 at h3
      have h4 := take_assignH heap3 st.result keep
        (st.heap.alloc (.record kept.ownEntries)).2 n hr
      have h5 := take_foldl_consumeH keep n (first :: more)
        { heap := assignH heap3 st.result keep (st.heap.alloc (.record kept.ownEntries)).2
          result := st.result
          mergedIds := st.mergedIds } hr
      refine ⟨?_, ?_, h5.2.2⟩
      · exact h5.1.trans (h4.1.trans (h3.1.trans (h2.1.trans h1.1)))
      · rw [h5.2.1, h4.2, h3.2, h2.2]
        exact h1.2.1

theorem take_foldl_mergeGroupH (nts : ℚ → String) (W : Option (List String)) (n : Nat)
    (G : MergeMap) :
    ∀ st : MergeStateH, n ≤ st.heap.length → n ≤ st.result →
      (G.foldl (mergeGroupH nts W) st).heap.take n = st.heap.take n ∧
        n ≤ (G.foldl (mergeGroupH nts W) st).result := by
  induction G with
  | nil => intro st _ hr; exact ⟨rfl, hr⟩
  | cons e G ih =>
    intro st hlen hr
    have h1 := take_mergeGroupH nts W st e n hlen hr
    have h2 := ih (mergeGroupH nts W st e) h1.2.1 (by rw [h1.2.2]; exact hr)
    rw [List.foldl_cons]
    exact ⟨h2.1.trans h1.1, h2.2⟩

/-- The heap a call leaves agrees with the heap it found on every address that
was allocated, and the map it returns is a new object. -/
theorem mergeSkillsH_frame (nts : ℚ → String) (h : Heap) (skills : Option Nat)
    (G : MergeMap) (W : Option (List String)) :
    (mergeSkillsH nts h skills G W).1.take h.length = h ∧
      h.length ≤ (mergeSkillsH nts h skills G W).2 := by
  cases skills with
  | none =>
    have h1 := take_alloc h (.map [] none) h.length (le_refl _)
    simp only [mergeSkillsH]
    exact ⟨by rw [h1.1, List.take_length], h1.2.2⟩
  | some s =>
    simp only [mergeSkillsH]
    have h1 := take_copyEntriesH h.length (h.mapAt s) h (le_refl _)
    have h2 := take_alloc (copyEntriesH h (h.mapAt s)).1
      (.map ((copyEntriesH h (h.mapAt s)).2.foldl (fun m e => Obj.set m e.1 e.2) []) none)
      h.length h1.2
    have h3 := take_foldl_mergeGroupH nts W h.length G
      { heap := (fromEntriesH (copyEntriesH h (h.mapAt s)).1 (copyEntriesH h (h.mapAt s)).2).1
        result := (fromEntriesH (copyEntriesH h (h.mapAt s)).1
          (copyEntriesH h (h.mapAt s)).2).2
        mergedIds := [] } h2.2.1 h2.2.2
    refine ⟨?_, h3.2⟩
    rw [h3.1]
    simp only [fromEntriesH]
    rw [h2.1, h1.1, List.take_length]

/-! ## The map returned holds new records only -/

theorem getElem?_modifyRecord_ne (h : Heap) (a b : Nat) (f : Record → Record)
    (hab : b ≠ a) : (h.modifyRecord a f)[b]? = h[b]? := by
  simp only [Heap.modifyRecord, List.getElem?_set_ne (Ne.symm hab)]

theorem getElem?_addFieldH_ne (nts : ℚ → String) (W : Option (List String)) (merged : Nat)
    (h : Heap) (kv : String × Val) (b : Nat) (hb : b ≠ merged) :
    (addFieldH nts W merged h kv)[b]? = h[b]? := by
  unfold addFieldH
  split
  · split
    · rfl
    · exact getElem?_modifyRecord_ne h merged b _ hb
  · rfl

theorem getElem?_foldl_addFieldH_ne (nts : ℚ → String) (W : Option (List String))
    (merged : Nat) (b : Nat) (hb : b ≠ merged) (src : Record) :
    ∀ h : Heap, (src.foldl (addFieldH nts W merged) h)[b]? = h[b]? := by
  induction src with
  | nil => intro h; rfl
  | cons kv rest ih =>
    intro h
    rw [List.foldl_cons, ih, getElem?_addFieldH_ne nts W merged h kv b hb]

theorem getElem?_addMemberH_ne (nts : ℚ → String) (W : Option (List String)) (result : Nat)
    (keepId : String) (merged : Nat) (h : Heap) (id : String) (b : Nat) (hb : b ≠ merged) :
    (addMemberH nts W result keepId merged h id)[b]? = h[b]? := by
  unfold addMemberH
  split
  · rfl
  · split
    · exact getElem?_foldl_addFieldH_ne nts W merged b hb _ h
    · rfl

theorem getElem?_foldl_addMemberH_ne (nts : ℚ → String) (W : Option (List String))
    (result : Nat) (keepId : String) (merged : Nat) (b : Nat) (hb : b ≠ merged)
    (l : List String) :
    ∀ h : Heap, (l.foldl (addMemberH nts W result keepId merged) h)[b]? = h[b]? := by
  induction l with
  | nil => intro h; rfl
  | cons a rest ih =>
    intro h
    rw [List.foldl_cons, ih, getElem?_addMemberH_ne nts W result keepId merged h a b hb]

theorem mapAt_set_self (h : Heap) (a : Nat) (m : List (String × Nat)) (p : Option Nat)
    (ha : a < h.length) :
    Heap.mapAt (h.set a (Cell.map m p)) a = m := by
  simp [Heap.mapAt, List.getElem?_set_self ha]

theorem fresh_consumeH (keepId : String) (n : Nat) (st : MergeStateH) (id : String)
    (hres : st.result < st.heap.length)
    (hfresh : ∀ e ∈ st.heap.mapAt st.result, n ≤ e.2) :
    (consumeH keepId st id).result = st.result ∧
      (consumeH keepId st id).heap.length = st.heap.length ∧
      ∀ e ∈ (consumeH keepId st id).heap.mapAt (consumeH keepId st id).result, n ≤ e.2 := by
  unfold consumeH
  by_cases hid : id = keepId
  · simp only [hid, ne_eq, not_true_eq_false, if_false]
    exact ⟨trivial, trivial, hfresh⟩
  · simp only [ne_eq, hid, not_false_eq_true, if_true, Heap.modifyMap, List.length_set]
    refine ⟨trivial, trivial, ?_⟩
    intro e he
    rw [mapAt_set_self _ _ _ _ hres] at he
    exact hfresh e (List.mem_filter.1 he).1

theorem fresh_foldl_consumeH (keepId : String) (n : Nat) (l : List String) :
    ∀ st : MergeStateH, st.result < st.heap.length →
      (∀ e ∈ st.heap.mapAt st.result, n ≤ e.2) →
      (l.foldl (consumeH keepId) st).result = st.result ∧
        (l.foldl (consumeH keepId) st).heap.length = st.heap.length ∧
        ∀ e ∈ (l.foldl (consumeH keepId) st).heap.mapAt
          (l.foldl (consumeH keepId) st).result, n ≤ e.2 := by
  induction l with
  | nil => intro st _ hf; exact ⟨rfl, rfl, hf⟩
  | cons a rest ih =>
    intro st hres hf
    have h1 := fresh_consumeH keepId n st a hres hf
    have h2 := ih (consumeH keepId st a) (by rw [h1.1, h1.2.1]; exact hres) h1.2.2
    rw [List.foldl_cons]
    exact ⟨h2.1.trans h1.1, h2.2.1.trans h1.2.1, h2.2.2⟩

theorem mem_set_entries {α : Type} (l : List (String × α)) (k : String) (a : α)
    (e : String × α) (h : e ∈ Obj.set l k a) : e ∈ l ∨ e = (k, a) := by
  unfold Obj.set at h
  split at h
  · clear * - h
    induction l with
    | nil => simp [Obj.replace] at h
    | cons b rest ih =>
      obtain ⟨bk, bv⟩ := b
      by_cases hb : bk = k
      · simp only [Obj.replace, hb, if_true, List.mem_cons] at h
        rcases h with h | h
        · exact Or.inr h
        · exact Or.inl (List.mem_cons_of_mem _ h)
      · simp only [Obj.replace, hb, if_false, List.mem_cons] at h
        rcases h with h | h
        · exact Or.inl (h ▸ List.mem_cons_self _ _)
        · rcases ih h with h2 | h2
          · exact Or.inl (List.mem_cons_of_mem _ h2)
          · exact Or.inr h2
  · split at h
    · clear * - h
      induction l with
      | nil =>
        simp only [Obj.insertIndex, List.mem_singleton] at h
        exact Or.inr h
      | cons b rest ih =>
        obtain ⟨bk, bv⟩ := b
        simp only [Obj.insertIndex] at h
        split at h
        · split at h
          · rcases List.mem_cons.1 h with h | h
            · exact Or.inl (h ▸ List.mem_cons_self _ _)
            · rcases ih h with h2 | h2
              · exact Or.inl (List.mem_cons_of_mem _ h2)
              · exact Or.inr h2
          · rcases List.mem_cons.1 h with h | h
            · exact Or.inr h
            · exact Or.inl h
        · rcases List.mem_cons.1 h with h | h
          · exact Or.inr h
          · exact Or.inl h
    · rcases List.mem_append.1 h with h | h
      · exact Or.inl h
      · exact Or.inr (List.mem_singleton.1 h)

/-- The entries of `result` after the assignment `result[keepId] = merged`: the
entries it had, and, unless the assignment reached the setter, the new one. -/
theorem mem_mapAt_assignH (h : Heap) (result : Nat) (keepId : String) (merged : Nat)
    (hres : result < h.length) (e : String × Nat)
    (he : e ∈ (assignH h result keepId merged).mapAt result) :
    e ∈ h.mapAt result ∨ e = (keepId, merged) := by
  unfold assignH at he
  split at he
  · simp only [Heap.setProto] at he
    rw [mapAt_set_self _ _ _ _ hres] at he
    exact Or.inl he
  · simp only [Heap.modifyMap] at he
    rw [mapAt_set_self _ _ _ _ hres] at he
    exact mem_set_entries _ _ _ _ he

theorem fresh_mergeGroupH (nts : ℚ → String) (W : Option (List String))
    (st : MergeStateH) (e : String × List String) (n : Nat)
    (hlen : n ≤ st.heap.length) (hres : st.result < st.heap.length)
    (hfresh : ∀ e ∈ st.heap.mapAt st.result, n ≤ e.2) :
    (mergeGroupH nts W st e).result = st.result ∧
      st.heap.length ≤ (mergeGroupH nts W st e).heap.length ∧
      ∀ e2 ∈ (mergeGroupH nts W st e).heap.mapAt (mergeGroupH nts W st e).result,
        n ≤ e2.2 := by
  unfold mergeGroupH
  split
  · exact ⟨rfl, le_refl _, hfresh⟩
  · next first more hg =>
    split
    · exact ⟨rfl, le_refl _, hfresh⟩
    · simp only
      generalize (st.heap.resultAt st.result).read
        (keepIdOf (st.heap.resultAt st.result) e.1 first) = kept
      generalize keepIdOf (st.heap.resultAt st.result) e.1 first = keep
      generalize hh3 : (first :: more).foldl
        (addMemberH nts W st.result keep (st.heap.alloc (.record kept.ownEntries)).2)
        (((st.heap.alloc (.record kept.ownEntries)).1).modifyRecord
          (st.heap.alloc (.record kept.ownEntries)).2
          (fun r => Obj.set r "displayName"
            ((kept.optProp "displayName").orElse (Record.field r "displayName")))) = h3
      have hne : st.result ≠ (st.heap.alloc (.record kept.ownEntries)).2 := by
        simp only [Heap.alloc]
        omega
      have hlen3 : h3.length = st.heap.length + 1 := by
        rw [← hh3, (take_foldl_addMemberH nts W st.result keep _ 0 (Nat.zero_le _) _ _).2,
          (take_modifyRecord _ _ _ 0 (Nat.zero_le _)).2]
        simp [Heap.alloc]
      have hmap3 : h3.mapAt st.result = st.heap.mapAt st.result := by
        simp only [Heap.mapAt]
        rw [← hh3, getElem?_foldl_addMemberH_ne nts W st.result keep _ st.result hne,
          getElem?_modifyRecord_ne _ _ _ _ hne]
        simp only [Heap.alloc, List.getElem?_append_left hres]
      have hres3 : st.result < h3.length := by omega
      have h5 := fresh_foldl_consumeH keep n (first :: more)
        { heap := assignH h3 st.result keep (st.heap.alloc (.record kept.ownEntries)).2
          result := st.result
          mergedIds := st.mergedIds }
        (by rw [(take_assignH h3 st.result keep _ 0 (Nat.zero_le _)).2]; exact hres3)
        (by
          intro e2 he2
          rcases mem_mapAt_assignH h3 st.result keep _ hres3 e2 he2 with h6 | h6
          · rw [hmap3] at h6
            exact hfresh e2 h6
          · rw [h6]
            simp only [Heap.alloc]
            exact hlen)
      refine ⟨h5.1, ?_, h5.2.2⟩
      rw [h5.2.1, (take_assignH h3 st.result keep _ 0 (Nat.zero_le _)).2]
      omega

theorem fresh_foldl_mergeGroupH (nts : ℚ → String) (W : Option (List String)) (n : Nat)
    (G : MergeMap) :
    ∀ st : MergeStateH, n ≤ st.heap.length → st.result < st.heap.length →
      (∀ e ∈ st.heap.mapAt st.result, n ≤ e.2) →
      ∀ e ∈ (G.foldl (mergeGroupH nts W) st).heap.mapAt
        (G.foldl (mergeGroupH nts W) st).result, n ≤ e.2 := by
  induction G with
  | nil => intro st _ _ hf; exact hf
  | cons e G ih =>
    intro st hlen hres hf
    have h1 := fresh_mergeGroupH nts W st e n hlen hres hf
    rw [List.foldl_cons]
    exact ih (mergeGroupH nts W st e) (le_trans hlen h1.2.1)
      (by rw [h1.1]; exact lt_of_lt_of_le hres h1.2.1) h1.2.2

theorem fresh_copyEntriesH (es : List (String × Nat)) :
    ∀ h : Heap, h.length ≤ (copyEntriesH h es).1.length ∧
      ∀ e ∈ (copyEntriesH h es).2, h.length ≤ e.2 := by
  induction es with
  | nil => intro h; exact ⟨le_refl _, fun e he => by simp [copyEntriesH] at he⟩
  | cons e rest ih =>
    intro h
    obtain ⟨id, d⟩ := e
    have h1 := ih (h ++ [Cell.record (spread (some (h.recordAt d)))])
    simp only [copyEntriesH, Heap.alloc, List.length_append, List.length_singleton] at h1 ⊢
    refine ⟨by omega, ?_⟩
    intro e2 he2
    rcases List.mem_cons.1 he2 with h6 | h6
    · rw [h6]
    · have := h1.2 e2 h6
      omega

theorem mem_foldl_set_entries {α : Type} (es : List (String × α)) :
    ∀ (acc : List (String × α)) (e : String × α),
      e ∈ es.foldl (fun m x => Obj.set m x.1 x.2) acc → e ∈ acc ∨ e ∈ es := by
  induction es with
  | nil => intro acc e h; exact Or.inl h
  | cons x rest ih =>
    intro acc e h
    rw [List.foldl_cons] at h
    rcases ih _ e h with h1 | h1
    · rcases mem_set_entries _ _ _ _ h1 with h2 | h2
      · exact Or.inl h2
      · exact Or.inr (h2 ▸ List.mem_cons_self _ _)
    · exact Or.inr (List.mem_cons_of_mem _ h1)

/-- The records of the map a call returns are objects allocated during the
call. -/
theorem mergeSkillsH_fresh (nts : ℚ → String) (h : Heap) (skills : Option Nat)
    (G : MergeMap) (W : Option (List String)) :
    ∀ e ∈ (mergeSkillsH nts h skills G W).1.mapAt (mergeSkillsH nts h skills G W).2,
      h.length ≤ e.2 := by
  cases skills with
  | none =>
    intro e he
    simp [mergeSkillsH, Heap.alloc, Heap.mapAt] at he
  | some s =>
    simp only [mergeSkillsH]
    have h1 := fresh_copyEntriesH (h.mapAt s) h
    apply fresh_foldl_mergeGroupH nts W h.length G
    · simp only [fromEntriesH, Heap.alloc, List.length_append, List.length_singleton]
      omega
    · simp only [fromEntriesH, Heap.alloc, List.length_append, List.length_singleton]
      omega
    · intro e he
      simp only [fromEntriesH, Heap.alloc] at he
      have hm : ((copyEntriesH h (h.mapAt s)).1 ++
          [Cell.map ((copyEntriesH h (h.mapAt s)).2.foldl (fun m e => Obj.set m e.1 e.2) [])
            none]).mapAt
          (copyEntriesH h (h.mapAt s)).1.length
          = (copyEntriesH h (h.mapAt s)).2.foldl (fun m e => Obj.set m e.1 e.2) [] := by
        simp [Heap.mapAt]
      rw [hm] at he
      rcases mem_foldl_set_entries _ _ e he with h2 | h2
      · simp at h2
      · exact h1.2 e h2

/-- C7: `mergeSkills` has no side effect on its argument.  Whatever the heap,
the skill map passed, the grouping table and the whitelist, every object that
existed before the call is the same after it, so the input map has the same
ids and every input record the same fields as before; the map returned is a new
object and the records it holds are new objects (the result is built on
copies); and a `null` skill map yields a new empty map. -/
theorem mergeSkills_no_side_effects (nts : ℚ → String) (h : Heap) (skills : Option Nat)
    (G : MergeMap) (W : Option (List String)) :
    (∀ a, a < h.length → (mergeSkillsH nts h skills G W).1[a]? = h[a]?) ∧
    (∀ a, a < h.length →
      (mergeSkillsH nts h skills G W).1.mapAt a = h.mapAt a ∧
      (mergeSkillsH nts h skills G W).1.recordAt a = h.recordAt a) ∧
    h.length ≤ (mergeSkillsH nts h skills G W).2 ∧
    (∀ e ∈ (mergeSkillsH nts h skills G W).1.mapAt (mergeSkillsH nts h skills G W).2,
      h.length ≤ e.2) ∧
    (mergeSkillsH nts h none G W).1.mapAt (mergeSkillsH nts h none G W).2 = [] ∧
    mergeSkills nts none G W = [] := by
  have hframe := mergeSkillsH_frame nts h skills G W
  have hget : ∀ a, a < h.length → (mergeSkillsH nts h skills G W).1[a]? = h[a]? := by
    intro a ha
    have h1 : ((mergeSkillsH nts h skills G W).1.take h.length)[a]? = h[a]? := by
      rw [hframe.1]
    rw [List.getElem?_take] at h1
    simpa [ha] using h1
  refine ⟨hget, ?_, hframe.2, mergeSkillsH_fresh nts h skills G W, ?_, rfl⟩
  · intro a ha
    simp only [Heap.mapAt, Heap.recordAt, hget a ha]
    exact ⟨trivial, trivial⟩
  · simp [mergeSkillsH, Heap.alloc, Heap.mapAt]

/-! ## The heap run computes the map of the value run -/

theorem keyBefore_ne (a b : String) (h : keyBefore a b) : a ≠ b := by
  intro hab
  subst hab
  unfold keyBefore at h
  split at h
  · next m n h1 h2 =>
    rw [h1] at h2
    cases h2
    exact absurd h (lt_irrefl _)
  · next h1 h2 => rw [h1] at h2; cases h2
  · exact h
  · exact h rfl

theorem get_eq_none_of_forall_ne {α : Type} (o : List (String × α)) (k : String)
    (h : ∀ e ∈ o, e.1 ≠ k) : Obj.get o k = none := by
  induction o with
  | nil => rfl
  | cons e rest ih =>
    obtain ⟨a, v⟩ := e
    have ha : ¬ a = k := h (a, v) (List.mem_cons_self _ _)
    simp only [Obj.get, ha, if_false]
    exact ih (fun e he => h e (List.mem_cons_of_mem _ he))

theorem insertIndex_eq_append {α : Type} (o : List (String × α)) (n : Nat) (k : String)
    (v : α) (h : ∀ e ∈ o, ∃ m, arrayIndex? e.1 = some m ∧ m < n) :
    Obj.insertIndex n k v o = o ++ [(k, v)] := by
  induction o with
  | nil => rfl
  | cons e rest ih =>
    obtain ⟨a, w⟩ := e
    obtain ⟨m, hm, hlt⟩ := h (a, w) (List.mem_cons_self _ _)
    simp only at hm
    simp only [Obj.insertIndex, hm, hlt, if_true, List.cons_append]
    rw [ih (fun e he => h e (List.mem_cons_of_mem _ he))]

/-- Assigning a key that comes after all keys of the object appends the entry. -/
theorem set_eq_append {α : Type} (o : List (String × α)) (k : String) (v : α)
    (h : ∀ e ∈ o, keyBefore e.1 k) : Obj.set o k v = o ++ [(k, v)] := by
  unfold Obj.set
  rw [get_eq_none_of_forall_ne o k (fun e he => keyBefore_ne _ _ (h e he))]
  simp only
  cases hk : arrayIndex? k with
  | none => rfl
  | some n =>
    simp only
    apply insertIndex_eq_append
    intro e he
    have h1 := h e he
    unfold keyBefore at h1
    rw [hk] at h1
    cases ha : arrayIndex? e.1 with
    | none => rw [ha] at h1; exact absurd h1 (by simp)
    | some m => rw [ha] at h1; exact ⟨m, rfl, h1⟩

/-- `Object.fromEntries` of the entries of an object gives back these entries. -/
theorem foldl_set_eq_append {α : Type} (es : List (String × α)) :
    ∀ acc : List (String × α), ValidEnum (Obj.keys (acc ++ es)) →
      es.foldl (fun m e => Obj.set m e.1 e.2) acc = acc ++ es := by
  induction es with
  | nil => intro acc _; simp
  | cons e rest ih =>
    intro acc hv
    rw [List.foldl_cons]
    have h1 : Obj.set acc e.1 e.2 = acc ++ [e] := by
      apply set_eq_append
      intro a ha
      simp only [ValidEnum, Obj.keys, List.map_append, List.map_cons,
        List.pairwise_append] at hv
      exact hv.2.2 a.1 (List.mem_map_of_mem _ ha) e.1 (List.mem_cons_self _ _)
    rw [h1, ih (acc ++ [e]) (by simpa using hv)]
    simp

theorem get_map_snd {α β : Type} (f : α → β) (l : List (String × α)) (k : String) :
    Obj.get (l.map (fun e => (e.1, f e.2))) k = (Obj.get l k).map f := by
  induction l with
  | nil => rfl
  | cons e rest ih =>
    obtain ⟨a, v⟩ := e
    by_cases ha : a = k
    · simp [Obj.get, ha]
    · simp [Obj.get, ha, ih]

theorem has_map_snd {α β : Type} (f : α → β) (l : List (String × α)) (k : String) :
    Obj.has (l.map (fun e => (e.1, f e.2))) k = Obj.has l k := by
  unfold Obj.has
  rw [get_map_snd]
  cases Obj.get l k <;> rfl

theorem replace_map_snd {α β : Type} (f : α → β) (l : List (String × α)) (k : String)
    (a : α) :
    (Obj.replace k a l).map (fun e => (e.1, f e.2))
      = Obj.replace k (f a) (l.map (fun e => (e.1, f e.2))) := by
  induction l with
  | nil => rfl
  | cons e rest ih =>
    obtain ⟨b, v⟩ := e
    by_cases hb : b = k
    · simp [Obj.replace, hb]
    · simp [Obj.replace, hb, ih]

theorem insertIndex_map_snd {α β : Type} (f : α → β) (l : List (String × α)) (n : Nat)
    (k : String) (a : α) :
    (Obj.insertIndex n k a l).map (fun e => (e.1, f e.2))
      = Obj.insertIndex n k (f a) (l.map (fun e => (e.1, f e.2))) := by
  induction l with
  | nil => rfl
  | cons e rest ih =>
    obtain ⟨b, v⟩ := e
    simp only [Obj.insertIndex, List.map_cons]
    split
    · split
      · simp [ih]
      · simp
    · simp

theorem set_map_snd {α β : Type} (f : α → β) (l : List (String × α)) (k : String)
    (a : α) :
    (Obj.set l k a).map (fun e => (e.1, f e.2))
      = Obj.set (l.map (fun e => (e.1, f e.2))) k (f a) := by
  unfold Obj.set
  rw [get_map_snd]
  cases Obj.get l k with
  | some w => exact replace_map_snd f l k a
  | none =>
    simp only [Option.map_none']
    split
    · exact insertIndex_map_snd f l _ k a
    · simp

theorem delete_map_snd {α β : Type} (f : α → β) (l : List (String × α)) (k : String) :
    (Obj.delete l k).map (fun e => (e.1, f e.2))
      = Obj.delete (l.map (fun e => (e.1, f e.2))) k := by
  induction l with
  | nil => rfl
  | cons e rest ih =>
    obtain ⟨b, v⟩ := e
    by_cases hb : b = k
    · simpa [Obj.delete, hb] using ih
    · simpa [Obj.delete, hb] using ih

/-- Reading entries through two heaps that agree on the addresses the entries
hold gives the same skill map. -/
theorem map_recordAt_congr (h h' : Heap) (es : List (String × Nat))
    (hagree : ∀ e ∈ es, h'.recordAt e.2 = h.recordAt e.2) :
    es.map (fun e => (e.1, h'.recordAt e.2)) = es.map (fun e => (e.1, h.recordAt e.2)) := by
  apply List.map_congr_left
  intro e he
  rw [hagree e he]

theorem mapAt_append_lt (base : Heap) (c : Cell) (a : Nat) (ha : a < base.length) :
    (base ++ [c]).mapAt a = base.mapAt a := by
  simp only [Heap.mapAt, List.getElem?_append_left ha]

theorem protoAt_append_lt (base : Heap) (c : Cell) (a : Nat) (ha : a < base.length) :
    (base ++ [c]).protoAt a = base.protoAt a := by
  simp only [Heap.protoAt, List.getElem?_append_left ha]

theorem recordAt_append_lt (base : Heap) (c : Cell) (a : Nat) (ha : a < base.length) :
    (base ++ [c]).recordAt a = base.recordAt a := by
  simp only [Heap.recordAt, List.getElem?_append_left ha]

theorem recordAt_append_self (base : Heap) (r : Record) :
    (base ++ [Cell.record r]).recordAt base.length = r := by
  simp [Heap.recordAt]

theorem modifyRecord_append_self (base : Heap) (r : Record) (f : Record → Record) :
    (base ++ [Cell.record r]).modifyRecord base.length f = base ++ [Cell.record (f r)] := by
  simp [Heap.modifyRecord, recordAt_append_self, List.set_append_right]

theorem modifyMap_append_lt (base : Heap) (c : Cell) (a : Nat)
    (f : List (String × Nat) → List (String × Nat)) (ha : a < base.length) :
    (base ++ [c]).modifyMap a f = base.modifyMap a f ++ [c] := by
  simp [Heap.modifyMap, mapAt_append_lt base c a ha, protoAt_append_lt base c a ha,
    List.set_append_left _ _ ha]

theorem setProto_append_lt (base : Heap) (c : Cell) (a p : Nat) (ha : a < base.length) :
    (base ++ [c]).setProto a p = base.setProto a p ++ [c] := by
  simp [Heap.setProto, mapAt_append_lt base c a ha, List.set_append_left _ _ ha]

theorem length_modifyMap (h : Heap) (a : Nat) (f : List (String × Nat) → List (String × Nat)) :
    (h.modifyMap a f).length = h.length := by
  simp [Heap.modifyMap]

theorem length_setProto (h : Heap) (a p : Nat) : (h.setProto a p).length = h.length := by
  simp [Heap.setProto]

theorem mapAt_modifyMap_self (h : Heap) (a : Nat)
    (f : List (String × Nat) → List (String × Nat)) (ha : a < h.length) :
    (h.modifyMap a f).mapAt a = f (h.mapAt a) := by
  simp [Heap.modifyMap, Heap.mapAt, List.getElem?_set_self ha, ha]

theorem protoAt_modifyMap_self (h : Heap) (a : Nat)
    (f : List (String × Nat) → List (String × Nat)) (ha : a < h.length) :
    (h.modifyMap a f).protoAt a = h.protoAt a := by
  simp [Heap.modifyMap, Heap.protoAt, List.getElem?_set_self ha, ha]

theorem mapAt_setProto_self (h : Heap) (a p : Nat) (ha : a < h.length) :
    (h.setProto a p).mapAt a = h.mapAt a := by
  simp [Heap.setProto, Heap.mapAt, List.getElem?_set_self ha, ha]

theorem protoAt_setProto_self (h : Heap) (a p : Nat) (ha : a < h.length) :
    (h.setProto a p).protoAt a = some p := by
  simp [Heap.setProto, Heap.protoAt, List.getElem?_set_self ha]

theorem recordAt_modifyMap_ne (h : Heap) (a b : Nat)
    (f : List (String × Nat) → List (String × Nat)) (hab : b ≠ a) :
    (h.modifyMap a f).recordAt b = h.recordAt b := by
  simp only [Heap.modifyMap, Heap.recordAt, List.getElem?_set_ne (Ne.symm hab)]

theorem recordAt_setProto_ne (h : Heap) (a p b : Nat) (hab : b ≠ a) :
    (h.setProto a p).recordAt b = h.recordAt b := by
  simp only [Heap.setProto, Heap.recordAt, List.getElem?_set_ne (Ne.symm hab)]

/-- Two heaps that hold the same entries and the same prototype at an address,
and the same records at the addresses these hold, show the same object there. -/
theorem resultAt_congr (h h' : Heap) (a : Nat)
    (hmap : h'.mapAt a = h.mapAt a) (hproto : h'.protoAt a = h.protoAt a)
    (hrec : ∀ e ∈ h.mapAt a, h'.recordAt e.2 = h.recordAt e.2)
    (hprec : ∀ p, h.protoAt a = some p → h'.recordAt p = h.recordAt p) :
    h'.resultAt a = h.resultAt a := by
  unfold Heap.resultAt Heap.skillsAt
  rw [hmap, hproto, map_recordAt_congr h h' _ hrec]
  cases hp : h.protoAt a with
  | none => rfl
  | some p => simp [hprec p hp]

/-- Allocating an object does not change what an allocated map shows. -/
theorem resultAt_append (base : Heap) (c : Cell) (a : Nat) (ha : a < base.length)
    (haddr : ∀ e ∈ base.mapAt a, e.2 < base.length)
    (hpaddr : ∀ p, base.protoAt a = some p → p < base.length) :
    (base ++ [c]).resultAt a = base.resultAt a :=
  resultAt_congr base (base ++ [c]) a (mapAt_append_lt base c a ha)
    (protoAt_append_lt base c a ha)
    (fun e he => recordAt_append_lt base c e.2 (haddr e he))
    (fun p hp => recordAt_append_lt base c p (hpaddr p hp))

theorem addFieldH_append (nts : ℚ → String) (W : Option (List String)) (base : Heap)
    (r : Record) (kv : String × Val) :
    addFieldH nts W base.length (base ++ [Cell.record r]) kv
      = base ++ [Cell.record (addField nts W r kv)] := by
  unfold addFieldH
  split
  · next x hx =>
    split
    · next hw =>
      have : addField nts W r kv = r := by
        unfold addField
        rw [hx]
        simp [hw]
      rw [this]
    · exact modifyRecord_append_self base r _
  · next hno =>
    have : addField nts W r kv = r := by
      unfold addField
      split
      · next x hx => exact absurd hx (hno x)
      · rfl
    rw [this]

theorem foldl_addFieldH_append (nts : ℚ → String) (W : Option (List String)) (base : Heap)
    (src : Record) :
    ∀ r : Record, src.foldl (addFieldH nts W base.length) (base ++ [Cell.record r])
      = base ++ [Cell.record (src.foldl (addField nts W) r)] := by
  induction src with
  | nil => intro r; rfl
  | cons kv rest ih =>
    intro r
    rw [List.foldl_cons, List.foldl_cons, addFieldH_append, ih]

theorem addMemberH_append (nts : ℚ → String) (W : Option (List String)) (base : Heap)
    (result : Nat) (keep : String) (r : Record) (id : String)
    (hres : result < base.length)
    (haddr : ∀ e ∈ base.mapAt result, e.2 < base.length)
    (hpaddr : ∀ p, base.protoAt result = some p → p < base.length) :
    addMemberH nts W result keep base.length (base ++ [Cell.record r]) id
      = base ++ [Cell.record (addMember nts W (base.resultAt result) keep r id)] := by
  unfold addMemberH addMember
  rw [resultAt_append base _ result hres haddr hpaddr]
  split
  · rfl
  · split
    · exact foldl_addFieldH_append nts W base _ r
    · rfl

theorem foldl_addMemberH_append (nts : ℚ → String) (W : Option (List String)) (base : Heap)
    (result : Nat) (keep : String) (hres : result < base.length)
    (haddr : ∀ e ∈ base.mapAt result, e.2 < base.length)
    (hpaddr : ∀ p, base.protoAt result = some p → p < base.length) (l : List String) :
    ∀ r : Record,
      l.foldl (addMemberH nts W result keep base.length) (base ++ [Cell.record r])
        = base ++ [Cell.record (l.foldl (addMember nts W (base.resultAt result) keep) r)] := by
  induction l with
  | nil => intro r; rfl
  | cons a rest ih =>
    intro r
    rw [List.foldl_cons, List.foldl_cons,
      addMemberH_append nts W base result keep r a hres haddr hpaddr, ih]

theorem mem_delete {α : Type} (l : List (String × α)) (k : String)
    (e : String × α) (h : e ∈ Obj.delete l k) : e ∈ l :=
  (List.mem_filter.1 h).1

/-- The second loop of an iteration keeps the heap state in step with the
value state. -/
theorem represents_consume (keep : String) (H : MergeStateH) (st : MergeState)
    (id : String) (h : Represents H st) :
    Represents (consumeH keep H id) (consume keep st id) := by
  obtain ⟨hread, hM, hres, haddr, hpaddr⟩ := h
  unfold consumeH consume
  by_cases hid : id = keep
  · simp only [hid, ne_eq, not_true_eq_false, if_false]
    exact ⟨hread, by rw [hM], hres, haddr, hpaddr⟩
  · simp only [ne_eq, hid, not_false_eq_true, if_true]
    refine ⟨?_, by rw [hM], ?_, ?_, ?_⟩
    · rw [← hread]
      simp only [Heap.resultAt, ResultObject.remove, Heap.skillsAt,
        mapAt_modifyMap_self _ _ _ hres, protoAt_modifyMap_self _ _ _ hres]
      rw [map_recordAt_congr H.heap _ (Obj.delete (H.heap.mapAt H.result) id)
        (fun e he => recordAt_modifyMap_ne _ _ _ _ (haddr e (mem_delete _ _ e he)).2)]
      rw [delete_map_snd]
      congr 1
      cases hp : H.heap.protoAt H.result with
      | none => rfl
      | some p => simp [recordAt_modifyMap_ne _ _ _ _ (hpaddr p hp).2]
    · rw [length_modifyMap]; exact hres
    · intro e he
      rw [mapAt_modifyMap_self _ _ _ hres] at he
      rw [length_modifyMap]
      exact haddr e (mem_delete _ _ e he)
    · intro p hp
      rw [protoAt_modifyMap_self _ _ _ hres] at hp
      rw [length_modifyMap]
      exact hpaddr p hp

theorem represents_foldl_consume (keep : String) (l : List String) :
    ∀ (H : MergeStateH) (st : MergeState), Represents H st →
      Represents (l.foldl (consumeH keep) H) (l.foldl (consume keep) st) := by
  induction l with
  | nil => intro H st h; exact h
  | cons a rest ih =>
    intro H st h
    rw [List.foldl_cons, List.foldl_cons]
    exact ih _ _ (represents_consume keep H st a h)

theorem recordAt_append_eq (base : Heap) (r : Record) (a : Nat) (ha : a = base.length) :
    (base ++ [Cell.record r]).recordAt a = r := by
  rw [ha]
  exact recordAt_append_self base r

/-- The heap state after `result[keepId] = merged`, for a record `merged` that
was allocated last, represents the value state after the same assignment. -/
theorem represents_after_assign (H : MergeStateH) (st : MergeState) (keep : String)
    (mr : Record) (h : Represents H st) :
    Represents
      { heap := assignH (H.heap ++ [Cell.record mr]) H.result keep H.heap.length,
        result := H.result, mergedIds := H.mergedIds }
      { result := st.result.assign keep mr, mergedIds := st.mergedIds } := by
  obtain ⟨hread, hM, hres, haddr, hpaddr⟩ := h
  have hview : (H.heap ++ [Cell.record mr]).resultAt H.result = st.result := by
    rw [resultAt_append H.heap _ H.result hres (fun e he => (haddr e he).1)
      (fun p hp => (hpaddr p hp).1), hread]
  unfold assignH ResultObject.assign
  rw [hview]
  cases hs : st.result.reachesSetter keep with
  | true =>
    simp only [if_true]
    rw [setProto_append_lt _ _ _ _ hres]
    have hres2 : H.result < (H.heap.setProto H.result H.heap.length).length := by
      rw [length_setProto]; exact hres
    refine ⟨?_, hM, ?_, ?_, ?_⟩
    · simp only [Heap.resultAt, Heap.skillsAt]
      rw [mapAt_append_lt _ _ _ hres2, protoAt_append_lt _ _ _ hres2,
        mapAt_setProto_self _ _ _ hres, protoAt_setProto_self _ _ _ hres]
      rw [map_recordAt_congr H.heap _ (H.heap.mapAt H.result)
        (fun e he => by
          rw [recordAt_append_lt _ _ _ (by rw [length_setProto]; exact (haddr e he).1)]
          exact recordAt_setProto_ne _ _ _ _ (haddr e he).2)]
      simp only [Option.map_some']
      rw [recordAt_append_eq _ mr _ (length_setProto _ _ _).symm]
      rw [← hread]
      rfl
    · simp only [List.length_append, List.length_singleton, length_setProto]
      omega
    · intro e2 he2
      simp only at he2
      rw [mapAt_append_lt _ _ _ hres2, mapAt_setProto_self _ _ _ hres] at he2
      simp only [List.length_append, List.length_singleton, length_setProto]
      have := haddr e2 he2
      exact ⟨by omega, this.2⟩
    · intro p hp
      simp only at hp
      rw [protoAt_append_lt _ _ _ hres2, protoAt_setProto_self _ _ _ hres] at hp
      simp only [List.length_append, List.length_singleton, length_setProto]
      have hp2 := Option.some.inj hp
      exact ⟨by omega, by omega⟩
  | false =>
    simp only [Bool.false_eq_true, if_false]
    rw [modifyMap_append_lt _ _ _ _ hres]
    have hres2 : H.result < (H.heap.modifyMap H.result
        (fun m => Obj.set m keep H.heap.length)).length := by
      rw [length_modifyMap]; exact hres
    refine ⟨?_, hM, ?_, ?_, ?_⟩
    · simp only [Heap.resultAt, Heap.skillsAt]
      rw [mapAt_append_lt _ _ _ hres2, protoAt_append_lt _ _ _ hres2,
        mapAt_modifyMap_self _ _ _ hres, protoAt_modifyMap_self _ _ _ hres,
        set_map_snd (H.heap.modifyMap H.result
          (fun m => Obj.set m keep H.heap.length) ++ [Cell.record mr]).recordAt,
        recordAt_append_eq _ mr _ (length_modifyMap _ _ _).symm,
        map_recordAt_congr H.heap _ (H.heap.mapAt H.result)
          (fun e he => by
            rw [recordAt_append_lt _ _ _ (by rw [length_modifyMap]; exact (haddr e he).1)]
            exact recordAt_modifyMap_ne _ _ _ _ (haddr e he).2)]
      rw [← hread]
      simp only [Heap.resultAt, Heap.skillsAt]
      congr 1
      cases hp : H.heap.protoAt H.result with
      | none => rfl
      | some p =>
        simp only [Option.map_some', Option.some.injEq]
        rw [recordAt_append_lt _ _ _ (by rw [length_modifyMap]; exact (hpaddr p hp).1)]
        exact recordAt_modifyMap_ne _ _ _ _ (hpaddr p hp).2
    · simp only [List.length_append, List.length_singleton, length_modifyMap]
      omega
    · intro e2 he2
      simp only at he2
      rw [mapAt_append_lt _ _ _ hres2, mapAt_modifyMap_self _ _ _ hres] at he2
      simp only [List.length_append, List.length_singleton, length_modifyMap]
      rcases mem_set_entries _ _ _ _ he2 with h1 | h1
      · have := haddr e2 h1
        exact ⟨by omega, this.2⟩
      · rw [h1]
        simp only
        exact ⟨by omega, by omega⟩
    · intro p hp
      simp only at hp
      rw [protoAt_append_lt _ _ _ hres2, protoAt_modifyMap_self _ _ _ hres] at hp
      simp only [List.length_append, List.length_singleton, length_modifyMap]
      have := hpaddr p hp
      exact ⟨by omega, this.2⟩

/-- One iteration on the heap keeps the heap state in step with the same
iteration on values. -/
theorem represents_mergeGroup (nts : ℚ → String) (W : Option (List String))
    (H : MergeStateH) (st : MergeState) (e : String × List String)
    (h : Represents H st) :
    Represents (mergeGroupH nts W H e) (mergeGroup nts W st e) := by
  have hsim := h
  obtain ⟨hread, hM, hres, haddr, hpaddr⟩ := h
  unfold mergeGroupH mergeGroup
  rw [hread, hM]
  cases hg : presentMembers st.result e with
  | nil => exact hsim
  | cons first more =>
    simp only
    split
    · exact hsim
    · generalize keepIdOf st.result e.1 first = keep
      apply represents_foldl_consume
      simp only [Heap.alloc]
      rw [modifyRecord_append_self,
        foldl_addMemberH_append nts W H.heap H.result keep hres
          (fun e he => (haddr e he).1) (fun p hp => (hpaddr p hp).1),
        hread]
      have hfin := represents_after_assign H st keep
        (mergedRecord nts W st.result keep (first :: more)) hsim
      rw [hM] at hfin
      exact hfin

theorem represents_foldl_mergeGroup (nts : ℚ → String) (W : Option (List String))
    (G : MergeMap) :
    ∀ (H : MergeStateH) (st : MergeState), Represents H st →
      Represents (G.foldl (mergeGroupH nts W) H) (mergeLoop nts W st G) := by
  induction G with
  | nil => intro H st h; exact h
  | cons e G ih =>
    intro H st h
    rw [List.foldl_cons, mergeLoop_cons]
    exact ih _ _ (represents_mergeGroup nts W H st e h)

/-- What copying the records of a map does, when these records are allocated:
the copies are new objects, and the copied entries have the keys of the entries
and read back to the same records. -/
theorem copyEntriesH_spec (es : List (String × Nat)) :
    ∀ h : Heap, (∀ e ∈ es, e.2 < h.length) →
      (copyEntriesH h es).2.map Prod.fst = es.map Prod.fst ∧
      h.length ≤ (copyEntriesH h es).1.length ∧
      (∀ a, a < h.length → (copyEntriesH h es).1.recordAt a = h.recordAt a) ∧
      (∀ e ∈ (copyEntriesH h es).2, e.2 < (copyEntriesH h es).1.length) ∧
      (copyEntriesH h es).2.map (fun e => (e.1, (copyEntriesH h es).1.recordAt e.2))
        = es.map (fun e => (e.1, h.recordAt e.2)) := by
  induction es with
  | nil =>
    intro h _
    exact ⟨rfl, le_refl _, fun _ _ => rfl, fun e he => by simp [copyEntriesH] at he, rfl⟩
  | cons e rest ih =>
    intro h hwf
    obtain ⟨id, d⟩ := e
    obtain ⟨h1, h2, h3, h4, h5⟩ := ih (h ++ [Cell.record (spread (some (h.recordAt d)))])
      (fun e he => by
        have := hwf e (List.mem_cons_of_mem _ he)
        simp only [List.length_append, List.length_singleton]
        omega)
    simp only [copyEntriesH, Heap.alloc, List.map_cons] at h1 h2 h3 h4 h5 ⊢
    simp only [List.length_append, List.length_singleton] at h2 h3
    refine ⟨by rw [h1], by omega, ?_, ?_, ?_⟩
    · intro a ha
      rw [h3 a (by omega), recordAt_append_lt _ _ _ ha]
    · intro e2 he2
      rcases List.mem_cons.1 he2 with h6 | h6
      · rw [h6]; simp only; omega
      · exact h4 e2 h6
    · rw [h5, h3 h.length (by omega), recordAt_append_self]
      simp only [spread, Option.getD_some, List.cons.injEq, true_and]
      apply List.map_congr_left
      intro e2 he2
      rw [recordAt_append_lt _ _ _ (hwf e2 (List.mem_cons_of_mem _ he2))]

/-- The heap run refines the value run: for a skill map whose keys are in
enumeration order and whose records are allocated, the map the heap run
returns, read back, is the map `mergeSkills` computes from the input map read
back. -/
theorem mergeSkillsH_refines (nts : ℚ → String) (h : Heap) (s : Nat) (G : MergeMap)
    (W : Option (List String)) (hvalid : ValidEnum (Obj.keys (h.mapAt s)))
    (hwf : ∀ e ∈ h.mapAt s, e.2 < h.length) :
    (mergeSkillsH nts h (some s) G W).1.skillsAt (mergeSkillsH nts h (some s) G W).2
      = mergeSkills nts (some (h.skillsAt s)) G W := by
  obtain ⟨h1, h2, h3, h4, h5⟩ := copyEntriesH_spec (h.mapAt s) h hwf
  have hfrom : (copyEntriesH h (h.mapAt s)).2.foldl (fun m e => Obj.set m e.1 e.2) []
      = (copyEntriesH h (h.mapAt s)).2 := by
    have := foldl_set_eq_append (copyEntriesH h (h.mapAt s)).2 []
      (by simpa [Obj.keys, h1] using hvalid)
    simpa using this
  have hrep : Represents
      { heap := (fromEntriesH (copyEntriesH h (h.mapAt s)).1 (copyEntriesH h (h.mapAt s)).2).1
        result := (fromEntriesH (copyEntriesH h (h.mapAt s)).1
          (copyEntriesH h (h.mapAt s)).2).2
        mergedIds := [] }
      (initState (h.skillsAt s)) := by
    simp only [fromEntriesH, Heap.alloc, hfrom, initState, copySkills_eq]
    have hmapAt : ((copyEntriesH h (h.mapAt s)).1
        ++ [Cell.map (copyEntriesH h (h.mapAt s)).2 none]).mapAt
          (copyEntriesH h (h.mapAt s)).1.length
        = (copyEntriesH h (h.mapAt s)).2 := by
      simp [Heap.mapAt]
    have hprotoAt : ((copyEntriesH h (h.mapAt s)).1
        ++ [Cell.map (copyEntriesH h (h.mapAt s)).2 none]).protoAt
          (copyEntriesH h (h.mapAt s)).1.length = none := by
      simp [Heap.protoAt]
    refine ⟨?_, rfl, ?_, ?_, ?_⟩
    · simp only [Heap.resultAt, Heap.skillsAt, hmapAt, hprotoAt, Option.map_none']
      rw [map_recordAt_congr (copyEntriesH h (h.mapAt s)).1 _ _
        (fun e he => recordAt_append_lt _ _ _ (h4 e he)), h5]
    · simp only [List.length_append, List.length_singleton]
      omega
    · intro e he
      simp only at he
      rw [hmapAt] at he
      have := h4 e he
      simp only [List.length_append, List.length_singleton]
      exact ⟨by omega, by omega⟩
    · intro p hp
      simp only at hp
      rw [hprotoAt] at hp
      exact absurd hp (by simp)
  have hsim := represents_foldl_mergeGroup nts W G _ _ hrep
  simp only [mergeSkillsH, mergeSkills]
  have hown := congrArg ResultObject.own hsim.1
  exact hown

/-- The refinement on the sample skill map: the heap run with the table
`100: [101], 200: [101, 201]` returns, read back, the map of the value run. -/
theorem mergeSkillsH_refines_sample :
    (mergeSkillsH plainDecimal sampleHeap (some 5) sharedAliasTable none).1.skillsAt
        (mergeSkillsH plainDecimal sampleHeap (some 5) sharedAliasTable none).2
      = mergeSkills plainDecimal (some (sampleHeap.skillsAt 5)) sharedAliasTable none :=
  mergeSkillsH_refines plainDecimal sampleHeap 5 sharedAliasTable none (by decide) (by decide)

/-! ## The display shares of `renderDataList` -/

theorem foldl_add_eq_sum {α : Type} (f : α → ℚ) (l : List α) (a : ℚ) :
    l.foldl (fun s u => s + f u) a = a + (l.map f).sum := by
  induction l generalizing a with
  | nil => simp
  | cons x xs ih => simp [ih, add_assoc]

theorem totalValue_eq_sum (users : List User) (tab : String) :
    totalValue users tab = (users.map (fun u => valueForTab u tab)).sum := by
  unfold totalValue
  rw [foldl_add_eq_sum]
  simp

theorem displayPercent_rowsFrom (total top1 : ℚ) (tab : String) (l : List User) (i : Nat) :
    (rowsFrom total top1 tab i l).map Row.displayPercent =
      l.map (fun u => displayPercent total u tab) := by
  induction l generalizing i with
  | nil => rfl
  | cons u rest ih => simp [rowsFrom, ih]

theorem sum_displayPercent (total : ℚ) (tab : String) (l : List User) :
    (l.map (fun u => displayPercent total u tab)).sum =
      if total ≠ 0 then (l.map (fun u => valueForTab u tab)).sum / total * 100 else 0 := by
  induction l with
  | nil => simp
  | cons u rest ih =>
    simp only [List.map_cons, List.sum_cons, ih]
    unfold displayPercent
    by_cases h : total = 0
    · simp [h]
    · simp only [ne_eq, h, not_false_eq_true, if_true]
      ring

/-- C11. The display shares `renderDataList` computes for the players it is
given add up to exactly 100 when the sum of the players' values is not zero and
to 0 when it is, so never to more than 100. -/
theorem displayPercent_sum (users : List User) (activeTab : String) :
    ((renderRows users activeTab).map Row.displayPercent).sum =
        (if totalValue users activeTab ≠ 0 then 100 else 0) ∧
      ((renderRows users activeTab).map Row.displayPercent).sum ≤ 100 := by
  have hsum : ((renderRows users activeTab).map Row.displayPercent).sum =
      (if totalValue users activeTab ≠ 0 then 100 else 0) := by
    unfold renderRows
    simp only [displayPercent_rowsFrom, sum_displayPercent]
    have hperm : ((rankUsers users activeTab).map (fun u => valueForTab u activeTab)).sum =
        totalValue users activeTab := by
      rw [totalValue_eq_sum]
      exact ((rankUsers_perm users activeTab).map _).sum_eq
    rw [hperm]
    by_cases h : totalValue users activeTab = 0
    · simp [h]
    · simp only [ne_eq, h, not_false_eq_true, if_true]
      field_simp
  refine ⟨hsum, ?_⟩
  rw [hsum]
  split <;> norm_num

/-! ## The client: data updates and deletions -/

theorem get_eq_none_iff_not_mem_keys {α : Type} (o : List (String × α)) (k : String) :
    Obj.get o k = none ↔ k ∉ Obj.keys o := by
  induction o with
  | nil => simp [Obj.get, Obj.keys]
  | cons e rest ih =>
    obtain ⟨a, u⟩ := e
    by_cases ha : a = k
    · simp [Obj.get, Obj.keys, ha]
    · have hk : ¬ k = a := fun h => ha h.symm
      simpa [Obj.get, Obj.keys, ha, hk] using ih

theorem scheduleFrame_fields (st : ClientState) (frame : Frame) :
    (scheduleFrame st frame).users = st.users ∧
      (scheduleFrame st frame).skillsByUser = st.skillsByUser ∧
      (scheduleFrame st frame).spellWindowRef = st.spellWindowRef ∧
      (scheduleFrame st frame).currentSpellUserId = st.currentSpellUserId ∧
      (scheduleFrame st frame).spellWindowWatchdog = st.spellWindowWatchdog ∧
      (scheduleFrame st frame).viewMode = st.viewMode ∧
      (scheduleFrame st frame).liveSkillsUserId = st.liveSkillsUserId ∧
      posts (scheduleFrame st frame).log = posts st.log := by
  unfold scheduleFrame
  split
  · simp
  · refine ⟨rfl, rfl, rfl, rfl, rfl, rfl, rfl, ?_⟩
    show posts (st.log ++ [Effect.requestAnimationFrame frame]) = posts st.log
    induction st.log with
    | nil => rfl
    | cons e rest ih => cases e <;> simp [posts, ih]

theorem updateAll_fields (host : Host) (st : ClientState) :
    (Data_updateAll host st).users = st.users ∧
      (Data_updateAll host st).skillsByUser = st.skillsByUser ∧
      (Data_updateAll host st).spellWindowRef = st.spellWindowRef ∧
      (Data_updateAll host st).currentSpellUserId = st.currentSpellUserId ∧
      (Data_updateAll host st).spellWindowWatchdog = st.spellWindowWatchdog ∧
      (Data_updateAll host st).viewMode = st.viewMode ∧
      (Data_updateAll host st).liveSkillsUserId = st.liveSkillsUserId ∧
      posts (Data_updateAll host st).log = posts st.log := by
  unfold Data_updateAll renderDataList renderLiveSkillsView
  split <;> exact scheduleFrame_fields _ _

theorem pushLiveUpdate_mirrors (host : Host) (browser : Browser) (st : ClientState)
    (userId : String) :
    (Spells_pushLiveUpdateIfActive host browser st userId).1.users = st.users ∧
      (Spells_pushLiveUpdateIfActive host browser st userId).1.skillsByUser =
        st.skillsByUser := by
  unfold Spells_pushLiveUpdateIfActive
  split
  · exact ⟨rfl, rfl⟩
  · split
    · exact ⟨rfl, rfl⟩
    · split
      · exact ⟨rfl, rfl⟩
      · split
        · exact ⟨rfl, rfl⟩
        · exact ⟨rfl, rfl⟩
        · split <;> exact ⟨rfl, rfl⟩

/-- The mirrors after an update that passes the guard: the user map and the
skills map of the update merged into them. -/
theorem processDataUpdate_mirrors (host : Host) (browser : Browser) (st : ClientState)
    (data : DataUpdate) (um : List (String × Record)) (hp : st.paused = false)
    (hu : data.user = some um) :
    (Data_processDataUpdate host browser st data).1.users = um.foldl mergeUserEntry st.users ∧
      (Data_processDataUpdate host browser st data).1.skillsByUser =
        (match data.skills with
         | some skillsMap => skillsMap.foldl mergeSkillsEntry st.skillsByUser
         | none => st.skillsByUser) := by
  unfold Data_processDataUpdate
  simp only [hu, hp, Bool.false_eq_true, if_false]
  split
  · rw [(updateAll_fields host _).1, (updateAll_fields host _).2.1]
    cases data.skills <;> exact ⟨rfl, rfl⟩
  · split
    · rw [(updateAll_fields host _).1, (updateAll_fields host _).2.1]
      cases data.skills <;> exact ⟨rfl, rfl⟩
    · split
      · rw [(pushLiveUpdate_mirrors host browser _ _).1,
          (pushLiveUpdate_mirrors host browser _ _).2,
          (updateAll_fields host _).1, (updateAll_fields host _).2.1]
        cases data.skills <;> exact ⟨rfl, rfl⟩
      · rw [(updateAll_fields host _).1, (updateAll_fields host _).2.1]
        cases data.skills <;> exact ⟨rfl, rfl⟩

theorem foldl_mergeUserEntry_get_of_not_mem (um : List (String × Record))
    (users : List (String × Record)) (k : String) (hk : k ∉ Obj.keys um) :
    Obj.get (um.foldl mergeUserEntry users) k = Obj.get users k := by
  induction um generalizing users with
  | nil => rfl
  | cons e rest ih =>
    simp only [Obj.keys, List.map_cons, List.mem_cons, not_or] at hk
    rw [List.foldl_cons, ih _ (by simpa [Obj.keys] using hk.2)]
    exact Obj.get_set_ne _ _ _ _ hk.1

theorem foldl_mergeUserEntry_get_of_mem (um : List (String × Record))
    (users : List (String × Record)) (uid : String) (newUser : Record)
    (hnd : (Obj.keys um).Nodup) (hmem : (uid, newUser) ∈ um) :
    Obj.get (um.foldl mergeUserEntry users) uid =
      some (mergeUserRecord ((Obj.get users uid).getD []) uid newUser) := by
  induction um generalizing users with
  | nil => simp at hmem
  | cons e rest ih =>
    simp only [Obj.keys, List.map_cons, List.nodup_cons] at hnd
    rw [List.foldl_cons]
    rcases List.mem_cons.1 hmem with h | h
    · subst h
      rw [foldl_mergeUserEntry_get_of_not_mem rest _ uid (by simpa [Obj.keys] using hnd.1)]
      exact Obj.get_set_self _ _ _
    · have hne : uid ≠ e.1 := by
        intro heq
        apply hnd.1
        rw [← heq]
        exact List.mem_map.2 ⟨(uid, newUser), h, rfl⟩
      rw [ih _ (by simpa [Obj.keys] using hnd.2) h]
      unfold mergeUserEntry
      rw [Obj.get_set_ne _ _ _ _ hne]

theorem field_name_mergeUserRecord (existing : Record) (userId : String) (newUser : Record) :
    Record.field (mergeUserRecord existing userId newUser) "name" =
      mergedName existing newUser := by
  unfold mergeUserRecord Record.field
  simp only []
  rw [Obj.get_set_ne _ _ _ _ (by decide), Obj.get_set_ne _ _ _ _ (by decide),
    Obj.get_set_self]
  rfl

/-- C12 (as amended). After an unpaused update that carries a non-empty name `n`
for a player, the name stored for that player is `n`, unless `n` is the
sentinel "未知": then the name stored before is kept if there is a non-empty
one, and the placeholder "..." is stored otherwise. -/
theorem processDataUpdate_stored_name (host : Host) (browser : Browser) (st : ClientState)
    (data : DataUpdate) (um : List (String × Record)) (uid : String) (newUser : Record)
    (n : String) (hp : st.paused = false) (hu : data.user = some um)
    (hnd : (Obj.keys um).Nodup) (hmem : (uid, newUser) ∈ um)
    (hname : Record.field newUser "name" = .str n) (hne : n ≠ "") :
    (Obj.get (Data_processDataUpdate host browser st data).1.users uid).map
        (fun r => Record.field r "name") =
      some (if n = "未知" then
              (Record.field ((Obj.get st.users uid).getD []) "name").or (.str "...")
            else .str n) := by
  rw [(processDataUpdate_mirrors host browser st data um hp hu).1,
    foldl_mergeUserEntry_get_of_mem um st.users uid newUser hnd hmem]
  simp only [Option.map_some', field_name_mergeUserRecord]
  unfold mergedName
  rw [hname]
  by_cases hs : n = "未知"
  · simp [Val.isString, Val.truthy, hs]
  · simp [Val.isString, Val.truthy, hs, hne]

/-- Example for C12: player `"7"`, stored as Ann, is renamed by an update that
carries the name Bea. -/
theorem processDataUpdate_stored_name_example :
    (Obj.get (Data_processDataUpdate sampleHost sampleBrowser sampleClient renameUpdate).1.users
        "7").map (fun r => Record.field r "name") =
      some (if "Bea" = "未知" then
              (Record.field ((Obj.get sampleClient.users "7").getD []) "name").or (.str "...")
            else .str "Bea") :=
  processDataUpdate_stored_name sampleHost sampleBrowser sampleClient renameUpdate
    [("7", [("name", .str "Bea"), ("total_dps", .num 20)])] "7"
    [("name", .str "Bea"), ("total_dps", .num 20)] "Bea" rfl rfl (by decide)
    (List.mem_singleton.2 rfl) rfl (by decide)

/-- Counterexample for C12: the sentinel name arrives for a player with no
stored name; the name stored is the placeholder "...", not the incoming name. -/
theorem sentinel_for_new_player_stores_placeholder :
    (Obj.get (Data_processDataUpdate sampleHost sampleBrowser sampleClient sentinelUpdate).1.users
        "9").map (fun r => Record.field r "name") = some (.str "...") ∧
      (Obj.get (Data_processDataUpdate sampleHost sampleBrowser sampleClient sentinelUpdate).1.users
        "9").map (fun r => Record.field r "name") ≠ some (.str "未知") ∧
      Obj.get sampleClient.users "9" = none := by
  have h : (Obj.get
      (Data_processDataUpdate sampleHost sampleBrowser sampleClient sentinelUpdate).1.users
        "9").map (fun r => Record.field r "name") = some (.str "...") := rfl
  refine ⟨h, ?_, rfl⟩
  rw [h]
  intro hEq
  exact absurd (Val.str.inj (Option.some.inj hEq)) (by decide)

theorem closeWindowIfAny_fields (st : ClientState) :
    (Spells_closeWindowIfAny st).spellWindowRef = none ∧
      (Spells_closeWindowIfAny st).currentSpellUserId = none ∧
      (Spells_closeWindowIfAny st).spellWindowWatchdog = none ∧
      (Spells_closeWindowIfAny st).users = st.users ∧
      (Spells_closeWindowIfAny st).skillsByUser = st.skillsByUser ∧
      (Spells_closeWindowIfAny st).viewMode = st.viewMode ∧
      (Spells_closeWindowIfAny st).liveSkillsUserId = st.liveSkillsUserId := by
  unfold Spells_closeWindowIfAny
  cases hw : st.spellWindowRef <;> cases hd : st.spellWindowWatchdog <;>
    simp [ClientState.emit, hd]

/-- What the handler of `user_deleted` does for any payload value `uid`: the
key `String(uid)` is deleted from both mirrors, and a binding is released
exactly when it is strictly equal to `uid`. -/
theorem onUserDeleted_fields (host : Host) (st : ClientState) (uid : Val) :
    (onUserDeleted host st uid).users = Obj.delete st.users (uid.toStr host) ∧
      (onUserDeleted host st uid).skillsByUser
        = Obj.delete st.skillsByUser (uid.toStr host) ∧
      (strictEqBinding st.currentSpellUserId uid = true →
        (onUserDeleted host st uid).currentSpellUserId = none ∧
        (onUserDeleted host st uid).spellWindowRef = none) ∧
      (strictEqBinding st.currentSpellUserId uid = false →
        (onUserDeleted host st uid).currentSpellUserId = st.currentSpellUserId ∧
        (onUserDeleted host st uid).spellWindowRef = st.spellWindowRef) ∧
      (strictEqBinding st.liveSkillsUserId uid = true →
        (onUserDeleted host st uid).viewMode = "main" ∧
        (onUserDeleted host st uid).liveSkillsUserId = none) ∧
      (strictEqBinding st.liveSkillsUserId uid = false →
        (onUserDeleted host st uid).viewMode = st.viewMode ∧
        (onUserDeleted host st uid).liveSkillsUserId = st.liveSkillsUserId) := by
  unfold onUserDeleted
  simp only []
  obtain ⟨hu, hs, hw, hc, -, hv, hl, -⟩ := updateAll_fields host
    { st with users := Obj.delete st.users (uid.toStr host),
              skillsByUser := Obj.delete st.skillsByUser (uid.toStr host) }
  simp only at hu hs hw hc hv hl
  generalize Data_updateAll host
    { st with users := Obj.delete st.users (uid.toStr host),
              skillsByUser := Obj.delete st.skillsByUser (uid.toStr host) } = st1
    at hu hs hw hc hv hl
  rw [hc]
  cases hcur : strictEqBinding st.currentSpellUserId uid with
  | true =>
    obtain ⟨c1, c2, -, c4, c5, c6, c7⟩ := closeWindowIfAny_fields st1
    simp only [if_true]
    rw [c7, hl]
    cases hlive : strictEqBinding st.liveSkillsUserId uid with
    | true =>
      simp only [if_true, ClientState.emit]
      exact ⟨by rw [c4, hu], by rw [c5, hs], fun _ => ⟨c2, c1⟩,
        fun h => absurd h (by simp), fun _ => ⟨trivial, trivial⟩, fun h => absurd h (by simp)⟩
    | false =>
      simp only [Bool.false_eq_true, if_false]
      exact ⟨by rw [c4, hu], by rw [c5, hs], fun _ => ⟨c2, c1⟩,
        fun h => absurd h (by simp), fun h => absurd h (by simp),
        fun _ => ⟨by rw [c6, hv], by rw [c7, hl]⟩⟩
  | false =>
    simp only [Bool.false_eq_true, if_false]
    rw [hl]
    cases hlive : strictEqBinding st.liveSkillsUserId uid with
    | true =>
      simp only [if_true, ClientState.emit]
      exact ⟨hu, hs, fun h => absurd h (by simp), fun _ => ⟨hc, hw⟩,
        fun _ => ⟨trivial, trivial⟩, fun h => absurd h (by simp)⟩
    | false =>
      simp only [Bool.false_eq_true, if_false]
      exact ⟨hu, hs, fun h => absurd h (by simp), fun _ => ⟨hc, hw⟩,
        fun h => absurd h (by simp), fun _ => ⟨hv, hl⟩⟩

/-- After the handler of `user_deleted` has run for a payload whose `uid` is a
string, that string is a key of neither mirror, the entries of every other
player are as before in both, a detail window bound to it is released, and a
live-skills view bound to it is left. -/
theorem onUserDeleted_string_uid (host : Host) (st : ClientState) (uid : String) :
    uid ∉ Obj.keys (onUserDeleted host st (.str uid)).users ∧
      uid ∉ Obj.keys (onUserDeleted host st (.str uid)).skillsByUser ∧
      (∀ k, k ≠ uid →
        Obj.get (onUserDeleted host st (.str uid)).users k = Obj.get st.users k ∧
        Obj.get (onUserDeleted host st (.str uid)).skillsByUser k
          = Obj.get st.skillsByUser k) ∧
      (st.currentSpellUserId = some uid →
        (onUserDeleted host st (.str uid)).currentSpellUserId = none ∧
        (onUserDeleted host st (.str uid)).spellWindowRef = none) ∧
      (st.liveSkillsUserId = some uid →
        (onUserDeleted host st (.str uid)).viewMode = "main" ∧
        (onUserDeleted host st (.str uid)).liveSkillsUserId = none) := by
  obtain ⟨hu, hs, hc, -, hl, -⟩ := onUserDeleted_fields host st (.str uid)
  simp only [Val.toStr] at hu hs
  refine ⟨?_, ?_, ?_, ?_, ?_⟩
  · rw [hu, ← get_eq_none_iff_not_mem_keys]
    exact Obj.get_delete_self _ _
  · rw [hs, ← get_eq_none_iff_not_mem_keys]
    exact Obj.get_delete_self _ _
  · intro k hk
    rw [hu, hs]
    exact ⟨Obj.get_delete_ne _ _ _ hk, Obj.get_delete_ne _ _ _ hk⟩
  · intro h
    exact hc (by simp [strictEqBinding, h])
  · intro h
    exact hl (by simp [strictEqBinding, h])

/-- C13 (the code at the failing input): the sample client has the detail window
and the live-skills view bound to player `"7"`, and the server announces the
deletion of that player with the number `7` as `uid`.  The handler deletes the
key `"7"` from both mirrors, but the strict comparisons of the bindings with the
number fail: the detail window stays bound and open, and the live-skills view
stays on the deleted player. -/
theorem onUserDeleted_number_uid_keeps_bindings :
    sampleLiveClient.currentSpellUserId = some "7" ∧
    sampleLiveClient.liveSkillsUserId = some "7" ∧
    "7" ∈ Obj.keys sampleLiveClient.users ∧
    "7" ∉ Obj.keys (onUserDeleted sampleHost sampleLiveClient (.num 7)).users ∧
    "7" ∉ Obj.keys (onUserDeleted sampleHost sampleLiveClient (.num 7)).skillsByUser ∧
    (onUserDeleted sampleHost sampleLiveClient (.num 7)).currentSpellUserId = some "7" ∧
    (onUserDeleted sampleHost sampleLiveClient (.num 7)).spellWindowRef
      = sampleLiveClient.spellWindowRef ∧
    sampleLiveClient.spellWindowRef ≠ none ∧
    (onUserDeleted sampleHost sampleLiveClient (.num 7)).viewMode = "live-skills" ∧
    (onUserDeleted sampleHost sampleLiveClient (.num 7)).liveSkillsUserId = some "7" := by
  obtain ⟨hu, hs, -, hc, -, hl⟩ := onUserDeleted_fields sampleHost sampleLiveClient (.num 7)
  have hkey : (Val.num 7).toStr sampleHost = "7" := by
    simp [Val.toStr, sampleHost, plainDecimal]
    rfl
  rw [hkey] at hu hs
  have hc2 := hc rfl
  have hl2 := hl rfl
  refine ⟨rfl, rfl, by decide, ?_, ?_, hc2.1, hc2.2, by decide, hl2.1, hl2.2⟩
  · rw [hu, ← get_eq_none_iff_not_mem_keys]
    exact Obj.get_delete_self _ _
  · rw [hs, ← get_eq_none_iff_not_mem_keys]
    exact Obj.get_delete_self _ _

/-! ## The client: live pushes to the detail window -/

theorem posts_append (a b : List Effect) : posts (a ++ b) = posts a ++ posts b := by
  induction a with
  | nil => rfl
  | cons e rest ih => cases e <;> simp [posts, ih]

/-- The state in which `Data.processDataUpdate` calls `Data.updateAll`: the two
maps of the update merged into the mirrors. -/
theorem processDataUpdate_eq (host : Host) (browser : Browser) (st : ClientState)
    (data : DataUpdate) (um : List (String × Record)) (u : String)
    (hp : st.paused = false) (hu : data.user = some um)
    (hcur : st.currentSpellUserId = some u) (hne : u ≠ "") :
    ∃ merged : ClientState,
      merged.users = um.foldl mergeUserEntry st.users ∧
      merged.spellWindowRef = st.spellWindowRef ∧
      merged.currentSpellUserId = some u ∧
      posts merged.log = posts st.log ∧
      Data_processDataUpdate host browser st data =
        if u ∈ Obj.keys um ∨ u ∈ keysOrEmpty data.skills then
          Spells_pushLiveUpdateIfActive host browser merged u
        else (merged, none) := by
  unfold Data_processDataUpdate
  simp only [hu]
  rw [if_neg (by simp [hp] : ¬ st.paused = true)]
  cases hsk : data.skills with
  | none =>
    obtain ⟨h1, -, h3, h4, -, -, -, h8⟩ := updateAll_fields host
      { st with users := um.foldl mergeUserEntry st.users }
    refine ⟨Data_updateAll host { st with users := um.foldl mergeUserEntry st.users },
      h1, h3, h4.trans hcur, h8, ?_⟩
    have h4b := h4.trans hcur
    simp only [h4b, hne, if_false]
  | some skillsMap =>
    obtain ⟨h1, -, h3, h4, -, -, -, h8⟩ := updateAll_fields host
      { st with users := um.foldl mergeUserEntry st.users,
                skillsByUser := skillsMap.foldl mergeSkillsEntry st.skillsByUser }
    refine ⟨Data_updateAll host
      { st with users := um.foldl mergeUserEntry st.users,
                skillsByUser := skillsMap.foldl mergeSkillsEntry st.skillsByUser },
      h1, h3, h4.trans hcur, h8, ?_⟩
    have h4b := h4.trans hcur
    simp only [h4b, hne, if_false]

theorem pushLiveUpdate_posts (host : Host) (browser : Browser) (st : ClientState)
    (u : String) (w : Nat) (p : SpellPayload) (hw : st.spellWindowRef = some w)
    (hopen : browser.windowClosed w = false) (hcur : st.currentSpellUserId = some u)
    (hpost : browser.postMessageThrows = false)
    (hbuild : buildSpellPayload host st.users st.skillsByUser u = .ok (some p)) :
    Spells_pushLiveUpdateIfActive host browser st u =
      (st.emit (.postMessage w p "*"), none) := by
  unfold Spells_pushLiveUpdateIfActive
  simp [hw, hopen, hcur, hpost, hbuild]

/-- C15 (as amended). An unpaused update is processed while the detail window
is open and bound to the non-empty player id `u`, and `postMessage` does not
throw.  An update without a user map stops at the guard and changes nothing.
For an update with a user map: if the user map or the skills map contains `u`
and `Spells.buildSpellPayload(u)` yields a payload on the mirrors after the
merge, exactly one message is posted, with that payload; if neither map
contains `u`, none is posted. -/
theorem processDataUpdate_pushes_once (host : Host) (browser : Browser) (st : ClientState)
    (data : DataUpdate) (u : String) (w : Nat)
    (hp : st.paused = false)
    (hw : st.spellWindowRef = some w) (hopen : browser.windowClosed w = false)
    (hcur : st.currentSpellUserId = some u) (hne : u ≠ "")
    (hpost : browser.postMessageThrows = false) :
    (data.user = none → Data_processDataUpdate host browser st data = (st, none)) ∧
    (∀ um, data.user = some um →
      (u ∈ Obj.keys um ∨ u ∈ keysOrEmpty data.skills →
        ∀ p, buildSpellPayload host (Data_processDataUpdate host browser st data).1.users
            (Data_processDataUpdate host browser st data).1.skillsByUser u = .ok (some p) →
          posts (Data_processDataUpdate host browser st data).1.log =
            posts st.log ++ [(w, p, "*")] ∧
          (Data_processDataUpdate host browser st data).2 = none) ∧
      (u ∉ Obj.keys um → u ∉ keysOrEmpty data.skills →
        posts (Data_processDataUpdate host browser st data).1.log = posts st.log)) := by
  constructor
  · intro hnone
    unfold Data_processDataUpdate
    rw [hnone]
  intro um hu
  obtain ⟨merged, -, hmw, hmc, hml, heq⟩ :=
    processDataUpdate_eq host browser st data um u hp hu hcur hne
  constructor
  · intro hin p hbuild
    rw [heq, if_pos hin] at hbuild ⊢
    rw [(pushLiveUpdate_mirrors host browser merged u).1,
      (pushLiveUpdate_mirrors host browser merged u).2] at hbuild
    rw [pushLiveUpdate_posts host browser merged u w p (hmw.trans hw) hopen hmc hpost hbuild]
    refine ⟨?_, rfl⟩
    show posts (merged.log ++ [Effect.postMessage w p "*"]) = _
    rw [posts_append, hml]
    rfl
  · intro h1 h2
    rw [heq, if_neg (not_or.2 ⟨h1, h2⟩)]
    exact hml

/-- Example for C15: the update that renames player `"7"` reaches the open
detail window as one message, whose payload carries the new name. -/
theorem processDataUpdate_pushes_once_example :
    ∃ p, buildSpellPayload sampleHost
        (Data_processDataUpdate sampleHost sampleBrowser sampleClient renameUpdate).1.users
        (Data_processDataUpdate sampleHost sampleBrowser sampleClient renameUpdate).1.skillsByUser
        "7" = .ok (some p) ∧
      posts (Data_processDataUpdate sampleHost sampleBrowser sampleClient renameUpdate).1.log =
        posts sampleClient.log ++ [(1, p, "*")] ∧
      (Record.field p.user "name").isString "Bea" = true :=
  ⟨_, rfl,
    (((processDataUpdate_pushes_once sampleHost sampleBrowser sampleClient renameUpdate
      "7" 1 rfl rfl rfl rfl (by decide) rfl).2
      [("7", [("name", .str "Bea"), ("total_dps", .num 20)])] rfl).1
      (Or.inl (by decide)) _ rfl).1,
    rfl⟩

/-- Counterexample for C15: an unpaused update whose skills map contains the
bound player `"7"` but which has no user map stops at the guard; a payload can
be built for `"7"`, and nothing is posted. -/
theorem skills_only_update_posts_nothing :
    sampleClient.paused = false ∧
      sampleClient.currentSpellUserId = some "7" ∧
      "7" ∈ keysOrEmpty skillsOnlyUpdate.skills ∧
      (∃ p, buildSpellPayload sampleHost
        (Data_processDataUpdate sampleHost sampleBrowser sampleClient skillsOnlyUpdate).1.users
        (Data_processDataUpdate sampleHost sampleBrowser sampleClient
          skillsOnlyUpdate).1.skillsByUser "7" = .ok (some p)) ∧
      posts (Data_processDataUpdate sampleHost sampleBrowser sampleClient skillsOnlyUpdate).1.log =
        posts sampleClient.log :=
  ⟨rfl, rfl, by decide, ⟨_, rfl⟩, rfl⟩

/-! ## The client: the liveness watchdog -/

/-- C17. With the channel marked connected: when more than `WS_RECONNECT_MS`
have passed since the last message, `WS.checkConnection` sets `wsConnected` to
false, disconnects the current socket, opens a new one with `WS.connect()` and
makes no other reconnect call; when at most `WS_RECONNECT_MS` have passed, it
changes nothing. -/
theorem checkConnection_when_connected (now : Int) (fresh : Socket) (st : ClientState)
    (hc : st.wsConnected = true) :
    (now - st.lastWsMessageTs > WS_RECONNECT_MS →
      (WS_checkConnection now fresh st).wsConnected = false ∧
      (WS_checkConnection now fresh st).socket = some fresh ∧
      (WS_checkConnection now fresh st).log =
        st.log ++
          (match st.socket with
           | some s => [Effect.socketDisconnect s.id]
           | none => []) ++
          [Effect.ioConnect fresh.id, Effect.setServerStatus "reconnecting"] ∧
      (((WS_checkConnection now fresh st).log.drop st.log.length).filter
        Effect.isReconnect).length = 1) ∧
    (now - st.lastWsMessageTs ≤ WS_RECONNECT_MS → WS_checkConnection now fresh st = st) := by
  have hfirst : (match st.socket with
      | some s =>
        if (!st.wsConnected && s.disconnected) = true then
          (st.emit (.setServerStatus "reconnecting")).emit (.socketConnect s.id)
        else st
      | none => st) = st := by
    cases st.socket with
    | none => rfl
    | some s => simp [hc]
  constructor
  · intro hgt
    have hlog : (WS_checkConnection now fresh st).log =
        st.log ++
          (match st.socket with
           | some s => [Effect.socketDisconnect s.id]
           | none => []) ++
          [Effect.ioConnect fresh.id, Effect.setServerStatus "reconnecting"] := by
      unfold WS_checkConnection
      simp only [hfirst, hgt, if_true]
      cases st.socket <;> simp [WS_connect, ClientState.emit]
    refine ⟨?_, ?_, hlog, ?_⟩
    · unfold WS_checkConnection
      simp only [hfirst, hgt, if_true]
      cases st.socket <;> rfl
    · unfold WS_checkConnection
      simp only [hfirst, hgt, if_true]
      cases st.socket <;> rfl
    · rw [hlog, List.append_assoc, List.drop_left]
      cases st.socket <;> simp [Effect.isReconnect]
  · intro hle
    unfold WS_checkConnection
    simp only [hfirst, not_lt.2 hle, if_false]

/-- Example for C17: the sample client, last message at time 0, checked at time
6000 (stale) and at time 5000 (not stale). -/
theorem checkConnection_when_connected_example :
    ((WS_checkConnection 6000 { id := 1, disconnected := false } sampleClient).wsConnected =
        false ∧
      (WS_checkConnection 6000 { id := 1, disconnected := false } sampleClient).socket =
        some { id := 1, disconnected := false } ∧
      (WS_checkConnection 6000 { id := 1, disconnected := false } sampleClient).log =
        sampleClient.log ++
          (match sampleClient.socket with
           | some s => [Effect.socketDisconnect s.id]
           | none => []) ++
          [Effect.ioConnect 1, Effect.setServerStatus "reconnecting"] ∧
      (((WS_checkConnection 6000 { id := 1, disconnected := false } sampleClient).log.drop
        sampleClient.log.length).filter Effect.isReconnect).length = 1) ∧
    WS_checkConnection 5000 { id := 1, disconnected := false } sampleClient = sampleClient :=
  ⟨(checkConnection_when_connected 6000 { id := 1, disconnected := false } sampleClient
      rfl).1 (by decide),
   (checkConnection_when_connected 5000 { id := 1, disconnected := false } sampleClient
      rfl).2 (by decide)⟩

/-! ## The detail payload -/

theorem mapM_ok_forallTwo {α β ε : Type} (f : α → Except ε β) (l : List α) (r : List β)
    (h : l.mapM f = .ok r) : List.Forall₂ (fun a b => f a = .ok b) l r := by
  induction l generalizing r with
  | nil =>
    rw [List.mapM_nil] at h
    cases h
    exact List.Forall₂.nil
  | cons a rest ih =>
    rw [List.mapM_cons] at h
    cases hf : f a with
    | error e =>
      rw [hf] at h
      change Except.error e = Except.ok r at h
      cases h
    | ok b =>
      cases hr : rest.mapM f with
      | error e =>
        rw [hf, hr] at h
        change Except.error e = Except.ok r at h
        cases h
      | ok bs =>
        rw [hf, hr] at h
        change Except.ok (b :: bs) = Except.ok r at h
        cases h
        exact List.Forall₂.cons hf (ih bs hr)

theorem mem_of_forallTwo_right {α β : Type} (R : α → β → Prop) (l : List α) (r : List β)
    (h : List.Forall₂ R l r) (b : β) (hb : b ∈ r) : ∃ a ∈ l, R a b := by
  induction h with
  | nil => simp at hb
  | cons hab _ ih =>
    rcases List.mem_cons.1 hb with h1 | h1
    · subst h1
      exact ⟨_, List.mem_cons_self _ _, hab⟩
    · obtain ⟨a, ha, hR⟩ := ih h1
      exact ⟨a, List.mem_cons_of_mem _ ha, hR⟩

theorem mergeSkills_default (numToString : ℚ → String) (skills : SkillMap) :
    mergeSkills numToString (some skills) CONFIG_SKILL_MERGE_MAP CONFIG_NUMERIC_KEYS_WHITELIST =
      skills := by
  simp [mergeSkills, mergeLoop, CONFIG_SKILL_MERGE_MAP, initState, copySkills_eq]

/-- What the callback of the `map` puts into an item. -/
theorem buildItem_ok (host : Host) (e : String × Record) (item : SpellItem)
    (h : buildItem host e = .ok item) :
    item.id = e.1 ∧
      item.damage = ((damageField e.2).toNumber host).or (.fin 0) ∧
      item.hits = castsField e.2 ∧
      item.critHits = critHitsField e.2 ∧
      item.avg =
        (if (item.hits.toNumber host).gtZero then
          JsNum.div item.damage (item.hits.toNumber host)
         else .fin 0) ∧
      item.critRate =
        (if (item.hits.toNumber host).gtZero then
          JsNum.mul (JsNum.div (item.critHits.toNumber host) (item.hits.toNumber host))
            (.fin 100)
         else .fin 0) := by
  unfold buildItem at h
  simp only [] at h
  split at h
  · cases h
    exact ⟨rfl, rfl, rfl, rfl, rfl, rfl⟩
  · cases h

theorem foldl_damage_finite (items : List SpellItem) (acc : ℚ)
    (hfin : ∀ item ∈ items, item.damage.isFinite = true) :
    items.foldl (fun s i => JsNum.add s (i.damage.or (.fin 0))) (.fin acc) =
      .fin (acc + (items.map (fun i => i.damage.value)).sum) := by
  induction items generalizing acc with
  | nil => simp
  | cons item rest ih =>
    have h1 := hfin item (List.mem_cons_self _ _)
    have h2 : ∀ i ∈ rest, i.damage.isFinite = true :=
      fun i hi => hfin i (List.mem_cons_of_mem _ hi)
    cases hd : item.damage with
    | fin x =>
      have hor : (JsNum.fin x).or (.fin 0) = .fin x := by
        unfold JsNum.or JsNum.truthy
        by_cases hx : x = 0 <;> simp [hx]
      simp only [List.foldl_cons, List.map_cons, List.sum_cons]
      rw [hd, hor, show JsNum.add (.fin acc) (.fin x) = .fin (acc + x) from rfl, ih _ h2,
        show (JsNum.fin x).value = x from rfl, add_assoc]
    | nan => simp [hd, JsNum.isFinite] at h1
    | inf s => simp [hd, JsNum.isFinite] at h1

/-- C16. `Spells.buildSpellPayload` returns `null` exactly when the user record
or the skills map is missing.  In a payload it returns, every item comes from a
skill of the player; with finite damage `D`, hit count `H` and crit hits `C`,
its `avg` is `D / H` and its `critRate` is `C / H * 100` when `H > 0`, and both
are `0` otherwise; with finite damages, `total` is the sum of the items'
damage, or `1` when that sum is `0`. -/
theorem buildSpellPayload_items_and_total (host : Host) (users : List (String × Record))
    (skillsByUser : List (String × SkillsEntry)) (userId : String) :
    (buildSpellPayload host users skillsByUser userId = .ok none ↔
      Obj.get users userId = none ∨
        (Obj.get skillsByUser userId).bind (fun entry => entry.skills) = none) ∧
    ∀ p, buildSpellPayload host users skillsByUser userId = .ok (some p) →
      ∃ user skills, Obj.get users userId = some user ∧
        (Obj.get skillsByUser userId).bind (fun entry => entry.skills) = some skills ∧
        p.user = user ∧
        (∀ item ∈ p.items, ∃ d, (item.id, d) ∈ skills ∧
          item.damage = ((damageField d).toNumber host).or (.fin 0) ∧
          item.hits = castsField d ∧
          item.critHits = critHitsField d ∧
          ∀ D H C : ℚ, item.damage = .fin D → item.hits.toNumber host = .fin H →
            item.critHits.toNumber host = .fin C →
            item.avg = .fin (if 0 < H then D / H else 0) ∧
            item.critRate = .fin (if 0 < H then C / H * 100 else 0)) ∧
        ((∀ item ∈ p.items, item.damage.isFinite = true) →
          p.total =
            .fin (if (p.items.map (fun i => i.damage.value)).sum ≠ 0 then
                    (p.items.map (fun i => i.damage.value)).sum
                  else 1)) := by
  unfold buildSpellPayload
  cases hu : Obj.get users userId with
  | none =>
    refine ⟨⟨fun _ => Or.inl rfl, fun _ => ?_⟩, fun p hp => ?_⟩
    · rfl
    · simp at hp
  | some user =>
    cases hs : (Obj.get skillsByUser userId).bind (fun entry => entry.skills) with
    | none =>
      refine ⟨⟨fun _ => Or.inr rfl, fun _ => ?_⟩, fun p hp => ?_⟩
      · rfl
      · simp at hp
    | some skills =>
      simp only [mergeSkills_default]
      cases hm : skills.mapM (buildItem host) with
      | error e =>
        refine ⟨⟨fun h => ?_, fun h => ?_⟩, fun p hp => ?_⟩
        · simp at h
        · rcases h with h | h <;> simp at h
        · simp at hp
      | ok all =>
        cases hc : getClassKey host (Record.field user "profession") with
        | error e =>
          refine ⟨⟨fun h => ?_, fun h => ?_⟩, fun p hp => ?_⟩
          · simp at h
          · rcases h with h | h <;> simp at h
          · simp at hp
        | ok classKey =>
          refine ⟨⟨fun h => ?_, fun h => ?_⟩, fun p hp => ?_⟩
          · simp at h
          · rcases h with h | h <;> simp at h
          · simp only [Except.ok.injEq, Option.some.injEq] at hp
            subst hp
            refine ⟨user, skills, rfl, rfl, rfl, ?_, ?_⟩
            · intro item hitem
              have hall : item ∈ all := (List.mem_filter.1 hitem).1
              obtain ⟨e, he, hbuild⟩ := mem_of_forallTwo_right _ _ _
                (mapM_ok_forallTwo (buildItem host) skills all hm) item hall
              obtain ⟨hid, hdmg, hhits, hcrit, havg, hrate⟩ := buildItem_ok host e item hbuild
              refine ⟨e.2, ?_, hdmg, hhits, hcrit, ?_⟩
              · rw [hid]
                exact he
              · intro D H C hD hH hC
                rw [havg, hrate, hD, hH, hC]
                by_cases hpos : 0 < H
                · have hne : H ≠ 0 := ne_of_gt hpos
                  simp [JsNum.gtZero, JsNum.div, JsNum.mul, hpos, hne]
                · simp [JsNum.gtZero, hpos]
            · intro hfin
              show payloadTotal (all.filter keptItem) = _
              unfold payloadTotal
              rw [foldl_damage_finite _ 0 hfin, zero_add]
              unfold JsNum.or JsNum.truthy
              by_cases hz : ((all.filter keptItem).map (fun i => i.damage.value)).sum = 0
              · simp [hz]
              · simp [hz]

theorem buildSpellPayload_sample :
    buildSpellPayload sampleHost sampleClient.users sampleClient.skillsByUser "7" =
      .ok (some samplePayload) := by
  have h1 : buildSpellPayload sampleHost sampleClient.users sampleClient.skillsByUser "7" =
      .ok (some { samplePayload with total := payloadTotal sampleItems }) := rfl
  have h2 : payloadTotal sampleItems = .fin 100 := by
    simp [payloadTotal, sampleItems, JsNum.add, JsNum.or, JsNum.truthy]
  rw [h1, h2]
  rfl

/-- Example for C16: the payload of player `"7"` of the sample client; the
skill with 4 hits has `avg` 100 / 4, the skill without hits has `avg` 0, and
`total` is the sum of the damages. -/
theorem buildSpellPayload_items_and_total_example :
    buildSpellPayload sampleHost sampleClient.users sampleClient.skillsByUser "7" =
        .ok (some samplePayload) ∧
      (∀ item ∈ samplePayload.items, ∀ D H C : ℚ, item.damage = .fin D →
        item.hits.toNumber sampleHost = .fin H → item.critHits.toNumber sampleHost = .fin C →
        item.avg = .fin (if 0 < H then D / H else 0) ∧
        item.critRate = .fin (if 0 < H then C / H * 100 else 0)) ∧
      samplePayload.total =
        .fin (if (samplePayload.items.map (fun i => i.damage.value)).sum ≠ 0 then
                (samplePayload.items.map (fun i => i.damage.value)).sum
              else 1) := by
  obtain ⟨user, skills, -, -, -, hitems, htotal⟩ :=
    (buildSpellPayload_items_and_total sampleHost sampleClient.users sampleClient.skillsByUser
      "7").2 samplePayload buildSpellPayload_sample
  refine ⟨buildSpellPayload_sample, ?_, ?_⟩
  · intro item hitem D H C
    obtain ⟨d, -, -, -, -, h⟩ := hitems item hitem
    exact h D H C
  · exact htotal (by simp [samplePayload, sampleItems, JsNum.isFinite])

/-! ## The handshake of the detail window -/

/-- One trigger while the detail window `w` is open: the payload stays, `sent`
becomes true exactly when it was true or the trigger calls `send` and
`postMessage` goes through, and a message is posted exactly in the latter case
with `sent` false before. -/
theorem handshake_step (origin : String) (hs : Handshake) (t : Tick) (w : Nat)
    (hw : t.spellWindowRef = some w) (hc : t.closed = false) :
    (Handshake.step origin hs t).payload = hs.payload ∧
      (Handshake.step origin hs t).sent =
        (hs.sent || (hs.fires t && !t.postMessageThrows)) ∧
      (Handshake.step origin hs t).posted =
        (if (!hs.sent && (hs.fires t && !t.postMessageThrows)) = true then
          hs.posted ++ [Effect.postMessage w hs.payload origin]
         else hs.posted) ∧
      (Handshake.step origin hs t).fallbackPending =
        (hs.fallbackPending && !decide (t.trigger = .fallback)) := by
  unfold Handshake.step
  cases hf : hs.fires t
  · refine ⟨rfl, by simp, by simp, ?_⟩
    cases htr : t.trigger <;> simp [Handshake.fires, htr] at hf ⊢
    exact hf
  · cases htr : t.trigger <;> cases hsent : hs.sent <;> cases hthr : t.postMessageThrows <;>
      simp [Handshake.send, Handshake.fires, htr, hsent, hthr, hw, hc] at hf ⊢

theorem handshake_run_append (origin : String) (hs : Handshake) (a b : List Tick) :
    Handshake.run origin hs (a ++ b) = Handshake.run origin (Handshake.run origin hs a) b := by
  simp [Handshake.run, List.foldl_append]

theorem handshake_run_cons (origin : String) (hs : Handshake) (t : Tick) (rest : List Tick) :
    Handshake.run origin hs (t :: rest) =
      Handshake.run origin (Handshake.step origin hs t) rest := rfl

/-- While the window is open, the payload of the handshake stays and the
messages posted are the one message of the handshake if `sent` is true and none
otherwise. -/
theorem handshake_run_invariant (origin : String) (w : Nat) (ticks : List Tick)
    (hs : Handshake) (hopen : ∀ t ∈ ticks, t.spellWindowRef = some w ∧ t.closed = false)
    (hinv : hs.posted =
      if hs.sent = true then [Effect.postMessage w hs.payload origin] else []) :
    (Handshake.run origin hs ticks).payload = hs.payload ∧
      (Handshake.run origin hs ticks).posted =
        (if (Handshake.run origin hs ticks).sent = true then
          [Effect.postMessage w hs.payload origin]
         else []) ∧
      (hs.sent = true → (Handshake.run origin hs ticks).sent = true) := by
  induction ticks generalizing hs with
  | nil => exact ⟨rfl, hinv, fun h => h⟩
  | cons t rest ih =>
    obtain ⟨hw, hc⟩ := hopen t (List.mem_cons_self _ _)
    obtain ⟨hp, hsent, hposted, -⟩ := handshake_step origin hs t w hw hc
    have hinv2 : (Handshake.step origin hs t).posted =
        if (Handshake.step origin hs t).sent = true then
          [Effect.postMessage w (Handshake.step origin hs t).payload origin]
        else [] := by
      rw [hposted, hsent, hp, hinv]
      cases hs.sent <;> cases hs.fires t <;> cases t.postMessageThrows <;> simp
    obtain ⟨h1, h2, h3⟩ := ih (Handshake.step origin hs t)
      (fun t2 h => hopen t2 (List.mem_cons_of_mem _ h)) hinv2
    rw [handshake_run_cons]
    refine ⟨h1.trans hp, ?_, fun h => h3 ?_⟩
    · rw [h2, hp]
    · rw [hsent, h]
      rfl

/-- As long as every trigger that calls `send` meets a `postMessage` that
throws, `sent` stays false. -/
theorem handshake_unsent (origin : String) (w : Nat) (ticks : List Tick) (hs : Handshake)
    (hopen : ∀ t ∈ ticks, t.spellWindowRef = some w ∧ t.closed = false)
    (hsent : hs.sent = false)
    (hthrows : ∀ pre t post, ticks = pre ++ t :: post →
      (Handshake.run origin hs pre).fires t = true → t.postMessageThrows = true) :
    (Handshake.run origin hs ticks).sent = false := by
  induction ticks generalizing hs with
  | nil => exact hsent
  | cons t rest ih =>
    obtain ⟨hw, hc⟩ := hopen t (List.mem_cons_self _ _)
    obtain ⟨-, hs2, -, -⟩ := handshake_step origin hs t w hw hc
    rw [handshake_run_cons]
    apply ih _ (fun t2 h => hopen t2 (List.mem_cons_of_mem _ h))
    · rw [hs2, hsent]
      cases hf : hs.fires t
      · rfl
      · have := hthrows [] t rest rfl hf
        simp [this]
    · intro pre t2 post heq hfires
      exact hthrows (t :: pre) t2 post (by rw [heq]; rfl) hfires

/-- Once the 200 ms timer has fired with a `postMessage` that goes through,
`sent` is true. -/
theorem handshake_fallback_sends (origin : String) (w : Nat) (ticks : List Tick)
    (hs : Handshake) (hopen : ∀ t ∈ ticks, t.spellWindowRef = some w ∧ t.closed = false)
    (hpending : hs.sent = true ∨ hs.fallbackPending = true)
    (hfb : ∃ t ∈ ticks, t.trigger = .fallback)
    (hok : ∀ t ∈ ticks, t.postMessageThrows = false) :
    (Handshake.run origin hs ticks).sent = true := by
  induction ticks generalizing hs with
  | nil =>
    obtain ⟨t, ht, -⟩ := hfb
    simp at ht
  | cons t rest ih =>
    obtain ⟨hw, hc⟩ := hopen t (List.mem_cons_self _ _)
    obtain ⟨-, hs2, -, hf2⟩ := handshake_step origin hs t w hw hc
    have hthr := hok t (List.mem_cons_self _ _)
    rw [handshake_run_cons]
    by_cases htr : t.trigger = .fallback
    · have hsent : (Handshake.step origin hs t).sent = true := by
        rw [hs2, hthr]
        rcases hpending with h | h
        · simp [h]
        · simp [Handshake.fires, htr, h]
      have hinv : ∀ (l : List Tick) (h0 : Handshake),
          (∀ t2 ∈ l, t2.spellWindowRef = some w ∧ t2.closed = false) → h0.sent = true →
          (Handshake.run origin h0 l).sent = true := by
        intro l
        induction l with
        | nil => exact fun _ _ h => h
        | cons t3 l3 ih3 =>
          intro h0 ho hs0
          obtain ⟨hw3, hc3⟩ := ho t3 (List.mem_cons_self _ _)
          rw [handshake_run_cons]
          apply ih3 _ (fun t2 h => ho t2 (List.mem_cons_of_mem _ h))
          rw [(handshake_step origin h0 t3 w hw3 hc3).2.1, hs0]
          rfl
      exact hinv rest _ (fun t2 h => hopen t2 (List.mem_cons_of_mem _ h)) hsent
    · apply ih _ (fun t2 h => hopen t2 (List.mem_cons_of_mem _ h))
      · rcases hpending with h | h
        · left
          rw [hs2, h]
          rfl
        · right
          rw [hf2, h]
          simp [htr]
      · obtain ⟨t2, ht2, htr2⟩ := hfb
        rcases List.mem_cons.1 ht2 with h | h
        · subst h
          exact absurd htr2 htr
        · exact ⟨t2, h, htr2⟩
      · exact fun t2 h => hok t2 (List.mem_cons_of_mem _ h)

theorem openWindowForUser_handshake (host : Host) (browser : Browser) (opened : Option Nat)
    (interval : Nat) (st st2 : ClientState) (userId : String) (hs : Handshake)
    (hcall : Spells_openWindowForUser host browser opened interval st userId =
      .ok (st2, some hs)) :
    buildSpellPayload host st2.users st2.skillsByUser userId = .ok (some hs.payload) ∧
      hs = Handshake.start hs.payload := by
  unfold Spells_openWindowForUser at hcall
  simp only [] at hcall
  split at hcall
  · cases hcall
  · cases hcall
  · next payload hbuild =>
    simp only [Except.ok.injEq, Prod.mk.injEq, Option.some.injEq] at hcall
    obtain ⟨h1, h2⟩ := hcall
    subst h1 h2
    exact ⟨hbuild, rfl⟩

/-- C14. One call of `Spells.openWindowForUser` has set up the handshake `hs`,
and at every trigger the detail window `w` is open.  Then the messages posted
are at most the one message with the payload of the call, posted exactly when
`sent` is true; the first trigger that calls `send` with a `postMessage` that
goes through posts it, and it is still the only message after every later
trigger; nothing is posted while every `postMessage` throws; and when the
200 ms timer fires and no `postMessage` throws, the message is posted exactly
once. -/
theorem handshake_posts_once (host : Host) (browser : Browser) (opened : Option Nat)
    (interval : Nat) (st st2 : ClientState) (userId : String) (hs : Handshake)
    (origin : String) (w : Nat) (ticks : List Tick)
    (hcall : Spells_openWindowForUser host browser opened interval st userId =
      .ok (st2, some hs))
    (hopen : ∀ t ∈ ticks, t.spellWindowRef = some w ∧ t.closed = false) :
    buildSpellPayload host st2.users st2.skillsByUser userId = .ok (some hs.payload) ∧
      (Handshake.run origin hs ticks).posted =
        (if (Handshake.run origin hs ticks).sent = true then
          [Effect.postMessage w hs.payload origin]
         else []) ∧
      (∀ pre t post, ticks = pre ++ t :: post →
        (Handshake.run origin hs pre).fires t = true → t.postMessageThrows = false →
        (Handshake.run origin hs (pre ++ [t])).posted =
            [Effect.postMessage w hs.payload origin] ∧
          (Handshake.run origin hs ticks).posted = [Effect.postMessage w hs.payload origin]) ∧
      ((∀ pre t post, ticks = pre ++ t :: post →
        (Handshake.run origin hs pre).fires t = true → t.postMessageThrows = true) →
        (Handshake.run origin hs ticks).posted = []) ∧
      ((∃ t ∈ ticks, t.trigger = .fallback) → (∀ t ∈ ticks, t.postMessageThrows = false) →
        (Handshake.run origin hs ticks).posted = [Effect.postMessage w hs.payload origin]) := by
  obtain ⟨hbuild, hstart⟩ :=
    openWindowForUser_handshake host browser opened interval st st2 userId hs hcall
  have hinv0 : hs.posted =
      if hs.sent = true then [Effect.postMessage w hs.payload origin] else [] := by
    rw [hstart]
    rfl
  obtain ⟨-, hposted, -⟩ := handshake_run_invariant origin w ticks hs hopen hinv0
  refine ⟨hbuild, hposted, ?_, ?_, ?_⟩
  · intro pre t post heq hfires hthr
    have hopenPre : ∀ t2 ∈ pre, t2.spellWindowRef = some w ∧ t2.closed = false :=
      fun t2 h => hopen t2 (by rw [heq]; exact List.mem_append_left _ h)
    have hopenT : t.spellWindowRef = some w ∧ t.closed = false :=
      hopen t (by rw [heq]; simp)
    have hopenPost : ∀ t2 ∈ post, t2.spellWindowRef = some w ∧ t2.closed = false :=
      fun t2 h => hopen t2 (by rw [heq]; simp [h])
    obtain ⟨hp1, hpo1, -⟩ := handshake_run_invariant origin w pre hs hopenPre hinv0
    obtain ⟨hp2, hs2, hpo2, -⟩ :=
      handshake_step origin (Handshake.run origin hs pre) t w hopenT.1 hopenT.2
    have hsentT : (Handshake.run origin hs (pre ++ [t])).sent = true := by
      rw [handshake_run_append]
      show (Handshake.step origin (Handshake.run origin hs pre) t).sent = true
      rw [hs2, hfires, hthr]
      simp
    have hopenPT : ∀ t2 ∈ pre ++ [t], t2.spellWindowRef = some w ∧ t2.closed = false := by
      intro t2 h
      rcases List.mem_append.1 h with h | h
      · exact hopenPre t2 h
      · rw [List.mem_singleton.1 h]
        exact hopenT
    obtain ⟨hp3, hpo3, -⟩ := handshake_run_invariant origin w (pre ++ [t]) hs hopenPT hinv0
    have hinvPT : (Handshake.run origin hs (pre ++ [t])).posted =
        if (Handshake.run origin hs (pre ++ [t])).sent = true then
          [Effect.postMessage w (Handshake.run origin hs (pre ++ [t])).payload origin]
        else [] := by
      rw [hpo3, hp3]
    obtain ⟨-, hpo4, hmono⟩ := handshake_run_invariant origin w post
      (Handshake.run origin hs (pre ++ [t])) hopenPost hinvPT
    have hsplit : ticks = (pre ++ [t]) ++ post := by
      rw [heq]
      simp
    constructor
    · rw [hpo3, if_pos hsentT]
    · rw [hsplit, handshake_run_append, hpo4, if_pos (hmono hsentT), hp3]
  · intro hthrows
    have hunsent := handshake_unsent origin w ticks hs hopen (by rw [hstart]; rfl) hthrows
    rw [hposted, hunsent]
    rfl
  · intro hfb hok
    have hsent := handshake_fallback_sends origin w ticks hs hopen
      (Or.inr (by rw [hstart]; rfl)) hfb hok
    rw [hposted, if_pos hsent]

theorem openWindowForUser_sample :
    Spells_openWindowForUser sampleHost sampleBrowser (some 1) 3 sampleClient "7" =
      .ok (sampleOpened, some (Handshake.start samplePayload)) := by
  have h : buildSpellPayload sampleHost sampleOpened.users sampleOpened.skillsByUser "7" =
      .ok (some samplePayload) := buildSpellPayload_sample
  unfold Spells_openWindowForUser
  simp only []
  show (match buildSpellPayload sampleHost sampleOpened.users sampleOpened.skillsByUser "7" with
    | Except.error e => (Except.error e : Except JsError (ClientState × Option Handshake))
    | Except.ok none => Except.ok (sampleOpened, none)
    | Except.ok (some payload) => Except.ok (sampleOpened, some (Handshake.start payload))) = _
  rw [h]

/-- Example for C14: the ready message meets a `postMessage` that throws, the
200 ms timer posts the payload, and the retry that follows posts nothing more. -/
theorem handshake_posts_once_example :
    (Handshake.run "http://localhost:8989" (Handshake.start samplePayload)
        ([readyThrows] ++ [fallbackOk])).posted =
        [Effect.postMessage 1 samplePayload "http://localhost:8989"] ∧
      (Handshake.run "http://localhost:8989" (Handshake.start samplePayload)
        [readyThrows, fallbackOk, retryOk]).posted =
        [Effect.postMessage 1 samplePayload "http://localhost:8989"] :=
  (handshake_posts_once sampleHost sampleBrowser (some 1) 3 sampleClient sampleOpened "7"
    (Handshake.start samplePayload) "http://localhost:8989" 1
    [readyThrows, fallbackOk, retryOk] openWindowForUser_sample
    (by
      intro t ht
      simp only [List.mem_cons, List.mem_singleton, List.not_mem_nil, or_false] at ht
      rcases ht with h | h | h <;> rw [h] <;> exact ⟨rfl, rfl⟩)).2.2.1
    [readyThrows] fallbackOk [retryOk] rfl rfl rfl

/-! ## The server: `GET /clear` -/

/-- What `GET /clear` does once `saveCurrentSessionIfAny` has returned with the
archive `archive`. -/
theorem handleClear_of_saved (host : Host) (env : ClearEnv) (srv : Server)
    (archive : List SavedSession) (r : SaveResult)
    (h : saveCurrentSessionIfAny env srv = some (archive, r)) :
    (handleClear host env srv).archive = archive ∧
      (handleClear host env srv).store =
        startNewSession env (clearAll srv.store)
          (clearBaseName env srv.store.currentSession) "manual_restart" ∧
      (handleClear host env srv).emitted =
        srv.emitted ++
          [ServerEvent.session_ended "manual_clear" env.endedEventAt,
           ServerEvent.session_started (some env.nextSessionId)
             (some (buildSessionName env.startClock
               (clearBaseName env srv.store.currentSession)))
             (some env.startedAt) "manual_restart",
           ServerEvent.dps_cleared env.clearedAt] ∧
      (handleClear host env srv).reply.map (fun reply => reply.status) = some 200 := by
  unfold handleClear
  rw [h]
  simp only []
  refine ⟨trivial, trivial, ?_, rfl⟩
  simp [startNewSession]

/-- What `GET /clear` does when `saveCurrentSessionIfAny` rejects. -/
theorem handleClear_of_rejected (host : Host) (env : ClearEnv) (srv : Server)
    (h : saveCurrentSessionIfAny env srv = none) :
    handleClear host env srv =
      { srv with reply := some { status := 500,
                                 body := JSON_ERR host (.str "Internal error") [] } } := by
  unfold handleClear
  simp only [h]

theorem playerSnapshots_users_ne_nil (env : ClearEnv) (users : List (Nat × ServerUser))
    (h : playerSnapshots env users ≠ []) : 0 < (users.map Prod.fst).length := by
  cases users with
  | nil => simp [playerSnapshots] at h
  | cons e rest => simp

theorem saveCurrentSessionIfAny_with_players (env : ClearEnv) (srv : Server)
    (previous : Session) (hsession : srv.store.currentSession = some previous)
    (hplayers : playerSnapshots env srv.store.users ≠ []) :
    saveCurrentSessionIfAny env srv =
      if env.addSessionRejects = true then none
      else some (srv.archive ++ [sessionToSave env srv.store previous],
        { saved := true, session := some (sessionToSave env srv.store previous) }) := by
  unfold saveCurrentSessionIfAny
  have h1 : (getUserIds srv.store).length > 0 :=
    playerSnapshots_users_ne_nil env srv.store.users hplayers
  have h2 : ¬ (playerSnapshots env srv.store.users).length = 0 := by
    intro h
    exact hplayers (List.length_eq_zero.1 h)
  simp only [hsession, h1, h2, if_true, if_false, addSession]
  cases env.addSessionRejects <;> simp

/-- C18 (as amended). With an active session and at least one player with a
snapshot: when the archive write `Sessions.addSession` rejects, the handler of
`GET /clear` stops there, so the store is not cleared, no session is started,
nothing is emitted, and the error handler of the router answers with status
500; when the write goes through, the handler clears the store, starts the new
session and emits `session_started` for it. -/
theorem clear_restart_depends_on_save (host : Host) (env : ClearEnv) (srv : Server)
    (previous : Session) (hsession : srv.store.currentSession = some previous)
    (hplayers : playerSnapshots env srv.store.users ≠ []) :
    (env.addSessionRejects = true →
      (handleClear host env srv).store = srv.store ∧
      (handleClear host env srv).archive = srv.archive ∧
      (handleClear host env srv).emitted = srv.emitted ∧
      (handleClear host env srv).reply.map (fun reply => reply.status) = some 500) ∧
    (env.addSessionRejects = false →
      (handleClear host env srv).store.users = [] ∧
      (handleClear host env srv).store.currentSession.map (fun s => s.id) =
        some env.nextSessionId ∧
      (handleClear host env srv).emitted =
        srv.emitted ++
          [ServerEvent.session_ended "manual_clear" env.endedEventAt,
           ServerEvent.session_started (some env.nextSessionId)
             (some (buildSessionName env.startClock (clearBaseName env (some previous))))
             (some env.startedAt) "manual_restart",
           ServerEvent.dps_cleared env.clearedAt]) := by
  have hsave := saveCurrentSessionIfAny_with_players env srv previous hsession hplayers
  constructor
  · intro hrej
    rw [hrej, if_pos rfl] at hsave
    rw [handleClear_of_rejected host env srv hsave]
    exact ⟨rfl, rfl, rfl, rfl⟩
  · intro hok
    rw [hok] at hsave
    simp only [Bool.false_eq_true, if_false] at hsave
    obtain ⟨-, hstore, hemit, -⟩ := handleClear_of_saved host env srv _ _ hsave
    rw [hstore, hemit, hsession]
    exact ⟨rfl, rfl, rfl⟩

/-- Example for C18: the sample server, once with a write that fails and once
with a write that goes through. -/
theorem clear_restart_depends_on_save_example :
    ((handleClear sampleHost rejectingEnv sampleServer).store = sampleServer.store ∧
      (handleClear sampleHost rejectingEnv sampleServer).archive = sampleServer.archive ∧
      (handleClear sampleHost rejectingEnv sampleServer).emitted = sampleServer.emitted ∧
      (handleClear sampleHost rejectingEnv sampleServer).reply.map
        (fun reply => reply.status) = some 500) ∧
    ((handleClear sampleHost sampleEnv sampleServer).store.users = [] ∧
      (handleClear sampleHost sampleEnv sampleServer).store.currentSession.map
        (fun s => s.id) = some sampleEnv.nextSessionId ∧
      (handleClear sampleHost sampleEnv sampleServer).emitted =
        sampleServer.emitted ++
          [ServerEvent.session_ended "manual_clear" sampleEnv.endedEventAt,
           ServerEvent.session_started (some sampleEnv.nextSessionId)
             (some (buildSessionName sampleEnv.startClock
               (clearBaseName sampleEnv (some sampleSession))))
             (some sampleEnv.startedAt) "manual_restart",
           ServerEvent.dps_cleared sampleEnv.clearedAt]) :=
  ⟨(clear_restart_depends_on_save sampleHost rejectingEnv sampleServer sampleSession rfl
      (by simp [playerSnapshots, sampleServer, rejectingEnv, sampleEnv])).1 rfl,
   (clear_restart_depends_on_save sampleHost sampleEnv sampleServer sampleSession rfl
      (by simp [playerSnapshots, sampleServer, sampleEnv])).2 rfl⟩

/-- Counterexample for C18: on the sample server a failing archive write leaves
the player in the store, the old session active and `session_started` not
emitted. -/
theorem failed_save_blocks_restart :
    rejectingEnv.addSessionRejects = true ∧
      (getUserIds (handleClear sampleHost rejectingEnv sampleServer).store) = [7] ∧
      (handleClear sampleHost rejectingEnv sampleServer).store.currentSession.map
        (fun s => s.id) = some "s1" ∧
      (handleClear sampleHost rejectingEnv sampleServer).emitted.any
        ServerEvent.isSessionStarted = false :=
  ⟨rfl, rfl, rfl, rfl⟩

/-- C19. With no player in the aggregate store, `saveCurrentSessionIfAny`
returns `saved = false` whatever `Sessions.addSession` would do (it is not
called), so `GET /clear` leaves the archive as it is; the handler still clears
the store, starts a new session with a new id and emits `session_started`. -/
theorem clear_with_no_players (host : Host) (env : ClearEnv) (srv : Server)
    (hempty : getUserIds srv.store = []) :
    saveCurrentSessionIfAny env srv =
        some (srv.archive, { saved := false, session := none }) ∧
      (handleClear host env srv).archive = srv.archive ∧
      (handleClear host env srv).store.users = [] ∧
      (handleClear host env srv).store.currentSession.map (fun s => s.id) =
        some env.nextSessionId ∧
      ServerEvent.session_started (some env.nextSessionId)
          (some (buildSessionName env.startClock
            (clearBaseName env srv.store.currentSession)))
          (some env.startedAt) "manual_restart" ∈ (handleClear host env srv).emitted := by
  have hsave : saveCurrentSessionIfAny env srv =
      some (srv.archive, { saved := false, session := none }) := by
    unfold saveCurrentSessionIfAny
    cases srv.store.currentSession with
    | none => rfl
    | some previous => simp [hempty]
  obtain ⟨harch, hstore, hemit, -⟩ := handleClear_of_saved host env srv _ _ hsave
  refine ⟨hsave, harch, ?_, ?_, ?_⟩
  · rw [hstore]
    rfl
  · rw [hstore]
    rfl
  · rw [hemit]
    simp

/-- Example for C19: the sample server with an empty store, in a run whose
archive write would fail. -/
theorem clear_with_no_players_example :
    getUserIds emptyServer.store = [] ∧
      (handleClear sampleHost rejectingEnv emptyServer).archive = emptyServer.archive ∧
      (handleClear sampleHost rejectingEnv emptyServer).store.currentSession.map
        (fun s => s.id) = some "s2" :=
  ⟨rfl,
   (clear_with_no_players sampleHost rejectingEnv emptyServer rfl).2.1,
   (clear_with_no_players sampleHost rejectingEnv emptyServer rfl).2.2.2.1⟩

/-- C20 (as amended). With an active session and at least one player for whom
`_buildPlayerSnapshot` yields a snapshot, one `GET /clear` whose archive write
goes through adds exactly one entry to the archive: its `partySize` is the
number of such players, so at least 1, its `reasonEnd` is "manual_clear", it
has the id, name, start time and sequence number of the active session, and
its `durationMs` is `max(0, endedAt - startedAt)`. -/
theorem clear_archives_one_session (host : Host) (env : ClearEnv) (srv : Server)
    (previous : Session) (hsession : srv.store.currentSession = some previous)
    (hplayers : playerSnapshots env srv.store.users ≠ [])
    (hwrite : env.addSessionRejects = false) :
    ∃ entry, (handleClear host env srv).archive = srv.archive ++ [entry] ∧
      entry.partySize = (playerSnapshots env srv.store.users).length ∧
      1 ≤ entry.partySize ∧
      entry.reasonEnd = "manual_clear" ∧
      entry.id = previous.id ∧
      entry.name = previous.name ∧
      entry.startedAt = previous.startedAt ∧
      entry.seq = previous.seq ∧
      entry.endedAt = env.endedAt ∧
      entry.durationMs = max 0 (entry.endedAt - entry.startedAt) := by
  have hsave := saveCurrentSessionIfAny_with_players env srv previous hsession hplayers
  rw [hwrite] at hsave
  simp only [Bool.false_eq_true, if_false] at hsave
  obtain ⟨harch, -, -, -⟩ := handleClear_of_saved host env srv _ _ hsave
  refine ⟨sessionToSave env srv.store previous, harch, rfl, ?_, rfl, rfl, rfl, rfl, rfl, rfl,
    rfl⟩
  exact List.length_pos.2 hplayers

/-- Example for C20: the sample server archives its session with one player. -/
theorem clear_archives_one_session_example :
    ∃ entry, (handleClear sampleHost sampleEnv sampleServer).archive =
        sampleServer.archive ++ [entry] ∧
      entry.partySize = (playerSnapshots sampleEnv sampleServer.store.users).length ∧
      1 ≤ entry.partySize ∧
      entry.reasonEnd = "manual_clear" ∧
      entry.id = sampleSession.id ∧
      entry.name = sampleSession.name ∧
      entry.startedAt = sampleSession.startedAt ∧
      entry.seq = sampleSession.seq ∧
      entry.endedAt = sampleEnv.endedAt ∧
      entry.durationMs = max 0 (entry.endedAt - entry.startedAt) :=
  clear_archives_one_session sampleHost sampleEnv sampleServer sampleSession rfl
    (by simp [playerSnapshots, sampleServer, sampleEnv]) rfl

/-- Counterexample for C20: an active session with one player in the store.
When `_buildPlayerSnapshot` yields nothing for the player, `GET /clear` adds no
entry to the archive; when there is a snapshot and the archive write fails, it
adds none either. -/
theorem clear_without_snapshot_archives_nothing :
    sampleServer.store.currentSession.isSome = true ∧
      (getUserIds sampleServer.store).length = 1 ∧
      (noSnapshotEnv.addSessionRejects = false ∧
        (handleClear sampleHost noSnapshotEnv sampleServer).archive.length =
          sampleServer.archive.length) ∧
      ((playerSnapshots rejectingEnv sampleServer.store.users).length = 1 ∧
        (handleClear sampleHost rejectingEnv sampleServer).archive.length =
          sampleServer.archive.length) :=
  ⟨rfl, rfl, ⟨rfl, rfl⟩, ⟨rfl, rfl⟩⟩

/-! ## The watchdog in every state, and the coalescing of redraws -/

/-- C30 (as amended). One call of `WS.checkConnection` makes one reconnect call
for each of its two checks that applies: `socket.connect()` on the current
socket when the channel is marked disconnected and the socket reports
`disconnected`, and `WS.connect()` when more than `WS_RECONNECT_MS` have passed
since the last message.  So it makes at most two, and two when both apply. -/
theorem checkConnection_reconnect_count (now : Int) (fresh : Socket) (st : ClientState) :
    (((WS_checkConnection now fresh st).log.drop st.log.length).filter
        Effect.isReconnect).length =
      (match st.socket with
       | some s => if (!st.wsConnected && s.disconnected) = true then 1 else 0
       | none => 0) +
      (if now - st.lastWsMessageTs > WS_RECONNECT_MS then 1 else 0) ∧
    (((WS_checkConnection now fresh st).log.drop st.log.length).filter
        Effect.isReconnect).length ≤ 2 := by
  have key : (((WS_checkConnection now fresh st).log.drop st.log.length).filter
        Effect.isReconnect).length =
      (match st.socket with
       | some s => if (!st.wsConnected && s.disconnected) = true then 1 else 0
       | none => 0) +
      (if now - st.lastWsMessageTs > WS_RECONNECT_MS then 1 else 0) := by
    unfold WS_checkConnection
    cases hs : st.socket with
    | none =>
      by_cases hgt : now - st.lastWsMessageTs > WS_RECONNECT_MS
      · simp [hgt, hs, WS_connect, ClientState.emit, Effect.isReconnect]
      · simp [hgt, hs]
    | some s =>
      by_cases hfirst : (!st.wsConnected && s.disconnected) = true
      · by_cases hgt : now - st.lastWsMessageTs > WS_RECONNECT_MS
        · simp [hgt, hs, hfirst, WS_connect, ClientState.emit, Effect.isReconnect]
        · simp [hgt, hs, hfirst, ClientState.emit, Effect.isReconnect]
      · by_cases hgt : now - st.lastWsMessageTs > WS_RECONNECT_MS
        · simp [hgt, hs, hfirst, WS_connect, ClientState.emit, Effect.isReconnect]
        · simp [hgt, hs, hfirst]
  refine ⟨key, ?_⟩
  rw [key]
  have h1 : (match st.socket with
      | some s => if (!st.wsConnected && s.disconnected) = true then 1 else 0
      | none => 0) ≤ 1 := by
    cases st.socket with
    | none => exact Nat.zero_le 1
    | some s =>
      show (if (!st.wsConnected && s.disconnected) = true then 1 else 0) ≤ 1
      split <;> decide
  have h2 : (if now - st.lastWsMessageTs > WS_RECONNECT_MS then 1 else 0) ≤ 1 := by
    split <;> decide
  omega

/-- Counterexample for C30: the channel is marked disconnected, the socket
reports `disconnected` and the last message is 6000 ms old; one call makes two
reconnect calls, `socket.connect()` and `WS.connect()`. -/
theorem checkConnection_reconnects_twice :
    (((WS_checkConnection 6000 { id := 1, disconnected := false } staleDisconnectedClient).log.drop
        staleDisconnectedClient.log.length).filter Effect.isReconnect).length = 2 ∧
      (WS_checkConnection 6000 { id := 1, disconnected := false } staleDisconnectedClient).log =
        [Effect.setServerStatus "reconnecting", Effect.socketConnect 0,
         Effect.socketDisconnect 0, Effect.ioConnect 1,
         Effect.setServerStatus "reconnecting"] :=
  ⟨rfl, rfl⟩

theorem renderDataList_of_pending (st : ClientState) (users : List User) (tab : String)
    (h : st.renderPending = true) : renderDataList st users tab = st := by
  unfold renderDataList renderLiveSkillsView scheduleFrame
  simp [h]

theorem renderDataListCalls_of_pending (st : ClientState)
    (calls : List (List User × String)) (h : st.renderPending = true) :
    renderDataListCalls st calls = st := by
  induction calls with
  | nil => rfl
  | cons call rest ih =>
    unfold renderDataListCalls at ih ⊢
    rw [List.foldl_cons, renderDataList_of_pending st _ _ h]
    exact ih

/-- C27 (as amended). When no pass is pending, a sequence of `renderDataList`
calls that arrive before the next animation frame schedules exactly one pass:
`renderPending` is true afterwards and one callback has been handed to
`requestAnimationFrame`.  That pass is the one of the first call: in the main
view it renders the player list of the first call, and the lists of the later
calls are dropped. -/
theorem renderDataList_coalesces (st : ClientState) (first : List User × String)
    (rest : List (List User × String)) (hp : st.renderPending = false) :
    (renderDataListCalls st (first :: rest)).renderPending = true ∧
      (renderDataListCalls st (first :: rest)).log =
        st.log ++ [Effect.requestAnimationFrame
          (if st.viewMode = "live-skills" then Frame.liveSkills
           else Frame.main first.1 first.2)] := by
  have h1 : (renderDataList st first.1 first.2).renderPending = true ∧
      (renderDataList st first.1 first.2).log =
        st.log ++ [Effect.requestAnimationFrame
          (if st.viewMode = "live-skills" then Frame.liveSkills
           else Frame.main first.1 first.2)] := by
    unfold renderDataList renderLiveSkillsView scheduleFrame
    by_cases hv : st.viewMode = "live-skills" <;> simp [hv, hp]
  have h2 : renderDataListCalls st (first :: rest) = renderDataList st first.1 first.2 := by
    show renderDataListCalls (renderDataList st first.1 first.2) rest = _
    exact renderDataListCalls_of_pending _ rest h1.1
  rw [h2]
  exact h1

/-- Example for C27: two calls on the sample client, the first with one player
and the second with none; the pass scheduled is the one of the first call. -/
theorem renderDataList_coalesces_example :
    (renderDataListCalls sampleClient [([samplePlayerAnn], "dps"), ([], "dps")]).renderPending =
        true ∧
      (renderDataListCalls sampleClient [([samplePlayerAnn], "dps"), ([], "dps")]).log =
        sampleClient.log ++ [Effect.requestAnimationFrame
          (if sampleClient.viewMode = "live-skills" then Frame.liveSkills
           else Frame.main [samplePlayerAnn] "dps")] :=
  renderDataList_coalesces sampleClient ([samplePlayerAnn], "dps") [([], "dps")] rfl

/-- Counterexample for C27: of two calls before the frame, the first with one
player and the most recent with none, the one pass scheduled renders the list
of the first call, not the list of the most recent one. -/
theorem renderDataList_keeps_first_list :
    (renderDataListCalls sampleClient [([samplePlayerAnn], "dps"), ([], "dps")]).log =
        [Effect.requestAnimationFrame (Frame.main [samplePlayerAnn] "dps")] ∧
      (renderDataListCalls sampleClient [([samplePlayerAnn], "dps"), ([], "dps")]).log ≠
        [Effect.requestAnimationFrame (Frame.main [] "dps")] := by
  have h : (renderDataListCalls sampleClient
      [([samplePlayerAnn], "dps"), ([], "dps")]).log =
        [Effect.requestAnimationFrame (Frame.main [samplePlayerAnn] "dps")] := rfl
  refine ⟨h, ?_⟩
  rw [h]
  intro hEq
  have h2 := Effect.requestAnimationFrame.inj (List.cons.inj hEq).1
  have h3 := (Frame.main.inj h2).1
  exact absurd h3 (List.cons_ne_nil _ _)

/-! ## The envelopes `JSON_OK` and `JSON_ERR` -/

theorem get_foldl_set_of_not_mem {α : Type} (es init : List (String × α)) (k : String)
    (hk : k ∉ Obj.keys es) :
    Obj.get (es.foldl (fun o kv => Obj.set o kv.1 kv.2) init) k = Obj.get init k := by
  induction es generalizing init with
  | nil => rfl
  | cons e rest ih =>
    simp only [Obj.keys, List.map_cons, List.mem_cons, not_or] at hk
    rw [List.foldl_cons, ih _ (by simpa [Obj.keys] using hk.2)]
    exact Obj.get_set_ne _ _ _ _ hk.1

theorem get_foldl_set_of_mem {α : Type} (es init : List (String × α)) (k : String) (v : α)
    (hnd : (Obj.keys es).Nodup) (hmem : (k, v) ∈ es) :
    Obj.get (es.foldl (fun o kv => Obj.set o kv.1 kv.2) init) k = some v := by
  induction es generalizing init with
  | nil => simp at hmem
  | cons e rest ih =>
    simp only [Obj.keys, List.map_cons, List.nodup_cons] at hnd
    rw [List.foldl_cons]
    rcases List.mem_cons.1 hmem with h | h
    · subst h
      rw [get_foldl_set_of_not_mem rest _ k (by simpa [Obj.keys] using hnd.1)]
      exact Obj.get_set_self _ _ _
    · exact ih _ (by simpa [Obj.keys] using hnd.2) h

/-- C24 (as amended). `JSON_OK(payload)` carries every field of the payload, and
its `code` is 0 when the payload has no field `code`; `JSON_ERR(msg, extra)`
carries every field of `extra`, its `code` is 1 when `extra` has no field
`code`, and its `msg` is `String(msg)` when `extra` has no field `msg`.  (A
field `code` or `msg` of the argument comes later in the object literal and
wins.) -/
theorem envelope_fields (host : Host) (payload extra : Record) (msg : Val)
    (hp : (Obj.keys payload).Nodup) (he : (Obj.keys extra).Nodup) :
    (∀ k v, Obj.get payload k = some v → Obj.get (JSON_OK payload) k = some v) ∧
      (Obj.get payload "code" = none → Obj.get (JSON_OK payload) "code" = some (.num 0)) ∧
      (∀ k v, Obj.get extra k = some v → Obj.get (JSON_ERR host msg extra) k = some v) ∧
      (Obj.get extra "code" = none →
        Obj.get (JSON_ERR host msg extra) "code" = some (.num 1)) ∧
      (Obj.get extra "msg" = none →
        Obj.get (JSON_ERR host msg extra) "msg" = some (.str (msg.toStr host))) := by
  refine ⟨?_, ?_, ?_, ?_, ?_⟩
  · intro k v h
    exact get_foldl_set_of_mem payload _ k v hp (mem_of_get payload k v h)
  · intro h
    unfold JSON_OK
    rw [get_foldl_set_of_not_mem payload _ "code"
      ((get_eq_none_iff_not_mem_keys payload "code").1 h)]
    rfl
  · intro k v h
    exact get_foldl_set_of_mem extra _ k v he (mem_of_get extra k v h)
  · intro h
    unfold JSON_ERR
    rw [get_foldl_set_of_not_mem extra _ "code"
      ((get_eq_none_iff_not_mem_keys extra "code").1 h)]
    rfl
  · intro h
    unfold JSON_ERR
    rw [get_foldl_set_of_not_mem extra _ "msg"
      ((get_eq_none_iff_not_mem_keys extra "msg").1 h)]
    rfl

/-- Example for C24: the envelopes of `{ paused: true }` and of the message
"Invalid uid" with `{ uid: "x" }`. -/
theorem envelope_fields_example :
    Obj.get (JSON_OK [("paused", .bool true)]) "code" = some (.num 0) ∧
      Obj.get (JSON_OK [("paused", .bool true)]) "paused" = some (.bool true) ∧
      Obj.get (JSON_ERR sampleHost (.str "Invalid uid") [("uid", .str "x")]) "code" =
        some (.num 1) ∧
      Obj.get (JSON_ERR sampleHost (.str "Invalid uid") [("uid", .str "x")]) "msg" =
        some (.str ((Val.str "Invalid uid").toStr sampleHost)) :=
  ⟨(envelope_fields sampleHost [("paused", .bool true)] [("uid", .str "x")]
      (.str "Invalid uid") (by decide) (by decide)).2.1 rfl,
   (envelope_fields sampleHost [("paused", .bool true)] [("uid", .str "x")]
      (.str "Invalid uid") (by decide) (by decide)).1 "paused" (.bool true) rfl,
   (envelope_fields sampleHost [("paused", .bool true)] [("uid", .str "x")]
      (.str "Invalid uid") (by decide) (by decide)).2.2.2.1 rfl,
   (envelope_fields sampleHost [("paused", .bool true)] [("uid", .str "x")]
      (.str "Invalid uid") (by decide) (by decide)).2.2.2.2 rfl⟩

/-- Counterexample for C24: a payload with a field `code`; the `code` of the
envelope is the payload's 7, not 0. -/
theorem envelope_code_overridden :
    Obj.get (JSON_OK [("code", .num 7)]) "code" = some (.num 7) ∧
      Obj.get (JSON_OK [("code", .num 7)]) "code" ≠ some (.num 0) := by
  have h : Obj.get (JSON_OK [("code", .num 7)]) "code" = some (.num 7) := rfl
  refine ⟨h, ?_⟩
  rw [h]
  intro hEq
  have h7 : (7 : ℚ) = 0 := Val.num.inj (Option.some.inj hEq)
  norm_num at h7

/-! ## The history routes -/

/-- C21. Evaluation at the failing input: with the logs root `/var/logs`, the
segments `..`, `logs2`, `x.json` resolve to `/var/logs2/x.json`, a path in a
sibling directory; its text starts with the text of the root, so `safeJoinLogs`
returns it although it is not inside the root. -/
theorem safeJoinLogs_returns_sibling_path :
    safeJoinLogs "/srv/app" "/var/logs" ["..", "logs2", "x.json"] = .ok "/var/logs2/x.json" ∧
      insideDir "/var/logs" "/var/logs2/x.json" = false ∧
      safeJoinLogs "/srv/app" "/var/logs" ["..", "other", "x.json"] = .error "Unsafe path" :=
  ⟨rfl, by decide, rfl⟩

theorem isDigits_iff (s : String) :
    isDigits s = true ↔ s ≠ "" ∧ ∀ c ∈ s.data, '0' ≤ c ∧ c ≤ '9' := by
  unfold isDigits
  have hne : s.data.isEmpty = false ↔ s ≠ "" := by
    constructor
    · intro h hs
      rw [hs] at h
      exact absurd h (by decide)
    · intro h
      cases hd : s.data with
      | nil => exact absurd (String.ext hd) h
      | cons c cs => rfl
  simp only [Bool.and_eq_true, Bool.not_eq_true', List.all_eq_true, decide_eq_true_eq]
  rw [hne]

/-- C22. `isDigits(s)` is true exactly for the non-empty strings made of the
digits 0 to 9, and a history route whose timestamp `isDigits` rejects answers
with status 400 and the envelope with code 1 and msg "Invalid timestamp",
having built no path and called nothing of the `fs` module. -/
theorem history_rejects_bad_timestamp (host : Host) (disk : Disk)
    (cwd LOGS_DIR timestamp uidParam : String) :
    (isDigits timestamp = true ↔ timestamp ≠ "" ∧ ∀ c ∈ timestamp.data, '0' ≤ c ∧ c ≤ '9') ∧
    (isDigits timestamp = false →
      historySummary host disk cwd LOGS_DIR timestamp = invalidTimestamp host ∧
      historyData host disk cwd LOGS_DIR timestamp = invalidTimestamp host ∧
      historySkill host disk cwd LOGS_DIR timestamp uidParam = invalidTimestamp host ∧
      historyDownload host disk cwd LOGS_DIR timestamp = invalidTimestamp host) ∧
    ((invalidTimestamp host).paths = [] ∧ (invalidTimestamp host).calls = [] ∧
      (invalidTimestamp host).answer =
        .json 400 [("code", .num 1), ("msg", .str "Invalid timestamp")]) := by
  refine ⟨isDigits_iff timestamp, ?_, rfl, rfl, rfl⟩
  intro h
  unfold historySummary historyData historySkill historyDownload
  simp [h]

/-- Example for C22: the timestamp `17a0` on the four routes. -/
theorem history_rejects_bad_timestamp_example :
    historySummary sampleHost emptyDisk "/srv/app" "/var/logs" "17a0" =
        invalidTimestamp sampleHost ∧
      historyData sampleHost emptyDisk "/srv/app" "/var/logs" "17a0" =
        invalidTimestamp sampleHost ∧
      historySkill sampleHost emptyDisk "/srv/app" "/var/logs" "17a0" "7" =
        invalidTimestamp sampleHost ∧
      historyDownload sampleHost emptyDisk "/srv/app" "/var/logs" "17a0" =
        invalidTimestamp sampleHost :=
  (history_rejects_bad_timestamp sampleHost emptyDisk "/srv/app" "/var/logs" "17a0" "7").2.1
    (by decide)

theorem readJsonFile_status (host : Host) (disk : Disk) (file key notFound failed : String) :
    (readJsonFile host disk file key notFound failed).answer.statusCode ≠ 400 ∧
      (readJsonFile host disk file key notFound failed).calls = [.readFile file] := by
  unfold readJsonFile
  cases hr : disk.readFile file with
  | ok data =>
    cases hpj : disk.parseJson data with
    | none => simp [hpj, HistoryAnswer.statusCode]
    | some value => simp [hpj, HistoryAnswer.statusCode]
  | error e =>
    cases e with
    | enoent => simp [HistoryAnswer.statusCode]
    | other => simp [HistoryAnswer.statusCode]

theorem parseInt10_eq_none_iff (s : String) :
    parseInt10 s = none ↔
      ∀ c, (skipSign (s.data.dropWhile isSpaceChar)).head? = some c → isDigitChar c = false := by
  unfold parseInt10
  simp only []
  cases hb : skipSign (s.data.dropWhile isSpaceChar) with
  | nil => simp
  | cons c rest =>
    by_cases hc : isDigitChar c = true
    · simp [List.takeWhile, hc]
    · simp [List.takeWhile, hc]

theorem parseInt10_of_isDigits (s : String) (h : isDigits s = true) :
    (parseInt10 s).isSome = true := by
  cases hp : parseInt10 s with
  | some n => rfl
  | none =>
    exfalso
    obtain ⟨hne, hall⟩ := (isDigits_iff s).1 h
    have hnone := (parseInt10_eq_none_iff s).1 hp
    cases hd : s.data with
    | nil => exact hne (String.ext hd)
    | cons c cs =>
      have hc := hall c (by rw [hd]; exact List.mem_cons_self _ _)
      have hdigit : isDigitChar c = true := by
        unfold isDigitChar
        exact decide_eq_true hc
      have hns : isSpaceChar c = false := by
        cases hsp : isSpaceChar c with
        | false => rfl
        | true =>
          exfalso
          have h0 : '0'.toNat ≤ c.toNat := hc.1
          have h9 : c.toNat ≤ '9'.toNat := hc.2
          have h0' : 48 ≤ c.toNat := h0
          have h9' : c.toNat ≤ 57 := h9
          unfold isSpaceChar at hsp
          simp only [Bool.or_eq_true, decide_eq_true_eq, List.mem_cons, List.mem_singleton,
            List.not_mem_nil, or_false] at hsp
          omega
      have hsign : ¬ (c = '+' ∨ c = '-') := by
        intro hsg
        rcases hsg with h1 | h1 <;> rw [h1] at hdigit <;> exact absurd hdigit (by decide)
      have hbody : skipSign (s.data.dropWhile isSpaceChar) = c :: cs := by
        rw [hd]
        simp [List.dropWhile, hns, skipSign, hsign]
      have := hnone c (by rw [hbody]; rfl)
      rw [hdigit] at this
      exact absurd this (by decide)

/-- C23 (as amended). On `GET /history/:timestamp/skill/:uid` with a timestamp of
digits, the answer has status 400 exactly when `Number.parseInt(uid, 10)` is
`NaN`, that is when the uid, after blanks and a sign, does not start with a
digit; the answer is then the envelope with msg "Invalid uid", and no path is
built and no file read.  Every other uid is accepted, a uid of digits among
them, and the one file read is `users/<n>.json` for the integer `n` parsed. -/
theorem historySkill_uid_check (host : Host) (disk : Disk)
    (cwd LOGS_DIR timestamp uidParam : String) (ht : isDigits timestamp = true) :
    ((historySkill host disk cwd LOGS_DIR timestamp uidParam).answer.statusCode = 400 ↔
      parseInt10 uidParam = none) ∧
    (parseInt10 uidParam = none ↔
      ∀ c, (skipSign (uidParam.data.dropWhile isSpaceChar)).head? = some c →
        isDigitChar c = false) ∧
    (parseInt10 uidParam = none →
      historySkill host disk cwd LOGS_DIR timestamp uidParam =
        { paths := [], calls := [],
          answer := .json 400 [("code", .num 1), ("msg", .str "Invalid uid")] }) ∧
    (isDigits uidParam = true → (parseInt10 uidParam).isSome = true) ∧
    (∀ n file, parseInt10 uidParam = some n →
      safeJoinLogs cwd LOGS_DIR [timestamp, "users", host.numToString n ++ ".json"] =
        .ok file →
      (historySkill host disk cwd LOGS_DIR timestamp uidParam).calls = [.readFile file]) := by
  have hnone : parseInt10 uidParam = none →
      historySkill host disk cwd LOGS_DIR timestamp uidParam =
        { paths := [], calls := [],
          answer := .json 400 [("code", .num 1), ("msg", .str "Invalid uid")] } := by
    intro h
    unfold historySkill
    simp only [ht, h]
    rfl
  refine ⟨⟨?_, fun h => by rw [hnone h]; rfl⟩, parseInt10_eq_none_iff uidParam, hnone,
    parseInt10_of_isDigits uidParam, ?_⟩
  · intro hstatus
    cases hp : parseInt10 uidParam with
    | none => rfl
    | some n =>
      exfalso
      unfold historySkill at hstatus
      simp only [ht, hp, Bool.not_true, Bool.false_eq_true, if_false] at hstatus
      cases hj : safeJoinLogs cwd LOGS_DIR
          [timestamp, "users", host.numToString n ++ ".json"] with
      | error e =>
        rw [hj] at hstatus
        simp [internalError, HistoryAnswer.statusCode] at hstatus
      | ok file =>
        rw [hj] at hstatus
        exact (readJsonFile_status host disk file _ _ _).1 hstatus
  · intro n file hp hj
    unfold historySkill
    simp only [ht, hp, hj, Bool.not_true, Bool.false_eq_true, if_false]
    exact (readJsonFile_status host disk file _ _ _).2

/-- Example for C23: the uid `abc` is rejected, the uid `12` is read from
`users/12.json`. -/
theorem historySkill_uid_check_example :
    historySkill sampleHost emptyDisk "/srv/app" "/var/logs" "1700" "abc" =
        { paths := [], calls := [],
          answer := .json 400 [("code", .num 1), ("msg", .str "Invalid uid")] } ∧
      (historySkill sampleHost emptyDisk "/srv/app" "/var/logs" "1700" "12").calls =
        [.readFile "/var/logs/1700/users/12.json"] :=
  ⟨(historySkill_uid_check sampleHost emptyDisk "/srv/app" "/var/logs" "1700" "abc"
      (by decide)).2.2.1 (by decide),
   (historySkill_uid_check sampleHost emptyDisk "/srv/app" "/var/logs" "1700" "12"
      (by decide)).2.2.2.2 12 "/var/logs/1700/users/12.json" (by decide) rfl⟩

/-- Counterexample for C23: the uids `12abc` and `-3` are not made of digits
only, yet the handler accepts them: it reads the files `12.json` and `-3.json`
of the directory `users` and answers 404 for the missing file, not 400. -/
theorem historySkill_accepts_12abc :
    isDigits "12abc" = false ∧ isDigits "-3" = false ∧
      historySkill sampleHost emptyDisk "/srv/app" "/var/logs" "1700" "12abc" =
        { paths := ["/var/logs/1700/users/12.json"],
          calls := [.readFile "/var/logs/1700/users/12.json"],
          answer := .json 404 [("code", .num 1), ("msg", .str "History skill file not found")] } ∧
      historySkill sampleHost emptyDisk "/srv/app" "/var/logs" "1700" "-3" =
        { paths := ["/var/logs/1700/users/-3.json"],
          calls := [.readFile "/var/logs/1700/users/-3.json"],
          answer := .json 404 [("code", .num 1), ("msg", .str "History skill file not found")] } :=
  ⟨by decide, by decide, rfl, rfl⟩

/-! ## The stat line of an admitted player -/

/-- C29. Evaluation at the failing input: a player with `total_dps` 5 and no
`total_damage` is admitted by the filter of `Data.updateAll` on the tab `dps`,
and computing the stat line of the record reads `.total` of the missing
`total_damage` and throws; the pass of `renderDataList` over this player ends
with that exception. -/
theorem statLine_throws_for_admitted_player :
    admitted "dps" playerWithoutTotals = true ∧
      (updateAll [("4", playerWithoutTotals)] "dps").length = 1 ∧
      statLine sampleHost playerWithoutTotals "dps"
        (displayPercent (totalValue [playerWithoutTotals] "dps") playerWithoutTotals "dps") =
        .error .typeError ∧
      renderPass sampleHost "dps" [playerWithoutTotals] [] = .error .typeError := by
  have h : admitted "dps" playerWithoutTotals = true := by
    simp [admitted, positive, playerWithoutTotals]
  refine ⟨h, ?_, rfl, rfl⟩
  simp [updateAll, h]

/-! ## The payload of the server and the payload of the client -/

theorem foldl_add_finite (ds : List JsNum) (acc : ℚ)
    (hfin : ∀ d ∈ ds, d.isFinite = true) :
    ds.foldl (fun s d => JsNum.add s (d.or (.fin 0))) (.fin acc) =
      .fin (acc + (ds.map JsNum.value).sum) := by
  induction ds generalizing acc with
  | nil => simp
  | cons d rest ih =>
    have h1 := hfin d (List.mem_cons_self _ _)
    have h2 : ∀ x ∈ rest, x.isFinite = true := fun x hx => hfin x (List.mem_cons_of_mem _ hx)
    cases d with
    | fin x =>
      have hor : (JsNum.fin x).or (.fin 0) = .fin x := by
        unfold JsNum.or JsNum.truthy
        by_cases hx : x = 0 <;> simp [hx]
      simp only [List.foldl_cons, List.map_cons, List.sum_cons]
      rw [hor, show JsNum.add (.fin acc) (.fin x) = .fin (acc + x) from rfl, ih _ h2,
        show (JsNum.fin x).value = x from rfl, add_assoc]
    | nan => simp [JsNum.isFinite] at h1
    | inf s => simp [JsNum.isFinite] at h1

theorem sum_filter_of_zero {α : Type} (p : α → Bool) (f : α → ℚ) (l : List α)
    (h : ∀ x ∈ l, p x = false → f x = 0) :
    ((l.filter p).map f).sum = (l.map f).sum := by
  induction l with
  | nil => rfl
  | cons x rest ih =>
    have hrest : ∀ y ∈ rest, p y = false → f y = 0 :=
      fun y hy => h y (List.mem_cons_of_mem _ hy)
    cases hp : p x with
    | true => simp [List.filter, hp, ih hrest]
    | false => simp [List.filter, hp, ih hrest, h x (List.mem_cons_self _ _) hp]

theorem fin_or_zero (x : ℚ) : (JsNum.fin x).or (.fin 0) = .fin x := by
  unfold JsNum.or JsNum.truthy
  by_cases hx : x = 0 <;> simp [hx]

/-- The item of the client and the item of the server for one numeric skill. -/
theorem items_agree (host : Host) (e : String × Record) (item : SpellItem)
    (hnum : NumericSkill e.2) (hbuild : buildItem host e = .ok item) :
    (sessionItem host e).id = item.id ∧
      (sessionItem host e).damage = item.damage ∧
      (sessionItem host e).hits = item.hits.toNumber host ∧
      (sessionItem host e).critHits = item.critHits.toNumber host ∧
      (sessionItem host e).avg = item.avg ∧
      (sessionItem host e).critRate = item.critRate ∧
      (∃ D : ℚ, 0 ≤ D ∧ item.damage = .fin D) := by
  obtain ⟨D, H, C, hD, hH, hC, hD0, -, -⟩ := hnum
  obtain ⟨hid, hdmg, hhits, hcrit, havg, hrate⟩ := buildItem_ok host e item hbuild
  have hsd : (sessionItem host e).damage = .fin D := by
    show ((damageField e.2).toNumber host).or (.fin 0) = .fin D
    rw [hD]
    exact fin_or_zero D
  have hsh : (sessionItem host e).hits = .fin H := by
    show ((castsField e.2).toNumber host).or (.fin 0) = .fin H
    rw [hH]
    exact fin_or_zero H
  have hsc : (sessionItem host e).critHits = .fin C := by
    show ((critHitsField e.2).toNumber host).or (.fin 0) = .fin C
    rw [hC]
    exact fin_or_zero C
  have hid2 : item.damage = .fin D := by
    rw [hdmg, hD]
    exact fin_or_zero D
  have hih : item.hits.toNumber host = .fin H := by
    rw [hhits, hH]
    rfl
  have hic : item.critHits.toNumber host = .fin C := by
    rw [hcrit, hC]
    rfl
  refine ⟨hid.symm, hsd.trans hid2.symm, hsh.trans hih.symm, hsc.trans hic.symm, ?_, ?_,
    ⟨D, hD0, hid2⟩⟩
  · rw [havg, hih, hid2]
    show (if (sessionItem host e).hits.gtZero then
      JsNum.div (sessionItem host e).damage (sessionItem host e).hits else .fin 0) = _
    rw [hsh, hsd]
  · rw [hrate, hih, hic]
    show (if (sessionItem host e).hits.gtZero then
      JsNum.mul (JsNum.div (sessionItem host e).critHits (sessionItem host e).hits) (.fin 100)
      else .fin 0) = _
    rw [hsh, hsc]

theorem map_eq_of_forallTwo {α β γ : Type} (R : α → β → Prop) (f : α → γ) (g : β → γ)
    (l : List α) (r : List β) (h : List.Forall₂ R l r) (hfg : ∀ a b, R a b → f a = g b) :
    l.map f = r.map g := by
  induction h with
  | nil => rfl
  | cons hab _ ih => simp [hfg _ _ hab, ih]

theorem forallTwo_of_mem_left {α β : Type} (R : α → β → Prop) (P : α → Prop)
    (l : List α) (r : List β) (h : List.Forall₂ R l r) (hP : ∀ a ∈ l, P a) :
    List.Forall₂ (fun a b => R a b ∧ P a) l r := by
  induction h with
  | nil => exact List.Forall₂.nil
  | cons hab _ ih =>
    exact List.Forall₂.cons ⟨hab, hP _ (List.mem_cons_self _ _)⟩
      (ih (fun a ha => hP a (List.mem_cons_of_mem _ ha)))

theorem eq_of_mem_of_key_eq {α : Type} (l : List (String × α)) (hnd : (Obj.keys l).Nodup)
    (a b : String × α) (ha : a ∈ l) (hb : b ∈ l) (hk : a.1 = b.1) : a = b :=
  List.inj_on_of_nodup_map hnd ha hb hk

/-- C28. For a skills map whose damage, count and crit count fields are numbers
that are not negative, with the default merge table: the total of the payload
built by the handler of `GET /sessions/:id/payload/:uid` is the total of the
payload of `Spells.buildSpellPayload`, and for every item of the client's list
the server has an item with that id, and the server's item with that id has
the same damage, hits, crit hits, `avg` and `critRate`. -/
theorem payloads_agree (host : Host) (users : List (String × Record))
    (skillsByUser : List (String × SkillsEntry)) (userId : String) (skills : SkillMap)
    (userEntry : Record) (p : SpellPayload)
    (hs : (Obj.get skillsByUser userId).bind (fun entry => entry.skills) = some skills)
    (hkeys : (Obj.keys skills).Nodup) (hnum : ∀ e ∈ skills, NumericSkill e.2)
    (hp : buildSpellPayload host users skillsByUser userId = .ok (some p)) :
    p.total = (sessionPayload host userEntry (some skills)).total ∧
      ∀ item ∈ p.items,
        (∃ sitem ∈ (sessionPayload host userEntry (some skills)).items, sitem.id = item.id) ∧
        ∀ sitem ∈ (sessionPayload host userEntry (some skills)).items, sitem.id = item.id →
          sitem.damage = item.damage ∧
          sitem.hits = item.hits.toNumber host ∧
          sitem.critHits = item.critHits.toNumber host ∧
          sitem.avg = item.avg ∧
          sitem.critRate = item.critRate := by
  unfold buildSpellPayload at hp
  rw [hs] at hp
  cases hu : Obj.get users userId with
  | none =>
    rw [hu] at hp
    simp at hp
  | some user =>
    rw [hu] at hp
    simp only [mergeSkills_default] at hp
    cases hm : skills.mapM (buildItem host) with
    | error e =>
      rw [hm] at hp
      simp at hp
    | ok all =>
      rw [hm] at hp
      cases hc : getClassKey host (Record.field user "profession") with
      | error e =>
        rw [hc] at hp
        simp at hp
      | ok classKey =>
        rw [hc] at hp
        simp only [Except.ok.injEq, Option.some.injEq] at hp
        subst hp
        have hF := forallTwo_of_mem_left _ (fun e => NumericSkill e.2) skills all
          (mapM_ok_forallTwo (buildItem host) skills all hm) hnum
        have hall : ∀ item ∈ all, ∃ e ∈ skills, buildItem host e = .ok item ∧
            NumericSkill e.2 := by
          intro item hitem
          obtain ⟨e, he, hb, hn⟩ := mem_of_forallTwo_right _ _ _ hF item hitem
          exact ⟨e, he, hb, hn⟩
        have hserver : (sessionPayload host userEntry (some skills)).items =
            skills.map (sessionItem host) := rfl
        constructor
        · show payloadTotal (all.filter keptItem) = sessionTotal (skills.map (sessionItem host))
          have hfinAll : ∀ item ∈ all, ∃ D : ℚ, 0 ≤ D ∧ item.damage = .fin D := by
            intro item hitem
            obtain ⟨e, -, hb, hn⟩ := hall item hitem
            exact (items_agree host e item hn hb).2.2.2.2.2.2
          have hclient : payloadTotal (all.filter keptItem) =
              (JsNum.fin ((all.map (fun i => i.damage.value)).sum)).or (.fin 1) := by
            unfold payloadTotal
            rw [foldl_damage_finite _ 0 (fun item hitem => by
              obtain ⟨D, -, hD⟩ := hfinAll item (List.mem_filter.1 hitem).1
              rw [hD]
              rfl), zero_add]
            rw [sum_filter_of_zero keptItem (fun i => i.damage.value) all]
            intro item hitem hkept
            obtain ⟨D, hD0, hD⟩ := hfinAll item hitem
            rw [hD]
            show D = 0
            by_contra hne
            have hpos : 0 < D := lt_of_le_of_ne hD0 (Ne.symm hne)
            have : keptItem item = true := by
              unfold keptItem
              rw [hD]
              simp [JsNum.or, JsNum.truthy, hne, JsNum.gtZero, hpos]
            rw [this] at hkept
            exact absurd hkept (by decide)
          have hdam : (skills.map (sessionItem host)).map (fun it => it.damage) =
              all.map (fun i => i.damage) := by
            rw [List.map_map]
            exact map_eq_of_forallTwo _ _ _ skills all hF
              (fun e item h => (items_agree host e item h.2 h.1).2.1)
          have hserverTotal : sessionTotal (skills.map (sessionItem host)) =
              (JsNum.fin ((all.map (fun i => i.damage.value)).sum)).or (.fin 1) := by
            unfold sessionTotal
            have hfold : (skills.map (sessionItem host)).foldl
                (fun s it => JsNum.add s (it.damage.or (.fin 0))) (.fin 0) =
                ((skills.map (sessionItem host)).map (fun it => it.damage)).foldl
                  (fun s d => JsNum.add s (d.or (.fin 0))) (.fin 0) := by
              simp only [List.foldl_map]
            rw [hfold, hdam, foldl_add_finite _ 0 (by
              intro d hd
              obtain ⟨item, hitem, rfl⟩ := List.mem_map.1 hd
              obtain ⟨D, -, hD⟩ := hfinAll item hitem
              rw [hD]
              rfl), zero_add, List.map_map]
            rfl
          rw [hclient, hserverTotal]
        · intro item hitem
          have hitemAll : item ∈ all := (List.mem_filter.1 hitem).1
          obtain ⟨e, he, hb, hn⟩ := hall item hitemAll
          obtain ⟨hid, hdm, hh, hcr, hav, hra, -⟩ := items_agree host e item hn hb
          constructor
          · exact ⟨sessionItem host e, by rw [hserver]; exact List.mem_map.2 ⟨e, he, rfl⟩, hid⟩
          · intro sitem hsitem hsid
            rw [hserver] at hsitem
            obtain ⟨e2, he2, rfl⟩ := List.mem_map.1 hsitem
            have hkey : e2.1 = e.1 := by
              have h1 : (sessionItem host e2).id = e2.1 := rfl
              have h2 : (sessionItem host e).id = e.1 := rfl
              rw [← h1, hsid, ← hid, h2]
            have hee : e2 = e := eq_of_mem_of_key_eq skills hkeys e2 e he2 he hkey
            rw [hee]
            exact ⟨hdm, hh, hcr, hav, hra⟩

theorem sampleSpellSkills_numeric : ∀ e ∈ sampleSpellSkills, NumericSkill e.2 := by
  intro e he
  simp only [sampleSpellSkills, List.mem_cons, List.mem_singleton, List.not_mem_nil,
    or_false] at he
  rcases he with h | h
  · rw [h]
    exact ⟨100, 4, 1, rfl, rfl, rfl, by norm_num, by norm_num, by norm_num⟩
  · rw [h]
    exact ⟨0, 0, 0, rfl, rfl, rfl, le_refl _, le_refl _, le_refl _⟩

/-- Example for C28: the skills of player `"7"` of the sample client, on the
client and on the server. -/
theorem payloads_agree_example :
    samplePayload.total =
        (sessionPayload sampleHost samplePayload.user (some sampleSpellSkills)).total ∧
      ∀ item ∈ samplePayload.items,
        (∃ sitem ∈ (sessionPayload sampleHost samplePayload.user
            (some sampleSpellSkills)).items, sitem.id = item.id) ∧
        ∀ sitem ∈ (sessionPayload sampleHost samplePayload.user
            (some sampleSpellSkills)).items, sitem.id = item.id →
          sitem.damage = item.damage ∧
          sitem.hits = item.hits.toNumber sampleHost ∧
          sitem.critHits = item.critHits.toNumber sampleHost ∧
          sitem.avg = item.avg ∧
          sitem.critRate = item.critRate :=
  payloads_agree sampleHost sampleClient.users sampleClient.skillsByUser "7" sampleSpellSkills
    samplePayload.user samplePayload rfl (by decide) sampleSpellSkills_numeric
    buildSpellPayload_sample

/-! ## The reconciliation pass -/

theorem rendered_tail (e : Entry) (rest : List Entry) (h : Rendered (e :: rest)) :
    Rendered rest := by
  obtain ⟨h1, h2⟩ := h
  refine ⟨fun x hx => h1 x (List.mem_cons_of_mem _ hx), ?_⟩
  cases hu : e.userid with
  | none => simpa [List.filterMap, hu] using h2
  | some uid =>
    have h3 : (uid :: rest.filterMap (fun e => e.userid)).Nodup := by
      simpa [List.filterMap, hu] using h2
    exact (List.nodup_cons.1 h3).2

theorem mem_renderedIds (children : List Entry) (uid : String) :
    uid ∈ renderedIds children ↔ ∃ e ∈ children, e.userid = some uid := by
  unfold renderedIds
  simp [List.mem_filterMap]

/-- In a rendered list the first match of the selector of an id is the one
element of that id, so changing it changes every element of that id. -/
theorem modifyFirst_eq_map (uid : String) (f : Entry → Entry) (children : List Entry)
    (h : Rendered children) :
    modifyFirst (Entry.isItemOf uid) f children =
      children.map (fun e => if e.userid = some uid then f e else e) := by
  induction children with
  | nil => rfl
  | cons e rest ih =>
    have hrest := rendered_tail e rest h
    by_cases hu : e.userid = some uid
    · have hitem : Entry.isItemOf uid e = true := by
        unfold Entry.isItemOf
        have hc := h.1 e (List.mem_cons_self _ _) (by rw [hu]; rfl)
        simp [hc, hu]
      have hnd : uid ∉ rest.filterMap (fun e => e.userid) := by
        have h3 : (uid :: rest.filterMap (fun e => e.userid)).Nodup := by
          simpa [List.filterMap, hu] using h.2
        exact (List.nodup_cons.1 h3).1
      have hsame : rest.map (fun e => if e.userid = some uid then f e else e) = rest := by
        conv_rhs => rw [← List.map_id rest]
        apply List.map_congr_left
        intro x hx
        have : ¬ x.userid = some uid := by
          intro hxu
          exact hnd (List.mem_filterMap.2 ⟨x, hx, hxu⟩)
        simp [this]
      simp only [modifyFirst, hitem, if_true, List.map_cons, hu, hsame]
    · have hitem : Entry.isItemOf uid e = false := by
        unfold Entry.isItemOf
        simp [hu]
      simp only [modifyFirst, hitem, Bool.false_eq_true, if_false, List.map_cons, hu,
        ih hrest]

theorem any_isItemOf_iff (uid : String) (children : List Entry) (h : Rendered children) :
    children.any (Entry.isItemOf uid) = true ↔ uid ∈ renderedIds children := by
  rw [mem_renderedIds, List.any_eq_true]
  constructor
  · rintro ⟨e, he, hitem⟩
    unfold Entry.isItemOf at hitem
    simp only [Bool.and_eq_true, decide_eq_true_eq] at hitem
    exact ⟨e, he, hitem.2⟩
  · rintro ⟨e, he, hu⟩
    refine ⟨e, he, ?_⟩
    unfold Entry.isItemOf
    have hc := h.1 e he (by rw [hu]; rfl)
    simp [hc, hu]

/-- A change of the elements that keeps the id of each and the class
`data-item` keeps the list rendered, with the same ids. -/
theorem rendered_map (g : Entry → Entry) (children : List Entry) (h : Rendered children)
    (hid : ∀ e, (g e).userid = e.userid)
    (hcl : ∀ e, "data-item" ∈ e.classes → "data-item" ∈ (g e).classes) :
    Rendered (children.map g) ∧ renderedIds (children.map g) = renderedIds children := by
  have hids : renderedIds (children.map g) = renderedIds children := by
    unfold renderedIds
    rw [List.filterMap_map]
    congr 1
    funext e
    exact hid e
  refine ⟨⟨?_, ?_⟩, hids⟩
  · intro x hx hsome
    obtain ⟨e, he, rfl⟩ := List.mem_map.1 hx
    rw [hid e] at hsome
    exact hcl e (h.1 e he hsome)
  · have := h.2
    unfold renderedIds at hids
    rw [hids]
    exact this

/-- What one row does to a rendered list: the list stays rendered, the id of
the row is the only id that may be new, and every element that was there is
still there, with its identity and its id. -/
theorem upsertEntry_spec (uid : String) (c : RowContent) (children : List Entry)
    (h : Rendered children) :
    Rendered (upsertEntry uid c children) ∧
      (∀ x, x ∈ renderedIds (upsertEntry uid c children) ↔
        x ∈ renderedIds children ∨ x = uid) ∧
      (∀ e ∈ children, ∃ e2 ∈ upsertEntry uid c children,
        e2.node = e.node ∧ e2.userid = e.userid) := by
  unfold upsertEntry
  by_cases hany : children.any (Entry.isItemOf uid) = true
  · have hmem := (any_isItemOf_iff uid children h).1 hany
    rw [if_pos hany, modifyFirst_eq_map uid _ children h]
    obtain ⟨hr, hids⟩ := rendered_map
      (fun e => if e.userid = some uid then
        Entry.fill c { e with classes := ["data-item", c.classKey] } else e) children h
      (by intro e; by_cases hu : e.userid = some uid <;> simp [hu, Entry.fill])
      (by intro e hc; by_cases hu : e.userid = some uid <;> simp [hu, Entry.fill, hc])
    refine ⟨hr, ?_, ?_⟩
    · intro x
      rw [hids]
      constructor
      · exact fun hx => Or.inl hx
      · rintro (hx | hx)
        · exact hx
        · rw [hx]
          exact hmem
    · intro e he
      refine ⟨_, List.mem_map.2 ⟨e, he, rfl⟩, ?_, ?_⟩
      · by_cases hu : e.userid = some uid <;> simp [hu, Entry.fill]
      · by_cases hu : e.userid = some uid <;> simp [hu, Entry.fill]
  · have hnot : uid ∉ renderedIds children :=
      fun hm => hany ((any_isItemOf_iff uid children h).2 hm)
    rw [if_neg hany]
    have hids : renderedIds (children ++
        [Entry.fill c
          { node := freshNode children, classes := ["data-item", c.classKey],
            userid := some uid, order := none, rankText := "", nameText := "",
            statsText := "", fillWidth := "" }]) = renderedIds children ++ [uid] := by
      unfold renderedIds
      rw [List.filterMap_append]
      rfl
    refine ⟨⟨?_, ?_⟩, ?_, ?_⟩
    · intro x hx hsome
      rcases List.mem_append.1 hx with hx | hx
      · exact h.1 x hx hsome
      · rw [List.mem_singleton.1 hx]
        simp [Entry.fill]
    · have h2 : (renderedIds children ++ [uid]).Nodup := by
        rw [List.nodup_append]
        refine ⟨h.2, List.nodup_singleton _, ?_⟩
        intro a ha hb
        rw [List.mem_singleton.1 hb] at ha
        exact hnot ha
      rw [← hids] at h2
      exact h2
    · intro x
      rw [hids, List.mem_append, List.mem_singleton]
    · intro e he
      exact ⟨e, List.mem_append_left _ he, rfl, rfl⟩

theorem rowContent_of_rowDefined (host : Host) (total top1 : ℚ) (tab : String) (i : Nat)
    (u : User) (h : rowDefined tab u = true) :
    ∃ c, rowContent host total top1 tab i u = .ok c := by
  unfold rowDefined at h
  simp only [Bool.and_eq_true, Bool.or_eq_true, decide_eq_true_eq] at h
  obtain ⟨⟨hprof, hdps⟩, hheal⟩ := h
  have hkey : ∃ k, getClassKey host u.profession = .ok k := by
    unfold getClassKey
    cases hp : u.profession <;> simp [hp] at hprof ⊢
  obtain ⟨k, hk⟩ := hkey
  have hstat : ∃ s, statLine host u tab (displayPercent total u tab) = .ok s := by
    unfold statLine
    by_cases h1 : tab = "dps"
    · rcases hdps with hd | hd
      · exact absurd h1 hd
      · cases ht : u.total_damage with
        | none => simp [ht] at hd
        | some t => simp [h1]
    · by_cases h2 : tab = "heal"
      · rcases hheal with hd | hd
        · exact absurd h2 hd
        · cases ht : u.total_healing with
          | none => simp [ht] at hd
          | some t => simp [h1, h2]
      · by_cases h3 : tab = "tank" <;> simp [h1, h2, h3]
  obtain ⟨s, hs⟩ := hstat
  unfold rowContent
  rw [hk, hs]
  exact ⟨_, rfl⟩

/-- The create/update loop over players whose rows can be computed returns; the
list it returns is rendered, its ids are the ids that were there and the ids of
the players, and every element that was there is still there. -/
theorem createUpdate_spec (host : Host) (total top1 : ℚ) (tab : String) (us : List User)
    (i : Nat) (children : List Entry) (hrows : ∀ u ∈ us, rowDefined tab u = true)
    (h : Rendered children) :
    ∃ out, createUpdate host total top1 tab i us children = .ok out ∧ Rendered out ∧
      (∀ x, x ∈ renderedIds out ↔ x ∈ renderedIds children ∨ x ∈ us.map (fun u => u.id)) ∧
      (∀ e ∈ children, ∃ e2 ∈ out, e2.node = e.node ∧ e2.userid = e.userid) := by
  induction us generalizing i children with
  | nil =>
    exact ⟨children, rfl, h, fun x => by simp, fun e he => ⟨e, he, rfl, rfl⟩⟩
  | cons u rest ih =>
    obtain ⟨c, hc⟩ := rowContent_of_rowDefined host total top1 tab i u
      (hrows u (List.mem_cons_self _ _))
    obtain ⟨hr1, hids1, hkeep1⟩ := upsertEntry_spec u.id c children h
    obtain ⟨out, hout, hr2, hids2, hkeep2⟩ := ih (i + 1) (upsertEntry u.id c children)
      (fun v hv => hrows v (List.mem_cons_of_mem _ hv)) hr1
    refine ⟨out, ?_, hr2, ?_, ?_⟩
    · unfold createUpdate
      rw [hc]
      exact hout
    · intro x
      rw [hids2, hids1, List.map_cons, List.mem_cons]
      constructor
      · rintro ((hx | hx) | hx)
        · exact Or.inl hx
        · exact Or.inr (Or.inl hx)
        · exact Or.inr (Or.inr hx)
      · rintro (hx | hx | hx)
        · exact Or.inl (Or.inl hx)
        · exact Or.inl (Or.inr hx)
        · exact Or.inr hx
    · intro e he
      obtain ⟨e1, he1, hn1, hu1⟩ := hkeep1 e he
      obtain ⟨e2, he2, hn2, hu2⟩ := hkeep2 e1 he1
      exact ⟨e2, he2, hn2.trans hn1, hu2.trans hu1⟩

theorem removeAbsent_spec (seen : List String) (children : List Entry)
    (h : Rendered children) :
    Rendered (removeAbsent seen children) ∧
      (∀ e ∈ removeAbsent seen children, ∃ uid, e.userid = some uid ∧ uid ∈ seen) ∧
      (∀ e ∈ children, ∀ uid, e.userid = some uid → uid ∈ seen →
        e ∈ removeAbsent seen children) := by
  unfold removeAbsent
  refine ⟨⟨?_, ?_⟩, ?_, ?_⟩
  · intro e he hsome
    exact h.1 e (List.mem_filter.1 he).1 hsome
  · exact List.Nodup.sublist (List.Sublist.filterMap _ (List.filter_sublist _)) h.2
  · intro e he
    have hp := (List.mem_filter.1 he).2
    cases hu : e.userid with
    | none => simp [hu] at hp
    | some uid =>
      simp only [hu, decide_eq_true_eq] at hp
      exact ⟨uid, rfl, hp⟩
  · intro e he uid hu hseen
    apply List.mem_filter.2
    refine ⟨he, ?_⟩
    simp [hu, hseen]

theorem orderElem_fields (ids : List String) (i : Nat) (e : Entry) :
    (orderElem i ids e).userid = e.userid ∧ (orderElem i ids e).node = e.node ∧
      (orderElem i ids e).classes = e.classes := by
  induction ids generalizing i e with
  | nil => exact ⟨rfl, rfl, rfl⟩
  | cons id rest ih =>
    unfold orderElem
    obtain ⟨h1, h2, h3⟩ := ih (i + 1)
      (if e.userid = some id then { e with order := some (toString i) } else e)
    rw [h1, h2, h3]
    by_cases hu : e.userid = some id <;> simp [hu]

theorem orderElem_of_not_mem (ids : List String) (i : Nat) (e : Entry)
    (h : ∀ id ∈ ids, e.userid ≠ some id) : orderElem i ids e = e := by
  induction ids generalizing i with
  | nil => rfl
  | cons id rest ih =>
    unfold orderElem
    rw [if_neg (h id (List.mem_cons_self _ _))]
    exact ih (i + 1) (fun x hx => h x (List.mem_cons_of_mem _ hx))

/-- The element of the id at position `j` of a list of distinct ids gets the
order `i + j`. -/
theorem orderElem_order (ids : List String) (hnd : ids.Nodup) (i j : Nat) (e : Entry)
    (hj : j < ids.length) (hu : e.userid = some (ids.get ⟨j, hj⟩)) :
    (orderElem i ids e).order = some (toString (i + j)) := by
  induction ids generalizing i j e with
  | nil => simp at hj
  | cons id rest ih =>
    obtain ⟨hnot, hrest⟩ := List.nodup_cons.1 hnd
    unfold orderElem
    cases j with
    | zero =>
      have hu0 : e.userid = some id := hu
      rw [if_pos hu0, orderElem_of_not_mem rest (i + 1)]
      · rfl
      · intro x hx hEq
        have hxid : id = x := Option.some.inj (hu0.symm.trans hEq)
        rw [← hxid] at hx
        exact hnot hx
    | succ k =>
      have hk : k < rest.length := Nat.lt_of_succ_lt_succ hj
      have huk : e.userid = some (rest.get ⟨k, hk⟩) := hu
      have hne : ¬ e.userid = some id := by
        intro hEq
        rw [huk] at hEq
        have : rest.get ⟨k, hk⟩ = id := Option.some.inj hEq
        exact hnot (this ▸ List.get_mem rest k hk)
      rw [if_neg hne, ih hrest (i + 1) k e hk huk]
      congr 2
      omega

theorem applyOrder_eq_map (ids : List String) (i : Nat) (children : List Entry)
    (h : Rendered children) :
    applyOrder i ids children = children.map (orderElem i ids) := by
  induction ids generalizing i children with
  | nil =>
    unfold applyOrder
    conv_lhs => rw [← List.map_id children]
    apply List.map_congr_left
    intro e _
    rfl
  | cons id rest ih =>
    unfold applyOrder
    rw [modifyFirst_eq_map id _ children h]
    obtain ⟨hr, -⟩ := rendered_map
      (fun e => if e.userid = some id then { e with order := some (toString i) } else e)
      children h
      (by intro e; by_cases hu : e.userid = some id <;> simp [hu])
      (by intro e hc; by_cases hu : e.userid = some id <;> simp [hu, hc])
    rw [ih (i + 1) _ hr, List.map_map]
    apply List.map_congr_left
    intro e _
    rfl

/-- C26 (as stated, refuted): the list that holds the one player `"4"`, whom the
filter admits on the tab `dps` and whose record has no `total_damage`, is a list
of players with distinct ids, and the empty list is a list as passes leave it;
yet the pass over it does not end with elements whose ids are the ids of the
players: computing the row of the player throws, and the pass ends with that
exception. -/
theorem renderPass_throws_on_player_without_totals :
    ([playerWithoutTotals].map (fun u => u.id)).Nodup ∧
    Rendered [] ∧
    renderPass sampleHost "dps" [playerWithoutTotals] [] = .error .typeError ∧
    ¬ ∃ out, renderPass sampleHost "dps" [playerWithoutTotals] [] = .ok out ∧
      ∀ x, x ∈ renderedIds out ↔ x ∈ [playerWithoutTotals].map (fun u => u.id) := by
  have h : renderPass sampleHost "dps" [playerWithoutTotals] [] = .error .typeError := rfl
  refine ⟨by simp, ⟨by simp, by simp⟩, h, ?_⟩
  rintro ⟨out, hout, -⟩
  rw [h] at hout
  cases hout

/-- C26 (amended): one pass of `renderDataList` over players with distinct ids
whose rows can be computed (the profession is a string or missing, and the
record holds the object `total_damage` or `total_healing` that the stat line of
the tab reads), on a list as earlier passes left it, returns; afterwards the
ids of the elements are the ids of the players, with one element each; an
element whose id was rendered before is the element of before (same identity);
no element of an id that is not among the players is left; and the `order` of
the element of each player is the player's rank, counted from 0. -/
theorem renderPass_reconciles (host : Host) (tab : String) (users : List User)
    (children : List Entry) (hids : (users.map (fun u => u.id)).Nodup)
    (hdom : Rendered children) (hrows : ∀ u ∈ users, rowDefined tab u = true) :
    ∃ out, renderPass host tab users children = .ok out ∧ Rendered out ∧
      (∀ x, x ∈ renderedIds out ↔ x ∈ users.map (fun u => u.id)) ∧
      (∀ e ∈ out, ∃ uid, e.userid = some uid ∧ uid ∈ users.map (fun u => u.id)) ∧
      (∀ e ∈ children, ∀ uid, e.userid = some uid → uid ∈ users.map (fun u => u.id) →
        ∃ e2 ∈ out, e2.node = e.node ∧ e2.userid = some uid) ∧
      (∀ (i : Nat) (hi : i < (rankUsers users tab).length), ∀ e ∈ out,
        e.userid = some ((rankUsers users tab).get ⟨i, hi⟩).id →
        e.order = some (toString i)) := by
  have hperm := rankUsers_perm users tab
  have hpermIds : ((rankUsers users tab).map (fun u => u.id)).Perm
      (users.map (fun u => u.id)) := hperm.map _
  have hndSorted : ((rankUsers users tab).map (fun u => u.id)).Nodup :=
    hpermIds.nodup_iff.2 hids
  have hmemIds : ∀ x, x ∈ (rankUsers users tab).map (fun u => u.id) ↔
      x ∈ users.map (fun u => u.id) := fun x => hpermIds.mem_iff
  obtain ⟨out1, hout1, hr1, hids1, hkeep1⟩ := createUpdate_spec host
    (totalValue users tab) (topValue (rankUsers users tab) tab) tab (rankUsers users tab) 0
    children (fun u hu => hrows u (hperm.mem_iff.1 hu)) hdom
  obtain ⟨hr2, hin2, hkeep2⟩ := removeAbsent_spec
    ((rankUsers users tab).map (fun u => u.id)) out1 hr1
  have hmap := applyOrder_eq_map ((rankUsers users tab).map (fun u => u.id)) 0
    (removeAbsent ((rankUsers users tab).map (fun u => u.id)) out1) hr2
  obtain ⟨hr3, hids3⟩ := rendered_map
    (orderElem 0 ((rankUsers users tab).map (fun u => u.id)))
    (removeAbsent ((rankUsers users tab).map (fun u => u.id)) out1) hr2
    (fun e => (orderElem_fields _ 0 e).1)
    (fun e hc => by rw [(orderElem_fields _ 0 e).2.2]; exact hc)
  have hresult : renderPass host tab users children =
      .ok ((removeAbsent ((rankUsers users tab).map (fun u => u.id)) out1).map
        (orderElem 0 ((rankUsers users tab).map (fun u => u.id)))) := by
    unfold renderPass
    simp only []
    rw [hout1]
    simp only []
    rw [hmap]
  refine ⟨_, hresult, hr3, ?_, ?_, ?_, ?_⟩
  · intro x
    rw [hids3, mem_renderedIds, ← hmemIds]
    constructor
    · rintro ⟨e, he, hu⟩
      obtain ⟨uid, hu2, hseen⟩ := hin2 e he
      rw [hu] at hu2
      rw [Option.some.inj hu2]
      exact hseen
    · intro hx
      have hx1 : x ∈ renderedIds out1 := (hids1 x).2 (Or.inr hx)
      obtain ⟨e, he, hu⟩ := (mem_renderedIds out1 x).1 hx1
      exact ⟨e, hkeep2 e he x hu hx, hu⟩
  · intro e he
    obtain ⟨e0, he0, rfl⟩ := List.mem_map.1 he
    obtain ⟨uid, hu, hseen⟩ := hin2 e0 he0
    exact ⟨uid, by rw [(orderElem_fields _ 0 e0).1]; exact hu, (hmemIds uid).1 hseen⟩
  · intro e he uid hu hin
    obtain ⟨e1, he1, hn1, hu1⟩ := hkeep1 e he
    have he1r := hkeep2 e1 he1 uid (hu1.trans hu) ((hmemIds uid).2 hin)
    refine ⟨_, List.mem_map.2 ⟨e1, he1r, rfl⟩, ?_, ?_⟩
    · rw [(orderElem_fields _ 0 e1).2.1]
      exact hn1
    · rw [(orderElem_fields _ 0 e1).1]
      exact hu1.trans hu
  · intro i hi e he hu
    obtain ⟨e0, he0, rfl⟩ := List.mem_map.1 he
    rw [(orderElem_fields _ 0 e0).1] at hu
    have hlen : i < ((rankUsers users tab).map (fun u => u.id)).length := by
      rw [List.length_map]
      exact hi
    have hget : ((rankUsers users tab).map (fun u => u.id)).get ⟨i, hlen⟩ =
        ((rankUsers users tab).get ⟨i, hi⟩).id := by
      simp
    have := orderElem_order ((rankUsers users tab).map (fun u => u.id)) hndSorted 0 i e0 hlen
      (by rw [hget]; exact hu)
    rw [this, Nat.zero_add]

/-- Example for C26: the players `"1"` and `"3"` on a list that held `"9"` and
`"1"`. -/
theorem renderPass_reconciles_example :
    ∃ out, renderPass sampleHost "dps" samplePassPlayers sampleChildren = .ok out ∧
      Rendered out ∧
      (∀ x, x ∈ renderedIds out ↔ x ∈ samplePassPlayers.map (fun u => u.id)) ∧
      (∀ e ∈ out, ∃ uid, e.userid = some uid ∧ uid ∈ samplePassPlayers.map (fun u => u.id)) ∧
      (∀ e ∈ sampleChildren, ∀ uid, e.userid = some uid →
        uid ∈ samplePassPlayers.map (fun u => u.id) →
        ∃ e2 ∈ out, e2.node = e.node ∧ e2.userid = some uid) ∧
      (∀ (i : Nat) (hi : i < (rankUsers samplePassPlayers "dps").length), ∀ e ∈ out,
        e.userid = some ((rankUsers samplePassPlayers "dps").get ⟨i, hi⟩).id →
        e.order = some (toString i)) :=
  renderPass_reconciles sampleHost "dps" samplePassPlayers sampleChildren (by decide)
    ⟨by
      intro e he _
      simp only [sampleChildren, List.mem_cons, List.mem_singleton, List.not_mem_nil,
        or_false] at he
      rcases he with h | h <;> rw [h] <;> decide,
     by decide⟩
    (by
      intro u hu
      simp only [samplePassPlayers, List.mem_cons, List.mem_singleton, List.not_mem_nil,
        or_false] at hu
      rcases hu with h | h <;> rw [h] <;> rfl)

/-! ## `stripTimestamp` after `buildSessionName` -/

theorem isDigitChar_digitChar (k : Nat) (h : k < 10) : isDigitChar (Nat.digitChar k) = true := by
  interval_cases k <;> decide

theorem isSpaceChar_of_isDigitChar (c : Char) (h : isDigitChar c = true) :
    isSpaceChar c = false := by
  unfold isDigitChar at h
  have hc : '0' ≤ c ∧ c ≤ '9' := of_decide_eq_true h
  have h0 : 48 ≤ c.toNat := hc.1
  have h9 : c.toNat ≤ 57 := hc.2
  cases hsp : isSpaceChar c with
  | false => rfl
  | true =>
    exfalso
    unfold isSpaceChar at hsp
    simp only [Bool.or_eq_true, decide_eq_true_eq, List.mem_cons, List.mem_singleton,
      List.not_mem_nil, or_false] at hsp
    omega

theorem toDigits_one (n : Nat) (h : n < 10) : Nat.toDigits 10 n = [Nat.digitChar n] := by
  unfold Nat.toDigits Nat.toDigitsCore
  have h1 : n / 10 = 0 := by omega
  have h2 : n % 10 = n := by omega
  simp [h1, h2]

theorem toDigits_two (n : Nat) (h1 : 10 ≤ n) (h2 : n < 100) :
    Nat.toDigits 10 n = [Nat.digitChar (n / 10), Nat.digitChar (n % 10)] := by
  obtain ⟨m, rfl⟩ : ∃ m, n = m + 1 := ⟨n - 1, by omega⟩
  unfold Nat.toDigits
  have ha : (m + 1) / 10 ≠ 0 := by omega
  have hb : (m + 1) / 10 / 10 = 0 := by omega
  have hc : (m + 1) / 10 % 10 = (m + 1) / 10 := by omega
  simp [Nat.toDigitsCore, ha, hb, hc]

theorem toDigits_four (n : Nat) (h1 : 1000 ≤ n) (h2 : n < 10000) :
    Nat.toDigits 10 n =
      [Nat.digitChar (n / 1000), Nat.digitChar (n / 100 % 10), Nat.digitChar (n / 10 % 10),
       Nat.digitChar (n % 10)] := by
  obtain ⟨m, rfl⟩ : ∃ m, n = m + 3 := ⟨n - 3, by omega⟩
  unfold Nat.toDigits
  have ha : (m + 3) / 10 ≠ 0 := by omega
  have hb : (m + 3) / 10 / 10 ≠ 0 := by omega
  have hc : (m + 3) / 10 / 10 / 10 ≠ 0 := by omega
  have hd : (m + 3) / 10 / 10 / 10 / 10 = 0 := by omega
  have he : (m + 3) / 10 / 10 / 10 % 10 = (m + 3) / 1000 := by omega
  have hf : (m + 3) / 10 / 10 % 10 = (m + 3) / 100 % 10 := by omega
  simp [Nat.toDigitsCore, ha, hb, hc, hd, he, hf]

/-- The text `pad2(n)` of a number below 100: two digits. -/
theorem pad2_two_digits (n : Nat) (h : n < 100) :
    ∃ a b, (pad2 n).data = [a, b] ∧ isDigitChar a = true ∧ isDigitChar b = true := by
  unfold pad2 padStart2
  by_cases h10 : n < 10
  · have hd : (toString n).data = [Nat.digitChar n] := toDigits_one n h10
    have hl : (toString n).length = 1 := by
      show (toString n).data.length = 1
      rw [hd]
      rfl
    refine ⟨'0', Nat.digitChar n, ?_, by decide, isDigitChar_digitChar n h10⟩
    simp [hl, hd]
  · have hd : (toString n).data = [Nat.digitChar (n / 10), Nat.digitChar (n % 10)] :=
      toDigits_two n (by omega) h
    have hl : (toString n).length = 2 := by
      show (toString n).data.length = 2
      rw [hd]
      rfl
    refine ⟨Nat.digitChar (n / 10), Nat.digitChar (n % 10), ?_,
      isDigitChar_digitChar _ (by omega), isDigitChar_digitChar _ (by omega)⟩
    simp [hl, hd]

/-- The text of a year of four digits. -/
theorem year_four_digits (n : Nat) (h1 : 1000 ≤ n) (h2 : n ≤ 9999) :
    ∃ a b c d, (toString n).data = [a, b, c, d] ∧ isDigitChar a = true ∧
      isDigitChar b = true ∧ isDigitChar c = true ∧ isDigitChar d = true :=
  ⟨_, _, _, _, toDigits_four n h1 (by omega), isDigitChar_digitChar _ (by omega),
    isDigitChar_digitChar _ (by omega), isDigitChar_digitChar _ (by omega),
    isDigitChar_digitChar _ (by omega)⟩

theorem matchChar_some (p : Char → Bool) (l r : List Char) (h : matchChar p l = some r) :
    ∃ c, l = c :: r ∧ p c = true := by
  cases l with
  | nil => simp [matchChar] at h
  | cons c cs =>
    by_cases hp : p c = true
    · simp only [matchChar, hp, if_true, Option.some.injEq] at h
      exact ⟨c, by rw [h], hp⟩
    · simp [matchChar, hp] at h

theorem matchDigits_some (n : Nat) (l r : List Char) (h : matchDigits n l = some r) :
    ∃ ds, l = ds ++ r ∧ ds.all isDigitChar = true := by
  induction n generalizing l with
  | zero =>
    unfold matchDigits at h
    exact ⟨[], by rw [Option.some.inj h]; rfl, rfl⟩
  | succ k ih =>
    cases l with
    | nil => simp [matchDigits] at h
    | cons c cs =>
      by_cases hp : isDigitChar c = true
      · simp only [matchDigits, hp, if_true] at h
        obtain ⟨ds, hds, hall⟩ := ih cs h
        exact ⟨c :: ds, by rw [hds]; rfl, by simp [hp, hall]⟩
      · simp [matchDigits, hp] at h

theorem matchSpaces1_some (l r : List Char) (h : matchSpaces1 l = some r) :
    ∃ sp, l = sp ++ r ∧ sp.all isSpaceChar = true := by
  unfold matchSpaces1 at h
  cases hm : matchChar isSpaceChar l with
  | none => simp [hm] at h
  | some rest =>
    rw [hm] at h
    obtain ⟨c, hl, hc⟩ := matchChar_some _ _ _ hm
    have hr : rest.dropWhile isSpaceChar = r := Option.some.inj h
    refine ⟨c :: rest.takeWhile isSpaceChar, ?_, ?_⟩
    · rw [hl, ← hr, List.cons_append, List.takeWhile_append_dropWhile]
    · simp only [List.all_cons, hc, Bool.true_and, List.all_eq_true]
      intro x hx
      exact List.mem_takeWhile_imp hx

theorem all_allowed_of_digits (ds : List Char) (h : ds.all isDigitChar = true) :
    ds.all allowedTail = true := by
  rw [List.all_eq_true] at h ⊢
  intro c hc
  simp [allowedTail, h c hc]

theorem all_allowed_of_spaces (sp : List Char) (h : sp.all isSpaceChar = true) :
    sp.all allowedTail = true := by
  rw [List.all_eq_true] at h ⊢
  intro c hc
  simp [allowedTail, h c hc]

theorem matchSecondsEnd_allowed (r : List Char) (h : matchSecondsEnd r = true) :
    r.all allowedTail = true := by
  unfold matchSecondsEnd at h
  cases r with
  | nil => rfl
  | cons c cs =>
    simp only [List.isEmpty_cons, Bool.false_or] at h
    cases hm : (matchChar (fun c => c == ':') (c :: cs)).bind (matchDigits 2) with
    | none => simp [hm] at h
    | some rest =>
      rw [hm] at h
      obtain ⟨a, ha, hd⟩ := Option.bind_eq_some.1 hm
      obtain ⟨x, hx, hcolon⟩ := matchChar_some _ _ _ ha
      obtain ⟨ds, hds, hall⟩ := matchDigits_some 2 _ _ hd
      have hrest : rest = [] := by
        cases rest with
        | nil => rfl
        | cons y ys => simp at h
      rw [hx, hds, hrest, List.append_nil]
      simp only [List.all_cons, all_allowed_of_digits ds hall, Bool.and_true]
      simp [allowedTail, hcolon]

/-- A text that the expression of `stripTimestamp` matches as a whole is made of
blanks, a dash, and then only blanks, digits, date separators and colons. -/
theorem matches_shape (cs : List Char) (h : matchesTimestampSuffix cs = true) :
    ∃ sp d rest, cs = sp ++ d :: rest ∧ sp.all isSpaceChar = true ∧ isDashChar d = true ∧
      rest.all allowedTail = true := by
  unfold matchesTimestampSuffix at h
  simp only [] at h
  split at h
  · next rest hrest =>
    simp only [Option.bind_eq_bind, Option.bind_eq_some] at hrest
    obtain ⟨a1, h1, a2, h2, a3, h3, a4, h4, a5, h5, a6, h6, a7, h7, a8, h8, a9, h9, h10⟩ :=
      hrest
    obtain ⟨d, hd, hdash⟩ := matchChar_some _ _ _ h1
    obtain ⟨ds2, hds2, hall2⟩ := matchDigits_some 4 _ _ h2
    obtain ⟨c3, hc3, hsep3⟩ := matchChar_some _ _ _ h3
    obtain ⟨ds4, hds4, hall4⟩ := matchDigits_some 2 _ _ h4
    obtain ⟨c5, hc5, hsep5⟩ := matchChar_some _ _ _ h5
    obtain ⟨ds6, hds6, hall6⟩ := matchDigits_some 2 _ _ h6
    obtain ⟨sp7, hsp7, hall7⟩ := matchSpaces1_some _ _ h7
    obtain ⟨ds8, hds8, hall8⟩ := matchDigits_some 2 _ _ h8
    obtain ⟨c9, hc9, hcolon9⟩ := matchChar_some _ _ _ h9
    obtain ⟨ds10, hds10, hall10⟩ := matchDigits_some 2 _ _ h10
    have hend := matchSecondsEnd_allowed rest h
    refine ⟨cs.takeWhile isSpaceChar, d, a1, ?_, ?_, hdash, ?_⟩
    · rw [← hd, List.takeWhile_append_dropWhile]
    · rw [List.all_eq_true]
      intro x hx
      exact List.mem_takeWhile_imp hx
    · have hsplit : a1 = a1.takeWhile isSpaceChar ++ a1.dropWhile isSpaceChar :=
        (List.takeWhile_append_dropWhile _ _).symm
      have hlead : (a1.takeWhile isSpaceChar).all allowedTail = true := by
        apply all_allowed_of_spaces
        rw [List.all_eq_true]
        intro x hx
        exact List.mem_takeWhile_imp hx
      rw [hsplit, hds2, hc3, hds4, hc5, hds6, hsp7, hds8, hc9, hds10]
      simp only [List.all_append, List.all_cons, hlead, all_allowed_of_digits _ hall2,
        all_allowed_of_digits _ hall4, all_allowed_of_digits _ hall6,
        all_allowed_of_spaces _ hall7, all_allowed_of_digits _ hall8,
        all_allowed_of_digits _ hall10, hend, Bool.and_true, Bool.true_and]
      simp [allowedTail, hsep3, hsep5, hcolon9]
  · exact absurd h (by simp)

/-- The suffix that `buildSessionName` appends is matched as a whole. -/
theorem matches_appended_suffix (y1 y2 y3 y4 m1 m2 d1 d2 h1 h2 n1 n2 s1 s2 : Char)
    (hy1 : isDigitChar y1 = true) (hy2 : isDigitChar y2 = true) (hy3 : isDigitChar y3 = true)
    (hy4 : isDigitChar y4 = true) (hm1 : isDigitChar m1 = true) (hm2 : isDigitChar m2 = true)
    (hd1 : isDigitChar d1 = true) (hd2 : isDigitChar d2 = true) (hh1 : isDigitChar h1 = true)
    (hh2 : isDigitChar h2 = true) (hn1 : isDigitChar n1 = true) (hn2 : isDigitChar n2 = true)
    (hs1 : isDigitChar s1 = true) (hs2 : isDigitChar s2 = true) :
    matchesTimestampSuffix
      [' ', '—', ' ', y1, y2, y3, y4, '-', m1, m2, '-', d1, d2, ' ', h1, h2, ':', n1, n2, ':',
       s1, s2] = true := by
  have hsp : isSpaceChar ' ' = true := by decide
  have hdash : isDashChar '—' = true := by decide
  have hnd : isSpaceChar '—' = false := by decide
  have hsep : isDateSep '-' = true := by decide
  have hy1s := isSpaceChar_of_isDigitChar y1 hy1
  have hh1s := isSpaceChar_of_isDigitChar h1 hh1
  simp [matchesTimestampSuffix, matchChar, matchDigits, matchSpaces1, matchSecondsEnd,
    List.dropWhile, hsp, hdash, hnd, hsep, hy1s, hh1s, hy1, hy2, hy3, hy4, hm1, hm2, hd1, hd2,
    hh1, hh2, hn1, hn2, hs1, hs2]

/-- No match of the expression starts inside a text that does not end in a
blank and is followed by a blank, an em dash and more: such a match would have
to take the em dash after its own dash. -/
theorem no_match_before_suffix (r tail : List Char) (hne : r ≠ [])
    (hlast : ∀ c, r.getLast? = some c → isSpaceChar c = false) :
    matchesTimestampSuffix (r ++ ' ' :: '—' :: tail) = false := by
  cases hm : matchesTimestampSuffix (r ++ ' ' :: '—' :: tail) with
  | false => rfl
  | true =>
    exfalso
    obtain ⟨sp, d, rest, hcs, hsp, -, hrest⟩ := matches_shape _ hm
    have hlastMem : ∃ x, r.getLast? = some x ∧ x ∈ r := by
      cases hr : r.getLast? with
      | none => exact absurd (List.getLast?_eq_none_iff.1 hr) hne
      | some x => exact ⟨x, rfl, List.mem_of_getLast?_eq_some hr⟩
    obtain ⟨x, hx, hxmem⟩ := hlastMem
    have hxns := hlast x hx
    rw [List.all_eq_true] at hsp hrest
    rcases List.append_eq_append_iff.1 hcs with ⟨a, ha, hb⟩ | ⟨c, hc, hd⟩
    · have hxsp : isSpaceChar x = true := by
        apply hsp x
        rw [ha]
        exact List.mem_append_left _ hxmem
      rw [hxns] at hxsp
      exact absurd hxsp (by decide)
    · cases c with
      | nil =>
        have hxsp : isSpaceChar x = true := by
          apply hsp x
          rw [List.append_nil] at hc
          rw [← hc]
          exact hxmem
        rw [hxns] at hxsp
        exact absurd hxsp (by decide)
      | cons y ys =>
        have hrest2 : rest = ys ++ ' ' :: '—' :: tail := by
          have := hd
          simp only [List.cons_append, List.cons.injEq] at this
          exact this.2
        have hem : allowedTail '—' = true := by
          apply hrest
          rw [hrest2]
          simp
        exact absurd hem (by decide)

theorem stripTimestampChars_append (base tail : List Char)
    (hlast : ∀ c, base.getLast? = some c → isSpaceChar c = false)
    (hmatch : matchesTimestampSuffix (' ' :: '—' :: tail) = true) :
    stripTimestampChars (base ++ ' ' :: '—' :: tail) = base := by
  induction base with
  | nil =>
    show stripTimestampChars (' ' :: '—' :: tail) = []
    unfold stripTimestampChars
    rw [if_pos hmatch]
  | cons c cs ih =>
    have hno := no_match_before_suffix (c :: cs) tail (List.cons_ne_nil _ _) hlast
    show stripTimestampChars (c :: (cs ++ ' ' :: '—' :: tail)) = c :: cs
    unfold stripTimestampChars
    rw [List.cons_append] at hno
    rw [hno]
    simp only [Bool.false_eq_true, if_false, List.cons.injEq, true_and]
    apply ih
    intro x hx
    apply hlast x
    cases cs with
    | nil => simp at hx
    | cons y ys =>
      rw [List.getLast?_cons_cons]
      exact hx

/-- C25. For a base name that does not end in a blank and a clock time with a
year of four digits, `stripTimestamp(buildSessionName(base))` is the base name;
so a name built again from the stripped name carries one timestamp suffix. -/
theorem stripTimestamp_buildSessionName (now : DateParts) (base : String)
    (hbase : ∀ c, base.data.getLast? = some c → isSpaceChar c = false)
    (hyear : 1000 ≤ now.fullYear ∧ now.fullYear ≤ 9999) (hmonth : now.month ≤ 11)
    (hdate : now.date ≤ 31) (hhours : now.hours ≤ 23) (hminutes : now.minutes ≤ 59)
    (hseconds : now.seconds ≤ 59) :
    stripTimestamp (some (buildSessionName now base)) = base ∧
      ∀ later : DateParts,
        buildSessionName later (stripTimestamp (some (buildSessionName now base))) =
          buildSessionName later base := by
  obtain ⟨y1, y2, y3, y4, hy, hy1, hy2, hy3, hy4⟩ :=
    year_four_digits now.fullYear hyear.1 hyear.2
  obtain ⟨m1, m2, hm, hm1, hm2⟩ := pad2_two_digits (now.month + 1) (by omega)
  obtain ⟨d1, d2, hd, hd1, hd2⟩ := pad2_two_digits now.date (by omega)
  obtain ⟨h1, h2, hh, hh1, hh2⟩ := pad2_two_digits now.hours (by omega)
  obtain ⟨n1, n2, hn, hn1, hn2⟩ := pad2_two_digits now.minutes (by omega)
  obtain ⟨s1, s2, hs, hs1, hs2⟩ := pad2_two_digits now.seconds (by omega)
  have hdata : (buildSessionName now base).data =
      base.data ++ ' ' :: '—' ::
        [' ', y1, y2, y3, y4, '-', m1, m2, '-', d1, d2, ' ', h1, h2, ':', n1, n2, ':',
         s1, s2] := by
    unfold buildSessionName
    simp only [String.data_append, hy, hm, hd, hh, hn, hs]
    simp
  have hstrip : stripTimestamp (some (buildSessionName now base)) = base := by
    unfold stripTimestamp
    simp only [Option.getD_some]
    rw [hdata, stripTimestampChars_append base.data _ hbase
      (matches_appended_suffix y1 y2 y3 y4 m1 m2 d1 d2 h1 h2 n1 n2 s1 s2 hy1 hy2 hy3 hy4 hm1
        hm2 hd1 hd2 hh1 hh2 hn1 hn2 hs1 hs2)]
  refine ⟨hstrip, fun later => ?_⟩
  rw [hstrip]

/-- Example for C25: the name of a session on the map Goblin Lair, built on
6 October 2025 at 03:04:05. -/
theorem stripTimestamp_buildSessionName_example :
    stripTimestamp (some (buildSessionName
        { fullYear := 2025, month := 9, date := 6, hours := 3, minutes := 4, seconds := 5 }
        "Goblin Lair")) = "Goblin Lair" ∧
      buildSessionName
        { fullYear := 2025, month := 9, date := 6, hours := 3, minutes := 4, seconds := 5 }
        "Goblin Lair" = "Goblin Lair — 2025-10-06 03:04:05" :=
  ⟨(stripTimestamp_buildSessionName
      { fullYear := 2025, month := 9, date := 6, hours := 3, minutes := 4, seconds := 5 }
      "Goblin Lair"
      (by
        intro c hc
        have hr : "Goblin Lair".data.getLast? = some 'r' := by decide
        rw [hr] at hc
        rw [← Option.some.inj hc]
        decide)
      (by decide) (by decide) (by decide) (by decide) (by decide) (by decide)).1,
   by decide⟩

end RiceGang
